import Mathlib

/-!
AI-ECMP load balancer: shallow embedding and verified properties.

The embedding follows the C++ sources of the repository:

* `include/ai_ecmp_types.h`            : the plain data types,
* `src/utils/ai_ecmp_metrics.cpp`      : the metric utilities,
* `src/algorithms/ai_ecmp_local_search.cpp` : the swap based local search,
* `src/core/ai_ecmp_instance.cpp`      : the per split-group controller,
* `src/core/ai_ecmp_manager.cpp`       : the body of one optimisation cycle.

Modelling conventions.

* `WORD16`, `WORD32`, `WORD64` are natural numbers; every operation of the
  source that can wrap is reduced modulo `2^16`, `2^32`, `2^64`.
* `double` is modelled twice.  The definitions of the main sections compute in
  exact rational arithmetic (`ℚ`); the only irrational primitive of the
  source, `std::sqrt`, is a parameter `sqrt` of the functions that reach it.
  What is proved about them holds in exact arithmetic.  The namespace
  `Rounded` repeats the `double` computations with every operation rounded to
  IEEE-754 binary64 (`roundDouble`, `sqrtDouble`); statements about the
  behaviour in `double` itself are made there.
* `std::unordered_map<WORD32, T>` is an association list with the entries in
  order of insertion.  `operator[]` is `mapModify` (update in place, or append
  a value-initialised entry), `find` is `List.lookup`.  The exact-arithmetic
  definitions loop over the list as it stands, and their results do not depend
  on the order; the definitions of `Rounded` take the order in which a map is
  visited as a parameter.
* `std::sort` is modelled by a stable sort (`sortPortInfos`); what depends on
  the order of ports of equal weight is proved for every sorted arrangement.
* Fixed-size C arrays are lists read with a zero default.
* The random sources (`rand()` in `updateCounters`, the index pairs drawn by
  the local search) are explicit inputs.
* A `for (WORD16 i = 0; i < n; ++i)` loop over a `WORD32` bound `n` does not
  terminate when `n ≥ 65536`; functions that contain such a loop return
  `Option`, with `none` for divergence.
* Logging (`XOS_SysLog`) and the diagnostic printer are not modelled.
-/

namespace AiEcmp

/-! ## Constants (`ai_ecmp_types.h`, `ai_ecmp_instance.hpp`, `ai_ecmp_error.h`) -/

def FTM_LAG_MAX_MEM_NUM_15K : Nat := 128
def FTM_TRUNK_MAX_HASH_NUM_15K : Nat := 128
def AI_FCM_ECMP_MSG_ITEM_NUM : Nat := 128

/-- Modelled from the spec: the macro `AI_ECMP_MAX_ITEM_NUM` read by
`convertConfig` has no definition in the sources (`ai_ecmp_types.h` only keeps
a commented-out `#define` of 128); the specification fixes `H_MAX = 128`. -/
def AI_ECMP_MAX_ITEM_NUM : Nat := 128

/-- Modelled from the spec: the macro `AI_ECMP_MAX_PORT_NUM` read by
`convertConfig` and `needExpansion` has no definition in the sources
(`ai_ecmp_types.h` only keeps a commented-out `#define` of 128); the
specification fixes `P_MAX = 128`. -/
def AI_ECMP_MAX_PORT_NUM : Nat := 128

def CYCLES_AFTER_EXPANSION : Nat := 3
def MAX_CONSECUTIVE_ADJUST_FAILURES : Nat := 2
def HISTORY_CYCLES_FOR_VARIANCE : Nat := 5
def VARIANCE_THRESHOLD : ℚ := 5 / 100

def AI_SUCCESS : Nat := 0
def AI_ECMP_ERR_INVALID_PARAM : Nat := 1001
def AI_ECMP_ERR_CONFIG_INVALID : Nat := 1005
def AI_ECMP_ERR_COUNTER_READ : Nat := 1007
def AI_ECMP_ERR_EXPAND_FAILED : Nat := 1009
def AI_ECMP_ERR_ADJUST_FAILED : Nat := 1010
def AI_ECMP_ERR_NO_INSTANCE : Nat := 1012

/-- Wrap-around bound of `WORD16`. -/
def W16 : Nat := 2 ^ 16
/-- Wrap-around bound of `WORD32`. -/
def W32 : Nat := 2 ^ 32
/-- Wrap-around bound of `WORD64`. -/
def W64 : Nat := 2 ^ 64

/-! ## Data types (`ai_ecmp_types.h`) -/

inductive T_AI_ECMP_STATUS where
  | AI_ECMP_INIT
  | AI_ECMP_WAIT
  | AI_ECMP_ADJUST
  | AI_ECMP_EVAL
  | AI_ECMP_EXPAND
  | AI_ECMP_BALANCE
  | AI_ECMP_FAIL
  deriving DecidableEq, Repr

structure T_AI_SG_ITEM_CFG where
  dwPortId : Nat
  dwItemOffset : Nat
  deriving DecidableEq, Repr

structure T_AI_SG_WEIGHT_CFG where
  dwPortId : Nat
  dwSpeed : Nat
  dwWeight : Nat
  deriving DecidableEq, Repr

structure T_AI_ECMP_SG_CFG where
  dwSgId : Nat
  dwSeqId : Nat
  dwFwdLagId : Nat
  dwItemNum : Nat
  dwPortNum : Nat
  dwCounterBase : Nat
  items : List T_AI_SG_ITEM_CFG
  ports : List T_AI_SG_WEIGHT_CFG
  deriving DecidableEq, Repr

structure T_AI_ECMP_NHOP_MODIFY where
  dwSgId : Nat
  dwSeqId : Nat
  dwItemNum : Nat
  adwLinkItem : List Nat
  deriving DecidableEq, Repr

structure T_AI_ECMP_EVAL where
  upBoundGap : ℚ
  lowBoundGap : ℚ
  totalGap : ℚ
  avgGap : ℚ
  balanceScore : ℚ
  deriving DecidableEq, Repr

/-- Entry `i` of the C array `items`. -/
def T_AI_ECMP_SG_CFG.item (cfg : T_AI_ECMP_SG_CFG) (i : Nat) : T_AI_SG_ITEM_CFG :=
  cfg.items.getD i ⟨0, 0⟩

/-- Entry `i` of the C array `ports`. -/
def T_AI_ECMP_SG_CFG.port (cfg : T_AI_ECMP_SG_CFG) (i : Nat) : T_AI_SG_WEIGHT_CFG :=
  cfg.ports.getD i ⟨0, 0, 0⟩

/-! ## `std::unordered_map<WORD32, T>` -/

/-- Association list standing for an unordered map with `WORD32` keys and
unsigned integer values, the entries in order of insertion. -/
abbrev Map := List (Nat × Nat)

/-- The expression `m[k] = f (m[k])`: `operator[]` value-initialises a missing
entry before `f` is applied. -/
def mapModify : Map → Nat → (Nat → Nat) → Map
  | [], k, f => [(k, f 0)]
  | (k', v) :: rest, k, f =>
    if k' = k then (k', f v) :: rest else (k', v) :: mapModify rest k f

/-- Value read by `m[k]` on a non-const map (zero for a missing key). -/
def mapGet (m : Map) (k : Nat) : Nat := (m.lookup k).getD 0

/-- Equality of unordered maps (`operator==`): same size and every entry of
the left map found in the right map with an equal value. -/
def mapEq (a b : Map) : Bool :=
  a.length == b.length && a.all (fun e => b.lookup e.1 == some e.2)

/-- The zero evaluation `T_AI_ECMP_EVAL eval = {0}`. -/
def zeroEval : T_AI_ECMP_EVAL := ⟨0, 0, 0, 0, 0⟩

/-! ## Metrics (`ai_ecmp_metrics.cpp`) -/

/-- Source: `utils::calculatePortLoads`. -/
def calculatePortLoads (v_memberTable : Map) (v_memberCounts : List Nat) : Map :=
  v_memberTable.foldl
    (fun portLoads entry =>
      if entry.1 < v_memberCounts.length then
        mapModify portLoads entry.2 (fun load => (load + v_memberCounts.getD entry.1 0) % W64)
      else portLoads)
    []

/-- The vector `normalizedLoads` built by the first loop of
`calculateLoadBalanceMetrics`. -/
def normalizedLoads (v_portLoads v_portSpeeds : Map) : List ℚ :=
  v_portLoads.filterMap (fun entry =>
    match v_portSpeeds.lookup entry.1 with
    | some dwSpeed => if 0 < dwSpeed then some ((entry.2 : ℚ) / (dwSpeed : ℚ)) else none
    | none => none)

/-- The value `*std::min_element` of a non-empty vector (zero on the empty one,
which the source never passes). -/
def minElement : List ℚ → ℚ
  | [] => 0
  | x :: xs => xs.foldl min x

/-- The value `*std::max_element` of a non-empty vector. -/
def maxElement : List ℚ → ℚ
  | [] => 0
  | x :: xs => xs.foldl max x

/-- Source: `utils::calculateLoadBalanceMetrics`. -/
def calculateLoadBalanceMetrics (v_portLoads v_portSpeeds : Map) : T_AI_ECMP_EVAL :=
  if v_portLoads.isEmpty || v_portSpeeds.isEmpty then zeroEval
  else
    let loads := normalizedLoads v_portLoads v_portSpeeds
    if loads.isEmpty then zeroEval
    else
      let avgLoad : ℚ := loads.sum / (loads.length : ℚ)
      let minLoad := minElement loads
      let maxLoad := maxElement loads
      let upBoundGap : ℚ := if 0 < avgLoad then (maxLoad - avgLoad) / avgLoad else 0
      let lowBoundGap : ℚ := if 0 < avgLoad then (avgLoad - minLoad) / avgLoad else 0
      let totalGap : ℚ := if 0 < avgLoad then upBoundGap + lowBoundGap else 0
      let sumAbsDev : ℚ := loads.foldl (fun acc loadValue => acc + |loadValue - avgLoad|) 0
      let avgGap : ℚ := if 0 < avgLoad then sumAbsDev / (loads.length : ℚ) / avgLoad else 0
      { upBoundGap := upBoundGap
        lowBoundGap := lowBoundGap
        totalGap := totalGap
        avgGap := avgGap
        balanceScore := -totalGap }

/-- Source: `utils::applyPenalty`. -/
def applyPenalty (value threshold : ℚ) : ℚ :=
  if threshold < value then (value - threshold) * (value - threshold) else 0

/-- Source: `utils::calculateBalanceScore` (the penalties are computed and not
used by the returned expression). -/
def calculateBalanceScore (v_eval : T_AI_ECMP_EVAL) : ℚ :=
  let posWeight : ℚ := 1
  let negWeight : ℚ := 1
  let score : ℚ := -(posWeight * v_eval.upBoundGap + negWeight * v_eval.lowBoundGap)
  score

/-- Source: `utils::calculateSwapImprovement`. -/
def calculateSwapImprovement (v_memberTable : Map) (v_memberCounts : List Nat)
    (v_portLoads v_portSpeeds : Map) (dwHashIndex1 dwHashIndex2 : Nat) : ℚ :=
  match v_memberTable.lookup dwHashIndex1, v_memberTable.lookup dwHashIndex2 with
  | some dwPortId1, some dwPortId2 =>
    if v_memberCounts.length ≤ dwHashIndex1 || v_memberCounts.length ≤ dwHashIndex2 then 0
    else if dwPortId1 = dwPortId2 then 0
    else
      let count1 := v_memberCounts.getD dwHashIndex1 0
      let count2 := v_memberCounts.getD dwHashIndex2 0
      let originalLoads := v_portLoads
      let newLoads1 := mapModify v_portLoads dwPortId1 (fun l => (l + W64 - count1) % W64)
      let newLoads2 := mapModify newLoads1 dwPortId2 (fun l => (l + W64 - count2) % W64)
      let newLoads3 := mapModify newLoads2 dwPortId1 (fun l => (l + count2) % W64)
      let newLoads := mapModify newLoads3 dwPortId2 (fun l => (l + count1) % W64)
      let originalEval := calculateLoadBalanceMetrics originalLoads v_portSpeeds
      let newEval := calculateLoadBalanceMetrics newLoads v_portSpeeds
      calculateBalanceScore newEval - calculateBalanceScore originalEval
  | _, _ => 0

/-- Source: `utils::calculateMean`. -/
def calculateMean (values : List ℚ) : ℚ :=
  if values.isEmpty then 0 else values.sum / (values.length : ℚ)

/-- Source: `utils::calculateStandardDeviation`; `sqrt` stands for `std::sqrt`. -/
def calculateStandardDeviation (sqrt : ℚ → ℚ) (values : List ℚ) (mean : ℚ) : ℚ :=
  if values.length ≤ 1 then 0
  else
    let variance : ℚ := values.foldl (fun acc value => acc + (value - mean) * (value - mean)) 0
    sqrt (variance / ((values.length : ℚ) - 1))

/-- Source: `utils::calculateVariationCoefficient`. -/
def calculateVariationCoefficient (sqrt : ℚ → ℚ) (values : List ℚ) : ℚ :=
  if values.isEmpty then 1
  else
    let mean := calculateMean values
    if mean ≤ 0 then 1
    else calculateStandardDeviation sqrt values mean / mean

/-- The vector `memberValues` collected for one hash index by
`calculateCounterVarianceCoefficient`. -/
def memberValues (counterHistory : List (List Nat)) (hashIndex : Nat) : List ℚ :=
  counterHistory.filterMap (fun historyCounts =>
    if hashIndex < historyCounts.length then some ((historyCounts.getD hashIndex 0 : Nat) : ℚ)
    else none)

/-- The vector `allVarianceCoeffs` of `calculateCounterVarianceCoefficient`. -/
def allVarianceCoeffs (sqrt : ℚ → ℚ) (counterHistory : List (List Nat))
    (memberCount : Nat) : List ℚ :=
  (List.range memberCount).filterMap (fun hashIndex =>
    let values := memberValues counterHistory hashIndex
    if 2 ≤ values.length then some (calculateVariationCoefficient sqrt values) else none)

/-- Source: `utils::calculateCounterVarianceCoefficient`. -/
def calculateCounterVarianceCoefficient (sqrt : ℚ → ℚ) (counterHistory : List (List Nat))
    (memberCounts : List Nat) : ℚ :=
  if counterHistory.length < 2 then 1
  else
    let coeffs := allVarianceCoeffs sqrt counterHistory memberCounts.length
    if coeffs.isEmpty then 1 else calculateMean coeffs

/-- Source: `utils::calculateImprovementPercentage`. -/
def calculateImprovementPercentage (beforeEval afterEval : T_AI_ECMP_EVAL) : ℚ :=
  let totalBiasBefore := beforeEval.upBoundGap + beforeEval.lowBoundGap
  let totalBiasAfter := afterEval.upBoundGap + afterEval.lowBoundGap
  if totalBiasBefore ≤ 0 then 0
  else ((totalBiasBefore - totalBiasAfter) / totalBiasBefore) * 100

/-! ## Local search (`ai_ecmp_local_search.cpp`) -/

/-- The two members of the class `LocalSearch`. -/
structure LocalSearch where
  m_dwMaxIterations : Nat
  m_exchangeCostFactor : ℚ
  deriving DecidableEq, Repr

/-- The local variables of `LocalSearch::optimize` that live across iterations. -/
structure SearchState where
  result : Map
  portLoads : Map
  bestResult : Map
  dwConsecutiveFailures : Nat
  deriving DecidableEq, Repr

/-- One pass through the body of the `while` loop of `LocalSearch::optimize`,
for the index pair `(idx1, idx2)` drawn in that pass. -/
def LocalSearch.iteration (self : LocalSearch) (memberCounts : List Nat) (portSpeeds : Map)
    (hashIndices : List Nat) (idx : Nat × Nat) (st : SearchState) : SearchState :=
  let dwHashIndex1 := hashIndices.getD idx.1 0
  let dwHashIndex2 := hashIndices.getD idx.2 0
  let improvement :=
    calculateSwapImprovement st.result memberCounts st.portLoads portSpeeds
      dwHashIndex1 dwHashIndex2 - self.m_exchangeCostFactor
  if 0 < improvement then
    let result1 := mapModify st.result dwHashIndex1 id
    let dwPortId1 := mapGet result1 dwHashIndex1
    let result2 := mapModify result1 dwHashIndex2 id
    let dwPortId2 := mapGet result2 dwHashIndex2
    let count1 := if dwHashIndex1 < memberCounts.length then memberCounts.getD dwHashIndex1 0 else 0
    let count2 := if dwHashIndex2 < memberCounts.length then memberCounts.getD dwHashIndex2 0 else 0
    let portLoads1 := mapModify st.portLoads dwPortId1 (fun l => (l + W64 - count1) % W64)
    let portLoads2 := mapModify portLoads1 dwPortId2 (fun l => (l + W64 - count2) % W64)
    let result3 := mapModify result2 dwHashIndex1 (fun _ => dwPortId2)
    let result4 := mapModify result3 dwHashIndex2 (fun _ => dwPortId1)
    let portLoads3 := mapModify portLoads2 dwPortId1 (fun l => (l + count2) % W64)
    let portLoads4 := mapModify portLoads3 dwPortId2 (fun l => (l + count1) % W64)
    { result := result4
      portLoads := portLoads4
      bestResult := result4
      dwConsecutiveFailures := 0 }
  else
    { st with dwConsecutiveFailures := st.dwConsecutiveFailures + 1 }

/-- The `while` loop of `LocalSearch::optimize`.  The first argument counts the
iterations still allowed (`m_dwMaxIterations - dwIterations`), the second is
`dwIterations`; `samples k` is the index pair drawn in iteration `k`. -/
def LocalSearch.searchLoop (self : LocalSearch) (memberCounts : List Nat) (portSpeeds : Map)
    (hashIndices : List Nat) (samples : Nat → Nat × Nat) : Nat → Nat → SearchState → SearchState
  | 0, _, st => st
  | remaining + 1, dwIterations, st =>
    if st.dwConsecutiveFailures < 100 then
      LocalSearch.searchLoop self memberCounts portSpeeds hashIndices samples remaining
        (dwIterations + 1)
        (self.iteration memberCounts portSpeeds hashIndices (samples dwIterations) st)
    else st

/-- Source: `LocalSearch::optimize`. -/
def LocalSearch.optimize (self : LocalSearch) (samples : Nat → Nat × Nat)
    (memberTable : Map) (memberCounts : List Nat) (portSpeeds : Map) : Map :=
  let result := memberTable
  let hashIndices := memberTable.map Prod.fst
  if hashIndices.length < 2 then result
  else
    let portLoads := calculatePortLoads result memberCounts
    (self.searchLoop memberCounts portSpeeds hashIndices samples self.m_dwMaxIterations 0
      { result := result
        portLoads := portLoads
        bestResult := result
        dwConsecutiveFailures := 0 }).bestResult

/-! ## The per split-group instance (`ai_ecmp_instance.cpp`) -/

/-- The data members of the class `EcmpInstance` (the printer apart). -/
structure EcmpInstance where
  m_pAlgorithm : Option LocalSearch
  m_sgConfig : T_AI_ECMP_SG_CFG
  m_ecmpMemberTable : Map
  m_memberCounts : List Nat
  m_portLoads : Map
  m_portSpeeds : Map
  m_counterHistory : List (List Nat)
  m_lastEval : T_AI_ECMP_EVAL
  m_status : T_AI_ECMP_STATUS
  m_wCycle : Nat
  m_lastExpandCycle : Nat
  m_adjustCyclesAfterExpansion : Nat
  m_consecutiveAdjustFailures : Nat
  m_inPostExpansionPeriod : Bool
  m_bOptimizationEnabled : Bool
  m_dwDisabledCycles : Nat
  deriving DecidableEq, Repr

/-- Whether a loop `for (WORD16 i = 0; i < n; ++i)` over the `WORD32` bound `n`
terminates. -/
def word16LoopTerminates (n : Nat) : Bool := n < W16

/-- Source: `EcmpInstance::convertConfig`, as a function from the configuration
to the three containers it fills; `none` when one of its loops diverges. -/
def convertConfig (cfg : T_AI_ECMP_SG_CFG) : Option (Map × List Nat × Map) :=
  if word16LoopTerminates cfg.dwItemNum && word16LoopTerminates cfg.dwPortNum then
    let memberCounts := List.replicate cfg.dwItemNum 0
    let memberTable : Map :=
      (List.range (min cfg.dwItemNum AI_ECMP_MAX_ITEM_NUM)).foldl
        (fun table i => mapModify table (cfg.item i).dwItemOffset (fun _ => (cfg.item i).dwPortId))
        []
    let portSpeeds : Map :=
      (List.range (min cfg.dwPortNum AI_ECMP_MAX_PORT_NUM)).foldl
        (fun speeds i => mapModify speeds (cfg.port i).dwPortId (fun _ => (cfg.port i).dwSpeed))
        []
    some (memberTable, memberCounts, portSpeeds)
  else none

/-- Source: the constructor `EcmpInstance::EcmpInstance`. -/
def EcmpInstance.create (sgConfig : T_AI_ECMP_SG_CFG) : Option EcmpInstance :=
  match convertConfig sgConfig with
  | none => none
  | some (memberTable, memberCounts, portSpeeds) =>
    some
      { m_pAlgorithm := none
        m_sgConfig := sgConfig
        m_ecmpMemberTable := memberTable
        m_memberCounts := memberCounts
        m_portLoads := []
        m_portSpeeds := portSpeeds
        m_counterHistory := []
        m_lastEval := zeroEval
        m_status := T_AI_ECMP_STATUS.AI_ECMP_INIT
        m_wCycle := 0
        m_lastExpandCycle := 0
        m_adjustCyclesAfterExpansion := 0
        m_consecutiveAdjustFailures := 0
        m_inPostExpansionPeriod := false
        m_bOptimizationEnabled := true
        m_dwDisabledCycles := 0 }

/-- Source: `EcmpInstance::updateConfig`. -/
def EcmpInstance.updateConfig (s : EcmpInstance) (sgConfig : T_AI_ECMP_SG_CFG) :
    Option EcmpInstance :=
  match convertConfig sgConfig with
  | none => none
  | some (memberTable, memberCounts, portSpeeds) =>
    some
      { s with
        m_sgConfig := sgConfig
        m_ecmpMemberTable := memberTable
        m_memberCounts := memberCounts
        m_portSpeeds := portSpeeds
        m_counterHistory := []
        m_wCycle := 0
        m_lastExpandCycle := 0
        m_adjustCyclesAfterExpansion := 0
        m_consecutiveAdjustFailures := 0
        m_inPostExpansionPeriod := false }

/-- Source: `EcmpInstance::setAlgorithm`. -/
def EcmpInstance.setAlgorithm (s : EcmpInstance) (pAlgorithm : Option LocalSearch) :
    EcmpInstance :=
  { s with m_pAlgorithm := pAlgorithm }

/-- Source: `EcmpInstance::calculateLoadMetrics`. -/
def EcmpInstance.calculateLoadMetrics (s : EcmpInstance) : EcmpInstance :=
  { s with m_portLoads := calculatePortLoads s.m_ecmpMemberTable s.m_memberCounts }

/-- Source: `EcmpInstance::updateCounters`.  The counter message is not read by
the source; `rnd i` is the value `rand()` returns for slot `i`. -/
def EcmpInstance.updateCounters (rnd : Nat → Nat) (s : EcmpInstance) : Bool × EcmpInstance :=
  let currentCounts :=
    (List.range s.m_memberCounts.length).map
      (fun i => (s.m_memberCounts.getD i 0 + rnd i % 100) % W64)
  let pushed := s.m_counterHistory ++ [currentCounts]
  let history := if 10 < pushed.length then pushed.tail else pushed
  let s1 : EcmpInstance :=
    { s with m_memberCounts := currentCounts, m_counterHistory := history }
  let s2 := s1.calculateLoadMetrics
  let s3 : EcmpInstance := { s2 with m_wCycle := (s2.m_wCycle + 1) % W16 }
  let s4 : EcmpInstance :=
    if s3.m_bOptimizationEnabled then s3
    else { s3 with m_dwDisabledCycles := (s3.m_dwDisabledCycles + 1) % W32 }
  (true, s4)

/-- Source: `EcmpInstance::evaluateBalance`; returns the evaluation and the
instance with `m_lastEval` stored. -/
def EcmpInstance.evaluateBalance (s : EcmpInstance) : T_AI_ECMP_EVAL × EcmpInstance :=
  let portLoads := calculatePortLoads s.m_ecmpMemberTable s.m_memberCounts
  let evalResult := calculateLoadBalanceMetrics portLoads s.m_portSpeeds
  (evalResult, { s with m_lastEval := evalResult })

/-- Source: `EcmpInstance::reset`. -/
def EcmpInstance.reset (s : EcmpInstance) : EcmpInstance :=
  { s with
    m_wCycle := 0
    m_status := T_AI_ECMP_STATUS.AI_ECMP_INIT
    m_counterHistory := []
    m_lastExpandCycle := 0
    m_adjustCyclesAfterExpansion := 0
    m_consecutiveAdjustFailures := 0
    m_inPostExpansionPeriod := false
    m_dwDisabledCycles := 0 }

/-- Source: `EcmpInstance::needExpansion`; `none` when its loop diverges. -/
def EcmpInstance.needExpansion (s : EcmpInstance) : Option Bool :=
  if word16LoopTerminates s.m_sgConfig.dwPortNum then
    let bHasLowWeightPort :=
      (List.range (min s.m_sgConfig.dwPortNum AI_ECMP_MAX_PORT_NUM)).any
        (fun i => decide ((s.m_sgConfig.port i).dwWeight < 2))
    if bHasLowWeightPort then some true
    else if (2 / 10 : ℚ) < s.m_lastEval.totalGap then some true
    else some false
  else none

/-- Source: `EcmpInstance::shouldSkipExpansionCheck`. -/
def EcmpInstance.shouldSkipExpansionCheck (s : EcmpInstance) : Bool × EcmpInstance :=
  if !s.m_inPostExpansionPeriod then (false, s)
  else if s.m_adjustCyclesAfterExpansion < CYCLES_AFTER_EXPANSION then (true, s)
  else (false, { s with m_inPostExpansionPeriod := false })

/-- Source: `EcmpInstance::recordExpansionOperation`. -/
def EcmpInstance.recordExpansionOperation (s : EcmpInstance) : EcmpInstance :=
  { s with
    m_lastExpandCycle := s.m_wCycle
    m_adjustCyclesAfterExpansion := 0
    m_consecutiveAdjustFailures := 0
    m_inPostExpansionPeriod := true }

/-- Source: `EcmpInstance::recordAdjustmentResult`. -/
def EcmpInstance.recordAdjustmentResult (s : EcmpInstance) (success : Bool) : EcmpInstance :=
  let s1 : EcmpInstance :=
    if s.m_inPostExpansionPeriod then
      { s with m_adjustCyclesAfterExpansion := (s.m_adjustCyclesAfterExpansion + 1) % W16 }
    else s
  if success then { s1 with m_consecutiveAdjustFailures := 0 }
  else { s1 with m_consecutiveAdjustFailures := (s1.m_consecutiveAdjustFailures + 1) % W16 }

/-- Source: `EcmpInstance::isCounterVarianceStable`. -/
def EcmpInstance.isCounterVarianceStable (sqrt : ℚ → ℚ) (s : EcmpInstance) : Bool :=
  if s.m_counterHistory.length < HISTORY_CYCLES_FOR_VARIANCE then false
  else
    let varianceCoeff :=
      calculateCounterVarianceCoefficient sqrt s.m_counterHistory s.m_memberCounts
    decide (varianceCoeff ≤ VARIANCE_THRESHOLD)

/-- Source: `EcmpInstance::isOptimizationEffective`. -/
def isOptimizationEffective (beforeEval afterEval : T_AI_ECMP_EVAL)
    (minImprovementThreshold : ℚ) : Bool :=
  let improvementPercent := calculateImprovementPercentage beforeEval afterEval
  decide (minImprovementThreshold ≤ improvementPercent)

/-- The statement `if (!m_pAlgorithm) setAlgorithm(new LocalSearch(10000, 0.1))` of
`EcmpInstance::runOptimization`. -/
def EcmpInstance.ensureAlgorithm (s : EcmpInstance) : EcmpInstance :=
  if s.m_pAlgorithm.isNone then s.setAlgorithm (some ⟨10000, 1 / 10⟩) else s

/-- The part of `EcmpInstance::runOptimization` from the call of `optimize` to
the end, for the algorithm `m_pAlgorithm` points to; `currentEval` is the
evaluation taken before the search. -/
def EcmpInstance.searchWith (samples : Nat → Nat × Nat) (currentEval : T_AI_ECMP_EVAL)
    (algorithm : LocalSearch) (s : EcmpInstance) : Bool × EcmpInstance :=
  let optimizedTable :=
    algorithm.optimize samples s.m_ecmpMemberTable s.m_memberCounts s.m_portSpeeds
  if mapEq optimizedTable s.m_ecmpMemberTable then
    (false,
      { s.recordAdjustmentResult false with m_status := T_AI_ECMP_STATUS.AI_ECMP_BALANCE })
  else
    let beforeEval := currentEval
    let tempPortLoads := calculatePortLoads optimizedTable s.m_memberCounts
    let afterEval := calculateLoadBalanceMetrics tempPortLoads s.m_portSpeeds
    let isEffective := isOptimizationEffective beforeEval afterEval 1
    if !isEffective then
      (false,
        { s.recordAdjustmentResult false with m_status := T_AI_ECMP_STATUS.AI_ECMP_FAIL })
    else
      let s2 : EcmpInstance := { s with m_ecmpMemberTable := optimizedTable }
      let s3 := s2.calculateLoadMetrics
      let s4 := s3.recordAdjustmentResult true
      (true, { s4 with m_status := T_AI_ECMP_STATUS.AI_ECMP_ADJUST })

/-- The part of `EcmpInstance::runOptimization` that starts at the creation of
the default algorithm and runs the local search (the search path). -/
def EcmpInstance.searchPath (samples : Nat → Nat × Nat) (currentEval : T_AI_ECMP_EVAL)
    (s : EcmpInstance) : Bool × EcmpInstance :=
  let s1 := s.ensureAlgorithm
  match s1.m_pAlgorithm with
  | none =>
    (false, { s1.recordAdjustmentResult false with m_status := T_AI_ECMP_STATUS.AI_ECMP_FAIL })
  | some algorithm => s1.searchWith samples currentEval algorithm

/-- The block of `EcmpInstance::runOptimization` that computes `shouldExpand`
(with the side effects on `m_inPostExpansionPeriod`); `none` when a call of
`needExpansion` diverges. -/
def EcmpInstance.expansionDecision (s : EcmpInstance) : Option (Bool × EcmpInstance) :=
  if MAX_CONSECUTIVE_ADJUST_FAILURES ≤ s.m_consecutiveAdjustFailures then
    match s.needExpansion with
    | none => none
    | some bNeedExpansion =>
      if bNeedExpansion then
        some (true, if s.m_inPostExpansionPeriod then { s with m_inPostExpansionPeriod := false } else s)
      else some (false, s)
  else
    let skip := s.shouldSkipExpansionCheck
    if skip.1 then some (false, skip.2)
    else
      match skip.2.needExpansion with
      | none => none
      | some _ => some (false, skip.2)

/-- The part of `EcmpInstance::runOptimization` that follows the history and
stability gates: it starts with the call of `evaluateBalance`. -/
def EcmpInstance.afterStabilityGate (samples : Nat → Nat × Nat) (s : EcmpInstance) :
    Option (Bool × EcmpInstance) :=
  let evaluated := s.evaluateBalance
  let currentEval := evaluated.1
  let s1 := evaluated.2
  if currentEval.avgGap < 5 / 100 then
    some (false,
      { s1 with
        m_status := T_AI_ECMP_STATUS.AI_ECMP_BALANCE
        m_inPostExpansionPeriod := false
        m_consecutiveAdjustFailures := 0 })
  else
    match s1.expansionDecision with
    | none => none
    | some (shouldExpand, s2) =>
      if shouldExpand then
        some (true,
          { s2.recordExpansionOperation with m_status := T_AI_ECMP_STATUS.AI_ECMP_EXPAND })
      else some (s2.searchPath samples currentEval)

/-- Source: `EcmpInstance::runOptimization`.  `samples k` is the index pair the
local search draws in its iteration `k`; `none` stands for divergence. -/
def EcmpInstance.runOptimization (sqrt : ℚ → ℚ) (samples : Nat → Nat × Nat)
    (s : EcmpInstance) : Option (Bool × EcmpInstance) :=
  if !s.m_bOptimizationEnabled then some (false, s)
  else if s.m_counterHistory.length < HISTORY_CYCLES_FOR_VARIANCE then
    some (false, { s with m_status := T_AI_ECMP_STATUS.AI_ECMP_WAIT })
  else if !s.isCounterVarianceStable sqrt then
    some (false, { s with m_status := T_AI_ECMP_STATUS.AI_ECMP_WAIT })
  else s.afterStabilityGate samples

/-- The array `adwLinkItem` that `getOptimizedNextHops` writes for a member
table: zero filled, then one write per entry with a hash index below 128. -/
def optimizedLinkItems (memberTable : Map) : List Nat :=
  memberTable.foldl
    (fun arr memberEntry =>
      if memberEntry.1 < FTM_TRUNK_MAX_HASH_NUM_15K then arr.set memberEntry.1 memberEntry.2
      else arr)
    (List.replicate FTM_TRUNK_MAX_HASH_NUM_15K 0)

/-- Source: `EcmpInstance::getOptimizedNextHops`; the second component is the
output structure after the call. -/
def EcmpInstance.getOptimizedNextHops (s : EcmpInstance) (nhopModifyData : T_AI_ECMP_NHOP_MODIFY) :
    Bool × T_AI_ECMP_NHOP_MODIFY :=
  if s.m_status ≠ T_AI_ECMP_STATUS.AI_ECMP_ADJUST then (false, nhopModifyData)
  else
    (true,
      { dwSgId := s.m_sgConfig.dwSgId
        dwSeqId := s.m_sgConfig.dwSeqId
        dwItemNum := s.m_ecmpMemberTable.length % W32
        adwLinkItem := optimizedLinkItems s.m_ecmpMemberTable })

/-- The local struct `PortWeightInfo` of `getExpandedNextHops`. -/
structure PortWeightInfo where
  dwPortId : Nat
  dwCurrentWeight : Nat
  dwNewWeight : Nat
  deriving DecidableEq, Repr

/-- The vector `portInfos` as filled by the first loop of `getExpandedNextHops`. -/
def collectPortInfos (cfg : T_AI_ECMP_SG_CFG) : List PortWeightInfo :=
  (List.range (min cfg.dwPortNum FTM_LAG_MAX_MEM_NUM_15K)).map
    (fun i => ⟨(cfg.port i).dwPortId, (cfg.port i).dwWeight, (cfg.port i).dwWeight⟩)

/-- The value of `dwCurrentTotalWeight` after the first loop of
`getExpandedNextHops`. -/
def currentTotalWeight (infos : List PortWeightInfo) : Nat :=
  infos.foldl (fun total info => (total + info.dwCurrentWeight) % W32) 0

/-- The call of `std::sort` in `getExpandedNextHops` (ascending current weight). -/
def sortPortInfos (infos : List PortWeightInfo) : List PortWeightInfo :=
  infos.insertionSort (fun a b => a.dwCurrentWeight ≤ b.dwCurrentWeight)

/-- The expansion loop of `getExpandedNextHops` over the sorted ports, started
with `dwSumOfNewWeights`; `none` is the early `return false`. -/
def expandWeights : List PortWeightInfo → Nat → Option (List PortWeightInfo × Nat)
  | [], dwSumOfNewWeights => some ([], dwSumOfNewWeights)
  | info :: rest, dwSumOfNewWeights =>
    let dwAvailableCapacityTotal :=
      (FTM_TRUNK_MAX_HASH_NUM_15K + W32 - dwSumOfNewWeights) % W32
    let dwDesiredIncrease := if info.dwCurrentWeight = 0 then 1 else info.dwCurrentWeight
    if dwAvailableCapacityTotal < dwDesiredIncrease then none
    else
      match expandWeights rest ((dwSumOfNewWeights + dwDesiredIncrease) % W32) with
      | none => none
      | some (rest', total) =>
        some ({ info with dwNewWeight := (info.dwNewWeight + dwDesiredIncrease) % W32 } :: rest',
          total)

/-- The inner loop of the layout of `getExpandedNextHops`: at most `j` writes of
`dwPortId`, stopped at the end of the array. -/
def fillPort (dwPortId : Nat) : Nat → Nat → List Nat → List Nat × Nat
  | 0, dwCurrentIndex, arr => (arr, dwCurrentIndex)
  | j + 1, dwCurrentIndex, arr =>
    if dwCurrentIndex < FTM_TRUNK_MAX_HASH_NUM_15K then
      fillPort dwPortId j (dwCurrentIndex + 1) (arr.set dwCurrentIndex dwPortId)
    else (arr, dwCurrentIndex)

/-- The layout loop of `getExpandedNextHops` over all ports. -/
def fillLinkItems : List PortWeightInfo → Nat → List Nat → List Nat
  | [], _, arr => arr
  | info :: rest, dwCurrentIndex, arr =>
    let filled := fillPort info.dwPortId info.dwNewWeight dwCurrentIndex arr
    fillLinkItems rest filled.2 filled.1

/-- The ports with their new weights as `getExpandedNextHops` computes them for
a configuration, with the final `dwSumOfNewWeights`; `none` when the expansion
is refused. -/
def plannedWeights (cfg : T_AI_ECMP_SG_CFG) : Option (List PortWeightInfo × Nat) :=
  let portInfos := collectPortInfos cfg
  expandWeights (sortPortInfos portInfos) (currentTotalWeight portInfos)

/-- Source: `EcmpInstance::getExpandedNextHops`; the inner pair is the returned
flag and the output structure after the call, `none` stands for divergence. -/
def EcmpInstance.getExpandedNextHops (s : EcmpInstance) (nhopModifyData : T_AI_ECMP_NHOP_MODIFY) :
    Option (Bool × T_AI_ECMP_NHOP_MODIFY) :=
  if s.m_status ≠ T_AI_ECMP_STATUS.AI_ECMP_EXPAND then some (false, nhopModifyData)
  else
    let data1 : T_AI_ECMP_NHOP_MODIFY :=
      { nhopModifyData with dwSgId := s.m_sgConfig.dwSgId, dwSeqId := s.m_sgConfig.dwSeqId }
    if s.m_sgConfig.dwPortNum = 0 then some (true, data1)
    else if !word16LoopTerminates s.m_sgConfig.dwPortNum then none
    else
      match plannedWeights s.m_sgConfig with
      | none => some (false, data1)
      | some (portInfos, dwSumOfNewWeights) =>
        some (true,
          { data1 with
            dwItemNum := dwSumOfNewWeights
            adwLinkItem :=
              fillLinkItems portInfos 0 (List.replicate FTM_TRUNK_MAX_HASH_NUM_15K 0) })

/-! ## One instance in `runOptimizationCycle` (`ai_ecmp_manager.cpp`) -/

/-- The value `T_AI_ECMP_NHOP_MODIFY nhopModifyData = {0}`. -/
def zeroNhopModify : T_AI_ECMP_NHOP_MODIFY :=
  ⟨0, 0, 0, List.replicate FTM_TRUNK_MAX_HASH_NUM_15K 0⟩

/-- What the body of the loop of `runOptimizationCycle` leaves behind for one
instance: the instance, the plan handed to `aiEcmpSendNhopModify` (if any) and
the value of `dwResult`. -/
structure CycleStep where
  inst : EcmpInstance
  sent : Option T_AI_ECMP_NHOP_MODIFY
  dwResult : Nat
  deriving DecidableEq, Repr

/-- The second half of the body of the `for` loop of
`CAISlbManagerSingleton::runOptimizationCycle`: the call of `runOptimization`
and the dispatch on the status that follows it. -/
def optimizeAndSend (sqrt : ℚ → ℚ) (samples : Nat → Nat × Nat) (dwResult : Nat)
    (pInstance : EcmpInstance) : Option CycleStep :=
  match pInstance.runOptimization sqrt samples with
  | none => none
  | some (false, inst) => some ⟨inst, none, dwResult⟩
  | some (true, inst) =>
    if inst.m_status = T_AI_ECMP_STATUS.AI_ECMP_EXPAND then
      match inst.getExpandedNextHops zeroNhopModify with
      | none => none
      | some (true, nhopModifyData) => some ⟨inst, some nhopModifyData, dwResult⟩
      | some (false, _) => some ⟨inst, none, AI_ECMP_ERR_EXPAND_FAILED⟩
    else if inst.m_status = T_AI_ECMP_STATUS.AI_ECMP_ADJUST then
      match inst.getOptimizedNextHops zeroNhopModify with
      | (true, nhopModifyData) => some ⟨inst, some nhopModifyData, dwResult⟩
      | (false, _) => some ⟨inst, none, AI_ECMP_ERR_ADJUST_FAILED⟩
    else some ⟨inst, none, dwResult⟩

/-- The body of the `for` loop of `CAISlbManagerSingleton::runOptimizationCycle`
for one instance, entered with the current `dwResult`. -/
def runOptimizationCycleBody (rnd : Nat → Nat) (sqrt : ℚ → ℚ) (samples : Nat → Nat × Nat)
    (dwResult : Nat) (pInstance : EcmpInstance) : Option CycleStep :=
  let updated := pInstance.updateCounters rnd
  if !updated.1 then some ⟨updated.2, none, AI_ECMP_ERR_COUNTER_READ⟩
  else optimizeAndSend sqrt samples dwResult updated.2

/-- A rational stand-in for `std::sqrt`, exact on zero and accurate to six
decimal places; it is used where a concrete run needs a square root. -/
def sqrtApprox (x : ℚ) : ℚ :=
  (Nat.sqrt (x.num.toNat * x.den * 10 ^ 12) : ℚ) / ((x.den : ℚ) * 10 ^ 6)

/-! ## Specification-side definitions -/

/-- Definition in the words of the specification: the values
`load[p] / speed[p]` over the ports `p` of `port_loads` that have a speed entry
greater than zero. -/
def specUtilisations (port_loads port_speeds : Map) : List ℚ :=
  (port_loads.filter (fun p => decide (0 < (port_speeds.lookup p.1).getD 0))).map
    (fun p => (p.2 : ℚ) / (((port_speeds.lookup p.1).getD 0 : Nat) : ℚ))

/-- Definition in the words of the specification: the mean of a list of values. -/
def specMean (u : List ℚ) : ℚ := u.sum / (u.length : ℚ)

/-! ## Concrete instances used to exercise the theorems -/

/-- Scenario S1/S2 configuration: four ports of speed 10 and weight 2, eight
slots striped round-robin over the ports 1, 2, 3, 4. -/
def stripedConfig : T_AI_ECMP_SG_CFG :=
  { dwSgId := 7
    dwSeqId := 42
    dwFwdLagId := 0
    dwItemNum := 8
    dwPortNum := 4
    dwCounterBase := 0
    items := [⟨1, 0⟩, ⟨2, 1⟩, ⟨3, 2⟩, ⟨4, 3⟩, ⟨1, 4⟩, ⟨2, 5⟩, ⟨3, 6⟩, ⟨4, 7⟩]
    ports := [⟨1, 10, 2⟩, ⟨2, 10, 2⟩, ⟨3, 10, 2⟩, ⟨4, 10, 2⟩] }

/-- The instance built from `stripedConfig` as the constructor leaves it,
written out field by field. -/
def stripedInstance : EcmpInstance :=
  { m_pAlgorithm := none
    m_sgConfig := stripedConfig
    m_ecmpMemberTable := [(0, 1), (1, 2), (2, 3), (3, 4), (4, 1), (5, 2), (6, 3), (7, 4)]
    m_memberCounts := [0, 0, 0, 0, 0, 0, 0, 0]
    m_portLoads := []
    m_portSpeeds := [(1, 10), (2, 10), (3, 10), (4, 10)]
    m_counterHistory := []
    m_lastEval := zeroEval
    m_status := T_AI_ECMP_STATUS.AI_ECMP_INIT
    m_wCycle := 0
    m_lastExpandCycle := 0
    m_adjustCyclesAfterExpansion := 0
    m_consecutiveAdjustFailures := 0
    m_inPostExpansionPeriod := false
    m_bOptimizationEnabled := true
    m_dwDisabledCycles := 0 }

/-- The instance `s` after `n` calls of `updateCounters`, call `k` drawing the
random values `rnd k`. -/
def ticks (rnd : Nat → Nat → Nat) : Nat → EcmpInstance → EcmpInstance
  | 0, s => s
  | n + 1, s => ((ticks rnd n s).updateCounters (rnd n)).2

/-- The random values of a run in which the first tick loads the two slots of
port 1 with 50 and every other slot with 5, and the later ticks add nothing. -/
def imbalancedRnd (k i : Nat) : Nat :=
  if k = 0 then (if i % 4 = 0 then 50 else 5) else 0

/-- The striped instance after five ticks of `imbalancedRnd`: five identical
snapshots `[50, 5, 5, 5, 50, 5, 5, 5]`, port 1 carrying 100 and the other ports
10 each. -/
def imbalancedInstance : EcmpInstance := ticks imbalancedRnd 5 stripedInstance

/-- The instance `imbalancedInstance` after the local search exchanged the ports
of the slots 0 and 1. -/
def imbalancedAdjusted : EcmpInstance :=
  { imbalancedInstance with
    m_pAlgorithm := some ⟨10000, 1 / 10⟩
    m_ecmpMemberTable := [(0, 2), (1, 1), (2, 3), (3, 4), (4, 1), (5, 2), (6, 3), (7, 4)]
    m_portLoads := [(2, 55), (1, 55), (3, 10), (4, 10)]
    m_lastEval := ⟨27 / 13, 9 / 13, 36 / 13, 27 / 26, -36 / 13⟩
    m_status := T_AI_ECMP_STATUS.AI_ECMP_ADJUST }

/-- The striped instance after five ticks in which `rand() % 100` is 0 on every
slot: five identical snapshots with all counters 0. -/
def idleInstance : EcmpInstance := ticks (fun _ _ => 0) 5 stripedInstance

/-- The random values of a run whose first four ticks add 1, 6, 1 and 4 to every
slot and whose later ticks add nothing. -/
def driftRnd (k _i : Nat) : Nat := [1, 6, 1, 4].getD k 0

/-- The striped instance after eight ticks of `driftRnd`: every slot has the
history 1, 7, 8, 12, 12, 12, 12, 12, so the last five snapshots are identical
and positive. -/
def driftInstance : EcmpInstance := ticks driftRnd 8 stripedInstance

/-- The last five snapshots of the counter history are all equal. -/
def lastFiveIdentical (s : EcmpInstance) : Prop :=
  ∀ a ∈ s.m_counterHistory.drop (s.m_counterHistory.length - 5),
    ∀ b ∈ s.m_counterHistory.drop (s.m_counterHistory.length - 5), a = b

/-- A configuration that `handleSgConfigCtrl` accepts although it announces 130
items: the slots 0 and 1 belong to port 1, the slots 2 and 129 to port 2 (all
128 entries of `items` are read, the last 125 repeat the slot 129). -/
def overflowConfig : T_AI_ECMP_SG_CFG :=
  { dwSgId := 9
    dwSeqId := 1
    dwFwdLagId := 0
    dwItemNum := 130
    dwPortNum := 2
    dwCounterBase := 0
    items := [⟨1, 0⟩, ⟨1, 1⟩, ⟨2, 2⟩] ++ List.replicate 125 ⟨2, 129⟩
    ports := [⟨1, 10, 2⟩, ⟨2, 10, 2⟩] }

/-- The instance the constructor builds from `overflowConfig`. -/
def overflowInitial : EcmpInstance :=
  { m_pAlgorithm := none
    m_sgConfig := overflowConfig
    m_ecmpMemberTable := [(0, 1), (1, 1), (2, 2), (129, 2)]
    m_memberCounts := List.replicate 130 0
    m_portLoads := []
    m_portSpeeds := [(1, 10), (2, 10)]
    m_counterHistory := []
    m_lastEval := zeroEval
    m_status := T_AI_ECMP_STATUS.AI_ECMP_INIT
    m_wCycle := 0
    m_lastExpandCycle := 0
    m_adjustCyclesAfterExpansion := 0
    m_consecutiveAdjustFailures := 0
    m_inPostExpansionPeriod := false
    m_bOptimizationEnabled := true
    m_dwDisabledCycles := 0 }

/-- The random values of a run whose first tick gives the slots 0 and 1 the
count 50 and every other slot the count 1, and whose later ticks add nothing. -/
def overflowRnd (k i : Nat) : Nat :=
  if k = 0 then (if i < 2 then 50 else 1) else 0

/-- The instance `overflowInitial` after five ticks of `overflowRnd`. -/
def overflowInstance : EcmpInstance := ticks overflowRnd 5 overflowInitial

/-- The instance `overflowInstance` after the local search exchanged the ports
of the slots 1 and 129. -/
def overflowAdjusted : EcmpInstance :=
  { overflowInstance with
    m_pAlgorithm := some ⟨10000, 1 / 10⟩
    m_ecmpMemberTable := [(0, 1), (1, 2), (2, 2), (129, 1)]
    m_portLoads := [(1, 51), (2, 51)]
    m_lastEval := ⟨49 / 51, 49 / 51, 98 / 51, 49 / 51, -98 / 51⟩
    m_status := T_AI_ECMP_STATUS.AI_ECMP_ADJUST }

/-- Definition in the words of the specification: the counters
`member_counts[i]` of the slots `i` assigned to port `p` with
`i < len(member_counts)`, in table order. -/
def slotContributions (table : Map) (member_counts : List Nat) (p : Nat) : List Nat :=
  (table.filter (fun slot => decide (slot.2 = p ∧ slot.1 < member_counts.length))).map
    (fun slot => member_counts.getD slot.1 0)

/-- Definition in the words of the specification: the load of port `p`, the sum
modulo `2^64` of the counters of its slots. -/
def specPortLoad (table : Map) (member_counts : List Nat) (p : Nat) : Nat :=
  (slotContributions table member_counts p).sum % W64

/-- The entry a port has in the load map: none without a contributing slot,
otherwise the sum of the contributions modulo `2^64`. -/
def loadEntry (contributions : List Nat) : Option Nat :=
  if contributions = [] then none else some (contributions.sum % W64)

/-- A history of five identical snapshots over 32 slots: slot 0 always 0, the
31 other slots always 7. -/
def deadSlotHistory : List (List Nat) := List.replicate 5 (0 :: List.replicate 31 7)

/-! ## Specification-side definitions for the expansion planner -/

/-- Definition in the words of the specification: the number of slots a port of
current weight `w` asks for, `max(current_weight, 1)`. -/
def desiredIncrease (w : Nat) : Nat := max w 1

/-- Definition in the words of the specification: walking the current weights
`ws` in order with a running total that starts at `S` and grows by every desired
increase, some port finds `128 - S` smaller than its desired increase. -/
def specExpansionFails (ws : List Nat) (S : Nat) : Prop :=
  ∃ pre w post, ws = pre ++ w :: post ∧
    128 - (S + (pre.map desiredIncrease).sum) < desiredIncrease w

/-- Definition in the words of the specification: a port that is granted its
full desired increase. -/
def grantFull (info : PortWeightInfo) : PortWeightInfo :=
  { info with dwNewWeight := info.dwCurrentWeight + desiredIncrease info.dwCurrentWeight }

/-- Definition in the words of the specification: the link items of an
expansion plan, one run of `new_weight` copies of the port id per port, in
processing order, followed by zeros up to 128 entries. -/
def specExpandedLinkItems (portInfos : List PortWeightInfo) : List Nat :=
  portInfos.flatMap (fun info => List.replicate info.dwNewWeight info.dwPortId) ++
    List.replicate (128 - (portInfos.map (fun info => info.dwNewWeight)).sum) 0

/-- A configuration whose expansion is refused: two ports of weights 70 and 1
(sum 71), 71 slots laid out port by port; doubling both would need 142 slots. -/
def crowdedConfig : T_AI_ECMP_SG_CFG :=
  { dwSgId := 9
    dwSeqId := 3
    dwFwdLagId := 0
    dwItemNum := 71
    dwPortNum := 2
    dwCounterBase := 0
    items := (List.range 71).map (fun i => ⟨if i < 70 then 1 else 2, i⟩)
    ports := [⟨1, 10, 70⟩, ⟨2, 10, 1⟩] }

/-- An instance over `crowdedConfig` that `runOptimization` has put in status
Expand. -/
def crowdedInstance : EcmpInstance :=
  { stripedInstance with
    m_sgConfig := crowdedConfig
    m_ecmpMemberTable := (List.range 71).map (fun i => (i, if i < 70 then 1 else 2))
    m_memberCounts := List.replicate 71 0
    m_portSpeeds := [(1, 10), (2, 10)]
    m_status := T_AI_ECMP_STATUS.AI_ECMP_EXPAND }

/-- A configuration whose weights sum to 200: two ports of speed 10 and weight
100, four slots, slots 0 and 1 on port 1 and slots 2 and 3 on port 2. -/
def heavyConfig : T_AI_ECMP_SG_CFG :=
  { dwSgId := 11
    dwSeqId := 1
    dwFwdLagId := 0
    dwItemNum := 4
    dwPortNum := 2
    dwCounterBase := 0
    items := [⟨1, 0⟩, ⟨1, 1⟩, ⟨2, 2⟩, ⟨2, 3⟩]
    ports := [⟨1, 10, 100⟩, ⟨2, 10, 100⟩] }

/-- The random values of the run over `heavyConfig`: the first tick loads the
slots of port 1 with 50 each and the slots of port 2 with 5 each, the later
ticks add nothing. -/
def heavyRnd (k i : Nat) : Nat :=
  if k = 0 then (if i < 2 then 50 else 5) else 0

/-- The instance created from `heavyConfig` taken through `n` optimisation
cycles of the manager (each entered with `dwResult = AI_SUCCESS`), the counters
drawn from `heavyRnd` and the local search always sampling the index pair
`(0, 1)`; the value is what the last cycle left behind. -/
def heavyRun : Nat → Option CycleStep
  | 0 => (EcmpInstance.create heavyConfig).map (fun s => ⟨s, none, AI_SUCCESS⟩)
  | n + 1 =>
    match heavyRun n with
    | none => none
    | some step =>
      runOptimizationCycleBody (heavyRnd n) sqrtApprox (fun _ => (0, 1)) AI_SUCCESS step.inst

/-! ## Specification-side definitions for the swap model -/

/-- Definition in the words of the specification: the table with the ports of
the slots `i` and `j` exchanged. -/
def swapPorts (table : Map) (i j : Nat) : Map :=
  mapModify (mapModify table i (fun _ => mapGet table j)) j (fun _ => mapGet table i)

/-- Definition in the words of the specification: the balance score of a table,
its loads computed from scratch by `calculatePortLoads`. -/
def tableScore (table : Map) (member_counts : List Nat) (port_speeds : Map) : ℚ :=
  calculateBalanceScore
    (calculateLoadBalanceMetrics (calculatePortLoads table member_counts) port_speeds)

/-- Definition in the words of the specification: the `n` most recent entries
of a history, in arrival order. -/
def mostRecent (n : Nat) (history : List (List Nat)) : List (List Nat) :=
  history.drop (history.length - n)

/-- Scenario S1: the striped configuration with every slot counter at 1000 and
five identical snapshots. -/
def steadyInstance : EcmpInstance :=
  { stripedInstance with
    m_memberCounts := List.replicate 8 1000
    m_counterHistory := List.replicate 5 (List.replicate 8 1000)
    m_consecutiveAdjustFailures := 1
    m_inPostExpansionPeriod := true }

/-- The instance created from `cfg` taken through `n` optimisation cycles of
the manager (each entered with `dwResult = AI_SUCCESS`), cycle `k` drawing the
counters from `rnd k` and the local search the index pairs `samples`; the value
is what the last cycle left behind. -/
def runCycles (cfg : T_AI_ECMP_SG_CFG) (rnd : Nat → Nat → Nat) (samples : Nat → Nat × Nat) :
    Nat → Option CycleStep
  | 0 => (EcmpInstance.create cfg).map (fun s => ⟨s, none, AI_SUCCESS⟩)
  | n + 1 =>
    match runCycles cfg rnd samples n with
    | none => none
    | some step => runOptimizationCycleBody (rnd n) sqrtApprox samples AI_SUCCESS step.inst

/-- Scenario S3: three ports of equal speed with weights 1, 1 and 6; slot 0 on
port 1, slot 1 on port 2, the slots 2 to 7 on port 3. -/
def starvedConfig : T_AI_ECMP_SG_CFG :=
  { dwSgId := 3
    dwSeqId := 1
    dwFwdLagId := 0
    dwItemNum := 8
    dwPortNum := 3
    dwCounterBase := 0
    items := [⟨1, 0⟩, ⟨2, 1⟩, ⟨3, 2⟩, ⟨3, 3⟩, ⟨3, 4⟩, ⟨3, 5⟩, ⟨3, 6⟩, ⟨3, 7⟩]
    ports := [⟨1, 10, 1⟩, ⟨2, 10, 1⟩, ⟨3, 10, 6⟩] }

/-- The counters of scenario S3 scaled to what `rand() % 100` can deliver: the
first tick gives the slots of the ports 1 and 2 the value 90 each and the six
slots of port 3 the values 1, 2, 1, 2, 1, 2 (9 in all); later ticks add
nothing. -/
def starvedRnd (k i : Nat) : Nat :=
  if k = 0 then (if i < 2 then 90 else if i % 2 = 0 then 1 else 2) else 0

/-- The instance of scenario S3 when its seventh `runOptimization` starts, written
out field by field: six cycles are over, the last two with a failed search,
and the counters of the seventh cycle are in. -/
def starvedThirdAttempt : EcmpInstance :=
  { m_pAlgorithm := some ⟨10000, 1 / 10⟩
    m_sgConfig := starvedConfig
    m_ecmpMemberTable := [(0, 1), (1, 2), (2, 3), (3, 3), (4, 3), (5, 3), (6, 3), (7, 3)]
    m_memberCounts := [90, 90, 1, 2, 1, 2, 1, 2]
    m_portLoads := [(1, 90), (2, 90), (3, 9)]
    m_portSpeeds := [(1, 10), (2, 10), (3, 10)]
    m_counterHistory := List.replicate 7 [90, 90, 1, 2, 1, 2, 1, 2]
    m_lastEval := ⟨3 / 7, 6 / 7, 9 / 7, 4 / 7, -9 / 7⟩
    m_status := T_AI_ECMP_STATUS.AI_ECMP_BALANCE
    m_wCycle := 7
    m_lastExpandCycle := 0
    m_adjustCyclesAfterExpansion := 0
    m_consecutiveAdjustFailures := 2
    m_inPostExpansionPeriod := false
    m_bOptimizationEnabled := true
    m_dwDisabledCycles := 0 }

/-- Scenario S6: weights 0, 63 and 64 (127 in all); the slots 0 to 62 on port 2,
the slots 63 to 126 on port 3. -/
def infeasibleConfig : T_AI_ECMP_SG_CFG :=
  { dwSgId := 6
    dwSeqId := 1
    dwFwdLagId := 0
    dwItemNum := 127
    dwPortNum := 3
    dwCounterBase := 0
    items := (List.range 127).map (fun i => ⟨if i < 63 then 2 else 3, i⟩)
    ports := [⟨1, 10, 0⟩, ⟨2, 10, 63⟩, ⟨3, 10, 64⟩] }

/-- The counters of the run over `infeasibleConfig`: the first tick gives every
slot of port 2 the value 90 and every slot of port 3 the value 1; later ticks
add nothing. -/
def infeasibleRnd (k i : Nat) : Nat :=
  if k = 0 then (if i < 63 then 90 else 1) else 0

/-- The instance of scenario S6 when its seventh `runOptimization` starts, written
out field by field: six cycles are over, the last two with a failed search,
and the counters of the seventh cycle are in. -/
def infeasibleThirdAttempt : EcmpInstance :=
  { m_pAlgorithm := some ⟨10000, 1 / 10⟩
    m_sgConfig := infeasibleConfig
    m_ecmpMemberTable := (List.range 127).map (fun i => (i, if i < 63 then 2 else 3))
    m_memberCounts := (List.range 127).map (fun i => if i < 63 then 90 else 1)
    m_portLoads := [(2, 5670), (3, 64)]
    m_portSpeeds := [(1, 10), (2, 10), (3, 10)]
    m_counterHistory :=
      List.replicate 7 ((List.range 127).map (fun i => if i < 63 then 90 else 1))
    m_lastEval := ⟨2803 / 2867, 2803 / 2867, 5606 / 2867, 2803 / 2867, -5606 / 2867⟩
    m_status := T_AI_ECMP_STATUS.AI_ECMP_BALANCE
    m_wCycle := 7
    m_lastExpandCycle := 0
    m_adjustCyclesAfterExpansion := 0
    m_consecutiveAdjustFailures := 2
    m_inPostExpansionPeriod := false
    m_bOptimizationEnabled := true
    m_dwDisabledCycles := 0 }

/-! ## The manager (`ai_ecmp_manager.cpp`) -/

/-- The member `m_instances` of `CAISlbManagerSingleton`: the instances keyed by
split-group id, in iteration order. -/
abbrev InstanceMap := List (Nat × EcmpInstance)

/-- Source: `CAISlbManagerSingleton::getInstanceCount`. -/
def getInstanceCount (m_instances : InstanceMap) : Nat := m_instances.length % W32

/-- The statement `it->second->updateConfig(*pSgCfg)` on the entry found for
`dwSgId`; `none` when `updateConfig` diverges. -/
def updateFound : InstanceMap → Nat → T_AI_ECMP_SG_CFG → Option InstanceMap
  | [], _, _ => some []
  | (k, pInstance) :: rest, dwSgId, sgCfg =>
    if k = dwSgId then
      match pInstance.updateConfig sgCfg with
      | none => none
      | some updated => some ((k, updated) :: rest)
    else
      match updateFound rest dwSgId sgCfg with
      | none => none
      | some rest' => some ((k, pInstance) :: rest')

/-- The statement `m_instances.erase(it)` on the entry found for `dwSgId`. -/
def eraseFound : InstanceMap → Nat → InstanceMap
  | [], _ => []
  | (k, pInstance) :: rest, dwSgId =>
    if k = dwSgId then rest else (k, pInstance) :: eraseFound rest dwSgId

/-- Source: `CAISlbManagerSingleton::handleSgConfigCtrl`.  `pSgCfg = none` is the
null pointer; the result is the returned code and the instance map after the
call, `none` stands for divergence (of the constructor or of `updateConfig`). -/
def handleSgConfigCtrl (m_instances : InstanceMap) (bSwitchFlag : Nat)
    (pSgCfg : Option T_AI_ECMP_SG_CFG) : Option (Nat × InstanceMap) :=
  match pSgCfg with
  | none => some (AI_ECMP_ERR_INVALID_PARAM, m_instances)
  | some sgCfg =>
    let dwSgId := sgCfg.dwSgId
    if bSwitchFlag = 1 then
      match m_instances.lookup dwSgId with
      | none =>
        match EcmpInstance.create sgCfg with
        | none => none
        | some pInstance => some (AI_SUCCESS, m_instances ++ [(dwSgId, pInstance)])
      | some _ =>
        match updateFound m_instances dwSgId sgCfg with
        | none => none
        | some updated => some (AI_SUCCESS, updated)
    else if bSwitchFlag = 0 then
      match m_instances.lookup dwSgId with
      | some _ => some (AI_SUCCESS, eraseFound m_instances dwSgId)
      | none => some (AI_SUCCESS, m_instances)
    else some (AI_ECMP_ERR_CONFIG_INVALID, m_instances)

/-- What `runOptimizationCycle` leaves behind: the returned code, the instance
map and the plans handed to `aiEcmpSendNhopModify`, in order. -/
structure CycleResult where
  dwResult : Nat
  instances : InstanceMap
  sent : List T_AI_ECMP_NHOP_MODIFY
  deriving DecidableEq, Repr

/-- The `for` loop of `CAISlbManagerSingleton::runOptimizationCycle` over the
instances, entered with the current `dwResult`.  `rnd dwSgId` are the values
`rand()` returns to the instance `dwSgId`, `samples dwSgId` the index pairs its
local search draws. -/
def cycleLoop (rnd : Nat → Nat → Nat) (sqrt : ℚ → ℚ) (samples : Nat → Nat → Nat × Nat) :
    InstanceMap → Nat → Option CycleResult
  | [], dwResult => some ⟨dwResult, [], []⟩
  | (dwSgId, pInstance) :: rest, dwResult =>
    match runOptimizationCycleBody (rnd dwSgId) sqrt (samples dwSgId) dwResult pInstance with
    | none => none
    | some step =>
      match cycleLoop rnd sqrt samples rest step.dwResult with
      | none => none
      | some r =>
        some ⟨r.dwResult, (dwSgId, step.inst) :: r.instances, step.sent.toList ++ r.sent⟩

/-- Source: `CAISlbManagerSingleton::runOptimizationCycle`; the counter message
is not read by the source. -/
def runOptimizationCycle (rnd : Nat → Nat → Nat) (sqrt : ℚ → ℚ)
    (samples : Nat → Nat → Nat × Nat) (m_instances : InstanceMap) : Option CycleResult :=
  let dwResult := AI_SUCCESS
  let dwInstanceCount := getInstanceCount m_instances
  if dwInstanceCount = 0 then some ⟨AI_ECMP_ERR_NO_INSTANCE, m_instances, []⟩
  else cycleLoop rnd sqrt samples m_instances dwResult

/-- Definition in the words of the specification: the non-success error kinds
encountered during a cycle, in instance order (the kind an instance contributes
is the code its pass through the loop body sets). -/
def errorKinds (rnd : Nat → Nat → Nat) (sqrt : ℚ → ℚ) (samples : Nat → Nat → Nat × Nat)
    (m_instances : InstanceMap) : List Nat :=
  m_instances.filterMap (fun instanceEntry =>
    match runOptimizationCycleBody (rnd instanceEntry.1) sqrt (samples instanceEntry.1)
        AI_SUCCESS instanceEntry.2 with
    | some step => if step.dwResult = AI_SUCCESS then none else some step.dwResult
    | none => none)

/-- The instance of scenario S6 after six cycles (two failed searches), before
the counters of the seventh cycle are read. -/
def infeasibleAfterSix : EcmpInstance :=
  { infeasibleThirdAttempt with
    m_counterHistory :=
      List.replicate 6 ((List.range 127).map (fun i => if i < 63 then 90 else 1))
    m_wCycle := 6 }

/-! ## Sequences of optimisation cycles of one instance -/

/-- What one optimisation cycle draws for an instance: the values `rand()`
returns to `updateCounters` and the index pairs of the local search. -/
abbrev CycleInput := (Nat → Nat) × (Nat → Nat × Nat)

/-- The instance after each `runOptimization` call of the cycles `inputs`, every
cycle being one `updateCounters` followed by one `runOptimization` as in the
loop body of `runOptimizationCycle`; `none` when a call diverges. -/
def cycleTrace (sqrt : ℚ → ℚ) : List CycleInput → EcmpInstance → Option (List EcmpInstance)
  | [], _ => some []
  | input :: rest, s =>
    match (s.updateCounters input.1).2.runOptimization sqrt input.2 with
    | none => none
    | some r =>
      match cycleTrace sqrt rest r.2 with
      | none => none
      | some trace => some (r.2 :: trace)

/-- The number of calls of a trace that left `m_consecutiveAdjustFailures` one
above its value before the call (`s` is the instance before the first call).
The only statement of the source that raises this counter is the increment in
`recordAdjustmentResult(false)`. -/
def failureRecords : EcmpInstance → List EcmpInstance → Nat
  | _, [] => 0
  | s, t :: rest =>
    (if t.m_consecutiveAdjustFailures = s.m_consecutiveAdjustFailures + 1 then 1 else 0) +
      failureRecords t rest

/-- The instance of scenario S3 after its seventh `runOptimization`, which ends
in Expand. -/
def starvedExpanded : EcmpInstance :=
  { starvedThirdAttempt with
    m_status := T_AI_ECMP_STATUS.AI_ECMP_EXPAND
    m_lastExpandCycle := 7
    m_consecutiveAdjustFailures := 0
    m_inPostExpansionPeriod := true }

/-- The instance of scenario S3 two cycles after the expansion, both cycles with
a search that found nothing. -/
def starvedAfterNine : EcmpInstance :=
  { starvedExpanded with
    m_counterHistory := List.replicate 9 [90, 90, 1, 2, 1, 2, 1, 2]
    m_status := T_AI_ECMP_STATUS.AI_ECMP_BALANCE
    m_wCycle := 9
    m_adjustCyclesAfterExpansion := 2
    m_consecutiveAdjustFailures := 2 }

/-- The cycle input of the S3 run after its first tick: no counter moves and the
local search draws the slots 2 and 3 (both on port 3). -/
def quietInput : CycleInput := (fun _ => 0, fun _ => (2, 3))

/-- The instance `driftInstance` holding only its five most recent snapshots. -/
def driftRecent : EcmpInstance :=
  { driftInstance with m_counterHistory := mostRecent 5 driftInstance.m_counterHistory }
/-- Definition in the words of the specification: `S`, the sum of the current
weights of the ports `getExpandedNextHops` reads. -/
def weightSum (cfg : T_AI_ECMP_SG_CFG) : Nat :=
  ((collectPortInfos cfg).map (fun i => i.dwCurrentWeight)).sum

/-- Definition in the words of the specification: `Z`, the number of zero-weight
ports among the ports `getExpandedNextHops` reads. -/
def zeroWeightPorts (cfg : T_AI_ECMP_SG_CFG) : Nat :=
  ((collectPortInfos cfg).filter (fun i => decide (i.dwCurrentWeight = 0))).length

/-- Definition in the words of the specification: the new weight of a port of
current weight `w` after a successful expansion. -/
def doubledWeight (w : Nat) : Nat := if w = 0 then 1 else 2 * w

/-- Scenario S2: the counters of the eight striped slots, the two slots of
port 1 (slots 0 and 4) carrying 5000 and the six other slots 500. -/
def skewedCounts : List Nat := [5000, 500, 500, 500, 5000, 500, 500, 500]

/-- Scenario S2: the striped instance with the counters `skewedCounts` in five
identical snapshots and no prior failure. -/
def skewedInstance : EcmpInstance :=
  { stripedInstance with
    m_memberCounts := skewedCounts
    m_portLoads := [(1, 10000), (2, 1000), (3, 1000), (4, 1000)]
    m_counterHistory := List.replicate 5 skewedCounts
    m_wCycle := 5 }

/-- A sampling sequence for scenario S2 that draws two slots of port 2 in the
first 40 iterations, then the slots 4 (port 1) and 7 (port 4), then two slots
of port 3 for ever. -/
def skewedSamples (k : Nat) : Nat × Nat :=
  if k < 40 then (1, 5) else if k = 40 then (4, 7) else (2, 6)

/-! ## Binary64 arithmetic

The metrics of the source are computed in `double`.  The definitions of the
section `Metrics` above evaluate the formulas in exact rational arithmetic, where
the order of a sum does not matter.  The definitions of the namespace `Rounded`
evaluate the same statements with every `double` operation rounded by a function
`fl` and with every loop over a `std::unordered_map` run in the order `iter`
gives.  With `fl := roundDouble` this is IEEE-754 binary64 arithmetic in
round-to-nearest-even (the exponent range is not modelled: no overflow, no
subnormal numbers).

A `Map` is kept in the order in which its keys were inserted (`mapModify`
appends a new key and updates an old one in place); `iter m` is the order in
which a loop `for (const auto& entry : m)` visits it.  libstdc++ links a new
node in front of all others while the keys fall into distinct buckets (keys
below the bucket count, 13 for up to 13 entries), so such a map is visited in
reverse insertion order, `iter := List.reverse`; `iter := id` is a container
visited in insertion order. -/

/-- Binary search for the position of the leading binary digit of `n`: with
`2 ^ acc ≤ n < 2 ^ (acc + 2 ^ k)` the result `a` has `2 ^ a ≤ n < 2 ^ (a + 1)`. -/
def leadingBit (n : Nat) : Nat → Nat → Nat
  | 0, acc => acc
  | k + 1, acc =>
    if 2 ^ (acc + 2 ^ k) ≤ n then leadingBit n k (acc + 2 ^ k) else leadingBit n k acc

/-- The number of binary digits of `n` (zero for zero), for `n < 2 ^ 4096`. -/
def bitLength (n : Nat) : Nat :=
  if n = 0 then 0
  else if n < 2 ^ 64 then leadingBit n 6 0 + 1
  else leadingBit n 12 0 + 1

/-- The integer nearest to `N / D`, a tie going to the even one. -/
def nearestTiesEven (N D : Nat) : Nat :=
  if D < 2 * (N % D) ∨ (2 * (N % D) = D ∧ N / D % 2 = 1) then N / D + 1 else N / D

/-- The binary64 value nearest to the positive rational `n / d`, ties to even:
`n / d` is scaled by a power of two into the range from `2 ^ 52` to `2 ^ 53`,
rounded to an integer (the 53-bit significand) and scaled back.  When
`n / d ≥ 1` and its integer part has `b` binary digits, `n / d` lies between
`2 ^ (b - 1)` and `2 ^ b` and the scale is `2 ^ (53 - b)`.  When `n / d < 1`
and the integer part of `d / n` has `b` binary digits, `n / d` lies between
`2 ^ -b` and `2 ^ -(b - 1)`; scaled by `2 ^ (51 + b)` it lies between `2 ^ 51`
and `2 ^ 52`, and is doubled once more unless it is `2 ^ 52`. -/
def roundPos (n d : Nat) : ℚ :=
  if d ≤ n then
    if bitLength (n / d) ≤ 53 then
      ((nearestTiesEven (n * 2 ^ (53 - bitLength (n / d))) d : Nat) : ℚ) /
        ((2 ^ (53 - bitLength (n / d)) : Nat) : ℚ)
    else
      ((nearestTiesEven n (d * 2 ^ (bitLength (n / d) - 53)) *
        2 ^ (bitLength (n / d) - 53) : Nat) : ℚ)
  else if n * 2 ^ (51 + bitLength (d / n)) / d < 2 ^ 52 then
    ((nearestTiesEven (n * 2 ^ (52 + bitLength (d / n))) d : Nat) : ℚ) /
      ((2 ^ (52 + bitLength (d / n)) : Nat) : ℚ)
  else
    ((nearestTiesEven (n * 2 ^ (51 + bitLength (d / n))) d : Nat) : ℚ) /
      ((2 ^ (51 + bitLength (d / n)) : Nat) : ℚ)

/-- Rounding of a real result to `double`: the nearest binary64 value, ties to
even. -/
def roundDouble (q : ℚ) : ℚ :=
  if q = 0 then 0
  else if q < 0 then -roundPos q.num.natAbs q.den
  else roundPos q.num.natAbs q.den

/-- The integer square root of `n`, found bit by bit from bit `k - 1` down,
starting from `r`. -/
def sqrtBits (n : Nat) : Nat → Nat → Nat
  | 0, r => r
  | k + 1, r => if (r + 2 ^ k) * (r + 2 ^ k) ≤ n then sqrtBits n k (r + 2 ^ k) else sqrtBits n k r

/-- The function `std::sqrt` on `double`: the correctly rounded square root
(zero for arguments that are not positive; the source never passes a negative
one).  The root of `x * 4 ^ t` is taken to more than 128 bits and rounded once,
a sticky half marking an inexact root. -/
def sqrtDouble (x : ℚ) : ℚ :=
  if x ≤ 0 then 0
  else
    let n := x.num.natAbs
    let d := x.den
    let t := 128 + bitLength d
    let F := n * 4 ^ t / d
    let R := sqrtBits F (bitLength F / 2 + 1) 0
    if n * 4 ^ t % d = 0 ∧ R * R = F then roundDouble ((R : ℚ) / ((2 ^ t : Nat) : ℚ))
    else roundDouble (((2 * R + 1 : Nat) : ℚ) / ((2 ^ (t + 1) : Nat) : ℚ))

namespace Rounded

/-- Source: `utils::calculatePortLoads`, the loop over `v_memberTable` run in
the order `iter`; the result is in insertion order. -/
def calculatePortLoads (iter : Map → Map) (v_memberTable : Map) (v_memberCounts : List Nat) :
    Map :=
  AiEcmp.calculatePortLoads (iter v_memberTable) v_memberCounts

/-- Source: the vector `normalizedLoads` of `utils::calculateLoadBalanceMetrics`,
`static_cast<double>(load) / dwSpeed`, the loop over `v_portLoads` run in the
order `iter`. -/
def normalizedLoads (fl : ℚ → ℚ) (iter : Map → Map) (v_portLoads v_portSpeeds : Map) :
    List ℚ :=
  (iter v_portLoads).filterMap (fun entry =>
    match v_portSpeeds.lookup entry.1 with
    | some dwSpeed =>
      if 0 < dwSpeed then some (fl (fl (entry.2 : ℚ) / fl (dwSpeed : ℚ))) else none
    | none => none)

/-- The call `std::accumulate(begin, end, 0.0)` and the loops `sum += value`. -/
def accumulate (fl : ℚ → ℚ) (values : List ℚ) : ℚ :=
  values.foldl (fun acc value => fl (acc + value)) 0

/-- Source: `utils::calculateLoadBalanceMetrics`, in `double`. -/
def calculateLoadBalanceMetrics (fl : ℚ → ℚ) (iter : Map → Map)
    (v_portLoads v_portSpeeds : Map) : T_AI_ECMP_EVAL :=
  if v_portLoads.isEmpty || v_portSpeeds.isEmpty then zeroEval
  else
    let loads := normalizedLoads fl iter v_portLoads v_portSpeeds
    if loads.isEmpty then zeroEval
    else
      let avgLoad : ℚ := fl (accumulate fl loads / fl (loads.length : ℚ))
      let minLoad := minElement loads
      let maxLoad := maxElement loads
      let upBoundGap : ℚ := if 0 < avgLoad then fl (fl (maxLoad - avgLoad) / avgLoad) else 0
      let lowBoundGap : ℚ := if 0 < avgLoad then fl (fl (avgLoad - minLoad) / avgLoad) else 0
      let totalGap : ℚ := if 0 < avgLoad then fl (upBoundGap + lowBoundGap) else 0
      let sumAbsDev : ℚ :=
        loads.foldl (fun acc loadValue => fl (acc + |fl (loadValue - avgLoad)|)) 0
      let avgGap : ℚ :=
        if 0 < avgLoad then fl (fl (sumAbsDev / fl (loads.length : ℚ)) / avgLoad) else 0
      { upBoundGap := upBoundGap
        lowBoundGap := lowBoundGap
        totalGap := totalGap
        avgGap := avgGap
        balanceScore := -totalGap }

/-- Source: `utils::calculateBalanceScore`, in `double`. -/
def calculateBalanceScore (fl : ℚ → ℚ) (v_eval : T_AI_ECMP_EVAL) : ℚ :=
  let posWeight : ℚ := 1
  let negWeight : ℚ := 1
  let score : ℚ :=
    -(fl (fl (posWeight * v_eval.upBoundGap) + fl (negWeight * v_eval.lowBoundGap)))
  score

/-- The balance score of a table in `double`: `calculatePortLoads`,
`calculateLoadBalanceMetrics` and `calculateBalanceScore` from scratch. -/
def tableScore (fl : ℚ → ℚ) (iter : Map → Map) (table : Map) (member_counts : List Nat)
    (port_speeds : Map) : ℚ :=
  calculateBalanceScore fl
    (calculateLoadBalanceMetrics fl iter (calculatePortLoads iter table member_counts)
      port_speeds)

/-- Source: `utils::calculateSwapImprovement`, in `double`. -/
def calculateSwapImprovement (fl : ℚ → ℚ) (iter : Map → Map) (v_memberTable : Map)
    (v_memberCounts : List Nat) (v_portLoads v_portSpeeds : Map)
    (dwHashIndex1 dwHashIndex2 : Nat) : ℚ :=
  match v_memberTable.lookup dwHashIndex1, v_memberTable.lookup dwHashIndex2 with
  | some dwPortId1, some dwPortId2 =>
    if v_memberCounts.length ≤ dwHashIndex1 || v_memberCounts.length ≤ dwHashIndex2 then 0
    else if dwPortId1 = dwPortId2 then 0
    else
      let count1 := v_memberCounts.getD dwHashIndex1 0
      let count2 := v_memberCounts.getD dwHashIndex2 0
      let originalLoads := v_portLoads
      let newLoads1 := mapModify v_portLoads dwPortId1 (fun l => (l + W64 - count1) % W64)
      let newLoads2 := mapModify newLoads1 dwPortId2 (fun l => (l + W64 - count2) % W64)
      let newLoads3 := mapModify newLoads2 dwPortId1 (fun l => (l + count2) % W64)
      let newLoads := mapModify newLoads3 dwPortId2 (fun l => (l + count1) % W64)
      let originalEval := calculateLoadBalanceMetrics fl iter originalLoads v_portSpeeds
      let newEval := calculateLoadBalanceMetrics fl iter newLoads v_portSpeeds
      fl (calculateBalanceScore fl newEval - calculateBalanceScore fl originalEval)
  | _, _ => 0

/-- Source: `utils::calculateMean`, in `double`. -/
def calculateMean (fl : ℚ → ℚ) (values : List ℚ) : ℚ :=
  if values.isEmpty then 0 else fl (accumulate fl values / fl (values.length : ℚ))

/-- Source: `utils::calculateStandardDeviation`, in `double`; `sqrt` stands for
`std::sqrt`. -/
def calculateStandardDeviation (fl sqrt : ℚ → ℚ) (values : List ℚ) (mean : ℚ) : ℚ :=
  if values.length ≤ 1 then 0
  else
    let variance : ℚ :=
      values.foldl (fun acc value => fl (acc + fl (fl (value - mean) * fl (value - mean)))) 0
    sqrt (fl (variance / fl ((values.length : ℚ) - 1)))

/-- Source: `utils::calculateVariationCoefficient`, in `double`. -/
def calculateVariationCoefficient (fl sqrt : ℚ → ℚ) (values : List ℚ) : ℚ :=
  if values.isEmpty then 1
  else
    let mean := calculateMean fl values
    if mean ≤ 0 then 1
    else fl (calculateStandardDeviation fl sqrt values mean / mean)

/-- The vector `memberValues` of `calculateCounterVarianceCoefficient`:
`static_cast<double>(historyCounts[hashIndex])`. -/
def memberValues (fl : ℚ → ℚ) (counterHistory : List (List Nat)) (hashIndex : Nat) : List ℚ :=
  counterHistory.filterMap (fun historyCounts =>
    if hashIndex < historyCounts.length then
      some (fl ((historyCounts.getD hashIndex 0 : Nat) : ℚ))
    else none)

/-- The vector `allVarianceCoeffs` of `calculateCounterVarianceCoefficient`. -/
def allVarianceCoeffs (fl sqrt : ℚ → ℚ) (counterHistory : List (List Nat))
    (memberCount : Nat) : List ℚ :=
  (List.range memberCount).filterMap (fun hashIndex =>
    let values := memberValues fl counterHistory hashIndex
    if 2 ≤ values.length then some (calculateVariationCoefficient fl sqrt values) else none)

/-- Source: `utils::calculateCounterVarianceCoefficient`, in `double`. -/
def calculateCounterVarianceCoefficient (fl sqrt : ℚ → ℚ) (counterHistory : List (List Nat))
    (memberCounts : List Nat) : ℚ :=
  if counterHistory.length < 2 then 1
  else
    let coeffs := allVarianceCoeffs fl sqrt counterHistory memberCounts.length
    if coeffs.isEmpty then 1 else calculateMean fl coeffs

/-- Source: `EcmpInstance::isCounterVarianceStable`, in `double`. -/
def isCounterVarianceStable (fl sqrt : ℚ → ℚ) (s : EcmpInstance) : Bool :=
  if s.m_counterHistory.length < HISTORY_CYCLES_FOR_VARIANCE then false
  else
    let varianceCoeff :=
      calculateCounterVarianceCoefficient fl sqrt s.m_counterHistory s.m_memberCounts
    decide (varianceCoeff ≤ fl VARIANCE_THRESHOLD)

/-- Source: `utils::calculateImprovementPercentage`, in `double`. -/
def calculateImprovementPercentage (fl : ℚ → ℚ) (beforeEval afterEval : T_AI_ECMP_EVAL) : ℚ :=
  let totalBiasBefore := fl (beforeEval.upBoundGap + beforeEval.lowBoundGap)
  let totalBiasAfter := fl (afterEval.upBoundGap + afterEval.lowBoundGap)
  if totalBiasBefore ≤ 0 then 0
  else fl (fl (fl (totalBiasBefore - totalBiasAfter) / totalBiasBefore) * 100)

/-- Source: `EcmpInstance::isOptimizationEffective`, in `double`. -/
def isOptimizationEffective (fl : ℚ → ℚ) (beforeEval afterEval : T_AI_ECMP_EVAL)
    (minImprovementThreshold : ℚ) : Bool :=
  let improvementPercent := calculateImprovementPercentage fl beforeEval afterEval
  decide (minImprovementThreshold ≤ improvementPercent)

/-- One pass through the body of the `while` loop of `LocalSearch::optimize`, in
`double`. -/
def iteration (fl : ℚ → ℚ) (iter : Map → Map) (self : LocalSearch) (memberCounts : List Nat)
    (portSpeeds : Map) (hashIndices : List Nat) (idx : Nat × Nat) (st : SearchState) :
    SearchState :=
  let dwHashIndex1 := hashIndices.getD idx.1 0
  let dwHashIndex2 := hashIndices.getD idx.2 0
  let improvement :=
    fl (calculateSwapImprovement fl iter st.result memberCounts st.portLoads portSpeeds
      dwHashIndex1 dwHashIndex2 - fl self.m_exchangeCostFactor)
  if 0 < improvement then
    let result1 := mapModify st.result dwHashIndex1 id
    let dwPortId1 := mapGet result1 dwHashIndex1
    let result2 := mapModify result1 dwHashIndex2 id
    let dwPortId2 := mapGet result2 dwHashIndex2
    let count1 := if dwHashIndex1 < memberCounts.length then memberCounts.getD dwHashIndex1 0 else 0
    let count2 := if dwHashIndex2 < memberCounts.length then memberCounts.getD dwHashIndex2 0 else 0
    let portLoads1 := mapModify st.portLoads dwPortId1 (fun l => (l + W64 - count1) % W64)
    let portLoads2 := mapModify portLoads1 dwPortId2 (fun l => (l + W64 - count2) % W64)
    let result3 := mapModify result2 dwHashIndex1 (fun _ => dwPortId2)
    let result4 := mapModify result3 dwHashIndex2 (fun _ => dwPortId1)
    let portLoads3 := mapModify portLoads2 dwPortId1 (fun l => (l + count2) % W64)
    let portLoads4 := mapModify portLoads3 dwPortId2 (fun l => (l + count1) % W64)
    { result := result4
      portLoads := portLoads4
      bestResult := result4
      dwConsecutiveFailures := 0 }
  else
    { st with dwConsecutiveFailures := st.dwConsecutiveFailures + 1 }

/-- The `while` loop of `LocalSearch::optimize`, in `double`. -/
def searchLoop (fl : ℚ → ℚ) (iter : Map → Map) (self : LocalSearch) (memberCounts : List Nat)
    (portSpeeds : Map) (hashIndices : List Nat) (samples : Nat → Nat × Nat) :
    Nat → Nat → SearchState → SearchState
  | 0, _, st => st
  | remaining + 1, dwIterations, st =>
    if st.dwConsecutiveFailures < 100 then
      searchLoop fl iter self memberCounts portSpeeds hashIndices samples remaining
        (dwIterations + 1)
        (iteration fl iter self memberCounts portSpeeds hashIndices (samples dwIterations) st)
    else st

/-- Source: `LocalSearch::optimize`, in `double`: the state of the local
variables when the loop ends (`bestResult` is what the function returns,
`portLoads` is the live load map).  The vector `hashIndices` is filled by a
loop over `memberTable`, so `samples k` indexes the keys in the order `iter`. -/
def optimizeState (fl : ℚ → ℚ) (iter : Map → Map) (self : LocalSearch)
    (samples : Nat → Nat × Nat) (memberTable : Map) (memberCounts : List Nat)
    (portSpeeds : Map) : SearchState :=
  let result := memberTable
  let hashIndices := (iter memberTable).map Prod.fst
  if hashIndices.length < 2 then
    { result := result, portLoads := [], bestResult := result, dwConsecutiveFailures := 0 }
  else
    let portLoads := calculatePortLoads iter result memberCounts
    searchLoop fl iter self memberCounts portSpeeds hashIndices samples
      self.m_dwMaxIterations 0
      { result := result
        portLoads := portLoads
        bestResult := result
        dwConsecutiveFailures := 0 }

/-- Source: `LocalSearch::optimize`, in `double`. -/
def optimize (fl : ℚ → ℚ) (iter : Map → Map) (self : LocalSearch)
    (samples : Nat → Nat × Nat) (memberTable : Map) (memberCounts : List Nat)
    (portSpeeds : Map) : Map :=
  (optimizeState fl iter self samples memberTable memberCounts portSpeeds).bestResult

/-- Source: `EcmpInstance::calculateLoadMetrics`, the loop over the table run in
the order `iter`. -/
def calculateLoadMetrics (iter : Map → Map) (s : EcmpInstance) : EcmpInstance :=
  { s with m_portLoads := calculatePortLoads iter s.m_ecmpMemberTable s.m_memberCounts }

/-- Source: `EcmpInstance::evaluateBalance`, in `double`. -/
def evaluateBalance (fl : ℚ → ℚ) (iter : Map → Map) (s : EcmpInstance) :
    T_AI_ECMP_EVAL × EcmpInstance :=
  let portLoads := calculatePortLoads iter s.m_ecmpMemberTable s.m_memberCounts
  let evalResult := calculateLoadBalanceMetrics fl iter portLoads s.m_portSpeeds
  (evalResult, { s with m_lastEval := evalResult })

/-- The part of `EcmpInstance::runOptimization` from the call of `optimize` to
the end, in `double`. -/
def searchWith (fl : ℚ → ℚ) (iter : Map → Map) (samples : Nat → Nat × Nat)
    (currentEval : T_AI_ECMP_EVAL) (algorithm : LocalSearch) (s : EcmpInstance) :
    Bool × EcmpInstance :=
  let optimizedTable :=
    optimize fl iter algorithm samples s.m_ecmpMemberTable s.m_memberCounts s.m_portSpeeds
  if mapEq optimizedTable s.m_ecmpMemberTable then
    (false,
      { s.recordAdjustmentResult false with m_status := T_AI_ECMP_STATUS.AI_ECMP_BALANCE })
  else
    let beforeEval := currentEval
    let tempPortLoads := calculatePortLoads iter optimizedTable s.m_memberCounts
    let afterEval := calculateLoadBalanceMetrics fl iter tempPortLoads s.m_portSpeeds
    let isEffective := isOptimizationEffective fl beforeEval afterEval 1
    if !isEffective then
      (false,
        { s.recordAdjustmentResult false with m_status := T_AI_ECMP_STATUS.AI_ECMP_FAIL })
    else
      let s2 : EcmpInstance := { s with m_ecmpMemberTable := optimizedTable }
      let s3 := calculateLoadMetrics iter s2
      let s4 := s3.recordAdjustmentResult true
      (true, { s4 with m_status := T_AI_ECMP_STATUS.AI_ECMP_ADJUST })

/-- The search path of `EcmpInstance::runOptimization`, in `double`: it starts
at the creation of the default algorithm. -/
def searchPath (fl : ℚ → ℚ) (iter : Map → Map) (samples : Nat → Nat × Nat)
    (currentEval : T_AI_ECMP_EVAL) (s : EcmpInstance) : Bool × EcmpInstance :=
  let s1 := s.ensureAlgorithm
  match s1.m_pAlgorithm with
  | none =>
    (false, { s1.recordAdjustmentResult false with m_status := T_AI_ECMP_STATUS.AI_ECMP_FAIL })
  | some algorithm => searchWith fl iter samples currentEval algorithm s1

/-- Source: `EcmpInstance::needExpansion`, in `double`; `none` when its loop
diverges. -/
def needExpansion (fl : ℚ → ℚ) (s : EcmpInstance) : Option Bool :=
  if word16LoopTerminates s.m_sgConfig.dwPortNum then
    let bHasLowWeightPort :=
      (List.range (min s.m_sgConfig.dwPortNum AI_ECMP_MAX_PORT_NUM)).any
        (fun i => decide ((s.m_sgConfig.port i).dwWeight < 2))
    if bHasLowWeightPort then some true
    else if fl (2 / 10) < s.m_lastEval.totalGap then some true
    else some false
  else none

/-- The block of `EcmpInstance::runOptimization` that computes `shouldExpand`,
in `double`. -/
def expansionDecision (fl : ℚ → ℚ) (s : EcmpInstance) : Option (Bool × EcmpInstance) :=
  if MAX_CONSECUTIVE_ADJUST_FAILURES ≤ s.m_consecutiveAdjustFailures then
    match needExpansion fl s with
    | none => none
    | some bNeedExpansion =>
      if bNeedExpansion then
        some (true, if s.m_inPostExpansionPeriod then { s with m_inPostExpansionPeriod := false } else s)
      else some (false, s)
  else
    let skip := s.shouldSkipExpansionCheck
    if skip.1 then some (false, skip.2)
    else
      match needExpansion fl skip.2 with
      | none => none
      | some _ => some (false, skip.2)

/-- The part of `EcmpInstance::runOptimization` that follows the history and
stability gates, in `double`. -/
def afterStabilityGate (fl : ℚ → ℚ) (iter : Map → Map) (samples : Nat → Nat × Nat)
    (s : EcmpInstance) : Option (Bool × EcmpInstance) :=
  let evaluated := evaluateBalance fl iter s
  let currentEval := evaluated.1
  let s1 := evaluated.2
  if currentEval.avgGap < fl (5 / 100) then
    some (false,
      { s1 with
        m_status := T_AI_ECMP_STATUS.AI_ECMP_BALANCE
        m_inPostExpansionPeriod := false
        m_consecutiveAdjustFailures := 0 })
  else
    match expansionDecision fl s1 with
    | none => none
    | some (shouldExpand, s2) =>
      if shouldExpand then
        some (true,
          { s2.recordExpansionOperation with m_status := T_AI_ECMP_STATUS.AI_ECMP_EXPAND })
      else some (searchPath fl iter samples currentEval s2)

/-- Source: `EcmpInstance::runOptimization`, in `double`. -/
def runOptimization (fl sqrt : ℚ → ℚ) (iter : Map → Map) (samples : Nat → Nat × Nat)
    (s : EcmpInstance) : Option (Bool × EcmpInstance) :=
  if !s.m_bOptimizationEnabled then some (false, s)
  else if s.m_counterHistory.length < HISTORY_CYCLES_FOR_VARIANCE then
    some (false, { s with m_status := T_AI_ECMP_STATUS.AI_ECMP_WAIT })
  else if !isCounterVarianceStable fl sqrt s then
    some (false, { s with m_status := T_AI_ECMP_STATUS.AI_ECMP_WAIT })
  else afterStabilityGate fl iter samples s

end Rounded
/-- Ten ports of speed 10 over eleven slots: the slots 0 and 1 on port 1, slot
`h` on port `h` for `h` from 2 to 10. -/
def lopsidedConfig : T_AI_ECMP_SG_CFG :=
  { dwSgId := 9
    dwSeqId := 1
    dwFwdLagId := 0
    dwItemNum := 11
    dwPortNum := 10
    dwCounterBase := 0
    items := [⟨1, 0⟩, ⟨1, 1⟩, ⟨2, 2⟩, ⟨3, 3⟩, ⟨4, 4⟩, ⟨5, 5⟩, ⟨6, 6⟩, ⟨7, 7⟩, ⟨8, 8⟩, ⟨9, 9⟩,
      ⟨10, 10⟩]
    ports := [⟨1, 10, 2⟩, ⟨2, 10, 1⟩, ⟨3, 10, 1⟩, ⟨4, 10, 1⟩, ⟨5, 10, 1⟩, ⟨6, 10, 1⟩,
      ⟨7, 10, 1⟩, ⟨8, 10, 1⟩, ⟨9, 10, 1⟩, ⟨10, 10, 1⟩] }

/-- Counters for `lopsidedConfig`: nearly all traffic on slot 0, close to one
hundredth of the total on slot 1, a packet or two on every other slot. -/
def lopsidedCounts : List Nat :=
  [11217725224940105, 113310355807477, 1, 2, 2, 2, 1, 2, 2, 1, 1]

/-- The instance of `lopsidedConfig` holding `lopsidedCounts`, the last five
snapshots equal to them, no algorithm installed yet. -/
def lopsidedInstance : EcmpInstance :=
  { m_pAlgorithm := none
    m_sgConfig := lopsidedConfig
    m_ecmpMemberTable :=
      [(0, 1), (1, 1), (2, 2), (3, 3), (4, 4), (5, 5), (6, 6), (7, 7), (8, 8), (9, 9), (10, 10)]
    m_memberCounts := lopsidedCounts
    m_portLoads := []
    m_portSpeeds :=
      [(1, 10), (2, 10), (3, 10), (4, 10), (5, 10), (6, 10), (7, 10), (8, 10), (9, 10), (10, 10)]
    m_counterHistory := List.replicate 5 lopsidedCounts
    m_lastEval := zeroEval
    m_status := T_AI_ECMP_STATUS.AI_ECMP_WAIT
    m_wCycle := 5
    m_lastExpandCycle := 0
    m_adjustCyclesAfterExpansion := 0
    m_consecutiveAdjustFailures := 0
    m_inPostExpansionPeriod := false
    m_bOptimizationEnabled := true
    m_dwDisabledCycles := 0 }

/-! ## Theorems -/

/-! ### Reset, the disabled switch and the history gate -/

/-- C8: after `reset` the status is Init, the counter history is empty, the
cycle is 0, the four hysteresis fields are cleared and the optimisation switch
keeps its value; a second `reset` changes nothing. -/
theorem reset_clears_and_is_idempotent (s : EcmpInstance) :
    s.reset.m_status = T_AI_ECMP_STATUS.AI_ECMP_INIT ∧
    s.reset.m_counterHistory = [] ∧
    s.reset.m_wCycle = 0 ∧
    s.reset.m_lastExpandCycle = 0 ∧
    s.reset.m_adjustCyclesAfterExpansion = 0 ∧
    s.reset.m_consecutiveAdjustFailures = 0 ∧
    s.reset.m_inPostExpansionPeriod = false ∧
    s.reset.m_bOptimizationEnabled = s.m_bOptimizationEnabled ∧
    s.reset.reset = s.reset := by
  simp [EcmpInstance.reset]

/-- C5: with the optimisation switch off, `runOptimization` returns false and
leaves the instance exactly as it was; the body of the cycle for that instance
(counter update, then optimisation) hands no plan to the sink, keeps `dwResult`
and leaves the instance as `updateCounters` left it. -/
theorem disabled_instance_is_silent (sqrt : ℚ → ℚ) (samples : Nat → Nat × Nat)
    (rnd : Nat → Nat) (dwResult : Nat) (s : EcmpInstance)
    (hoff : s.m_bOptimizationEnabled = false) :
    s.runOptimization sqrt samples = some (false, s) ∧
    optimizeAndSend sqrt samples dwResult s = some ⟨s, none, dwResult⟩ ∧
    runOptimizationCycleBody rnd sqrt samples dwResult s =
      some ⟨(s.updateCounters rnd).2, none, dwResult⟩ := by
  have hrun : ∀ t : EcmpInstance, t.m_bOptimizationEnabled = false →
      t.runOptimization sqrt samples = some (false, t) := by
    intro t ht
    simp [EcmpInstance.runOptimization, ht]
  have hsend : ∀ t : EcmpInstance, t.m_bOptimizationEnabled = false →
      optimizeAndSend sqrt samples dwResult t = some ⟨t, none, dwResult⟩ := by
    intro t ht
    simp [optimizeAndSend, hrun t ht]
  have hupd : (s.updateCounters rnd).1 = true ∧
      (s.updateCounters rnd).2.m_bOptimizationEnabled = false := by
    simp [EcmpInstance.updateCounters, EcmpInstance.calculateLoadMetrics, hoff]
  refine ⟨hrun s hoff, hsend s hoff, ?_⟩
  unfold runOptimizationCycleBody
  simp only [hupd.1, Bool.not_true, Bool.false_eq_true, if_false]
  exact hsend _ hupd.2

/-- Witness of C5: the striped instance after five ticks, switched off and
with two recorded failures. -/
theorem disabled_instance_is_silent_witness :
    ({ ticks (fun _ _ => 7) 5 stripedInstance with
        m_bOptimizationEnabled := false
        m_consecutiveAdjustFailures := 2 } : EcmpInstance).m_bOptimizationEnabled = false ∧
    ({ ticks (fun _ _ => 7) 5 stripedInstance with
        m_bOptimizationEnabled := false
        m_consecutiveAdjustFailures := 2 } : EcmpInstance).runOptimization sqrtApprox
        (fun _ => (0, 1)) =
      some (false, { ticks (fun _ _ => 7) 5 stripedInstance with
        m_bOptimizationEnabled := false
        m_consecutiveAdjustFailures := 2 }) :=
  ⟨rfl, (disabled_instance_is_silent sqrtApprox (fun _ => (0, 1)) (fun _ => 7) 0 _ rfl).1⟩

/-- C6: an enabled instance with fewer than five snapshots gets status Wait
from `runOptimization`, which returns false and changes no other field (so the
assignment and the hysteresis counters stay); the cycle body sends no plan and
both plan getters refuse. -/
theorem short_history_waits (sqrt : ℚ → ℚ) (samples : Nat → Nat × Nat) (dwResult : Nat)
    (s : EcmpInstance) (nhopModifyData : T_AI_ECMP_NHOP_MODIFY)
    (hon : s.m_bOptimizationEnabled = true) (hlen : s.m_counterHistory.length < 5) :
    s.runOptimization sqrt samples =
      some (false, { s with m_status := T_AI_ECMP_STATUS.AI_ECMP_WAIT }) ∧
    optimizeAndSend sqrt samples dwResult s =
      some ⟨{ s with m_status := T_AI_ECMP_STATUS.AI_ECMP_WAIT }, none, dwResult⟩ ∧
    ({ s with m_status := T_AI_ECMP_STATUS.AI_ECMP_WAIT } : EcmpInstance).getOptimizedNextHops
      nhopModifyData = (false, nhopModifyData) ∧
    ({ s with m_status := T_AI_ECMP_STATUS.AI_ECMP_WAIT } : EcmpInstance).getExpandedNextHops
      nhopModifyData = some (false, nhopModifyData) := by
  have hrun : s.runOptimization sqrt samples =
      some (false, { s with m_status := T_AI_ECMP_STATUS.AI_ECMP_WAIT }) := by
    simp [EcmpInstance.runOptimization, hon, HISTORY_CYCLES_FOR_VARIANCE, hlen]
  refine ⟨hrun, by simp [optimizeAndSend, hrun], ?_, ?_⟩
  · simp [EcmpInstance.getOptimizedNextHops]
  · simp [EcmpInstance.getExpandedNextHops]

/-- Witness of C6: the striped instance after four ticks. -/
theorem short_history_waits_witness :
    (ticks (fun _ _ => 7) 4 stripedInstance).m_bOptimizationEnabled = true ∧
    (ticks (fun _ _ => 7) 4 stripedInstance).m_counterHistory.length < 5 ∧
    (ticks (fun _ _ => 7) 4 stripedInstance).runOptimization sqrtApprox (fun _ => (0, 1)) =
      some (false, { ticks (fun _ _ => 7) 4 stripedInstance with
        m_status := T_AI_ECMP_STATUS.AI_ECMP_WAIT }) :=
  ⟨by decide!, by decide!,
    (short_history_waits sqrtApprox (fun _ => (0, 1)) 0 (ticks (fun _ _ => 7) 4 stripedInstance)
      zeroNhopModify (by decide!) (by decide!)).1⟩

/-! ### Minimum, maximum and mean of a list -/

theorem foldl_min_le_init (xs : List ℚ) (x : ℚ) : xs.foldl min x ≤ x := by
  induction xs generalizing x with
  | nil => simp
  | cons y ys ih => simp only [List.foldl_cons]; exact le_trans (ih _) (min_le_left _ _)

theorem foldl_min_le_mem (xs : List ℚ) (x : ℚ) : ∀ y ∈ xs, xs.foldl min x ≤ y := by
  induction xs generalizing x with
  | nil => simp
  | cons z zs ih =>
    intro y hy
    simp only [List.foldl_cons]
    rcases List.mem_cons.1 hy with h | h
    · subst h; exact le_trans (foldl_min_le_init zs _) (min_le_right _ _)
    · exact ih _ y h

theorem foldl_min_mem (xs : List ℚ) (x : ℚ) : xs.foldl min x ∈ x :: xs := by
  induction xs generalizing x with
  | nil => simp
  | cons z zs ih =>
    simp only [List.foldl_cons]
    have h := ih (min x z)
    rcases List.mem_cons.1 h with h1 | h1
    · rw [h1]
      rcases min_choice x z with h2 | h2 <;> rw [h2] <;> simp
    · exact List.mem_cons_of_mem _ (List.mem_cons_of_mem _ h1)

theorem foldl_init_le_max (xs : List ℚ) (x : ℚ) : x ≤ xs.foldl max x := by
  induction xs generalizing x with
  | nil => simp
  | cons y ys ih => simp only [List.foldl_cons]; exact le_trans (le_max_left _ _) (ih _)

theorem foldl_mem_le_max (xs : List ℚ) (x : ℚ) : ∀ y ∈ xs, y ≤ xs.foldl max x := by
  induction xs generalizing x with
  | nil => simp
  | cons z zs ih =>
    intro y hy
    simp only [List.foldl_cons]
    rcases List.mem_cons.1 hy with h | h
    · subst h; exact le_trans (le_max_right _ _) (foldl_init_le_max zs _)
    · exact ih _ y h

theorem foldl_max_mem (xs : List ℚ) (x : ℚ) : xs.foldl max x ∈ x :: xs := by
  induction xs generalizing x with
  | nil => simp
  | cons z zs ih =>
    simp only [List.foldl_cons]
    have h := ih (max x z)
    rcases List.mem_cons.1 h with h1 | h1
    · rw [h1]
      rcases max_choice x z with h2 | h2 <;> rw [h2] <;> simp
    · exact List.mem_cons_of_mem _ (List.mem_cons_of_mem _ h1)

theorem minElement_mem {u : List ℚ} (hu : u ≠ []) : minElement u ∈ u := by
  cases u with
  | nil => exact absurd rfl hu
  | cons x xs => exact foldl_min_mem xs x

theorem maxElement_mem {u : List ℚ} (hu : u ≠ []) : maxElement u ∈ u := by
  cases u with
  | nil => exact absurd rfl hu
  | cons x xs => exact foldl_max_mem xs x

theorem minElement_le {u : List ℚ} {y : ℚ} (hy : y ∈ u) : minElement u ≤ y := by
  cases u with
  | nil => simp at hy
  | cons x xs =>
    rcases List.mem_cons.1 hy with h | h
    · subst h; exact foldl_min_le_init xs _
    · exact foldl_min_le_mem xs x y h

theorem le_maxElement {u : List ℚ} {y : ℚ} (hy : y ∈ u) : y ≤ maxElement u := by
  cases u with
  | nil => simp at hy
  | cons x xs =>
    rcases List.mem_cons.1 hy with h | h
    · subst h; exact foldl_init_le_max xs _
    · exact foldl_mem_le_max xs x y h

theorem foldl_add_eq_sum_map (f : ℚ → ℚ) (l : List ℚ) (a : ℚ) :
    l.foldl (fun acc x => acc + f x) a = a + (l.map f).sum := by
  induction l generalizing a with
  | nil => simp
  | cons x xs ih => simp only [List.foldl_cons, List.map_cons, List.sum_cons, ih]; ring

theorem sum_le_length_mul {l : List ℚ} {b : ℚ} (h : ∀ x ∈ l, x ≤ b) :
    l.sum ≤ (l.length : ℚ) * b := by
  induction l with
  | nil => simp
  | cons x xs ih =>
    have h1 := h x (List.mem_cons_self _ _)
    have h2 := ih (fun y hy => h y (List.mem_cons_of_mem _ hy))
    simp only [List.sum_cons, List.length_cons, Nat.cast_add, Nat.cast_one]
    linarith

theorem length_mul_le_sum {l : List ℚ} {b : ℚ} (h : ∀ x ∈ l, b ≤ x) :
    (l.length : ℚ) * b ≤ l.sum := by
  induction l with
  | nil => simp
  | cons x xs ih =>
    have h1 := h x (List.mem_cons_self _ _)
    have h2 := ih (fun y hy => h y (List.mem_cons_of_mem _ hy))
    simp only [List.sum_cons, List.length_cons, Nat.cast_add, Nat.cast_one]
    linarith

theorem length_pos_cast {u : List ℚ} (hu : u ≠ []) : (0 : ℚ) < (u.length : ℚ) := by
  have : 0 < u.length := List.length_pos.2 hu
  exact_mod_cast this

theorem mean_le_maxElement {u : List ℚ} (hu : u ≠ []) :
    u.sum / (u.length : ℚ) ≤ maxElement u := by
  rw [div_le_iff₀ (length_pos_cast hu)]
  have := sum_le_length_mul (l := u) (b := maxElement u) (fun x hx => le_maxElement hx)
  linarith

theorem minElement_le_mean {u : List ℚ} (hu : u ≠ []) :
    minElement u ≤ u.sum / (u.length : ℚ) := by
  rw [le_div_iff₀ (length_pos_cast hu)]
  have := length_mul_le_sum (l := u) (b := minElement u) (fun x hx => minElement_le hx)
  linarith

/-! ### The balance evaluation -/

theorem normalizedLoads_eq_spec (loads speeds : Map) :
    normalizedLoads loads speeds = specUtilisations loads speeds := by
  unfold normalizedLoads specUtilisations
  induction loads with
  | nil => rfl
  | cons e rest ih =>
    simp only [List.filterMap_cons, List.filter_cons]
    cases hl : speeds.lookup e.1 with
    | none => simpa using ih
    | some sp =>
      by_cases hsp : 0 < sp
      · simp [hsp, ih, hl]
      · simp [hsp, ih, hl]

theorem normalizedLoads_nonneg (loads speeds : Map) :
    ∀ x ∈ normalizedLoads loads speeds, (0 : ℚ) ≤ x := by
  intro x hx
  unfold normalizedLoads at hx
  rw [List.mem_filterMap] at hx
  obtain ⟨e, _, he⟩ := hx
  split at he
  · split at he
    · simp only [Option.some.injEq] at he
      rw [← he]
      positivity
    · simp at he
  · simp at he

theorem normalizedLoads_ne_nil_inputs {loads speeds : Map}
    (h : normalizedLoads loads speeds ≠ []) : loads.isEmpty = false ∧ speeds.isEmpty = false := by
  constructor
  · cases loads with
    | nil => simp [normalizedLoads] at h
    | cons e r => rfl
  · cases speeds with
    | nil =>
      exfalso; apply h
      simp [normalizedLoads]
    | cons e r => rfl

theorem metrics_of_nil {loads speeds : Map} (h : normalizedLoads loads speeds = []) :
    calculateLoadBalanceMetrics loads speeds = zeroEval := by
  unfold calculateLoadBalanceMetrics
  split
  · rfl
  · simp [h]

theorem metrics_of_mean_nonpos {loads speeds : Map}
    (h : ¬ 0 < (normalizedLoads loads speeds).sum / ((normalizedLoads loads speeds).length : ℚ)) :
    calculateLoadBalanceMetrics loads speeds = zeroEval := by
  unfold calculateLoadBalanceMetrics
  split
  · rfl
  · simp only []
    split
    · rfl
    · simp [h, zeroEval]

theorem metrics_of_mean_pos {loads speeds : Map}
    (h : 0 < (normalizedLoads loads speeds).sum / ((normalizedLoads loads speeds).length : ℚ)) :
    calculateLoadBalanceMetrics loads speeds =
      (let u := normalizedLoads loads speeds
       let mu := u.sum / (u.length : ℚ)
       { upBoundGap := (maxElement u - mu) / mu
         lowBoundGap := (mu - minElement u) / mu
         totalGap := (maxElement u - mu) / mu + (mu - minElement u) / mu
         avgGap := (u.map (fun x => |x - mu|)).sum / (u.length : ℚ) / mu
         balanceScore := -((maxElement u - mu) / mu + (mu - minElement u) / mu) }) := by
  have hne : normalizedLoads loads speeds ≠ [] := by
    intro h0
    rw [h0] at h
    simp at h
  have hin := normalizedLoads_ne_nil_inputs hne
  unfold calculateLoadBalanceMetrics
  simp only [hin.1, hin.2, Bool.or_self, Bool.false_eq_true, if_false, h, if_true]
  have hne2 : (normalizedLoads loads speeds).isEmpty = false := by
    cases hu : normalizedLoads loads speeds with
    | nil => exact absurd hu hne
    | cons a b => rfl
  simp only [hne2, Bool.false_eq_true, if_false, foldl_add_eq_sum_map, zero_add]


theorem sum_abs_dev_le {u : List ℚ} (mu lo hi : ℚ) (hlo : ∀ x ∈ u, lo ≤ x) (hhi : ∀ x ∈ u, x ≤ hi)
    (h1 : lo ≤ mu) (h2 : mu ≤ hi) :
    (u.map (fun x => |x - mu|)).sum ≤ (u.length : ℚ) * (hi - lo) := by
  have h := sum_le_length_mul (l := u.map (fun x => |x - mu|)) (b := hi - lo) (by
    intro y hy
    rw [List.mem_map] at hy
    obtain ⟨x, hx, rfl⟩ := hy
    have a := hlo x hx
    have b := hhi x hx
    rw [abs_le]
    constructor <;> linarith)
  simpa using h

/-- C9: with `u` the utilisations `load[p] / speed[p]` of the ports that have a
positive speed entry and `mu` their mean, `calculateLoadBalanceMetrics`
returns the zero evaluation when `u` is empty or `mu = 0`; otherwise `mu` is
positive (every division of the source has a positive denominator) and
`upBoundGap = (max u - mu) / mu`, `lowBoundGap = (mu - min u) / mu`,
`totalGap = upBoundGap + lowBoundGap`,
`avgGap = (sum of |u_p - mu|) / (|u| * mu)` and
`balanceScore = -(upBoundGap + lowBoundGap)`. -/
theorem loadBalanceMetrics_formula (port_loads port_speeds : Map) :
    let u := specUtilisations port_loads port_speeds
    let mu := specMean u
    let r := calculateLoadBalanceMetrics port_loads port_speeds
    ((u = [] ∨ mu = 0) → r = zeroEval) ∧
    (u ≠ [] → mu ≠ 0 →
      0 < mu ∧
      (∃ mx ∈ u, (∀ x ∈ u, x ≤ mx) ∧ r.upBoundGap = (mx - mu) / mu) ∧
      (∃ mn ∈ u, (∀ x ∈ u, mn ≤ x) ∧ r.lowBoundGap = (mu - mn) / mu) ∧
      r.totalGap = r.upBoundGap + r.lowBoundGap ∧
      r.avgGap = (u.map (fun x => |x - mu|)).sum / ((u.length : ℚ) * mu) ∧
      r.balanceScore = -(r.upBoundGap + r.lowBoundGap)) := by
  intro u mu r
  have hu : normalizedLoads port_loads port_speeds = u := normalizedLoads_eq_spec _ _
  constructor
  · rintro (h | h)
    · exact metrics_of_nil (hu.trans h)
    · apply metrics_of_mean_nonpos
      rw [hu]
      show ¬ 0 < mu
      rw [h]
      exact lt_irrefl 0
  · intro hne hmu
    have hnonneg : 0 ≤ mu := by
      show 0 ≤ u.sum / (u.length : ℚ)
      apply div_nonneg
      · apply List.sum_nonneg
        intro x hx
        rw [← hu] at hx
        exact normalizedLoads_nonneg _ _ x hx
      · exact Nat.cast_nonneg _
    have hpos : 0 < mu := lt_of_le_of_ne hnonneg (Ne.symm hmu)
    have hpos2 : 0 < (normalizedLoads port_loads port_speeds).sum /
        ((normalizedLoads port_loads port_speeds).length : ℚ) := by
      rw [hu]; exact hpos
    have hr : r = _ := metrics_of_mean_pos hpos2
    rw [hu] at hr
    refine ⟨hpos, ⟨maxElement u, maxElement_mem hne, fun x hx => le_maxElement hx, ?_⟩,
      ⟨minElement u, minElement_mem hne, fun x hx => minElement_le hx, ?_⟩, ?_, ?_, ?_⟩
    · rw [hr]; rfl
    · rw [hr]; rfl
    · rw [hr]
    · rw [hr]
      show (u.map (fun x => |x - mu|)).sum / (u.length : ℚ) / mu = _
      rw [div_div]
    · rw [hr]

/-- C10 (amended): in exact arithmetic the evaluation returned by
`calculateLoadBalanceMetrics` satisfies `0 ≤ avgGap ≤ totalGap`,
`0 ≤ upBoundGap`, `0 ≤ lowBoundGap`, `balanceScore = -totalGap ≤ 0`, and
`calculateBalanceScore` of it is its `balanceScore` field. -/
theorem loadBalanceMetrics_bounds (port_loads port_speeds : Map) :
    let r := calculateLoadBalanceMetrics port_loads port_speeds
    0 ≤ r.avgGap ∧ r.avgGap ≤ r.totalGap ∧ 0 ≤ r.upBoundGap ∧ 0 ≤ r.lowBoundGap ∧
    r.balanceScore = -r.totalGap ∧ r.balanceScore ≤ 0 ∧
    calculateBalanceScore r = r.balanceScore := by
  intro r
  by_cases hpos : 0 < (normalizedLoads port_loads port_speeds).sum /
      ((normalizedLoads port_loads port_speeds).length : ℚ)
  · have hr : r = _ := metrics_of_mean_pos hpos
    have hne : normalizedLoads port_loads port_speeds ≠ [] := by
      intro h0
      rw [h0] at hpos
      simp at hpos
    generalize normalizedLoads port_loads port_speeds = u at hr hpos hne
    have hmax := mean_le_maxElement hne
    have hmin := minElement_le_mean hne
    have hlen := length_pos_cast hne
    have hdev := sum_abs_dev_le (u := u) (u.sum / (u.length : ℚ)) (minElement u) (maxElement u)
      (fun x hx => minElement_le hx) (fun x hx => le_maxElement hx) hmin hmax
    have hup : 0 ≤ (maxElement u - u.sum / (u.length : ℚ)) / (u.sum / (u.length : ℚ)) :=
      div_nonneg (by linarith) hpos.le
    have hlow : 0 ≤ (u.sum / (u.length : ℚ) - minElement u) / (u.sum / (u.length : ℚ)) :=
      div_nonneg (by linarith) hpos.le
    have hsumnn : 0 ≤ (u.map (fun x => |x - u.sum / (u.length : ℚ)|)).sum := by
      apply List.sum_nonneg
      intro y hy
      rw [List.mem_map] at hy
      obtain ⟨x, _, rfl⟩ := hy
      exact abs_nonneg _
    rw [hr]
    refine ⟨?_, ?_, hup, hlow, rfl, ?_, ?_⟩
    · exact div_nonneg (div_nonneg hsumnn hlen.le) hpos.le
    · show (u.map (fun x => |x - u.sum / (u.length : ℚ)|)).sum / (u.length : ℚ) /
        (u.sum / (u.length : ℚ)) ≤
        (maxElement u - u.sum / (u.length : ℚ)) / (u.sum / (u.length : ℚ)) +
          (u.sum / (u.length : ℚ) - minElement u) / (u.sum / (u.length : ℚ))
      rw [← add_div]
      apply div_le_div_of_nonneg_right _ hpos.le
      rw [div_le_iff₀ hlen]
      linarith
    · show -(_ + _) ≤ (0 : ℚ)
      linarith
    · simp [calculateBalanceScore]
  · have hr : r = zeroEval := metrics_of_mean_nonpos hpos
    rw [hr]
    simp [zeroEval, calculateBalanceScore]

/-! ### The expansion planner -/

theorem currentTotalWeight_foldl (L : List PortWeightInfo) (a : Nat)
    (h : a + (L.map (fun i => i.dwCurrentWeight)).sum < W32) :
    L.foldl (fun total info => (total + info.dwCurrentWeight) % W32) a =
      a + (L.map (fun i => i.dwCurrentWeight)).sum := by
  induction L generalizing a with
  | nil => simp
  | cons x xs ih =>
    simp only [List.map_cons, List.sum_cons] at h
    simp only [List.foldl_cons, List.map_cons, List.sum_cons]
    have h1 : (a + x.dwCurrentWeight) % W32 = a + x.dwCurrentWeight :=
      Nat.mod_eq_of_lt (by omega)
    rw [h1, ih _ (by omega)]
    omega

theorem expandWeights_some {L L' : List PortWeightInfo} {S T : Nat} (hS : S ≤ 128)
    (hL : ∀ i ∈ L, i.dwNewWeight = i.dwCurrentWeight)
    (h : expandWeights L S = some (L', T)) :
    T ≤ 128 ∧
    L'.map (fun i => (i.dwPortId, i.dwCurrentWeight)) =
      L.map (fun i => (i.dwPortId, i.dwCurrentWeight)) ∧
    (∀ i ∈ L', i.dwCurrentWeight < i.dwNewWeight) ∧
    (L'.map (fun i => i.dwNewWeight)).sum + S = (L.map (fun i => i.dwCurrentWeight)).sum + T := by
  induction L generalizing S L' T with
  | nil =>
    simp only [expandWeights, Option.some.injEq, Prod.mk.injEq] at h
    obtain ⟨rfl, rfl⟩ := h
    simp [hS]
  | cons x xs ih =>
    unfold expandWeights at h
    have havail : (FTM_TRUNK_MAX_HASH_NUM_15K + W32 - S) % W32 = 128 - S := by
      simp only [FTM_TRUNK_MAX_HASH_NUM_15K, W32]
      omega
    simp only [havail] at h
    generalize hdef : (if x.dwCurrentWeight = 0 then 1 else x.dwCurrentWeight) = d at h
    have hd1 : 1 ≤ d ∧ x.dwCurrentWeight ≤ d := by
      rw [← hdef]; split <;> omega
    by_cases hcap : 128 - S < d
    · simp [hcap] at h
    · simp only [hcap, if_false] at h
      have hd : d ≤ 128 - S := Nat.le_of_not_lt hcap
      have hsum : (S + d) % W32 = S + d := Nat.mod_eq_of_lt (by simp only [W32]; omega)
      rw [hsum] at h
      split at h
      · simp at h
      · rename_i rest' total hrec
        simp only [Option.some.injEq, Prod.mk.injEq] at h
        obtain ⟨rfl, rfl⟩ := h
        have hx := hL x (List.mem_cons_self _ _)
        have hrest := ih (S := S + d) (by omega)
          (fun i hi => hL i (List.mem_cons_of_mem _ hi)) hrec
        obtain ⟨h1, h2, h3, h4⟩ := hrest
        have hnew : (x.dwNewWeight + d) % W32 = x.dwNewWeight + d :=
          Nat.mod_eq_of_lt (by simp only [W32]; omega)
        refine ⟨h1, ?_, ?_, ?_⟩
        · simp only [List.map_cons, h2]
        · intro i hi
          rcases List.mem_cons.1 hi with rfl | hi
          · simp only [hnew]; omega
          · exact h3 i hi
        · simp only [List.map_cons, List.sum_cons, hnew]
          omega

/-- C2: for an instance in status Expand whose configuration has between 1 and
128 ports with weights summing to at most 128, a `true` return of
`getExpandedNextHops` comes with new weights (the ones of `plannedWeights`, for
exactly the configured ports and their configured old weights) such that every
new weight is at least the old one, at least one is strictly greater, and the
emitted `dwItemNum` is the sum of the new weights and at most 128. -/
theorem expansion_is_monotone_and_bounded (s : EcmpInstance)
    (nhopModifyData out : T_AI_ECMP_NHOP_MODIFY)
    (hstatus : s.m_status = T_AI_ECMP_STATUS.AI_ECMP_EXPAND)
    (hp1 : 1 ≤ s.m_sgConfig.dwPortNum) (hp2 : s.m_sgConfig.dwPortNum ≤ 128)
    (hsum : ((List.range s.m_sgConfig.dwPortNum).map
      (fun i => (s.m_sgConfig.port i).dwWeight)).sum ≤ 128)
    (hret : s.getExpandedNextHops nhopModifyData = some (true, out)) :
    ∃ portInfos : List PortWeightInfo,
      plannedWeights s.m_sgConfig = some (portInfos, out.dwItemNum) ∧
      (portInfos.map (fun i => (i.dwPortId, i.dwCurrentWeight))).Perm
        ((List.range s.m_sgConfig.dwPortNum).map
          (fun i => ((s.m_sgConfig.port i).dwPortId, (s.m_sgConfig.port i).dwWeight))) ∧
      (∀ i ∈ portInfos, i.dwCurrentWeight ≤ i.dwNewWeight) ∧
      (∃ i ∈ portInfos, i.dwCurrentWeight < i.dwNewWeight) ∧
      out.dwItemNum = (portInfos.map (fun i => i.dwNewWeight)).sum ∧
      out.dwItemNum ≤ 128 := by
  have hmin : min s.m_sgConfig.dwPortNum FTM_LAG_MAX_MEM_NUM_15K = s.m_sgConfig.dwPortNum := by
    simp only [FTM_LAG_MAX_MEM_NUM_15K]; omega
  have hterm : word16LoopTerminates s.m_sgConfig.dwPortNum = true := by
    simp only [word16LoopTerminates, W16, decide_eq_true_eq]; omega
  have hne : s.m_sgConfig.dwPortNum ≠ 0 := by omega
  unfold EcmpInstance.getExpandedNextHops at hret
  simp only [hstatus, ne_eq, not_true_eq_false, if_false, hne, hterm, Bool.not_true,
    Bool.false_eq_true] at hret
  split at hret
  · simp at hret
  · rename_i portInfos total hplan
    simp only [Option.some.injEq, Prod.mk.injEq, true_and] at hret
    subst hret
    have hcur : (collectPortInfos s.m_sgConfig).map (fun i => i.dwCurrentWeight) =
        (List.range s.m_sgConfig.dwPortNum).map (fun i => (s.m_sgConfig.port i).dwWeight) := by
      simp [collectPortInfos, hmin, Function.comp_def]
    have hpair : (collectPortInfos s.m_sgConfig).map (fun i => (i.dwPortId, i.dwCurrentWeight)) =
        (List.range s.m_sgConfig.dwPortNum).map
          (fun i => ((s.m_sgConfig.port i).dwPortId, (s.m_sgConfig.port i).dwWeight)) := by
      simp [collectPortInfos, hmin, Function.comp_def]
    have htotal : currentTotalWeight (collectPortInfos s.m_sgConfig) =
        ((collectPortInfos s.m_sgConfig).map (fun i => i.dwCurrentWeight)).sum := by
      unfold currentTotalWeight
      rw [currentTotalWeight_foldl _ 0 (by rw [hcur]; simp only [W32]; omega)]
      simp
    have hperm : (sortPortInfos (collectPortInfos s.m_sgConfig)).Perm
        (collectPortInfos s.m_sgConfig) := List.perm_insertionSort _ _
    have hnewcur : ∀ i ∈ sortPortInfos (collectPortInfos s.m_sgConfig),
        i.dwNewWeight = i.dwCurrentWeight := by
      intro i hi
      have hi2 := hperm.mem_iff.1 hi
      simp only [collectPortInfos, List.mem_map] at hi2
      obtain ⟨j, _, rfl⟩ := hi2
      rfl
    unfold plannedWeights at hplan
    simp only [] at hplan
    have hS : currentTotalWeight (collectPortInfos s.m_sgConfig) ≤ 128 := by
      rw [htotal, hcur]; exact hsum
    obtain ⟨h1, h2, h3, h4⟩ := expandWeights_some hS hnewcur hplan
    have hsortsum : ((sortPortInfos (collectPortInfos s.m_sgConfig)).map
        (fun i => i.dwCurrentWeight)).sum =
        ((collectPortInfos s.m_sgConfig).map (fun i => i.dwCurrentWeight)).sum :=
      (hperm.map _).sum_eq
    refine ⟨portInfos, ?_, ?_, ?_, ?_, ?_, h1⟩
    · unfold plannedWeights
      exact hplan
    · rw [h2, ← hpair]
      exact hperm.map _
    · intro i hi
      exact (h3 i hi).le
    · have hlen : portInfos.length = s.m_sgConfig.dwPortNum := by
        have := congrArg List.length h2
        simp only [List.length_map] at this
        rw [this, hperm.length_eq]
        simp [collectPortInfos, hmin]
      cases portInfos with
      | nil => simp at hlen; omega
      | cons i rest => exact ⟨i, List.mem_cons_self _ _, h3 i (List.mem_cons_self _ _)⟩
    · show total = _
      rw [hsortsum, ← htotal] at h4
      omega

/-- Witness of C2: the striped instance (weights 2, 2, 2, 2) in status Expand
is given the plan of 16 slots, four per port. -/
theorem expansion_is_monotone_and_bounded_witness :
    ({ stripedInstance with m_status := T_AI_ECMP_STATUS.AI_ECMP_EXPAND } :
        EcmpInstance).getExpandedNextHops zeroNhopModify =
      some (true, ⟨7, 42, 16,
        [1, 1, 1, 1, 2, 2, 2, 2, 3, 3, 3, 3, 4, 4, 4, 4] ++ List.replicate 112 0⟩) ∧
    ∃ portInfos : List PortWeightInfo,
      plannedWeights stripedConfig = some (portInfos, 16) ∧
      (portInfos.map (fun i => (i.dwPortId, i.dwCurrentWeight))).Perm
        ((List.range 4).map
          (fun i => ((stripedConfig.port i).dwPortId, (stripedConfig.port i).dwWeight))) ∧
      (∀ i ∈ portInfos, i.dwCurrentWeight ≤ i.dwNewWeight) ∧
      (∃ i ∈ portInfos, i.dwCurrentWeight < i.dwNewWeight) ∧
      16 = (portInfos.map (fun i => i.dwNewWeight)).sum ∧
      16 ≤ 128 :=
  ⟨by decide!,
    expansion_is_monotone_and_bounded
      { stripedInstance with m_status := T_AI_ECMP_STATUS.AI_ECMP_EXPAND } zeroNhopModify
      ⟨7, 42, 16, [1, 1, 1, 1, 2, 2, 2, 2, 3, 3, 3, 3, 4, 4, 4, 4] ++ List.replicate 112 0⟩
      rfl (by decide) (by decide) (by decide) (by decide!)⟩

/-! ### Tracing `runOptimization` -/

theorem metrics_totalGap (loads speeds : Map) :
    (calculateLoadBalanceMetrics loads speeds).totalGap =
      (calculateLoadBalanceMetrics loads speeds).upBoundGap +
        (calculateLoadBalanceMetrics loads speeds).lowBoundGap := by
  by_cases hpos : 0 < (normalizedLoads loads speeds).sum /
      ((normalizedLoads loads speeds).length : ℚ)
  · rw [metrics_of_mean_pos hpos]
  · rw [metrics_of_mean_nonpos hpos]
    simp [zeroEval]

theorem recordAdjustmentResult_frame (s : EcmpInstance) (b : Bool) :
    (s.recordAdjustmentResult b).m_ecmpMemberTable = s.m_ecmpMemberTable ∧
    (s.recordAdjustmentResult b).m_memberCounts = s.m_memberCounts ∧
    (s.recordAdjustmentResult b).m_portSpeeds = s.m_portSpeeds ∧
    (s.recordAdjustmentResult b).m_sgConfig = s.m_sgConfig ∧
    (s.recordAdjustmentResult b).m_pAlgorithm = s.m_pAlgorithm := by
  unfold EcmpInstance.recordAdjustmentResult
  cases b <;> cases s.m_inPostExpansionPeriod <;> simp

theorem ensureAlgorithm_frame (s : EcmpInstance) :
    s.ensureAlgorithm.m_ecmpMemberTable = s.m_ecmpMemberTable ∧
    s.ensureAlgorithm.m_memberCounts = s.m_memberCounts ∧
    s.ensureAlgorithm.m_portSpeeds = s.m_portSpeeds ∧
    s.ensureAlgorithm.m_sgConfig = s.m_sgConfig ∧
    s.ensureAlgorithm.m_pAlgorithm = some (s.m_pAlgorithm.getD ⟨10000, 1 / 10⟩) := by
  unfold EcmpInstance.ensureAlgorithm
  cases hs : s.m_pAlgorithm with
  | none => simp [EcmpInstance.setAlgorithm]
  | some a => simp [hs]

theorem searchWith_true {samples : Nat → Nat × Nat} {currentEval : T_AI_ECMP_EVAL}
    {algorithm : LocalSearch} {s s' : EcmpInstance}
    (h : s.searchWith samples currentEval algorithm = (true, s')) :
    s'.m_ecmpMemberTable =
      algorithm.optimize samples s.m_ecmpMemberTable s.m_memberCounts s.m_portSpeeds ∧
    s'.m_memberCounts = s.m_memberCounts ∧
    s'.m_portSpeeds = s.m_portSpeeds ∧
    s'.m_sgConfig = s.m_sgConfig ∧
    s'.m_status = T_AI_ECMP_STATUS.AI_ECMP_ADJUST ∧
    isOptimizationEffective currentEval
      (calculateLoadBalanceMetrics
        (calculatePortLoads s'.m_ecmpMemberTable s.m_memberCounts) s.m_portSpeeds) 1 = true := by
  unfold EcmpInstance.searchWith at h
  simp only [] at h
  split at h
  · simp at h
  · split at h
    · simp at h
    · rename_i heff
      simp only [Prod.mk.injEq, true_and] at h
      subst h
      simp only [(recordAdjustmentResult_frame _ true).1, (recordAdjustmentResult_frame _ true).2.1,
        (recordAdjustmentResult_frame _ true).2.2.1, (recordAdjustmentResult_frame _ true).2.2.2.1,
        EcmpInstance.calculateLoadMetrics, true_and]
      simpa using heff

/-- What a `true` return of the search path means: the member table is the one
`optimize` returned for the algorithm in use, it was judged effective against
`currentEval`, and the status is Adjust. -/
theorem searchPath_true {samples : Nat → Nat × Nat} {currentEval : T_AI_ECMP_EVAL}
    {s s' : EcmpInstance} (h : s.searchPath samples currentEval = (true, s')) :
    ∃ algorithm : LocalSearch,
      algorithm = s.m_pAlgorithm.getD ⟨10000, 1 / 10⟩ ∧
      s'.m_ecmpMemberTable =
        algorithm.optimize samples s.m_ecmpMemberTable s.m_memberCounts s.m_portSpeeds ∧
      s'.m_memberCounts = s.m_memberCounts ∧
      s'.m_portSpeeds = s.m_portSpeeds ∧
      s'.m_sgConfig = s.m_sgConfig ∧
      s'.m_status = T_AI_ECMP_STATUS.AI_ECMP_ADJUST ∧
      isOptimizationEffective currentEval
        (calculateLoadBalanceMetrics
          (calculatePortLoads s'.m_ecmpMemberTable s.m_memberCounts) s.m_portSpeeds) 1 = true := by
  obtain ⟨f1, f2, f3, f4, f5⟩ := ensureAlgorithm_frame s
  unfold EcmpInstance.searchPath at h
  simp only [f5] at h
  obtain ⟨g1, g2, g3, g4, g5, g6⟩ := searchWith_true h
  rw [f1, f2, f3] at g1
  rw [f2, f3] at g6
  exact ⟨_, rfl, g1, g2.trans f2, g3.trans f3, g4.trans f4, g5, g6⟩

theorem expansionDecision_frame {s s2 : EcmpInstance} {b : Bool}
    (h : s.expansionDecision = some (b, s2)) :
    s2.m_ecmpMemberTable = s.m_ecmpMemberTable ∧ s2.m_memberCounts = s.m_memberCounts ∧
    s2.m_portSpeeds = s.m_portSpeeds ∧ s2.m_sgConfig = s.m_sgConfig ∧
    s2.m_pAlgorithm = s.m_pAlgorithm := by
  unfold EcmpInstance.expansionDecision at h
  split at h
  · split at h
    · simp at h
    · split at h
      · simp only [Option.some.injEq, Prod.mk.injEq] at h
        obtain ⟨_, rfl⟩ := h
        split <;> simp
      · simp only [Option.some.injEq, Prod.mk.injEq] at h
        obtain ⟨_, rfl⟩ := h
        simp
  · have hskip : (s.shouldSkipExpansionCheck).2.m_ecmpMemberTable = s.m_ecmpMemberTable ∧
        (s.shouldSkipExpansionCheck).2.m_memberCounts = s.m_memberCounts ∧
        (s.shouldSkipExpansionCheck).2.m_portSpeeds = s.m_portSpeeds ∧
        (s.shouldSkipExpansionCheck).2.m_sgConfig = s.m_sgConfig ∧
        (s.shouldSkipExpansionCheck).2.m_pAlgorithm = s.m_pAlgorithm := by
      unfold EcmpInstance.shouldSkipExpansionCheck
      split
      · simp
      · split <;> simp
    simp only [] at h
    split at h
    · simp only [Option.some.injEq, Prod.mk.injEq] at h
      obtain ⟨_, rfl⟩ := h
      exact hskip
    · split at h
      · simp at h
      · simp only [Option.some.injEq, Prod.mk.injEq] at h
        obtain ⟨_, rfl⟩ := h
        exact hskip

/-- A run of `runOptimization` that returns true with status Adjust went
through the search path, entered with the evaluation of the current table and
from an instance with the same table, counters, speeds and algorithm. -/
theorem runOptimization_adjust {sqrt : ℚ → ℚ} {samples : Nat → Nat × Nat}
    {s s' : EcmpInstance} (hrun : s.runOptimization sqrt samples = some (true, s'))
    (hadj : s'.m_status = T_AI_ECMP_STATUS.AI_ECMP_ADJUST) :
    ∃ s2 : EcmpInstance,
      s2.m_ecmpMemberTable = s.m_ecmpMemberTable ∧ s2.m_memberCounts = s.m_memberCounts ∧
      s2.m_portSpeeds = s.m_portSpeeds ∧ s2.m_sgConfig = s.m_sgConfig ∧
      s2.m_pAlgorithm = s.m_pAlgorithm ∧
      s2.searchPath samples
        (calculateLoadBalanceMetrics (calculatePortLoads s.m_ecmpMemberTable s.m_memberCounts)
          s.m_portSpeeds) = (true, s') := by
  unfold EcmpInstance.runOptimization at hrun
  split at hrun
  · simp at hrun
  · split at hrun
    · simp at hrun
    · split at hrun
      · simp at hrun
      · unfold EcmpInstance.afterStabilityGate at hrun
        simp only [] at hrun
        split at hrun
        · simp at hrun
        · split at hrun
          · simp at hrun
          · rename_i shouldExpand s2 hdec
            have hframe := expansionDecision_frame hdec
            simp only [EcmpInstance.evaluateBalance] at hframe
            split at hrun
            · simp only [Option.some.injEq, Prod.mk.injEq, true_and] at hrun
              subst hrun
              simp at hadj
            · simp only [Option.some.injEq] at hrun
              exact ⟨s2, hframe.1, hframe.2.1, hframe.2.2.1, hframe.2.2.2.1, hframe.2.2.2.2,
                by simpa [EcmpInstance.evaluateBalance] using hrun⟩

/-- C3: when `runOptimization` returns true with status Adjust, the counters
and speeds are unchanged, and the total gap (`upBoundGap + lowBoundGap`, which
is the field `totalGap`) of the new table on those counters is strictly below
the total gap of the table before the call, the relative reduction
`(before - after) / before * 100` being at least 1. -/
theorem adjust_strictly_improves (sqrt : ℚ → ℚ) (samples : Nat → Nat × Nat)
    (s s' : EcmpInstance) (hrun : s.runOptimization sqrt samples = some (true, s'))
    (hadj : s'.m_status = T_AI_ECMP_STATUS.AI_ECMP_ADJUST) :
    s'.m_memberCounts = s.m_memberCounts ∧ s'.m_portSpeeds = s.m_portSpeeds ∧
    (calculateLoadBalanceMetrics
        (calculatePortLoads s'.m_ecmpMemberTable s.m_memberCounts) s.m_portSpeeds).totalGap <
      (calculateLoadBalanceMetrics
        (calculatePortLoads s.m_ecmpMemberTable s.m_memberCounts) s.m_portSpeeds).totalGap ∧
    1 ≤ ((calculateLoadBalanceMetrics
          (calculatePortLoads s.m_ecmpMemberTable s.m_memberCounts) s.m_portSpeeds).totalGap -
        (calculateLoadBalanceMetrics
          (calculatePortLoads s'.m_ecmpMemberTable s.m_memberCounts) s.m_portSpeeds).totalGap) /
      (calculateLoadBalanceMetrics
        (calculatePortLoads s.m_ecmpMemberTable s.m_memberCounts) s.m_portSpeeds).totalGap * 100 ∧
    (calculateLoadBalanceMetrics
        (calculatePortLoads s.m_ecmpMemberTable s.m_memberCounts) s.m_portSpeeds).totalGap =
      (calculateLoadBalanceMetrics
        (calculatePortLoads s.m_ecmpMemberTable s.m_memberCounts) s.m_portSpeeds).upBoundGap +
      (calculateLoadBalanceMetrics
        (calculatePortLoads s.m_ecmpMemberTable s.m_memberCounts) s.m_portSpeeds).lowBoundGap := by
  obtain ⟨s2, h1, h2, h3, _, _, hsearch⟩ := runOptimization_adjust hrun hadj
  obtain ⟨algorithm, _, _, hc, hs, _, _, heff⟩ := searchPath_true hsearch
  rw [h2, h3] at heff
  refine ⟨hc.trans h2, hs.trans h3, ?_, ?_, metrics_totalGap _ _⟩
  all_goals
    unfold isOptimizationEffective calculateImprovementPercentage at heff
    simp only [decide_eq_true_eq] at heff
    rw [← metrics_totalGap, ← metrics_totalGap] at heff
    generalize (calculateLoadBalanceMetrics
      (calculatePortLoads s.m_ecmpMemberTable s.m_memberCounts) s.m_portSpeeds).totalGap = b at heff ⊢
    generalize (calculateLoadBalanceMetrics
      (calculatePortLoads s'.m_ecmpMemberTable s.m_memberCounts) s.m_portSpeeds).totalGap = a at heff ⊢
    split at heff
    · norm_num at heff
    · rename_i hb
      have hbpos : 0 < b := lt_of_not_ge hb
      first
        | exact heff
        | (have h5 : (0 : ℚ) < (b - a) / b * 100 := by linarith
           have h6 : 0 < (b - a) / b := by linarith
           have h7 : 0 < b - a := by
             by_contra hneg
             have : (b - a) / b ≤ 0 := div_nonpos_of_nonpos_of_nonneg (by linarith) hbpos.le
             linarith
           linarith)

set_option maxRecDepth 100000 in
/-- Witness of C3: five identical snapshots with port 1 overloaded; the search
exchanges the slots 0 and 1 and the total gap falls from 36/13 to 18/13. -/
theorem adjust_strictly_improves_witness :
    imbalancedInstance.runOptimization sqrtApprox (fun _ => (0, 1)) =
      some (true, imbalancedAdjusted) ∧
    (calculateLoadBalanceMetrics
        (calculatePortLoads imbalancedAdjusted.m_ecmpMemberTable imbalancedInstance.m_memberCounts)
        imbalancedInstance.m_portSpeeds).totalGap = 18 / 13 ∧
    (calculateLoadBalanceMetrics
        (calculatePortLoads imbalancedAdjusted.m_ecmpMemberTable imbalancedInstance.m_memberCounts)
        imbalancedInstance.m_portSpeeds).totalGap <
      (calculateLoadBalanceMetrics
        (calculatePortLoads imbalancedInstance.m_ecmpMemberTable imbalancedInstance.m_memberCounts)
        imbalancedInstance.m_portSpeeds).totalGap :=
  ⟨by decide!, by decide!,
    (adjust_strictly_improves sqrtApprox (fun _ => (0, 1)) imbalancedInstance imbalancedAdjusted
      (by decide!) rfl).2.2.1⟩

/-! ### The stability gate -/

theorem calculateMean_replicate (m : Nat) (k : ℚ) (hm : 1 ≤ m) :
    calculateMean (List.replicate m k) = k := by
  unfold calculateMean
  have hne : (List.replicate m k).isEmpty = false := by
    cases m with
    | zero => omega
    | succ n => rfl
  simp only [hne, Bool.false_eq_true, if_false, List.sum_replicate, List.length_replicate,
    nsmul_eq_mul]
  have : (m : ℚ) ≠ 0 := by
    have : 0 < m := hm
    exact_mod_cast this.ne'
  field_simp

theorem filterMap_eq_map_of_forall {α β : Type} (f : α → Option β) (g : α → β) (l : List α)
    (h : ∀ x ∈ l, f x = some (g x)) : l.filterMap f = l.map g := by
  induction l with
  | nil => rfl
  | cons x xs ih =>
    rw [List.filterMap_cons, h x (List.mem_cons_self _ _), List.map_cons,
      ih (fun y hy => h y (List.mem_cons_of_mem _ hy))]

theorem counterCoefficient_of_uniform (sqrt : ℚ → ℚ) (H : List (List Nat)) (counts : List Nat)
    (k : ℚ) (hlen : 2 ≤ H.length) (hm : 1 ≤ counts.length)
    (hall : ∀ i < counts.length, 2 ≤ (memberValues H i).length ∧
      calculateVariationCoefficient sqrt (memberValues H i) = k) :
    calculateCounterVarianceCoefficient sqrt H counts = k := by
  have hcoeffs : allVarianceCoeffs sqrt H counts.length = List.replicate counts.length k := by
    unfold allVarianceCoeffs
    rw [filterMap_eq_map_of_forall _ (fun _ => k)]
    · rw [List.eq_replicate_iff]
      simp
    · intro i hi
      rw [List.mem_range] at hi
      obtain ⟨h1, h2⟩ := hall i hi
      simp only [h1, if_true, h2]
  unfold calculateCounterVarianceCoefficient
  have h1 : ¬ H.length < 2 := by omega
  simp only [h1, if_false, hcoeffs]
  have hne : (List.replicate counts.length k).isEmpty = false := by
    cases hc : counts.length with
    | zero => omega
    | succ n => rfl
  simp only [hne, Bool.false_eq_true, if_false]
  exact calculateMean_replicate _ _ hm


theorem memberValues_const (H : List (List Nat)) (v : List Nat) (i : Nat)
    (hconst : ∀ h ∈ H, h = v) (hi : i < v.length) :
    memberValues H i = List.replicate H.length ((v.getD i 0 : Nat) : ℚ) := by
  unfold memberValues
  rw [filterMap_eq_map_of_forall _ (fun _ => ((v.getD i 0 : Nat) : ℚ))]
  · rw [List.eq_replicate_iff]
    simp
  · intro h hh
    rw [hconst h hh]
    simp [hi]

theorem variationCoefficient_replicate_pos (sqrt : ℚ → ℚ) (hsqrt : sqrt 0 = 0) (n : Nat) (c : ℚ)
    (hn : 2 ≤ n) (hc : 0 < c) : calculateVariationCoefficient sqrt (List.replicate n c) = 0 := by
  unfold calculateVariationCoefficient
  have hne : (List.replicate n c).isEmpty = false := by
    cases n with
    | zero => omega
    | succ m => rfl
  simp only [hne, Bool.false_eq_true, if_false, calculateMean_replicate n c (by omega)]
  have h1 : ¬ c ≤ 0 := not_le.2 hc
  simp only [h1, if_false]
  unfold calculateStandardDeviation
  have h2 : ¬ (List.replicate n c).length ≤ 1 := by simp; omega
  simp only [h2, if_false]
  have h3 : ∀ (l : List ℚ) (a : ℚ), (∀ x ∈ l, x = c) →
      l.foldl (fun acc value => acc + (value - c) * (value - c)) a = a := by
    intro l
    induction l with
    | nil => intro a _; rfl
    | cons x xs ih =>
      intro a hx
      rw [List.foldl_cons, hx x (List.mem_cons_self _ _)]
      simp only [sub_self, mul_zero, add_zero]
      exact ih a (fun y hy => hx y (List.mem_cons_of_mem _ hy))
  rw [h3 _ 0 (fun x hx => List.eq_of_mem_replicate hx)]
  simp [hsqrt]

theorem variationCoefficient_replicate_zero (sqrt : ℚ → ℚ) (n : Nat) (hn : 1 ≤ n) :
    calculateVariationCoefficient sqrt (List.replicate n 0) = 1 := by
  unfold calculateVariationCoefficient
  have hne : (List.replicate n (0 : ℚ)).isEmpty = false := by
    cases n with
    | zero => omega
    | succ m => rfl
  simp only [hne, Bool.false_eq_true, if_false, calculateMean_replicate n 0 hn, le_refl, if_true]

/-- A history of at least two snapshots, all equal to one vector that covers
every slot and is positive on every slot, has variance coefficient 0 (for a
square root that maps 0 to 0). -/
theorem counterCoefficient_const_pos (sqrt : ℚ → ℚ) (hsqrt : sqrt 0 = 0) (H : List (List Nat))
    (counts v : List Nat) (hlen : 2 ≤ H.length) (hconst : ∀ h ∈ H, h = v)
    (hcover : counts.length ≤ v.length) (hslots : 1 ≤ counts.length) (hpos : ∀ x ∈ v, 0 < x) :
    calculateCounterVarianceCoefficient sqrt H counts = 0 := by
  apply counterCoefficient_of_uniform sqrt H counts 0 hlen hslots
  intro i hi
  have hiv : i < v.length := by omega
  rw [memberValues_const H v i hconst hiv]
  refine ⟨by simpa using hlen, ?_⟩
  apply variationCoefficient_replicate_pos sqrt hsqrt _ _ hlen
  have hmem : v.getD i 0 ∈ v := by
    rw [List.getD_eq_getElem _ _ hiv]
    exact List.getElem_mem _
  exact_mod_cast hpos _ hmem

/-- A history of at least two snapshots, all equal to one vector that covers
every slot and is zero on every slot, has variance coefficient 1. -/
theorem counterCoefficient_const_zero (sqrt : ℚ → ℚ) (H : List (List Nat))
    (counts v : List Nat) (hlen : 2 ≤ H.length) (hconst : ∀ h ∈ H, h = v)
    (hcover : counts.length ≤ v.length) (hslots : 1 ≤ counts.length) (hzero : ∀ x ∈ v, x = 0) :
    calculateCounterVarianceCoefficient sqrt H counts = 1 := by
  apply counterCoefficient_of_uniform sqrt H counts 1 hlen hslots
  intro i hi
  have hiv : i < v.length := by omega
  rw [memberValues_const H v i hconst hiv]
  refine ⟨by simpa using hlen, ?_⟩
  have hmem : v.getD i 0 ∈ v := by
    rw [List.getD_eq_getElem _ _ hiv]
    exact List.getElem_mem _
  rw [hzero _ hmem]
  simpa using variationCoefficient_replicate_zero sqrt H.length (by omega)


theorem searchWith_status (samples : Nat → Nat × Nat) (currentEval : T_AI_ECMP_EVAL)
    (algorithm : LocalSearch) (s : EcmpInstance) :
    (s.searchWith samples currentEval algorithm).2.m_status ≠ T_AI_ECMP_STATUS.AI_ECMP_WAIT := by
  unfold EcmpInstance.searchWith
  simp only []
  split
  · simp
  · split <;> simp

theorem searchPath_status (samples : Nat → Nat × Nat) (currentEval : T_AI_ECMP_EVAL)
    (s : EcmpInstance) :
    (s.searchPath samples currentEval).2.m_status ≠ T_AI_ECMP_STATUS.AI_ECMP_WAIT := by
  unfold EcmpInstance.searchPath
  simp only []
  split
  · simp
  · exact searchWith_status _ _ _ _

theorem afterStabilityGate_status {samples : Nat → Nat × Nat} {s : EcmpInstance}
    {r : Bool × EcmpInstance} (h : s.afterStabilityGate samples = some r) :
    r.2.m_status ≠ T_AI_ECMP_STATUS.AI_ECMP_WAIT := by
  unfold EcmpInstance.afterStabilityGate at h
  simp only [] at h
  split at h
  · simp only [Option.some.injEq] at h
    subst h
    simp
  · split at h
    · simp at h
    · split at h
      · simp only [Option.some.injEq] at h
        subst h
        simp
      · simp only [Option.some.injEq] at h
        subst h
        exact searchPath_status _ _ _

/-- C7 (amended): for an enabled instance whose history holds at least five
snapshots, all of them equal to one vector that covers every slot of
`m_memberCounts` (of which there is at least one) and is positive on every
slot, `isCounterVarianceStable` returns true, `runOptimization` is the part of
the function that starts with `evaluateBalance`, and it never ends in status
Wait.  The square root is any function with `sqrt 0 = 0`. -/
theorem stable_history_proceeds_to_evaluation (sqrt : ℚ → ℚ) (samples : Nat → Nat × Nat)
    (s : EcmpInstance) (v : List Nat) (hsqrt : sqrt 0 = 0)
    (hon : s.m_bOptimizationEnabled = true) (hlen : 5 ≤ s.m_counterHistory.length)
    (hconst : ∀ h ∈ s.m_counterHistory, h = v)
    (hcover : s.m_memberCounts.length ≤ v.length) (hslots : 1 ≤ s.m_memberCounts.length)
    (hpos : ∀ x ∈ v, 0 < x) :
    s.isCounterVarianceStable sqrt = true ∧
    s.runOptimization sqrt samples = s.afterStabilityGate samples ∧
    ∀ r, s.runOptimization sqrt samples = some r →
      r.2.m_status ≠ T_AI_ECMP_STATUS.AI_ECMP_WAIT := by
  have hcoef := counterCoefficient_const_pos sqrt hsqrt s.m_counterHistory s.m_memberCounts v
    (by omega) hconst hcover hslots hpos
  have hstable : s.isCounterVarianceStable sqrt = true := by
    unfold EcmpInstance.isCounterVarianceStable
    have h1 : ¬ s.m_counterHistory.length < HISTORY_CYCLES_FOR_VARIANCE := by
      simp only [HISTORY_CYCLES_FOR_VARIANCE]; omega
    simp only [h1, if_false, hcoef, VARIANCE_THRESHOLD, decide_eq_true_eq]
    norm_num
  have hrun : s.runOptimization sqrt samples = s.afterStabilityGate samples := by
    unfold EcmpInstance.runOptimization
    have h1 : ¬ s.m_counterHistory.length < HISTORY_CYCLES_FOR_VARIANCE := by
      simp only [HISTORY_CYCLES_FOR_VARIANCE]; omega
    simp [hon, h1, hstable]
  refine ⟨hstable, hrun, ?_⟩
  intro r hr
  rw [hrun] at hr
  exact afterStabilityGate_status hr

theorem imbalancedInstance_history :
    imbalancedInstance.m_counterHistory = List.replicate 5 [50, 5, 5, 5, 50, 5, 5, 5] ∧
    imbalancedInstance.m_memberCounts = [50, 5, 5, 5, 50, 5, 5, 5] ∧
    imbalancedInstance.m_bOptimizationEnabled = true := by decide!

/-- Witness of C7 (amended): five identical positive snapshots
`[50, 5, 5, 5, 50, 5, 5, 5]`. -/
theorem stable_history_proceeds_to_evaluation_witness :
    imbalancedInstance.isCounterVarianceStable sqrtApprox = true ∧
    imbalancedInstance.runOptimization sqrtApprox (fun _ => (0, 1)) =
      imbalancedInstance.afterStabilityGate (fun _ => (0, 1)) ∧
    ∀ r, imbalancedInstance.runOptimization sqrtApprox (fun _ => (0, 1)) = some r →
      r.2.m_status ≠ T_AI_ECMP_STATUS.AI_ECMP_WAIT :=
  stable_history_proceeds_to_evaluation sqrtApprox (fun _ => (0, 1)) imbalancedInstance
    [50, 5, 5, 5, 50, 5, 5, 5] (by decide!) imbalancedInstance_history.2.2
    (by rw [imbalancedInstance_history.1]; decide)
    (by rw [imbalancedInstance_history.1]; intro h hh; exact List.eq_of_mem_replicate hh)
    (by simp [imbalancedInstance_history.2.1])
    (by simp [imbalancedInstance_history.2.1])
    (by decide)

theorem runOptimization_unstable (sqrt : ℚ → ℚ) (samples : Nat → Nat × Nat) (s : EcmpInstance)
    (hon : s.m_bOptimizationEnabled = true) (hlen : 5 ≤ s.m_counterHistory.length)
    (hunstable : s.isCounterVarianceStable sqrt = false) :
    s.runOptimization sqrt samples =
      some (false, { s with m_status := T_AI_ECMP_STATUS.AI_ECMP_WAIT }) := by
  unfold EcmpInstance.runOptimization
  have h1 : ¬ s.m_counterHistory.length < HISTORY_CYCLES_FOR_VARIANCE := by
    simp only [HISTORY_CYCLES_FOR_VARIANCE]; omega
  simp [hon, h1, hunstable]

theorem idleInstance_fields :
    idleInstance.m_counterHistory = List.replicate 5 (List.replicate 8 0) ∧
    idleInstance.m_memberCounts = List.replicate 8 0 ∧
    idleInstance.m_bOptimizationEnabled = true := by decide!

theorem driftInstance_fields :
    driftInstance.m_counterHistory =
      [List.replicate 8 1, List.replicate 8 7, List.replicate 8 8, List.replicate 8 12,
        List.replicate 8 12, List.replicate 8 12, List.replicate 8 12, List.replicate 8 12] ∧
    driftInstance.m_memberCounts = List.replicate 8 12 ∧
    driftInstance.m_bOptimizationEnabled = true := by decide!

theorem drift_variationCoefficient (sqrt : ℚ → ℚ) (hsqrt : sqrt 16 = 4) :
    calculateVariationCoefficient sqrt [1, 7, 8, 12, 12, 12, 12, 12] = 8 / 19 := by
  unfold calculateVariationCoefficient calculateMean calculateStandardDeviation
  norm_num [hsqrt]

/-- C7 (counterexample).  First: after five ticks that add nothing the five
snapshots are identical (all counters 0), yet every slot has mean 0, its
coefficient is the sentinel 1, and the instance waits.  Second: after eight
ticks of which the last four add nothing the last five snapshots are identical
and positive, yet the coefficient is taken over all eight snapshots, it is
8/19, and the instance waits. -/
theorem stability_gate_counterexample :
    (idleInstance.m_bOptimizationEnabled = true ∧
      5 ≤ idleInstance.m_counterHistory.length ∧
      lastFiveIdentical idleInstance ∧
      ∀ (sqrt : ℚ → ℚ) (samples : Nat → Nat × Nat),
        idleInstance.isCounterVarianceStable sqrt = false ∧
        idleInstance.runOptimization sqrt samples =
          some (false, { idleInstance with m_status := T_AI_ECMP_STATUS.AI_ECMP_WAIT })) ∧
    (driftInstance.m_bOptimizationEnabled = true ∧
      5 ≤ driftInstance.m_counterHistory.length ∧
      lastFiveIdentical driftInstance ∧
      ∀ (sqrt : ℚ → ℚ) (samples : Nat → Nat × Nat), sqrt 16 = 4 →
        driftInstance.isCounterVarianceStable sqrt = false ∧
        driftInstance.runOptimization sqrt samples =
          some (false, { driftInstance with m_status := T_AI_ECMP_STATUS.AI_ECMP_WAIT })) := by
  obtain ⟨i1, i2, i3⟩ := idleInstance_fields
  obtain ⟨d1, d2, d3⟩ := driftInstance_fields
  refine ⟨⟨i3, by rw [i1]; decide, ?_, ?_⟩, ⟨d3, by rw [d1]; decide, ?_, ?_⟩⟩
  · unfold lastFiveIdentical
    rw [i1]
    decide
  · intro sqrt samples
    have hcoef : calculateCounterVarianceCoefficient sqrt idleInstance.m_counterHistory
        idleInstance.m_memberCounts = 1 := by
      apply counterCoefficient_const_zero sqrt _ _ (List.replicate 8 0)
      · rw [i1]; decide
      · rw [i1]; intro h hh; exact List.eq_of_mem_replicate hh
      · rw [i2]
      · rw [i2]; decide
      · intro x hx; exact List.eq_of_mem_replicate hx
    have hstable : idleInstance.isCounterVarianceStable sqrt = false := by
      unfold EcmpInstance.isCounterVarianceStable
      rw [hcoef, i1]
      simp only [HISTORY_CYCLES_FOR_VARIANCE, VARIANCE_THRESHOLD]
      norm_num
    exact ⟨hstable, runOptimization_unstable sqrt samples _ i3 (by rw [i1]; decide) hstable⟩
  · unfold lastFiveIdentical
    rw [d1]
    decide
  · intro sqrt samples hsqrt
    have hcoef : calculateCounterVarianceCoefficient sqrt driftInstance.m_counterHistory
        driftInstance.m_memberCounts = 8 / 19 := by
      apply counterCoefficient_of_uniform
      · rw [d1]; decide
      · rw [d2]; decide
      · intro i hi
        rw [d2] at hi
        simp only [List.length_replicate] at hi
        rw [d1]
        have hv : memberValues [List.replicate 8 1, List.replicate 8 7, List.replicate 8 8,
            List.replicate 8 12, List.replicate 8 12, List.replicate 8 12, List.replicate 8 12,
            List.replicate 8 12] i = [1, 7, 8, 12, 12, 12, 12, 12] := by
          interval_cases i <;> simp [memberValues]
        rw [hv]
        exact ⟨by decide, drift_variationCoefficient sqrt hsqrt⟩
    have hstable : driftInstance.isCounterVarianceStable sqrt = false := by
      unfold EcmpInstance.isCounterVarianceStable
      rw [hcoef, d1]
      simp only [HISTORY_CYCLES_FOR_VARIANCE, VARIANCE_THRESHOLD]
      norm_num
    exact ⟨hstable, runOptimization_unstable sqrt samples _ d3 (by rw [d1]; decide) hstable⟩

/-! ### The local search permutes the slots -/

theorem lookup_cons_eq (k k' v : Nat) (t : Map) :
    List.lookup k ((k', v) :: t) = if k' = k then some v else List.lookup k t := by
  rw [List.lookup_cons]
  by_cases h : k' = k
  · subst h; simp
  · have : (k == k') = false := by
      rw [beq_eq_false_iff_ne]; exact fun h2 => h h2.symm
    simp [this, h]

theorem lookup_some_of_mem_keys {t : Map} {k : Nat} (h : k ∈ t.map Prod.fst) :
    ∃ v, t.lookup k = some v := by
  induction t with
  | nil => simp at h
  | cons e rest ih =>
    obtain ⟨k', v⟩ := e
    rw [lookup_cons_eq]
    by_cases hk : k' = k
    · exact ⟨v, by simp [hk]⟩
    · simp only [List.map_cons, List.mem_cons] at h
      rcases h with h | h
      · exact absurd h.symm hk
      · simpa [hk] using ih h

theorem lookup_none_of_not_mem_keys {t : Map} {k : Nat} (h : k ∉ t.map Prod.fst) :
    t.lookup k = none := by
  induction t with
  | nil => rfl
  | cons e rest ih =>
    obtain ⟨k', v⟩ := e
    simp only [List.map_cons, List.mem_cons, not_or] at h
    rw [lookup_cons_eq, if_neg (fun h2 => h.1 h2.symm)]
    exact ih h.2

theorem mapModify_keys {t : Map} {k v : Nat} (f : Nat → Nat) (h : t.lookup k = some v) :
    (mapModify t k f).map Prod.fst = t.map Prod.fst := by
  induction t with
  | nil => simp at h
  | cons e rest ih =>
    obtain ⟨k', v'⟩ := e
    rw [lookup_cons_eq] at h
    unfold mapModify
    by_cases hk : k' = k
    · simp [hk]
    · simp only [hk, if_false] at h ⊢
      simp only [List.map_cons, ih h]

theorem mapModify_id {t : Map} {k v : Nat} (h : t.lookup k = some v) : mapModify t k id = t := by
  induction t with
  | nil => simp at h
  | cons e rest ih =>
    obtain ⟨k', v'⟩ := e
    rw [lookup_cons_eq] at h
    unfold mapModify
    by_cases hk : k' = k
    · simp [hk]
    · simp only [hk, if_false] at h ⊢
      rw [ih h]

theorem lookup_mapModify (t : Map) (k k' w : Nat) :
    (mapModify t k (fun _ => w)).lookup k' = if k' = k then some w else t.lookup k' := by
  induction t with
  | nil =>
    simp only [mapModify, lookup_cons_eq, List.lookup_nil]
    by_cases h : k = k'
    · simp [h]
    · have h3 : ¬ k' = k := fun h2 => h h2.symm
      simp [h, h3]
  | cons e rest ih =>
    obtain ⟨k0, v0⟩ := e
    unfold mapModify
    by_cases hk : k0 = k
    · simp only [hk, if_true, lookup_cons_eq]
      by_cases h : k = k'
      · simp [h]
      · have h3 : ¬ k' = k := fun h2 => h h2.symm
        simp [h, h3]
    · simp only [hk, if_false, lookup_cons_eq, ih]
      by_cases h : k0 = k'
      · have : ¬ k' = k := fun h2 => hk (h.trans h2)
        simp [h, this]
      · simp [h]

theorem mapModify_values_perm {t : Map} {k v : Nat} (w : Nat) (h : t.lookup k = some v) :
    (w :: t.map Prod.snd).Perm (v :: (mapModify t k (fun _ => w)).map Prod.snd) := by
  induction t with
  | nil => simp at h
  | cons e rest ih =>
    obtain ⟨k', v'⟩ := e
    rw [lookup_cons_eq] at h
    unfold mapModify
    by_cases hk : k' = k
    · simp only [hk, if_true, Option.some.injEq] at h ⊢
      subst h
      exact List.Perm.swap _ _ _
    · simp only [hk, if_false] at h ⊢
      simp only [List.map_cons]
      exact (List.Perm.swap _ _ _).trans (((ih h).cons v').trans (List.Perm.swap _ _ _))

/-- Exchanging the values of two present keys (the four `operator[]` statements
of the accepted branch of the local search) keeps the keys and permutes the
values. -/
theorem swap_entries_perm {t : Map} {h1 h2 p1 p2 : Nat} (hl1 : t.lookup h1 = some p1)
    (hl2 : t.lookup h2 = some p2) :
    (mapModify (mapModify t h1 (fun _ => p2)) h2 (fun _ => p1)).map Prod.fst = t.map Prod.fst ∧
    ((mapModify (mapModify t h1 (fun _ => p2)) h2 (fun _ => p1)).map Prod.snd).Perm
      (t.map Prod.snd) := by
  have h3 : (mapModify t h1 (fun _ => p2)).lookup h2 = some p2 := by
    rw [lookup_mapModify]
    by_cases h : h2 = h1
    · simp [h]
    · simp [h, hl2]
  constructor
  · rw [mapModify_keys _ h3, mapModify_keys _ hl1]
  · have a := mapModify_values_perm p2 hl1
    have b := mapModify_values_perm p1 h3
    exact ((a.trans b).cons_inv).symm

theorem getD_mem_of_lt {l : List Nat} {i : Nat} (h : i < l.length) : l.getD i 0 ∈ l := by
  rw [List.getD_eq_getElem _ _ h]
  exact List.getElem_mem _

/-- One iteration of the local search keeps the key list of `result`, permutes
its values, and keeps `bestResult` equal to `result`. -/
theorem iteration_invariant (self : LocalSearch) (memberCounts : List Nat) (portSpeeds : Map)
    (hashIndices : List Nat) (idx : Nat × Nat) (st : SearchState)
    (hkeys : st.result.map Prod.fst = hashIndices)
    (hidx : idx.1 < hashIndices.length ∧ idx.2 < hashIndices.length)
    (hbest : st.bestResult = st.result) :
    (self.iteration memberCounts portSpeeds hashIndices idx st).result.map Prod.fst =
      hashIndices ∧
    ((self.iteration memberCounts portSpeeds hashIndices idx st).result.map Prod.snd).Perm
      (st.result.map Prod.snd) ∧
    (self.iteration memberCounts portSpeeds hashIndices idx st).bestResult =
      (self.iteration memberCounts portSpeeds hashIndices idx st).result := by
  unfold LocalSearch.iteration
  simp only []
  split
  · obtain ⟨p1, hl1⟩ := lookup_some_of_mem_keys (t := st.result)
      (k := hashIndices.getD idx.1 0) (by rw [hkeys]; exact getD_mem_of_lt hidx.1)
    obtain ⟨p2, hl2⟩ := lookup_some_of_mem_keys (t := st.result)
      (k := hashIndices.getD idx.2 0) (by rw [hkeys]; exact getD_mem_of_lt hidx.2)
    simp only [mapModify_id hl1, mapModify_id hl2, mapGet, hl1, hl2, Option.getD_some]
    obtain ⟨a, b⟩ := swap_entries_perm hl1 hl2
    exact ⟨a.trans hkeys, b, trivial⟩
  · exact ⟨hkeys, List.Perm.refl _, hbest⟩

theorem searchLoop_invariant (self : LocalSearch) (memberCounts : List Nat) (portSpeeds : Map)
    (hashIndices : List Nat) (samples : Nat → Nat × Nat)
    (hsamples : ∀ k, (samples k).1 < hashIndices.length ∧ (samples k).2 < hashIndices.length)
    (remaining dwIterations : Nat) (st : SearchState)
    (hkeys : st.result.map Prod.fst = hashIndices) (hbest : st.bestResult = st.result) :
    (self.searchLoop memberCounts portSpeeds hashIndices samples remaining dwIterations
      st).bestResult.map Prod.fst = hashIndices ∧
    ((self.searchLoop memberCounts portSpeeds hashIndices samples remaining dwIterations
      st).bestResult.map Prod.snd).Perm (st.result.map Prod.snd) := by
  induction remaining generalizing dwIterations st with
  | zero =>
    unfold LocalSearch.searchLoop
    rw [hbest]
    exact ⟨hkeys, List.Perm.refl _⟩
  | succ n ih =>
    unfold LocalSearch.searchLoop
    split
    · obtain ⟨a, b, c⟩ := iteration_invariant self memberCounts portSpeeds hashIndices
        (samples dwIterations) st hkeys (hsamples dwIterations) hbest
      obtain ⟨d, e⟩ := ih (dwIterations + 1) _ a c
      exact ⟨d, e.trans b⟩
    · rw [hbest]
      exact ⟨hkeys, List.Perm.refl _⟩

/-- The table returned by `LocalSearch::optimize` has the key list of its input
and a permutation of its values, whenever the drawn indices are valid positions
of the key vector. -/
theorem optimize_keys_values (self : LocalSearch) (samples : Nat → Nat × Nat)
    (memberTable : Map) (memberCounts : List Nat) (portSpeeds : Map)
    (hsamples : ∀ k, (samples k).1 < memberTable.length ∧ (samples k).2 < memberTable.length) :
    (self.optimize samples memberTable memberCounts portSpeeds).map Prod.fst =
      memberTable.map Prod.fst ∧
    ((self.optimize samples memberTable memberCounts portSpeeds).map Prod.snd).Perm
      (memberTable.map Prod.snd) := by
  unfold LocalSearch.optimize
  simp only []
  split
  · exact ⟨rfl, List.Perm.refl _⟩
  · exact searchLoop_invariant self memberCounts portSpeeds (memberTable.map Prod.fst) samples
      (by simpa using hsamples) _ _ _ rfl rfl


theorem list_eq_map_range_getD (arr : List Nat) :
    arr = (List.range arr.length).map (fun h => arr.getD h 0) := by
  apply List.ext_getElem
  · simp
  · intro i h1 h2
    simp [List.getD_eq_getElem?_getD, List.getElem?_eq_getElem h1]

/-- The layout loop of `getOptimizedNextHops` run from an array `arr` of 128
entries: entry `h` is the port of slot `h` when the table has the key `h`, and
the old entry otherwise. -/
theorem linkItems_foldl (t : Map) (arr : List Nat) (hlen : arr.length = 128)
    (hnodup : (t.map Prod.fst).Nodup) :
    t.foldl (fun arr memberEntry =>
        if memberEntry.1 < FTM_TRUNK_MAX_HASH_NUM_15K then arr.set memberEntry.1 memberEntry.2
        else arr) arr =
      (List.range 128).map (fun h => (t.lookup h).getD (arr.getD h 0)) := by
  induction t generalizing arr with
  | nil =>
    simp only [List.foldl_nil, List.lookup_nil, Option.getD_none]
    have := list_eq_map_range_getD arr
    rw [hlen] at this
    exact this
  | cons e rest ih =>
    obtain ⟨k, v⟩ := e
    simp only [List.map_cons, List.nodup_cons] at hnodup
    rw [List.foldl_cons, ih _ (by split <;> simp [hlen]) hnodup.2]
    apply List.map_congr_left
    intro h hh
    rw [List.mem_range] at hh
    rw [lookup_cons_eq]
    by_cases hk : k = h
    · subst hk
      rw [lookup_none_of_not_mem_keys hnodup.1]
      simp only [FTM_TRUNK_MAX_HASH_NUM_15K, hh, if_true, Option.getD_none, Option.getD_some,
        List.getD_eq_getElem?_getD]
      rw [List.getElem?_set_self (by omega)]
      rfl
    · simp only [hk, if_false]
      congr 1
      split
      · simp only [List.getD_eq_getElem?_getD]
        rw [List.getElem?_set_ne hk]
      · rfl

theorem getD_replicate_zero (n h : Nat) : (List.replicate n 0).getD h 0 = 0 := by
  rw [List.getD_eq_getElem?_getD, List.getElem?_replicate]
  split <;> rfl

theorem optimizedLinkItems_eq (t : Map) (hnodup : (t.map Prod.fst).Nodup) :
    optimizedLinkItems t = (List.range 128).map (fun h => (t.lookup h).getD 0) := by
  unfold optimizedLinkItems
  rw [linkItems_foldl t _ (by simp [FTM_TRUNK_MAX_HASH_NUM_15K]) hnodup]
  apply List.map_congr_left
  intro h _
  rw [getD_replicate_zero]

theorem lookup_entries_of_nodup (t : Map) (hnodup : (t.map Prod.fst).Nodup) :
    (t.map Prod.fst).map (fun h => (t.lookup h).getD 0) = t.map Prod.snd := by
  induction t with
  | nil => rfl
  | cons e rest ih =>
    obtain ⟨k, v⟩ := e
    simp only [List.map_cons, List.nodup_cons] at hnodup
    simp only [List.map_cons, lookup_cons_eq, if_true, Option.getD_some, List.cons.injEq,
      true_and]
    rw [← ih hnodup.2]
    apply List.map_congr_left
    intro h hh
    have : k ≠ h := fun h2 => hnodup.1 (h2 ▸ hh)
    simp [this]

/-- The array written for a table whose keys are distinct and below 128 is, up
to order, the values of the table followed by one zero per unused index. -/
theorem optimizedLinkItems_perm (t : Map) (hnodup : (t.map Prod.fst).Nodup)
    (hlt : ∀ h ∈ t.map Prod.fst, h < 128) :
    (optimizedLinkItems t).Perm
      (t.map Prod.snd ++
        ((List.range 128).filter (fun h => decide (h ∉ t.map Prod.fst))).map (fun _ => 0)) := by
  rw [optimizedLinkItems_eq t hnodup]
  have hsplit : (List.range 128).Perm
      (t.map Prod.fst ++ (List.range 128).filter (fun h => decide (h ∉ t.map Prod.fst))) := by
    rw [List.perm_ext_iff_of_nodup (List.nodup_range 128)]
    · intro a
      simp only [List.mem_range, List.mem_append, List.mem_filter, decide_eq_true_eq]
      constructor
      · intro ha
        by_cases hm : a ∈ t.map Prod.fst
        · exact Or.inl hm
        · exact Or.inr ⟨ha, hm⟩
      · rintro (ha | ha)
        · exact hlt a ha
        · exact ha.1
    · rw [List.nodup_append]
      refine ⟨hnodup, (List.nodup_range 128).filter _, ?_⟩
      intro a ha hb
      simp only [List.mem_filter, decide_eq_true_eq] at hb
      exact hb.2 ha
  refine (hsplit.map _).trans ?_
  rw [List.map_append, lookup_entries_of_nodup t hnodup]
  apply List.Perm.append_left
  apply List.Perm.of_eq
  apply List.map_congr_left
  intro h hh
  simp only [List.mem_filter, decide_eq_true_eq] at hh
  rw [lookup_none_of_not_mem_keys hh.2]
  rfl

/-- Two tables with the same distinct keys below 128 and the same values up to
order are laid out into arrays that are permutations of each other. -/
theorem optimizedLinkItems_perm_of_perm (t t' : Map) (hkeys : t'.map Prod.fst = t.map Prod.fst)
    (hvalues : (t'.map Prod.snd).Perm (t.map Prod.snd)) (hnodup : (t.map Prod.fst).Nodup)
    (hlt : ∀ h ∈ t.map Prod.fst, h < 128) :
    (optimizedLinkItems t').Perm (optimizedLinkItems t) := by
  have a := optimizedLinkItems_perm t hnodup hlt
  have b := optimizedLinkItems_perm t' (hkeys ▸ hnodup) (hkeys ▸ hlt)
  rw [hkeys] at b
  exact (b.trans (hvalues.append_right _)).trans a.symm


theorem isCounterVarianceStable_of_const_pos (sqrt : ℚ → ℚ) (s : EcmpInstance) (v : List Nat)
    (hsqrt : sqrt 0 = 0) (hlen : 5 ≤ s.m_counterHistory.length)
    (hconst : ∀ h ∈ s.m_counterHistory, h = v)
    (hcover : s.m_memberCounts.length ≤ v.length) (hslots : 1 ≤ s.m_memberCounts.length)
    (hpos : ∀ x ∈ v, 0 < x) : s.isCounterVarianceStable sqrt = true := by
  have hcoef := counterCoefficient_const_pos sqrt hsqrt s.m_counterHistory s.m_memberCounts v
    (by omega) hconst hcover hslots hpos
  unfold EcmpInstance.isCounterVarianceStable
  have h1 : ¬ s.m_counterHistory.length < HISTORY_CYCLES_FOR_VARIANCE := by
    simp only [HISTORY_CYCLES_FOR_VARIANCE]; omega
  simp only [h1, if_false, hcoef, VARIANCE_THRESHOLD, decide_eq_true_eq]
  norm_num

theorem runOptimization_of_stable (sqrt : ℚ → ℚ) (samples : Nat → Nat × Nat) (s : EcmpInstance)
    (hon : s.m_bOptimizationEnabled = true) (hlen : 5 ≤ s.m_counterHistory.length)
    (hstable : s.isCounterVarianceStable sqrt = true) :
    s.runOptimization sqrt samples = s.afterStabilityGate samples := by
  unfold EcmpInstance.runOptimization
  have h1 : ¬ s.m_counterHistory.length < HISTORY_CYCLES_FOR_VARIANCE := by
    simp only [HISTORY_CYCLES_FOR_VARIANCE]; omega
  simp [hon, h1, hstable]

/-- C1 (amended): for every table, counters, speeds, iteration limit and cost
factor and every sequence of drawn index pairs (valid positions of the key
vector), `LocalSearch::optimize` returns a table with the same hash indices and
a permutation of the port ids; hence, when the hash indices of the table are
distinct and all below 128, a run of `runOptimization` that ends in status
Adjust is followed by a plan whose 128 link items are a permutation of the link
items laid out for the table before the run. -/
theorem adjust_permutes_link_items (self : LocalSearch) (samples : Nat → Nat × Nat)
    (memberTable : Map) (memberCounts : List Nat) (portSpeeds : Map)
    (hsamples : ∀ k, (samples k).1 < memberTable.length ∧ (samples k).2 < memberTable.length) :
    (self.optimize samples memberTable memberCounts portSpeeds).map Prod.fst =
      memberTable.map Prod.fst ∧
    ((self.optimize samples memberTable memberCounts portSpeeds).map Prod.snd).Perm
      (memberTable.map Prod.snd) ∧
    ∀ (sqrt : ℚ → ℚ) (s s' : EcmpInstance) (nhopModifyData : T_AI_ECMP_NHOP_MODIFY),
      s.m_ecmpMemberTable = memberTable →
      (memberTable.map Prod.fst).Nodup →
      (∀ h ∈ memberTable.map Prod.fst, h < 128) →
      s.runOptimization sqrt samples = some (true, s') →
      s'.m_status = T_AI_ECMP_STATUS.AI_ECMP_ADJUST →
      (s'.getOptimizedNextHops nhopModifyData).1 = true ∧
      ((s'.getOptimizedNextHops nhopModifyData).2.adwLinkItem).Perm
        (optimizedLinkItems memberTable) := by
  obtain ⟨hk, hv⟩ := optimize_keys_values self samples memberTable memberCounts portSpeeds hsamples
  refine ⟨hk, hv, ?_⟩
  intro sqrt s s' nhopModifyData htable hnodup hlt hrun hadj
  obtain ⟨s2, h1, _, _, _, _, hsearch⟩ := runOptimization_adjust hrun hadj
  obtain ⟨algorithm, _, htab, _, _, _, _, _⟩ := searchPath_true hsearch
  rw [h1, htable] at htab
  obtain ⟨hk2, hv2⟩ := optimize_keys_values algorithm samples memberTable s2.m_memberCounts
    s2.m_portSpeeds hsamples
  rw [← htab] at hk2 hv2
  have hplan : s'.getOptimizedNextHops nhopModifyData =
      (true, { dwSgId := s'.m_sgConfig.dwSgId
               dwSeqId := s'.m_sgConfig.dwSeqId
               dwItemNum := s'.m_ecmpMemberTable.length % W32
               adwLinkItem := optimizedLinkItems s'.m_ecmpMemberTable }) := by
    unfold EcmpInstance.getOptimizedNextHops
    simp [hadj]
  rw [hplan]
  exact ⟨rfl, optimizedLinkItems_perm_of_perm memberTable s'.m_ecmpMemberTable hk2 hv2 hnodup hlt⟩

set_option maxRecDepth 100000 in
/-- Witness of C1 (amended): the search exchanges the slots 0 and 1 of the
striped table; the link items `2 1 3 4 1 2 3 4 0 ...` of the plan are a
permutation of `1 2 3 4 1 2 3 4 0 ...`. -/
theorem adjust_permutes_link_items_witness :
    (imbalancedAdjusted.getOptimizedNextHops zeroNhopModify).2.adwLinkItem =
      [2, 1, 3, 4, 1, 2, 3, 4] ++ List.replicate 120 0 ∧
    optimizedLinkItems imbalancedInstance.m_ecmpMemberTable =
      [1, 2, 3, 4, 1, 2, 3, 4] ++ List.replicate 120 0 ∧
    ((imbalancedAdjusted.getOptimizedNextHops zeroNhopModify).1 = true ∧
      ((imbalancedAdjusted.getOptimizedNextHops zeroNhopModify).2.adwLinkItem).Perm
        (optimizedLinkItems imbalancedInstance.m_ecmpMemberTable)) :=
  ⟨by decide!, by decide!,
    (adjust_permutes_link_items ⟨10000, 1 / 10⟩ (fun _ => (0, 1))
      imbalancedInstance.m_ecmpMemberTable imbalancedInstance.m_memberCounts
      imbalancedInstance.m_portSpeeds
      (fun _ => (by decide! : (0 : Nat) < imbalancedInstance.m_ecmpMemberTable.length ∧
        1 < imbalancedInstance.m_ecmpMemberTable.length))).2.2 sqrtApprox imbalancedInstance
      imbalancedAdjusted zeroNhopModify rfl (by decide!) (by decide!) (by decide!) rfl⟩

theorem overflowInstance_fields :
    overflowInstance.m_counterHistory =
      List.replicate 5 ([50, 50] ++ List.replicate 128 1) ∧
    overflowInstance.m_memberCounts = [50, 50] ++ List.replicate 128 1 ∧
    overflowInstance.m_bOptimizationEnabled = true ∧
    overflowInstance.m_ecmpMemberTable = [(0, 1), (1, 1), (2, 2), (129, 2)] := by decide!

set_option maxRecDepth 100000 in
theorem overflowInstance_search :
    overflowInstance.afterStabilityGate (fun _ => (1, 3)) = some (true, overflowAdjusted) := by
  decide!

set_option maxRecDepth 100000 in
/-- C1 (counterexample).  The configuration `overflowConfig` places a slot at
the hash index 129.  After five ticks with identical positive snapshots the
search exchanges the ports of the slots 1 and 129 and `runOptimization` ends in
Adjust; the plan drops the index 129, so its link items `1 2 2 0 ...` are not a
permutation of the link items `1 1 2 0 ...` laid out before the run. -/
theorem adjust_plan_counterexample :
    EcmpInstance.create overflowConfig = some overflowInitial ∧
    (∀ sqrt : ℚ → ℚ, sqrt 0 = 0 →
      overflowInstance.runOptimization sqrt (fun _ => (1, 3)) = some (true, overflowAdjusted)) ∧
    overflowAdjusted.m_status = T_AI_ECMP_STATUS.AI_ECMP_ADJUST ∧
    overflowAdjusted.getOptimizedNextHops zeroNhopModify =
      (true, ⟨9, 1, 4, [1, 2, 2] ++ List.replicate 125 0⟩) ∧
    optimizedLinkItems overflowInstance.m_ecmpMemberTable = [1, 1, 2] ++ List.replicate 125 0 ∧
    ¬ ((overflowAdjusted.getOptimizedNextHops zeroNhopModify).2.adwLinkItem).Perm
      (optimizedLinkItems overflowInstance.m_ecmpMemberTable) := by
  obtain ⟨f1, f2, f3, f4⟩ := overflowInstance_fields
  have hplan : overflowAdjusted.getOptimizedNextHops zeroNhopModify =
      (true, ⟨9, 1, 4, [1, 2, 2] ++ List.replicate 125 0⟩) := by decide!
  have hbefore : optimizedLinkItems overflowInstance.m_ecmpMemberTable =
      [1, 1, 2] ++ List.replicate 125 0 := by decide!
  refine ⟨by decide!, ?_, rfl, hplan, hbefore, ?_⟩
  · intro sqrt hsqrt
    have hstable := isCounterVarianceStable_of_const_pos sqrt overflowInstance
      ([50, 50] ++ List.replicate 128 1) hsqrt (by rw [f1]; decide)
      (by rw [f1]; intro h hh; exact List.eq_of_mem_replicate hh)
      (by rw [f2]) (by rw [f2]; decide) (by decide)
    rw [runOptimization_of_stable sqrt _ overflowInstance f3 (by rw [f1]; decide) hstable]
    exact overflowInstance_search
  · rw [hplan, hbefore]
    intro hperm
    have hcount := hperm.count_eq 1
    revert hcount
    decide

/-! ### Plan emission -/

theorem searchWith_config (samples : Nat → Nat × Nat) (currentEval : T_AI_ECMP_EVAL)
    (algorithm : LocalSearch) (s : EcmpInstance) :
    (s.searchWith samples currentEval algorithm).2.m_sgConfig = s.m_sgConfig := by
  unfold EcmpInstance.searchWith
  simp only []
  split
  · exact (recordAdjustmentResult_frame s false).2.2.2.1
  · split
    · exact (recordAdjustmentResult_frame s false).2.2.2.1
    · simp only [(recordAdjustmentResult_frame _ true).2.2.2.1, EcmpInstance.calculateLoadMetrics]

theorem searchPath_config (samples : Nat → Nat × Nat) (currentEval : T_AI_ECMP_EVAL)
    (s : EcmpInstance) : (s.searchPath samples currentEval).2.m_sgConfig = s.m_sgConfig := by
  unfold EcmpInstance.searchPath
  simp only []
  split
  · simp only [(recordAdjustmentResult_frame _ false).2.2.2.1]
    exact (ensureAlgorithm_frame s).2.2.2.1
  · rw [searchWith_config]
    exact (ensureAlgorithm_frame s).2.2.2.1

/-- No run of `runOptimization` changes the configuration of the instance. -/
theorem runOptimization_config {sqrt : ℚ → ℚ} {samples : Nat → Nat × Nat} {s : EcmpInstance}
    {r : Bool × EcmpInstance} (h : s.runOptimization sqrt samples = some r) :
    r.2.m_sgConfig = s.m_sgConfig := by
  unfold EcmpInstance.runOptimization at h
  split at h
  · simp only [Option.some.injEq] at h
    subst h
    rfl
  · split at h
    · simp only [Option.some.injEq] at h
      subst h
      rfl
    · split at h
      · simp only [Option.some.injEq] at h
        subst h
        rfl
      · unfold EcmpInstance.afterStabilityGate at h
        simp only [] at h
        split at h
        · simp only [Option.some.injEq] at h
          subst h
          rfl
        · split at h
          · simp at h
          · rename_i shouldExpand s2 hdec
            have hframe := (expansionDecision_frame hdec).2.2.2.1
            simp only [EcmpInstance.evaluateBalance] at hframe
            split at h
            · simp only [Option.some.injEq] at h
              subst h
              exact hframe
            · simp only [Option.some.injEq] at h
              subst h
              rw [searchPath_config]
              exact hframe

/-- C4: a plan returned with `true` by `getOptimizedNextHops` or by
`getExpandedNextHops` carries the `dwSgId` and `dwSeqId` of the configuration
the instance holds; that configuration is the one given to the constructor or
to the latest `updateConfig`, since `updateCounters`, `runOptimization` and
`reset` do not change it. -/
theorem emitted_plan_copies_ids (s : EcmpInstance) (nhopModifyData out : T_AI_ECMP_NHOP_MODIFY)
    (hemit : s.getOptimizedNextHops nhopModifyData = (true, out) ∨
      s.getExpandedNextHops nhopModifyData = some (true, out)) :
    (out.dwSgId = s.m_sgConfig.dwSgId ∧ out.dwSeqId = s.m_sgConfig.dwSeqId) ∧
    (∀ cfg s1, EcmpInstance.create cfg = some s1 → s1.m_sgConfig = cfg) ∧
    (∀ cfg (s0 s1 : EcmpInstance), s0.updateConfig cfg = some s1 → s1.m_sgConfig = cfg) ∧
    (∀ rnd (s0 : EcmpInstance), (s0.updateCounters rnd).2.m_sgConfig = s0.m_sgConfig) ∧
    (∀ sqrt samples (s0 : EcmpInstance) r, s0.runOptimization sqrt samples = some r →
      r.2.m_sgConfig = s0.m_sgConfig) ∧
    (∀ s0 : EcmpInstance, s0.reset.m_sgConfig = s0.m_sgConfig) := by
  refine ⟨?_, ?_, ?_, ?_, ?_, ?_⟩
  · rcases hemit with h | h
    · unfold EcmpInstance.getOptimizedNextHops at h
      split at h
      · simp at h
      · simp only [Prod.mk.injEq, true_and] at h
        subst h
        exact ⟨rfl, rfl⟩
    · unfold EcmpInstance.getExpandedNextHops at h
      split at h
      · simp at h
      · split at h
        · simp only [Option.some.injEq, Prod.mk.injEq, true_and] at h
          subst h
          exact ⟨rfl, rfl⟩
        · split at h
          · simp at h
          · split at h
            · simp at h
            · simp only [Option.some.injEq, Prod.mk.injEq, true_and] at h
              subst h
              exact ⟨rfl, rfl⟩
  · intro cfg s1 h
    unfold EcmpInstance.create at h
    split at h
    · simp at h
    · simp only [Option.some.injEq] at h
      subst h
      rfl
  · intro cfg s0 s1 h
    unfold EcmpInstance.updateConfig at h
    split at h
    · simp at h
    · simp only [Option.some.injEq] at h
      subst h
      rfl
  · intro rnd s0
    unfold EcmpInstance.updateCounters EcmpInstance.calculateLoadMetrics
    cases s0.m_bOptimizationEnabled <;> simp
  · intro sqrt samples s0 r h
    exact runOptimization_config h
  · intro s0
    rfl

/-- Witness of C4: the striped instance in status Adjust emits a plan with the
ids 7 and 42 of its configuration. -/
theorem emitted_plan_copies_ids_witness :
    ({ stripedInstance with m_status := T_AI_ECMP_STATUS.AI_ECMP_ADJUST } :
        EcmpInstance).getOptimizedNextHops zeroNhopModify =
      (true, ⟨7, 42, 8, [1, 2, 3, 4, 1, 2, 3, 4] ++ List.replicate 120 0⟩) ∧
    (7 = stripedInstance.m_sgConfig.dwSgId ∧ 42 = stripedInstance.m_sgConfig.dwSeqId) :=
  ⟨by decide!,
    (emitted_plan_copies_ids
      { stripedInstance with m_status := T_AI_ECMP_STATUS.AI_ECMP_ADJUST }
      zeroNhopModify ⟨7, 42, 8, [1, 2, 3, 4, 1, 2, 3, 4] ++ List.replicate 120 0⟩
      (Or.inl (by decide!))).1⟩

/-! ### The concrete instances are reachable -/

/-- The constructor builds `stripedInstance` from `stripedConfig`. -/
theorem stripedInstance_created : EcmpInstance.create stripedConfig = some stripedInstance := by
  decide!

/-! ### Status gating of the plan getters and the improvement percentage -/

/-- C19: `getOptimizedNextHops` returns true exactly in status Adjust and
`getExpandedNextHops` returns false in every status other than Expand; in each
rejecting case the output structure is the one the caller passed.  Neither
function writes a member of the instance (the embedding returns no new
instance for them). -/
theorem plan_emission_is_gated_by_status (s : EcmpInstance)
    (nhopModifyData : T_AI_ECMP_NHOP_MODIFY) :
    ((s.getOptimizedNextHops nhopModifyData).1 = true ↔
      s.m_status = T_AI_ECMP_STATUS.AI_ECMP_ADJUST) ∧
    (s.m_status ≠ T_AI_ECMP_STATUS.AI_ECMP_ADJUST →
      s.getOptimizedNextHops nhopModifyData = (false, nhopModifyData)) ∧
    (s.m_status ≠ T_AI_ECMP_STATUS.AI_ECMP_EXPAND →
      s.getExpandedNextHops nhopModifyData = some (false, nhopModifyData)) := by
  refine ⟨?_, ?_, ?_⟩
  · unfold EcmpInstance.getOptimizedNextHops
    by_cases h : s.m_status = T_AI_ECMP_STATUS.AI_ECMP_ADJUST <;> simp [h]
  · intro h
    simp [EcmpInstance.getOptimizedNextHops, h]
  · intro h
    simp [EcmpInstance.getExpandedNextHops, h]

/-- C14 (amended): `calculateImprovementPercentage` returns 0 when
`up_before + low_before ≤ 0` and otherwise
`((up_before + low_before) - (up_after + low_after)) / (up_before + low_before) * 100`;
when `up_before + low_before > 0`, and also whenever all four gaps are
non-negative, it is positive exactly when the total gap decreased; it never
exceeds 100 when the after-gaps are non-negative. -/
theorem improvementPercentage_formula (beforeEval afterEval : T_AI_ECMP_EVAL) :
    (beforeEval.upBoundGap + beforeEval.lowBoundGap ≤ 0 →
      calculateImprovementPercentage beforeEval afterEval = 0) ∧
    (0 < beforeEval.upBoundGap + beforeEval.lowBoundGap →
      calculateImprovementPercentage beforeEval afterEval =
        ((beforeEval.upBoundGap + beforeEval.lowBoundGap) -
          (afterEval.upBoundGap + afterEval.lowBoundGap)) /
          (beforeEval.upBoundGap + beforeEval.lowBoundGap) * 100) ∧
    (0 < beforeEval.upBoundGap + beforeEval.lowBoundGap →
      (0 < calculateImprovementPercentage beforeEval afterEval ↔
        afterEval.upBoundGap + afterEval.lowBoundGap <
          beforeEval.upBoundGap + beforeEval.lowBoundGap)) ∧
    (0 ≤ beforeEval.upBoundGap → 0 ≤ beforeEval.lowBoundGap →
      0 ≤ afterEval.upBoundGap → 0 ≤ afterEval.lowBoundGap →
      (0 < calculateImprovementPercentage beforeEval afterEval ↔
        afterEval.upBoundGap + afterEval.lowBoundGap <
          beforeEval.upBoundGap + beforeEval.lowBoundGap)) ∧
    (0 ≤ afterEval.upBoundGap → 0 ≤ afterEval.lowBoundGap →
      calculateImprovementPercentage beforeEval afterEval ≤ 100) := by
  unfold calculateImprovementPercentage
  generalize htb : beforeEval.upBoundGap + beforeEval.lowBoundGap = b
  generalize hta : afterEval.upBoundGap + afterEval.lowBoundGap = a
  have hpos : ∀ hb : 0 < b, (0 < (b - a) / b * 100 ↔ a < b) := by
    intro hb
    constructor
    · intro h
      have h1 : 0 < (b - a) / b := by linarith
      have h2 : 0 < b - a := by
        by_contra hneg
        have : (b - a) / b ≤ 0 := div_nonpos_of_nonpos_of_nonneg (by linarith) hb.le
        linarith
      linarith
    · intro h
      have : 0 < (b - a) / b := div_pos (by linarith) hb
      linarith
  refine ⟨?_, ?_, ?_, ?_, ?_⟩
  · intro h
    simp [h]
  · intro h
    simp [not_le.2 h]
  · intro h
    simp only [not_le.2 h, if_false]
    exact hpos h
  · intro h1 h2 h3 h4
    by_cases hb : b ≤ 0
    · simp only [hb, if_true, lt_irrefl, false_iff, not_lt]
      have hb0 : 0 ≤ b := by rw [← htb]; linarith
      have ha0 : 0 ≤ a := by rw [← hta]; linarith
      linarith
    · simp only [hb, if_false]
      exact hpos (not_le.1 hb)
  · intro h3 h4
    by_cases hb : b ≤ 0
    · simp [hb]
    · simp only [hb, if_false]
      have hb' : 0 < b := not_le.1 hb
      have ha : 0 ≤ a := by rw [← hta]; linarith
      have : (b - a) / b ≤ 1 := by
        rw [div_le_one hb']
        linarith
      linarith

/-- C14 (counterexample): from the zero evaluation to an evaluation with the
gaps -1 and 0 the total gap decreases from 0 to -1, and the function returns 0,
which is not positive. -/
theorem improvementPercentage_counterexample :
    calculateImprovementPercentage zeroEval ⟨-1, 0, -1, 0, 1⟩ = 0 ∧
    ((-1 : ℚ) + 0 < zeroEval.upBoundGap + zeroEval.lowBoundGap) ∧
    ¬ (0 < calculateImprovementPercentage zeroEval ⟨-1, 0, -1, 0, 1⟩) := by
  decide!

/-! ### Port loads as sums over slots -/

theorem lookup_mapModify_fun (m : Map) (k k' : Nat) (f : Nat → Nat) :
    (mapModify m k f).lookup k' =
      if k' = k then some (f ((m.lookup k).getD 0)) else m.lookup k' := by
  induction m with
  | nil =>
    simp only [mapModify, lookup_cons_eq, List.lookup_nil, Option.getD_none]
    by_cases h : k = k'
    · simp [h]
    · have h3 : ¬ k' = k := fun h2 => h h2.symm
      simp [h, h3]
  | cons e rest ih =>
    obtain ⟨k0, v0⟩ := e
    unfold mapModify
    by_cases hk : k0 = k
    · simp only [hk, if_true, lookup_cons_eq, Option.getD_some]
      by_cases h : k = k'
      · simp [h]
      · have h3 : ¬ k' = k := fun h2 => h h2.symm
        simp [h, h3]
    · simp only [hk, if_false, lookup_cons_eq, ih]
      by_cases h : k0 = k'
      · have : ¬ k' = k := fun h2 => hk (h.trans h2)
        simp [h, this]
      · simp [h]

theorem mapModify_keys_nodup (m : Map) (k : Nat) (f : Nat → Nat)
    (h : (m.map Prod.fst).Nodup) : ((mapModify m k f).map Prod.fst).Nodup := by
  by_cases hk : k ∈ m.map Prod.fst
  · obtain ⟨v, hv⟩ := lookup_some_of_mem_keys hk
    rw [mapModify_keys f hv]
    exact h
  · have hkeys : (mapModify m k f).map Prod.fst = m.map Prod.fst ++ [k] := by
      clear h
      induction m with
      | nil => rfl
      | cons e rest ih =>
        obtain ⟨k0, v0⟩ := e
        simp only [List.map_cons, List.mem_cons, not_or] at hk
        unfold mapModify
        have h0 : ¬ k0 = k := fun h2 => hk.1 h2.symm
        simp only [h0, if_false, List.map_cons, List.cons_append, ih hk.2]
    rw [hkeys, List.nodup_append]
    refine ⟨h, List.nodup_singleton k, ?_⟩
    intro a ha hb
    rw [List.mem_singleton] at hb
    exact hk (hb ▸ ha)

theorem slotContributions_cons (e : Nat × Nat) (t : Map) (counts : List Nat) (p : Nat) :
    slotContributions (e :: t) counts p =
      if e.2 = p ∧ e.1 < counts.length then counts.getD e.1 0 :: slotContributions t counts p
      else slotContributions t counts p := by
  unfold slotContributions
  by_cases h : e.2 = p ∧ e.1 < counts.length
  · simp [List.filter_cons, h]
  · simp only [List.filter_cons, h, decide_False, Bool.false_eq_true, if_false]

/-- The accumulation loop of `calculatePortLoads` run from a map `acc`. -/
theorem portLoads_foldl (t : Map) (counts : List Nat) (acc : Map) (p : Nat) :
    (t.foldl (fun portLoads entry =>
        if entry.1 < counts.length then
          mapModify portLoads entry.2 (fun load => (load + counts.getD entry.1 0) % W64)
        else portLoads) acc).lookup p =
      if slotContributions t counts p = [] then acc.lookup p
      else some (((acc.lookup p).getD 0 + (slotContributions t counts p).sum) % W64) := by
  induction t generalizing acc with
  | nil => simp [slotContributions]
  | cons e rest ih =>
    rw [List.foldl_cons, ih, slotContributions_cons]
    by_cases hlen : e.1 < counts.length
    · simp only [hlen, if_true, and_true, lookup_mapModify_fun]
      by_cases hp : e.2 = p
      · subst hp
        simp only [if_true, Option.getD_some, List.sum_cons, reduceCtorEq, if_false]
        split
        · rename_i h0
          simp [h0]
        · congr 1
          rw [Nat.add_mod, Nat.mod_mod, ← Nat.add_mod]
          congr 1
          ring
      · have hp' : ¬ p = e.2 := fun h => hp h.symm
        simp only [hp, hp', if_false]
    · simp only [hlen, if_false, and_false]

theorem lookup_calculatePortLoads (t : Map) (counts : List Nat) (p : Nat) :
    (calculatePortLoads t counts).lookup p = loadEntry (slotContributions t counts p) := by
  unfold calculatePortLoads loadEntry
  rw [portLoads_foldl]
  simp

theorem calculatePortLoads_keys_nodup (t : Map) (counts : List Nat) :
    ((calculatePortLoads t counts).map Prod.fst).Nodup := by
  unfold calculatePortLoads
  have h : ∀ acc : Map, (acc.map Prod.fst).Nodup →
      ((t.foldl (fun portLoads entry =>
        if entry.1 < counts.length then
          mapModify portLoads entry.2 (fun load => (load + counts.getD entry.1 0) % W64)
        else portLoads) acc).map Prod.fst).Nodup := by
    induction t with
    | nil => intro acc hacc; exact hacc
    | cons e rest ih =>
      intro acc hacc
      rw [List.foldl_cons]
      apply ih
      split
      · exact mapModify_keys_nodup _ _ _ hacc
      · exact hacc
  exact h [] List.nodup_nil

theorem mem_keys_iff_lookup_isSome (m : Map) (k : Nat) :
    k ∈ m.map Prod.fst ↔ (m.lookup k).isSome = true := by
  constructor
  · intro h
    obtain ⟨v, hv⟩ := lookup_some_of_mem_keys h
    simp [hv]
  · intro h
    by_contra hk
    rw [lookup_none_of_not_mem_keys hk] at h
    simp at h

/-- C11: `calculatePortLoads` gives every port the sum modulo `2^64` of the
counters of the slots assigned to it whose index is below
`len(member_counts)`; a port has an entry exactly when it has such a slot, no
port has two entries, and the slots with an index at or beyond
`len(member_counts)` can be dropped from the table without changing the
result. -/
theorem portLoads_are_slot_sums (table : Map) (member_counts : List Nat) :
    (∀ p, mapGet (calculatePortLoads table member_counts) p =
      specPortLoad table member_counts p) ∧
    (∀ p, p ∈ (calculatePortLoads table member_counts).map Prod.fst ↔
      slotContributions table member_counts p ≠ []) ∧
    ((calculatePortLoads table member_counts).map Prod.fst).Nodup ∧
    calculatePortLoads (table.filter (fun slot => decide (slot.1 < member_counts.length)))
      member_counts = calculatePortLoads table member_counts := by
  refine ⟨?_, ?_, calculatePortLoads_keys_nodup _ _, ?_⟩
  · intro p
    unfold mapGet specPortLoad
    rw [lookup_calculatePortLoads]
    unfold loadEntry
    split
    · rename_i h
      simp [h]
    · rfl
  · intro p
    rw [mem_keys_iff_lookup_isSome, lookup_calculatePortLoads]
    unfold loadEntry
    split <;> simp_all
  · unfold calculatePortLoads
    generalize ([] : Map) = acc
    induction table generalizing acc with
    | nil => rfl
    | cons e rest ih =>
      by_cases hlen : e.1 < member_counts.length
      · simp only [List.filter_cons, hlen, decide_True, if_true, List.foldl_cons]
        exact ih _
      · simp only [List.filter_cons, hlen, decide_False, Bool.false_eq_true, if_false,
          List.foldl_cons]
        exact ih _

/-! ### The sentinel of the variance coefficient -/

theorem calculateMean_const {l : List ℚ} {k : ℚ} (hne : l ≠ []) (hall : ∀ x ∈ l, x = k) :
    calculateMean l = k := by
  have hl : l = List.replicate l.length k := List.eq_replicate_iff.2 ⟨rfl, hall⟩
  rw [hl]
  exact calculateMean_replicate _ _ (List.length_pos.2 hne)

theorem variationCoefficient_of_mean_zero (sqrt : ℚ → ℚ) (values : List ℚ)
    (h : values = [] ∨ calculateMean values ≤ 0) :
    calculateVariationCoefficient sqrt values = 1 := by
  unfold calculateVariationCoefficient
  rcases h with h | h
  · simp [h]
  · split
    · rfl
    · simp [h]

/-- C13 (amended): `calculateCounterVarianceCoefficient` returns exactly 1 (so
the stability check with threshold 0.05 reports unstable) for every history
with fewer than 2 snapshots and for every history in which every slot that is
counted has mean zero over the snapshots; `calculateVariationCoefficient`, the
coefficient of one slot, is 1 whenever that slot has no value or a mean that is
not positive. -/
theorem varianceCoefficient_sentinel (sqrt : ℚ → ℚ) (counterHistory : List (List Nat))
    (memberCounts : List Nat) :
    (counterHistory.length < 2 →
      calculateCounterVarianceCoefficient sqrt counterHistory memberCounts = 1) ∧
    (∀ values : List ℚ, values = [] ∨ calculateMean values ≤ 0 →
      calculateVariationCoefficient sqrt values = 1) ∧
    ((∀ i < memberCounts.length, calculateMean (memberValues counterHistory i) = 0) →
      calculateCounterVarianceCoefficient sqrt counterHistory memberCounts = 1 ∧
      ∀ s : EcmpInstance, s.m_counterHistory = counterHistory →
        s.m_memberCounts = memberCounts → s.isCounterVarianceStable sqrt = false) := by
  refine ⟨?_, fun values h => variationCoefficient_of_mean_zero sqrt values h, ?_⟩
  · intro h
    simp [calculateCounterVarianceCoefficient, h]
  · intro hall
    have hcoef : calculateCounterVarianceCoefficient sqrt counterHistory memberCounts = 1 := by
      unfold calculateCounterVarianceCoefficient
      split
      · rfl
      · simp only []
        split
        · rfl
        · rename_i hne
          apply calculateMean_const
          · intro h0
            apply hne
            rw [h0]
            rfl
          · intro c hc
            unfold allVarianceCoeffs at hc
            rw [List.mem_filterMap] at hc
            obtain ⟨i, hi, hc⟩ := hc
            rw [List.mem_range] at hi
            simp only [] at hc
            split at hc
            · simp only [Option.some.injEq] at hc
              rw [← hc]
              exact variationCoefficient_of_mean_zero sqrt _ (Or.inr (hall i hi).le)
            · simp at hc
    refine ⟨hcoef, ?_⟩
    intro s h1 h2
    unfold EcmpInstance.isCounterVarianceStable
    rw [h1, h2, hcoef]
    simp only [VARIANCE_THRESHOLD]
    split
    · rfl
    · norm_num

theorem deadSlot_coeffs (sqrt : ℚ → ℚ) (hsqrt : sqrt 0 = 0) :
    allVarianceCoeffs sqrt deadSlotHistory 32 =
      (List.range 32).map (fun i => if i = 0 then (1 : ℚ) else 0) := by
  unfold allVarianceCoeffs
  apply filterMap_eq_map_of_forall
  intro i hi
  rw [List.mem_range] at hi
  have hv := memberValues_const deadSlotHistory (0 :: List.replicate 31 7) i
    (fun h hh => List.eq_of_mem_replicate hh) (by simpa using hi)
  have hlen : deadSlotHistory.length = 5 := by simp [deadSlotHistory]
  rw [hlen] at hv
  simp only [hv, List.length_replicate, Nat.reduceLeDiff, if_true, Option.some.injEq]
  by_cases h0 : i = 0
  · subst h0
    simpa using variationCoefficient_replicate_zero sqrt 5 (by decide)
  · simp only [h0, if_false]
    have h7 : (0 :: List.replicate 31 7).getD i 0 = 7 := by
      obtain ⟨j, rfl⟩ := Nat.exists_eq_succ_of_ne_zero h0
      simp only [List.getD_eq_getElem?_getD, List.getElem?_cons_succ, List.getElem?_replicate]
      have : j < 31 := by omega
      simp [this]
    rw [h7]
    exact variationCoefficient_replicate_pos sqrt hsqrt 5 _ (by decide) (by norm_num)

/-- C13 (counterexample): in `deadSlotHistory` the slot 0 has mean zero over the
five snapshots, yet the coefficient is the average 1/32 of the per-slot
coefficients (1 for slot 0, 0 for the 31 constant slots), which is below 1 and
below the threshold 0.05: an instance with this history is reported stable. -/
theorem varianceCoefficient_counterexample :
    2 ≤ deadSlotHistory.length ∧
    calculateMean (memberValues deadSlotHistory 0) = 0 ∧
    ∀ sqrt : ℚ → ℚ, sqrt 0 = 0 →
      calculateCounterVarianceCoefficient sqrt deadSlotHistory (List.replicate 32 0) = 1 / 32 ∧
      ¬ (1 ≤ calculateCounterVarianceCoefficient sqrt deadSlotHistory (List.replicate 32 0)) ∧
      ∀ s : EcmpInstance, s.m_counterHistory = deadSlotHistory →
        s.m_memberCounts = List.replicate 32 0 → s.isCounterVarianceStable sqrt = true := by
  refine ⟨by decide, by decide!, ?_⟩
  intro sqrt hsqrt
  have hcoef : calculateCounterVarianceCoefficient sqrt deadSlotHistory (List.replicate 32 0) =
      1 / 32 := by
    unfold calculateCounterVarianceCoefficient
    have h1 : ¬ deadSlotHistory.length < 2 := by decide
    simp only [h1, if_false, List.length_replicate, deadSlot_coeffs sqrt hsqrt]
    decide!
  refine ⟨hcoef, by rw [hcoef]; norm_num, ?_⟩
  intro s h1 h2
  unfold EcmpInstance.isCounterVarianceStable
  rw [h1, h2, hcoef]
  have h5 : ¬ deadSlotHistory.length < HISTORY_CYCLES_FOR_VARIANCE := by decide
  simp only [h5, if_false, VARIANCE_THRESHOLD, decide_eq_true_eq]
  norm_num

/-! ### The layout written by `getOptimizedNextHops` -/

theorem mapModify_of_not_mem_keys {m : Map} {k : Nat} (f : Nat → Nat)
    (hk : k ∉ m.map Prod.fst) : mapModify m k f = m ++ [(k, f 0)] := by
  induction m with
  | nil => rfl
  | cons e rest ih =>
    obtain ⟨k0, v0⟩ := e
    simp only [List.map_cons, List.mem_cons, not_or] at hk
    unfold mapModify
    have h0 : ¬ k0 = k := fun h2 => hk.1 h2.symm
    simp only [h0, if_false, List.cons_append, ih hk.2]

/-- For a configuration whose item offsets are `0, 1, ..., n - 1` the loop of
`convertConfig` over the first `n` items builds the table slot by slot. -/
theorem convertConfig_table_of_identity_offsets (cfg : T_AI_ECMP_SG_CFG) (n : Nat)
    (hoff : ∀ i < n, (cfg.item i).dwItemOffset = i) :
    (List.range n).foldl
        (fun table i => mapModify table (cfg.item i).dwItemOffset (fun _ => (cfg.item i).dwPortId))
        [] =
      (List.range n).map (fun i => (i, (cfg.item i).dwPortId)) := by
  induction n with
  | zero => rfl
  | succ n ih =>
    rw [List.range_succ, List.foldl_append, List.map_append,
      ih (fun i hi => hoff i (Nat.lt_succ_of_lt hi))]
    simp only [List.foldl_cons, List.foldl_nil, List.map_cons, List.map_nil,
      hoff n (Nat.lt_succ_self n)]
    apply mapModify_of_not_mem_keys
    simp [Function.comp_def]

theorem range_map_split (f : Nat → Nat) (n : Nat) (hn : n ≤ 128)
    (hzero : ∀ h, n ≤ h → f h = 0) :
    (List.range 128).map f = (List.range n).map f ++ List.replicate (128 - n) 0 := by
  have h128 : 128 = n + (128 - n) := by omega
  conv_lhs => rw [h128, List.range_add, List.map_append]
  congr 1
  rw [List.eq_replicate_iff]
  constructor
  · simp
  · intro b hb
    simp only [List.map_map, List.mem_map, List.mem_range, Function.comp_apply] at hb
    obtain ⟨a, _, rfl⟩ := hb
    exact hzero _ (by omega)

/-- C18: in status Adjust `getOptimizedNextHops` returns true; `dwItemNum` is
the number of entries of the member table, the array has 128 entries, entry `h`
is the port of slot `h` for every hash index `h < 128` of the table and 0 for
every other index below 128; when the hash indices are `0 .. n - 1` (as
`convertConfig` builds them for a configuration with the item offsets
`0 .. n - 1`, `n ≤ 128`) the array is the assignment slot by slot followed by
zeros.  The keys of the table are distinct and its size fits a `WORD32`. -/
theorem optimized_plan_layout (s : EcmpInstance) (nhopModifyData : T_AI_ECMP_NHOP_MODIFY)
    (hadj : s.m_status = T_AI_ECMP_STATUS.AI_ECMP_ADJUST)
    (hnodup : (s.m_ecmpMemberTable.map Prod.fst).Nodup)
    (hsize : s.m_ecmpMemberTable.length < W32) :
    (s.getOptimizedNextHops nhopModifyData).1 = true ∧
    (s.getOptimizedNextHops nhopModifyData).2.dwItemNum = s.m_ecmpMemberTable.length ∧
    (s.getOptimizedNextHops nhopModifyData).2.adwLinkItem.length = 128 ∧
    (∀ h port, s.m_ecmpMemberTable.lookup h = some port → h < 128 →
      (s.getOptimizedNextHops nhopModifyData).2.adwLinkItem[h]? = some port) ∧
    (∀ k, k < 128 → k ∉ s.m_ecmpMemberTable.map Prod.fst →
      (s.getOptimizedNextHops nhopModifyData).2.adwLinkItem[k]? = some 0) ∧
    (s.m_ecmpMemberTable.length ≤ 128 →
      (s.m_ecmpMemberTable.map Prod.fst).Perm (List.range s.m_ecmpMemberTable.length) →
      (s.getOptimizedNextHops nhopModifyData).2.adwLinkItem =
        (List.range s.m_ecmpMemberTable.length).map
          (fun h => (s.m_ecmpMemberTable.lookup h).getD 0) ++
        List.replicate (128 - s.m_ecmpMemberTable.length) 0) ∧
    (∀ (cfg : T_AI_ECMP_SG_CFG) (s0 : EcmpInstance), EcmpInstance.create cfg = some s0 →
      cfg.dwItemNum ≤ 128 → (∀ i < cfg.dwItemNum, (cfg.item i).dwItemOffset = i) →
      s0.m_ecmpMemberTable =
        (List.range cfg.dwItemNum).map (fun i => (i, (cfg.item i).dwPortId))) := by
  have hplan : s.getOptimizedNextHops nhopModifyData =
      (true, { dwSgId := s.m_sgConfig.dwSgId
               dwSeqId := s.m_sgConfig.dwSeqId
               dwItemNum := s.m_ecmpMemberTable.length % W32
               adwLinkItem := optimizedLinkItems s.m_ecmpMemberTable }) := by
    unfold EcmpInstance.getOptimizedNextHops
    simp [hadj]
  rw [hplan]
  simp only []
  rw [optimizedLinkItems_eq _ hnodup]
  refine ⟨trivial, Nat.mod_eq_of_lt hsize, by simp, ?_, ?_, ?_, ?_⟩
  · intro h port hl hh
    rw [List.getElem?_map, List.getElem?_range hh]
    simp [hl]
  · intro k hk hmem
    rw [List.getElem?_map, List.getElem?_range hk]
    simp [lookup_none_of_not_mem_keys hmem]
  · intro hlen hperm
    apply range_map_split _ _ hlen
    intro h hh
    have : h ∉ s.m_ecmpMemberTable.map Prod.fst := by
      intro hmem
      have := hperm.mem_iff.1 hmem
      rw [List.mem_range] at this
      omega
    rw [lookup_none_of_not_mem_keys this]
    rfl
  · intro cfg s0 hcreate hn hoff
    unfold EcmpInstance.create at hcreate
    split at hcreate
    · simp at hcreate
    · rename_i memberTable memberCounts portSpeeds hconv
      simp only [Option.some.injEq] at hcreate
      subst hcreate
      unfold convertConfig at hconv
      split at hconv
      · simp only [Option.some.injEq, Prod.mk.injEq] at hconv
        obtain ⟨h1, _, _⟩ := hconv
        rw [← h1]
        have hmin : min cfg.dwItemNum AI_ECMP_MAX_ITEM_NUM = cfg.dwItemNum := by
          simp only [AI_ECMP_MAX_ITEM_NUM]; omega
        rw [hmin]
        exact convertConfig_table_of_identity_offsets cfg cfg.dwItemNum hoff
      · simp at hconv

/-- Witness of C18: the adjusted striped instance (slots 0 and 1 exchanged)
emits 8 items laid out slot by slot. -/
theorem optimized_plan_layout_witness :
    (imbalancedAdjusted.getOptimizedNextHops zeroNhopModify).2.adwLinkItem =
      [2, 1, 3, 4, 1, 2, 3, 4] ++ List.replicate 120 0 ∧
    (imbalancedAdjusted.getOptimizedNextHops zeroNhopModify).2.dwItemNum =
      imbalancedAdjusted.m_ecmpMemberTable.length :=
  ⟨by decide!,
    (optimized_plan_layout imbalancedAdjusted zeroNhopModify rfl (by decide!) (by decide!)).2.1⟩

/-! ### The expansion planner is all-or-nothing -/

theorem desiredIncrease_eq (w : Nat) :
    (if w = 0 then 1 else w) = desiredIncrease w := by
  unfold desiredIncrease
  split <;> omega

theorem desiredIncrease_pos (w : Nat) : 1 ≤ desiredIncrease w := by
  unfold desiredIncrease
  omega

/-- Closed form of the expansion loop: started with a total of at most 128 on
ports whose new weight is still the current one, it succeeds exactly when the
total plus all desired increases is at most 128, and then every port is granted
its full increase. -/
theorem expandWeights_closed_form (L : List PortWeightInfo) (S : Nat) (hS : S ≤ 128)
    (hL : ∀ i ∈ L, i.dwNewWeight = i.dwCurrentWeight) :
    expandWeights L S =
      if S + (L.map (fun i => desiredIncrease i.dwCurrentWeight)).sum ≤ 128 then
        some (L.map grantFull, S + (L.map (fun i => desiredIncrease i.dwCurrentWeight)).sum)
      else none := by
  induction L generalizing S with
  | nil => simp [expandWeights, hS]
  | cons x xs ih =>
    unfold expandWeights
    have havail : (FTM_TRUNK_MAX_HASH_NUM_15K + W32 - S) % W32 = 128 - S := by
      simp only [FTM_TRUNK_MAX_HASH_NUM_15K, W32]
      omega
    simp only [havail, desiredIncrease_eq, List.map_cons, List.sum_cons]
    have hd1 := desiredIncrease_pos x.dwCurrentWeight
    have hrest : 0 ≤ (xs.map (fun i => desiredIncrease i.dwCurrentWeight)).sum := Nat.zero_le _
    by_cases hcap : 128 - S < desiredIncrease x.dwCurrentWeight
    · have hno : ¬ S + (desiredIncrease x.dwCurrentWeight +
          (xs.map (fun i => desiredIncrease i.dwCurrentWeight)).sum) ≤ 128 := by omega
      simp only [hcap, if_true, hno, if_false]
    · have hd : desiredIncrease x.dwCurrentWeight ≤ 128 - S := Nat.le_of_not_lt hcap
      have hsum : (S + desiredIncrease x.dwCurrentWeight) % W32 =
          S + desiredIncrease x.dwCurrentWeight :=
        Nat.mod_eq_of_lt (by simp only [W32]; omega)
      have hx := hL x (List.mem_cons_self _ _)
      have hcur : x.dwCurrentWeight ≤ desiredIncrease x.dwCurrentWeight := by
        unfold desiredIncrease; omega
      have hnew : (x.dwNewWeight + desiredIncrease x.dwCurrentWeight) % W32 =
          x.dwCurrentWeight + desiredIncrease x.dwCurrentWeight := by
        rw [hx]
        exact Nat.mod_eq_of_lt (by simp only [W32]; omega)
      simp only [hcap, if_false, hsum, hnew,
        ih (S + desiredIncrease x.dwCurrentWeight) (by omega)
          (fun i hi => hL i (List.mem_cons_of_mem _ hi))]
      by_cases hall : S + desiredIncrease x.dwCurrentWeight +
          (xs.map (fun i => desiredIncrease i.dwCurrentWeight)).sum ≤ 128
      · have hall2 : S + (desiredIncrease x.dwCurrentWeight +
            (xs.map (fun i => desiredIncrease i.dwCurrentWeight)).sum) ≤ 128 := by omega
        simp only [hall, hall2, if_true, grantFull, Nat.add_assoc]
      · have hall2 : ¬ S + (desiredIncrease x.dwCurrentWeight +
            (xs.map (fun i => desiredIncrease i.dwCurrentWeight)).sum) ≤ 128 := by omega
        simp only [hall, hall2, if_false]

/-- Some port of the walk finds too little room exactly when the total of all
desired increases does not fit. -/
theorem specExpansionFails_iff (ws : List Nat) (S : Nat) (hS : S ≤ 128) :
    specExpansionFails ws S ↔ 128 < S + (ws.map desiredIncrease).sum := by
  constructor
  · rintro ⟨pre, w, post, rfl, h⟩
    simp only [List.map_append, List.map_cons, List.sum_append, List.sum_cons]
    omega
  · intro h
    induction ws generalizing S with
    | nil =>
      simp only [List.map_nil, List.sum_nil, Nat.add_zero] at h
      omega
    | cons w ws ih =>
      by_cases hw : 128 - S < desiredIncrease w
      · exact ⟨[], w, ws, rfl, by simpa using hw⟩
      · simp only [List.map_cons, List.sum_cons] at h
        obtain ⟨pre, w', post, heq, h'⟩ := ih (S + desiredIncrease w) (by omega) (by omega)
        refine ⟨w :: pre, w', post, by rw [heq]; rfl, ?_⟩
        simp only [List.map_cons, List.sum_cons]
        omega

theorem sortPortInfos_sorted (infos : List PortWeightInfo) :
    ((sortPortInfos infos).map (fun i => i.dwCurrentWeight)).Pairwise (fun a b => a ≤ b) := by
  haveI : IsTotal PortWeightInfo (fun a b => a.dwCurrentWeight ≤ b.dwCurrentWeight) :=
    ⟨fun a b => Nat.le_total _ _⟩
  haveI : IsTrans PortWeightInfo (fun a b => a.dwCurrentWeight ≤ b.dwCurrentWeight) :=
    ⟨fun a b c h1 h2 => Nat.le_trans h1 h2⟩
  rw [List.pairwise_map]
  exact List.sorted_insertionSort (fun a b => a.dwCurrentWeight ≤ b.dwCurrentWeight) infos

/-- The facts about the first two loops of `getExpandedNextHops` that the
expansion theorems share: for at most 65535 ports whose first 128 weights sum
to at most 128, the sorted vector is a permutation of the collected one, its
new weights are the current ones, and the total is the exact sum. -/
theorem expansion_setup (cfg : T_AI_ECMP_SG_CFG)
    (hsum : ((collectPortInfos cfg).map (fun i => i.dwCurrentWeight)).sum ≤ 128) :
    (sortPortInfos (collectPortInfos cfg)).Perm (collectPortInfos cfg) ∧
    (∀ i ∈ sortPortInfos (collectPortInfos cfg), i.dwNewWeight = i.dwCurrentWeight) ∧
    currentTotalWeight (collectPortInfos cfg) =
      ((sortPortInfos (collectPortInfos cfg)).map (fun i => i.dwCurrentWeight)).sum ∧
    currentTotalWeight (collectPortInfos cfg) ≤ 128 := by
  have hperm : (sortPortInfos (collectPortInfos cfg)).Perm (collectPortInfos cfg) :=
    List.perm_insertionSort _ _
  have htotal : currentTotalWeight (collectPortInfos cfg) =
      ((collectPortInfos cfg).map (fun i => i.dwCurrentWeight)).sum := by
    unfold currentTotalWeight
    rw [currentTotalWeight_foldl _ 0 (by simp only [W32]; omega)]
    simp
  refine ⟨hperm, ?_, ?_, ?_⟩
  · intro i hi
    have hi2 := hperm.mem_iff.1 hi
    simp only [collectPortInfos, List.mem_map] at hi2
    obtain ⟨j, _, rfl⟩ := hi2
    rfl
  · rw [htotal]
    exact ((hperm.map _).sum_eq).symm
  · rw [htotal]
    exact hsum

/-- C16: for an instance in status Expand with at least one port and current
weights summing to at most 128, `getExpandedNextHops` walks the ports in
ascending order of current weight with a running total that starts at the sum
of the current weights; it returns false, writing neither `dwItemNum` nor a link
item, exactly when some port of the walk finds `128 - S` smaller than its
desired increase `max(current_weight, 1)`, and otherwise it returns true and
every port is granted its full desired increase.  The port count is below
65536, as for every instance the constructor or `updateConfig` produced. -/
theorem expansion_is_all_or_nothing (s : EcmpInstance) (nhopModifyData : T_AI_ECMP_NHOP_MODIFY)
    (hstatus : s.m_status = T_AI_ECMP_STATUS.AI_ECMP_EXPAND)
    (hp1 : 1 ≤ s.m_sgConfig.dwPortNum) (hp2 : s.m_sgConfig.dwPortNum < W16)
    (hsum : ((collectPortInfos s.m_sgConfig).map (fun i => i.dwCurrentWeight)).sum ≤ 128) :
    ((sortPortInfos (collectPortInfos s.m_sgConfig)).map
      (fun i => i.dwCurrentWeight)).Pairwise (fun a b => a ≤ b) ∧
    (sortPortInfos (collectPortInfos s.m_sgConfig)).Perm (collectPortInfos s.m_sgConfig) ∧
    currentTotalWeight (collectPortInfos s.m_sgConfig) =
      ((collectPortInfos s.m_sgConfig).map (fun i => i.dwCurrentWeight)).sum ∧
    (specExpansionFails
        ((sortPortInfos (collectPortInfos s.m_sgConfig)).map (fun i => i.dwCurrentWeight))
        (currentTotalWeight (collectPortInfos s.m_sgConfig)) →
      plannedWeights s.m_sgConfig = none ∧
      s.getExpandedNextHops nhopModifyData =
        some (false, { nhopModifyData with
          dwSgId := s.m_sgConfig.dwSgId, dwSeqId := s.m_sgConfig.dwSeqId })) ∧
    (¬ specExpansionFails
        ((sortPortInfos (collectPortInfos s.m_sgConfig)).map (fun i => i.dwCurrentWeight))
        (currentTotalWeight (collectPortInfos s.m_sgConfig)) →
      plannedWeights s.m_sgConfig =
        some ((sortPortInfos (collectPortInfos s.m_sgConfig)).map grantFull,
          currentTotalWeight (collectPortInfos s.m_sgConfig) +
            ((sortPortInfos (collectPortInfos s.m_sgConfig)).map
              (fun i => desiredIncrease i.dwCurrentWeight)).sum) ∧
      ∃ out, s.getExpandedNextHops nhopModifyData = some (true, out)) := by
  obtain ⟨hperm, hnewcur, htotal, hS⟩ := expansion_setup s.m_sgConfig hsum
  have hclosed := expandWeights_closed_form (sortPortInfos (collectPortInfos s.m_sgConfig))
    (currentTotalWeight (collectPortInfos s.m_sgConfig)) hS hnewcur
  have hspec := specExpansionFails_iff
    ((sortPortInfos (collectPortInfos s.m_sgConfig)).map (fun i => i.dwCurrentWeight))
    (currentTotalWeight (collectPortInfos s.m_sgConfig)) hS
  rw [List.map_map] at hspec
  have hterm : word16LoopTerminates s.m_sgConfig.dwPortNum = true := by
    simp only [word16LoopTerminates, decide_eq_true_eq]; exact hp2
  have hne : s.m_sgConfig.dwPortNum ≠ 0 := by omega
  refine ⟨sortPortInfos_sorted _, hperm, ?_, ?_, ?_⟩
  · rw [htotal]
    exact (hperm.map _).sum_eq
  · intro hfail
    have hgt := hspec.1 hfail
    have hplan : plannedWeights s.m_sgConfig = none := by
      unfold plannedWeights
      simp only []
      rw [hclosed, if_neg]
      simp only [Function.comp_def] at hgt
      omega
    refine ⟨hplan, ?_⟩
    unfold EcmpInstance.getExpandedNextHops
    simp only [hstatus, ne_eq, not_true_eq_false, if_false, hne, hterm, Bool.not_true,
      Bool.false_eq_true, hplan]
  · intro hok
    have hle : currentTotalWeight (collectPortInfos s.m_sgConfig) +
        ((sortPortInfos (collectPortInfos s.m_sgConfig)).map
          (fun i => desiredIncrease i.dwCurrentWeight)).sum ≤ 128 := by
      by_contra hgt
      apply hok
      apply hspec.2
      simp only [Function.comp_def]
      omega
    have hplan : plannedWeights s.m_sgConfig =
        some ((sortPortInfos (collectPortInfos s.m_sgConfig)).map grantFull,
          currentTotalWeight (collectPortInfos s.m_sgConfig) +
            ((sortPortInfos (collectPortInfos s.m_sgConfig)).map
              (fun i => desiredIncrease i.dwCurrentWeight)).sum) := by
      unfold plannedWeights
      simp only []
      rw [hclosed, if_pos hle]
    refine ⟨hplan, ?_⟩
    unfold EcmpInstance.getExpandedNextHops
    simp only [hstatus, ne_eq, not_true_eq_false, if_false, hne, hterm, Bool.not_true,
      Bool.false_eq_true, hplan]
    exact ⟨_, rfl⟩

/-- Witness of C16: ports of weights 70 and 1 are walked as 1, 70 from the total
71; the second port finds 128 - 72 = 56 < 70 and the call returns false with
only the two identifiers written. -/
theorem expansion_is_all_or_nothing_witness :
    crowdedInstance.m_status = T_AI_ECMP_STATUS.AI_ECMP_EXPAND ∧
    1 ≤ crowdedInstance.m_sgConfig.dwPortNum ∧
    crowdedInstance.m_sgConfig.dwPortNum < W16 ∧
    ((collectPortInfos crowdedInstance.m_sgConfig).map (fun i => i.dwCurrentWeight)).sum ≤ 128 ∧
    (sortPortInfos (collectPortInfos crowdedInstance.m_sgConfig)).map
      (fun i => i.dwCurrentWeight) = [1, 70] ∧
    currentTotalWeight (collectPortInfos crowdedInstance.m_sgConfig) = 71 ∧
    crowdedInstance.getExpandedNextHops ⟨0, 0, 5, List.replicate 128 9⟩ =
      some (false, ⟨9, 3, 5, List.replicate 128 9⟩) :=
  ⟨rfl, by decide, by decide, by decide, by decide, by decide,
    ((expansion_is_all_or_nothing crowdedInstance ⟨0, 0, 5, List.replicate 128 9⟩ rfl
      (by decide) (by decide) (by decide)).2.2.2.1
      ⟨[1], 70, [], by decide, by decide⟩).2⟩

theorem set_append_replicate (pre : List Nat) (m p : Nat) :
    (pre ++ List.replicate (m + 1) 0).set pre.length p = pre ++ p :: List.replicate m 0 := by
  induction pre with
  | nil => simp [List.replicate_succ]
  | cons a pre ih => simp [ih]

theorem fillPort_replicate (p n : Nat) : ∀ (pre : List Nat) (m : Nat),
    pre.length + m = 128 → n ≤ m →
    fillPort p n pre.length (pre ++ List.replicate m 0) =
      (pre ++ List.replicate n p ++ List.replicate (m - n) 0, pre.length + n) := by
  induction n with
  | zero => intro pre m _ _; simp [fillPort]
  | succ n ih =>
    intro pre m hlen hn
    obtain ⟨m', rfl⟩ : ∃ m', m = m' + 1 := ⟨m - 1, by omega⟩
    have hlt : pre.length < FTM_TRUNK_MAX_HASH_NUM_15K := by
      simp only [FTM_TRUNK_MAX_HASH_NUM_15K]; omega
    rw [fillPort, if_pos hlt, set_append_replicate]
    have h := ih (pre ++ [p]) m' (by simp; omega) (by omega)
    simp only [List.length_append, List.length_singleton, List.append_assoc,
      List.singleton_append] at h
    rw [h]
    simp only [List.replicate_succ, List.append_assoc, List.cons_append, Nat.add_sub_add_right,
      Prod.mk.injEq]
    exact ⟨trivial, by omega⟩

theorem fillLinkItems_replicate : ∀ (infos : List PortWeightInfo) (pre : List Nat) (m : Nat),
    pre.length + m = 128 → (infos.map (fun i => i.dwNewWeight)).sum ≤ m →
    fillLinkItems infos pre.length (pre ++ List.replicate m 0) =
      pre ++ infos.flatMap (fun i => List.replicate i.dwNewWeight i.dwPortId) ++
        List.replicate (m - (infos.map (fun i => i.dwNewWeight)).sum) 0
  | [], pre, m, _, _ => by simp [fillLinkItems]
  | info :: rest, pre, m, hlen, hsum => by
    simp only [List.map_cons, List.sum_cons] at hsum
    rw [fillLinkItems]
    rw [fillPort_replicate info.dwPortId info.dwNewWeight pre m hlen (by omega)]
    have h := fillLinkItems_replicate rest (pre ++ List.replicate info.dwNewWeight info.dwPortId)
      (m - info.dwNewWeight) (by simp; omega) (by omega)
    simp only [List.length_append, List.length_replicate] at h
    rw [h]
    simp only [List.flatMap_cons, List.map_cons, List.sum_cons, List.append_assoc,
      Nat.sub_sub]

theorem grantFull_newWeight_sum (L : List PortWeightInfo) :
    ((L.map grantFull).map (fun i => i.dwNewWeight)).sum =
      (L.map (fun i => i.dwCurrentWeight)).sum +
        (L.map (fun i => desiredIncrease i.dwCurrentWeight)).sum := by
  induction L with
  | nil => rfl
  | cons i L ih =>
    simp only [List.map_cons, List.sum_cons, ih, grantFull]
    omega

/-- The two paths on which `getExpandedNextHops` returns true.  On an instance
in status Expand with at least one port and current weights summing to at most
128 the call writes `dwItemNum` as the sum of the new weights (at most 128) and
`adwLinkItem` as one run per port, the ports in ascending order of current
weight and the run of a port being as many copies of its port id as its new
weight, followed by zeros up to index 128 (ports of equal weight in the order
`sortPortInfos` leaves them; `expanded_layout_any_order` covers every other
order `std::sort` may leave them in).  With no port at all the call returns
true as well and leaves `dwItemNum` and `adwLinkItem` as the caller passed
them. -/
theorem expanded_plan_layout (s : EcmpInstance) (nhopModifyData out : T_AI_ECMP_NHOP_MODIFY)
    (hstatus : s.m_status = T_AI_ECMP_STATUS.AI_ECMP_EXPAND)
    (hp2 : s.m_sgConfig.dwPortNum < W16)
    (hsum : ((collectPortInfos s.m_sgConfig).map (fun i => i.dwCurrentWeight)).sum ≤ 128)
    (hret : s.getExpandedNextHops nhopModifyData = some (true, out)) :
    (1 ≤ s.m_sgConfig.dwPortNum →
      ∃ portInfos : List PortWeightInfo,
        plannedWeights s.m_sgConfig = some (portInfos, out.dwItemNum) ∧
        (portInfos.map (fun i => i.dwCurrentWeight)).Pairwise (fun a b => a ≤ b) ∧
        (portInfos.map (fun i => (i.dwPortId, i.dwCurrentWeight))).Perm
          ((collectPortInfos s.m_sgConfig).map (fun i => (i.dwPortId, i.dwCurrentWeight))) ∧
        out.dwItemNum = (portInfos.map (fun i => i.dwNewWeight)).sum ∧
        out.dwItemNum ≤ 128 ∧
        out.adwLinkItem = specExpandedLinkItems portInfos ∧
        out.adwLinkItem.length = 128 ∧
        (∀ k, out.dwItemNum ≤ k → k < 128 → out.adwLinkItem.getD k 0 = 0)) ∧
    (s.m_sgConfig.dwPortNum = 0 →
      out.dwItemNum = nhopModifyData.dwItemNum ∧
      out.adwLinkItem = nhopModifyData.adwLinkItem) := by
  have hterm : word16LoopTerminates s.m_sgConfig.dwPortNum = true := by
    simp only [word16LoopTerminates, decide_eq_true_eq]; exact hp2
  constructor
  · intro hp1
    have hne : s.m_sgConfig.dwPortNum ≠ 0 := by omega
    obtain ⟨hperm, hnewcur, htotal, hS⟩ := expansion_setup s.m_sgConfig hsum
    have hclosed := expandWeights_closed_form (sortPortInfos (collectPortInfos s.m_sgConfig))
      (currentTotalWeight (collectPortInfos s.m_sgConfig)) hS hnewcur
    unfold EcmpInstance.getExpandedNextHops at hret
    simp only [hstatus, ne_eq, not_true_eq_false, if_false, hne, hterm, Bool.not_true,
      Bool.false_eq_true] at hret
    have hplan : plannedWeights s.m_sgConfig =
        expandWeights (sortPortInfos (collectPortInfos s.m_sgConfig))
          (currentTotalWeight (collectPortInfos s.m_sgConfig)) := rfl
    rw [hplan, hclosed] at hret
    by_cases hle : currentTotalWeight (collectPortInfos s.m_sgConfig) +
        ((sortPortInfos (collectPortInfos s.m_sgConfig)).map
          (fun i => desiredIncrease i.dwCurrentWeight)).sum ≤ 128
    · simp only [if_pos hle, Option.some.injEq, Prod.mk.injEq, true_and] at hret
      subst hret
      have hnewsum := grantFull_newWeight_sum (sortPortInfos (collectPortInfos s.m_sgConfig))
      have hcurmap : ((sortPortInfos (collectPortInfos s.m_sgConfig)).map grantFull).map
          (fun i => i.dwCurrentWeight) =
          (sortPortInfos (collectPortInfos s.m_sgConfig)).map (fun i => i.dwCurrentWeight) := by
        simp [grantFull, Function.comp_def]
      have hpairmap : ((sortPortInfos (collectPortInfos s.m_sgConfig)).map grantFull).map
          (fun i => (i.dwPortId, i.dwCurrentWeight)) =
          (sortPortInfos (collectPortInfos s.m_sgConfig)).map
            (fun i => (i.dwPortId, i.dwCurrentWeight)) := by
        simp [grantFull, Function.comp_def]
      have hfill := fillLinkItems_replicate
        ((sortPortInfos (collectPortInfos s.m_sgConfig)).map grantFull) [] 128 rfl
        (by rw [hnewsum, ← htotal]; exact hle)
      simp only [List.length_nil, List.nil_append] at hfill
      have hlayout : fillLinkItems ((sortPortInfos (collectPortInfos s.m_sgConfig)).map grantFull) 0
          (List.replicate FTM_TRUNK_MAX_HASH_NUM_15K 0) =
          specExpandedLinkItems ((sortPortInfos (collectPortInfos s.m_sgConfig)).map grantFull) :=
        hfill
      have hflat : ∀ L : List PortWeightInfo,
          (L.flatMap (fun i => List.replicate i.dwNewWeight i.dwPortId)).length =
            (L.map (fun i => i.dwNewWeight)).sum := by
        intro L
        induction L with
        | nil => rfl
        | cons i L ih => simp [List.flatMap_cons, ih]
      refine ⟨(sortPortInfos (collectPortInfos s.m_sgConfig)).map grantFull, ?_, ?_, ?_, ?_, ?_,
        hlayout, ?_, ?_⟩
      · rw [hplan, hclosed, if_pos hle]
      · rw [hcurmap]; exact sortPortInfos_sorted _
      · rw [hpairmap]; exact hperm.map _
      · show _ = _
        rw [hnewsum, ← htotal]
      · exact hle
      · rw [hlayout]
        simp only [specExpandedLinkItems, List.length_append, hflat, List.length_replicate]
        rw [hnewsum, ← htotal]
        omega
      · intro k hk1 hk2
        rw [hlayout]
        simp only [specExpandedLinkItems]
        have hk1' : ((List.map grantFull (sortPortInfos (collectPortInfos s.m_sgConfig))).flatMap
            (fun i => List.replicate i.dwNewWeight i.dwPortId)).length ≤ k := by
          rw [hflat, hnewsum, ← htotal]; exact hk1
        rw [List.getD_eq_getElem?_getD, List.getElem?_append_right hk1']
        simp only [List.getElem?_replicate]
        split <;> rfl
    · simp only [if_neg hle] at hret
      simp at hret
  · intro hp0
    unfold EcmpInstance.getExpandedNextHops at hret
    simp only [hstatus, ne_eq, not_true_eq_false, if_false, hp0, if_true, Option.some.injEq,
      Prod.mk.injEq, true_and] at hret
    subst hret
    exact ⟨rfl, rfl⟩

/-- The path with ports on the striped instance (weights 2, 2, 2, 2) in status
Expand: it is given 16 slots, four per port in port order, then 112 zeros. -/
theorem expanded_plan_layout_witness :
    ({ stripedInstance with m_status := T_AI_ECMP_STATUS.AI_ECMP_EXPAND } :
        EcmpInstance).getExpandedNextHops ⟨0, 0, 5, List.replicate 128 9⟩ =
      some (true, ⟨7, 42, 16,
        [1, 1, 1, 1, 2, 2, 2, 2, 3, 3, 3, 3, 4, 4, 4, 4] ++ List.replicate 112 0⟩) ∧
    ∃ portInfos : List PortWeightInfo,
      plannedWeights stripedConfig = some (portInfos, 16) ∧
      (portInfos.map (fun i => i.dwCurrentWeight)).Pairwise (fun a b => a ≤ b) ∧
      (portInfos.map (fun i => (i.dwPortId, i.dwCurrentWeight))).Perm
        ((collectPortInfos stripedConfig).map (fun i => (i.dwPortId, i.dwCurrentWeight))) ∧
      16 = (portInfos.map (fun i => i.dwNewWeight)).sum ∧
      16 ≤ 128 ∧
      [1, 1, 1, 1, 2, 2, 2, 2, 3, 3, 3, 3, 4, 4, 4, 4] ++ List.replicate 112 0 =
        specExpandedLinkItems portInfos ∧
      ([1, 1, 1, 1, 2, 2, 2, 2, 3, 3, 3, 3, 4, 4, 4, 4] ++ List.replicate 112 0).length = 128 ∧
      (∀ k, 16 ≤ k → k < 128 →
        ([1, 1, 1, 1, 2, 2, 2, 2, 3, 3, 3, 3, 4, 4, 4, 4] ++ List.replicate 112 0).getD k 0 = 0) :=
  ⟨by decide,
    (expanded_plan_layout
      { stripedInstance with m_status := T_AI_ECMP_STATUS.AI_ECMP_EXPAND }
      ⟨0, 0, 5, List.replicate 128 9⟩
      ⟨7, 42, 16, [1, 1, 1, 1, 2, 2, 2, 2, 3, 3, 3, 3, 4, 4, 4, 4] ++ List.replicate 112 0⟩
      rfl (by decide) (by decide) (by decide)).1 (by decide)⟩

set_option maxRecDepth 1000000 in
/-- C20 (failing run): the configuration `heavyConfig` (two ports of weight 100)
is accepted by the constructor; after four waiting cycles and two failed
searches the seventh cycle expands, the subtraction `128 - 200` wraps to
`2 ^ 32 - 72`, both ports are granted their increase and the plan handed to the
sender has `dwItemNum = 400` over an array of 128 link items, all of them
port 1. -/
theorem expansion_item_num_exceeds_capacity :
    (heavyRun 0).isSome = true ∧
    (heavyRun 6).map (fun step => (step.inst.m_status, step.inst.m_consecutiveAdjustFailures,
      step.sent)) = some (T_AI_ECMP_STATUS.AI_ECMP_BALANCE, 2, none) ∧
    (heavyRun 7).map (fun step => (step.inst.m_status, step.sent, step.dwResult)) =
      some (T_AI_ECMP_STATUS.AI_ECMP_EXPAND,
        some ⟨11, 1, 400, List.replicate 128 1⟩, AI_SUCCESS) ∧
    plannedWeights heavyConfig = some ([⟨1, 100, 200⟩, ⟨2, 100, 200⟩], 400) ∧
    (FTM_TRUNK_MAX_HASH_NUM_15K + W32 - currentTotalWeight (collectPortInfos heavyConfig)) % W32 =
      2 ^ 32 - 72 ∧
    FTM_TRUNK_MAX_HASH_NUM_15K < 400 := by
  refine ⟨by decide!, by decide!, by decide!, by decide!, by decide!, by decide!⟩

/-! ### The swap model -/

theorem minElement_perm {a b : List ℚ} (h : a.Perm b) : minElement a = minElement b := by
  cases a with
  | nil => rw [List.nil_perm.1 h]
  | cons x xs =>
    have ha : x :: xs ≠ [] := List.cons_ne_nil _ _
    have hb : b ≠ [] := fun hb => ha (List.perm_nil.1 (hb ▸ h))
    apply le_antisymm
    · exact minElement_le (h.mem_iff.2 (minElement_mem hb))
    · exact minElement_le (h.mem_iff.1 (minElement_mem ha))

theorem maxElement_perm {a b : List ℚ} (h : a.Perm b) : maxElement a = maxElement b := by
  cases a with
  | nil => rw [List.nil_perm.1 h]
  | cons x xs =>
    have ha : x :: xs ≠ [] := List.cons_ne_nil _ _
    have hb : b ≠ [] := fun hb => ha (List.perm_nil.1 (hb ▸ h))
    apply le_antisymm
    · exact le_maxElement (h.mem_iff.1 (maxElement_mem ha))
    · exact le_maxElement (h.mem_iff.2 (maxElement_mem hb))

theorem isEmpty_perm {α : Type} {a b : List α} (h : a.Perm b) : a.isEmpty = b.isEmpty := by
  cases a with
  | nil => rw [List.nil_perm.1 h]
  | cons x xs =>
    cases b with
    | nil => exact absurd (List.perm_nil.1 h) (List.cons_ne_nil _ _)
    | cons y ys => rfl

/-- The evaluation does not depend on the iteration order of the load map. -/
theorem metrics_perm {a b : Map} (speeds : Map) (h : a.Perm b) :
    calculateLoadBalanceMetrics a speeds = calculateLoadBalanceMetrics b speeds := by
  have hn : (normalizedLoads a speeds).Perm (normalizedLoads b speeds) := h.filterMap _
  have hempty : a.isEmpty = b.isEmpty := isEmpty_perm h
  have hnempty : (normalizedLoads a speeds).isEmpty = (normalizedLoads b speeds).isEmpty :=
    isEmpty_perm hn
  unfold calculateLoadBalanceMetrics
  simp only [hempty, hnempty, foldl_add_eq_sum_map, hn.sum_eq, hn.length_eq, minElement_perm hn,
    maxElement_perm hn, (hn.map _).sum_eq]

theorem mem_iff_lookup_of_nodup {m : Map} (h : (m.map Prod.fst).Nodup) (k v : Nat) :
    (k, v) ∈ m ↔ m.lookup k = some v := by
  induction m with
  | nil => simp
  | cons e rest ih =>
    obtain ⟨k0, v0⟩ := e
    simp only [List.map_cons, List.nodup_cons] at h
    rw [lookup_cons_eq, List.mem_cons]
    by_cases hk : k0 = k
    · subst hk
      simp only [if_true, Option.some.injEq, Prod.mk.injEq, true_and]
      constructor
      · rintro (h1 | h1)
        · exact h1.symm
        · exact absurd (List.mem_map_of_mem Prod.fst h1) h.1
      · intro h1; exact Or.inl h1.symm
    · simp only [hk, if_false, Prod.mk.injEq]
      rw [← ih h.2]
      constructor
      · rintro (h1 | h1)
        · exact absurd h1.1.symm hk
        · exact h1
      · intro h1; exact Or.inr h1

/-- Two maps with distinct keys and the same lookup function hold the same
entries. -/
theorem perm_of_lookup_eq {a b : Map} (ha : (a.map Prod.fst).Nodup) (hb : (b.map Prod.fst).Nodup)
    (h : ∀ k, a.lookup k = b.lookup k) : a.Perm b := by
  rw [List.perm_ext_iff_of_nodup (List.Nodup.of_map _ ha) (List.Nodup.of_map _ hb)]
  rintro ⟨k, v⟩
  rw [mem_iff_lookup_of_nodup ha, mem_iff_lookup_of_nodup hb, h]

theorem metrics_of_lookup_eq {a b : Map} (speeds : Map) (ha : (a.map Prod.fst).Nodup)
    (hb : (b.map Prod.fst).Nodup) (h : ∀ k, a.lookup k = b.lookup k) :
    calculateLoadBalanceMetrics a speeds = calculateLoadBalanceMetrics b speeds :=
  metrics_perm speeds (perm_of_lookup_eq ha hb h)

theorem lookup_filter_key (t : Map) (q : Nat → Bool) (k : Nat) :
    (t.filter (fun e => q e.1)).lookup k = if q k = true then t.lookup k else none := by
  induction t with
  | nil => simp
  | cons e rest ih =>
    obtain ⟨k0, v0⟩ := e
    by_cases hq : q k0 = true
    · rw [List.filter_cons_of_pos (by simpa using hq), lookup_cons_eq, lookup_cons_eq, ih]
      by_cases hk : k0 = k
      · subst hk; simp [hq]
      · simp [hk]
    · rw [List.filter_cons_of_neg (by simpa using hq), lookup_cons_eq, ih]
      by_cases hk : k0 = k
      · subst hk; simp [hq]
      · simp [hk]

theorem filter_keys_nodup (t : Map) (q : Nat × Nat → Bool) (h : (t.map Prod.fst).Nodup) :
    ((t.filter q).map Prod.fst).Nodup :=
  List.Nodup.sublist (List.Sublist.map _ (List.filter_sublist t)) h

/-- The entries of a table other than those of the slots `i` and `j`. -/
theorem others_lookup (t : Map) (i j k : Nat) :
    (t.filter (fun e => decide (e.1 ≠ i) && decide (e.1 ≠ j))).lookup k =
      if k = i ∨ k = j then none else t.lookup k := by
  rw [lookup_filter_key t (fun x => decide (x ≠ i) && decide (x ≠ j)) k]
  by_cases h1 : k = i
  · simp [h1]
  · by_cases h2 : k = j
    · simp [h2]
    · simp [h1, h2]

theorem two_entries_nodup (t : Map) (i j w1 w2 : Nat) (hij : i ≠ j)
    (h : (t.map Prod.fst).Nodup) :
    (((i, w1) :: (j, w2) ::
      t.filter (fun e => decide (e.1 ≠ i) && decide (e.1 ≠ j))).map Prod.fst).Nodup := by
  have hnot : ∀ k, (k = i ∨ k = j) →
      k ∉ (t.filter (fun e => decide (e.1 ≠ i) && decide (e.1 ≠ j))).map Prod.fst := by
    intro k hk hmem
    obtain ⟨v, hv⟩ := lookup_some_of_mem_keys hmem
    rw [others_lookup, if_pos hk] at hv
    simp at hv
  simp only [List.map_cons, List.nodup_cons, List.mem_cons, not_or]
  exact ⟨⟨hij, hnot i (Or.inl rfl)⟩, hnot j (Or.inr rfl), filter_keys_nodup _ _ h⟩

theorem two_entries_lookup (t : Map) (i j w1 w2 k : Nat) :
    ((i, w1) :: (j, w2) ::
      t.filter (fun e => decide (e.1 ≠ i) && decide (e.1 ≠ j))).lookup k =
      if k = i then some w1 else if k = j then some w2 else t.lookup k := by
  rw [lookup_cons_eq, lookup_cons_eq, others_lookup]
  by_cases h1 : k = i
  · simp [h1]
  · by_cases h2 : k = j
    · subst h2
      have h3 : ¬ i = k := fun h => h1 h.symm
      simp [h1, h3]
    · have h3 : ¬ i = k := fun h => h1 h.symm
      have h4 : ¬ j = k := fun h => h2 h.symm
      simp [h1, h2, h3, h4]

/-- A table with distinct keys holds the entries of the slots `i` and `j` and
the other entries. -/
theorem table_split {t : Map} {i j p1 p2 : Nat} (h : (t.map Prod.fst).Nodup) (hij : i ≠ j)
    (h1 : t.lookup i = some p1) (h2 : t.lookup j = some p2) :
    t.Perm ((i, p1) :: (j, p2) ::
      t.filter (fun e => decide (e.1 ≠ i) && decide (e.1 ≠ j))) := by
  apply perm_of_lookup_eq h (two_entries_nodup t i j p1 p2 hij h)
  intro k
  rw [two_entries_lookup]
  by_cases hk1 : k = i
  · simp [hk1, h1]
  · by_cases hk2 : k = j
    · simp [hk2, hij.symm, h2]
    · simp [hk1, hk2]

/-- Writing the slots `i` and `j` of a table with distinct keys. -/
theorem modified_split {t : Map} {i j : Nat} (w1 w2 : Nat) (h : (t.map Prod.fst).Nodup)
    (hij : i ≠ j) :
    (mapModify (mapModify t i (fun _ => w1)) j (fun _ => w2)).Perm
      ((i, w1) :: (j, w2) :: t.filter (fun e => decide (e.1 ≠ i) && decide (e.1 ≠ j))) := by
  apply perm_of_lookup_eq (mapModify_keys_nodup _ _ _ (mapModify_keys_nodup _ _ _ h))
    (two_entries_nodup t i j w1 w2 hij h)
  intro k
  rw [two_entries_lookup, lookup_mapModify, lookup_mapModify]
  by_cases hk1 : k = i
  · simp [hk1, hij]
  · by_cases hk2 : k = j
    · simp [hk2, hij.symm]
    · simp [hk1, hk2]

theorem slotContributions_perm {t t' : Map} (counts : List Nat) (p : Nat) (h : t.Perm t') :
    (slotContributions t counts p).Perm (slotContributions t' counts p) :=
  (h.filter _).map _

theorem loadEntry_perm {a b : List Nat} (h : a.Perm b) : loadEntry a = loadEntry b := by
  unfold loadEntry
  by_cases ha : a = []
  · subst ha; rw [List.nil_perm.1 h]
  · have hb : b ≠ [] := fun hb => ha (List.perm_nil.1 (hb ▸ h))
    simp only [ha, hb, if_false, h.sum_eq]

theorem getD_lt_of_forall {counts : List Nat} {b : Nat} (h : ∀ c ∈ counts, c < b) (hb : 0 < b)
    (i : Nat) : counts.getD i 0 < b := by
  by_cases hi : i < counts.length
  · rw [List.getD_eq_getElem _ _ hi]
    exact h _ (List.getElem_mem _)
  · rw [List.getD_eq_default _ _ (by omega)]
    exact hb

theorem wrap_swap (r c1 c2 : Nat) (h1 : c1 < W64) :
    (((c1 + r) % W64 + W64 - c1) % W64 + c2) % W64 = (c2 + r) % W64 := by
  unfold W64 at *
  omega

/-- The loads `calculateSwapImprovement` derives from loads that agree with the
table are the loads of the table with the two ports exchanged. -/
theorem swapped_loads_lookup {t : Map} {counts : List Nat} {loads : Map} {i j p1 p2 : Nat}
    (hnodup : (t.map Prod.fst).Nodup) (hcounts : ∀ c ∈ counts, c < W64)
    (hloads : ∀ p, loads.lookup p = (calculatePortLoads t counts).lookup p)
    (h1 : t.lookup i = some p1) (h2 : t.lookup j = some p2) (hp : p1 ≠ p2)
    (hi : i < counts.length) (hj : j < counts.length) (p : Nat) :
    (mapModify (mapModify (mapModify (mapModify loads
        p1 (fun l => (l + W64 - counts.getD i 0) % W64))
        p2 (fun l => (l + W64 - counts.getD j 0) % W64))
        p1 (fun l => (l + counts.getD j 0) % W64))
        p2 (fun l => (l + counts.getD i 0) % W64)).lookup p =
      (calculatePortLoads (mapModify (mapModify t i (fun _ => p2)) j (fun _ => p1))
        counts).lookup p := by
  have hij : i ≠ j := by
    intro h
    subst h
    rw [h1] at h2
    exact hp (Option.some.inj h2)
  have hA : ∀ q, loads.lookup q = loadEntry (slotContributions
      ((i, p1) :: (j, p2) :: t.filter (fun e => decide (e.1 ≠ i) && decide (e.1 ≠ j)))
      counts q) := by
    intro q
    rw [hloads, lookup_calculatePortLoads]
    exact loadEntry_perm (slotContributions_perm counts q (table_split hnodup hij h1 h2))
  have hB : ∀ q, (calculatePortLoads (mapModify (mapModify t i (fun _ => p2)) j (fun _ => p1))
      counts).lookup q = loadEntry (slotContributions
      ((i, p2) :: (j, p1) :: t.filter (fun e => decide (e.1 ≠ i) && decide (e.1 ≠ j)))
      counts q) := by
    intro q
    rw [lookup_calculatePortLoads]
    exact loadEntry_perm (slotContributions_perm counts q (modified_split p2 p1 hnodup hij))
  have hc1 : counts.getD i 0 < W64 := getD_lt_of_forall hcounts (by decide) i
  have hc2 : counts.getD j 0 < W64 := getD_lt_of_forall hcounts (by decide) j
  have hp' : p2 ≠ p1 := fun h => hp h.symm
  rw [hB]
  simp only [lookup_mapModify_fun, hA, slotContributions_cons, hi, hj, and_true]
  generalize counts.getD i 0 = c1 at hc1 ⊢
  generalize counts.getD j 0 = c2 at hc2 ⊢
  generalize (slotContributions (t.filter (fun e => decide (e.1 ≠ i) && decide (e.1 ≠ j)))
    counts) = R
  by_cases hq1 : p = p1
  · subst hq1
    simp only [hp, hp', if_true, if_false, loadEntry, List.cons_ne_nil, List.sum_cons,
      Option.getD_some, Option.some.injEq]
    exact wrap_swap _ c1 c2 hc1
  · by_cases hq2 : p = p2
    · subst hq2
      simp only [hp, hp', hq1, if_true, if_false, loadEntry, List.cons_ne_nil, List.sum_cons,
        Option.getD_some, Option.some.injEq]
      exact wrap_swap _ c2 c1 hc2
    · have hq1' : ¬ p1 = p := fun h => hq1 h.symm
      have hq2' : ¬ p2 = p := fun h => hq2 h.symm
      simp only [hq1, hq2, hq1', hq2', if_false]

theorem swapped_loads_nodup {loads : Map} (p1 p2 : Nat) (f1 f2 f3 f4 : Nat → Nat)
    (h : (loads.map Prod.fst).Nodup) :
    ((mapModify (mapModify (mapModify (mapModify loads p1 f1) p2 f2) p1 f3) p2 f4).map
      Prod.fst).Nodup :=
  mapModify_keys_nodup _ _ _ (mapModify_keys_nodup _ _ _
    (mapModify_keys_nodup _ _ _ (mapModify_keys_nodup _ _ _ h)))

theorem mapModify_same {t : Map} {k v : Nat} (h : t.lookup k = some v) :
    mapModify t k (fun _ => v) = t := by
  induction t with
  | nil => simp at h
  | cons e rest ih =>
    obtain ⟨k', v'⟩ := e
    rw [lookup_cons_eq] at h
    unfold mapModify
    by_cases hk : k' = k
    · simp only [hk, if_true, Option.some.injEq] at h ⊢
      rw [h]
    · simp only [hk, if_false] at h ⊢
      rw [ih h]

theorem swapPorts_eq {t : Map} {i j p1 p2 : Nat} (h1 : t.lookup i = some p1)
    (h2 : t.lookup j = some p2) :
    swapPorts t i j = mapModify (mapModify t i (fun _ => p2)) j (fun _ => p1) := by
  unfold swapPorts mapGet
  rw [h1, h2]
  rfl

/-- The exchange evaluated on loads that agree with the table is the difference
of the scores of the exchanged and the current table. -/
theorem swapImprovement_eq_scores {t : Map} {counts : List Nat} {loads : Map} (speeds : Map)
    {i j p1 p2 : Nat} (hnodup : (t.map Prod.fst).Nodup) (hcounts : ∀ c ∈ counts, c < W64)
    (hlnodup : (loads.map Prod.fst).Nodup)
    (hloads : ∀ p, loads.lookup p = (calculatePortLoads t counts).lookup p)
    (h1 : t.lookup i = some p1) (h2 : t.lookup j = some p2) (hp : p1 ≠ p2)
    (hi : i < counts.length) (hj : j < counts.length) :
    calculateSwapImprovement t counts loads speeds i j =
      tableScore (swapPorts t i j) counts speeds - tableScore t counts speeds := by
  have hi' : ¬ counts.length ≤ i := by omega
  have hj' : ¬ counts.length ≤ j := by omega
  unfold calculateSwapImprovement tableScore
  rw [swapPorts_eq h1 h2]
  simp only [h1, h2, hi', hj', hp, decide_False, Bool.or_self, Bool.false_eq_true, if_false]
  rw [metrics_of_lookup_eq speeds hlnodup (calculatePortLoads_keys_nodup t counts) hloads,
    metrics_of_lookup_eq speeds (swapped_loads_nodup p1 p2 _ _ _ _ hlnodup)
      (calculatePortLoads_keys_nodup _ counts)
      (swapped_loads_lookup hnodup hcounts hloads h1 h2 hp hi hj)]

theorem swapImprovement_zero (t : Map) (counts : List Nat) (loads speeds : Map) (i j : Nat)
    (h : t.lookup i = t.lookup j ∨ i ∉ t.map Prod.fst ∨ j ∉ t.map Prod.fst ∨
      counts.length ≤ i ∨ counts.length ≤ j) :
    calculateSwapImprovement t counts loads speeds i j = 0 := by
  unfold calculateSwapImprovement
  cases h1 : t.lookup i with
  | none => rfl
  | some p1 =>
    cases h2 : t.lookup j with
    | none => rfl
    | some p2 =>
      simp only []
      rcases h with h | h | h | h | h
      · rw [h1, h2] at h
        have hp : p1 = p2 := Option.some.inj h
        simp [hp]
      · rw [lookup_none_of_not_mem_keys h] at h1
        simp at h1
      · rw [lookup_none_of_not_mem_keys h] at h2
        simp at h2
      · simp [h]
      · simp [h]

/-! ### What rounding leaves untouched in the search -/

theorem roundPos_nonneg (n d : Nat) : 0 ≤ roundPos n d := by
  unfold roundPos
  split
  · split <;> positivity
  · split <;> positivity

theorem roundDouble_nonneg {q : ℚ} (h : 0 ≤ q) : 0 ≤ roundDouble q := by
  unfold roundDouble
  split
  · exact le_refl _
  · split
    · rename_i hneg
      exact absurd h (not_le.2 hneg)
    · exact roundPos_nonneg _ _

theorem roundDouble_nonpos {q : ℚ} (h : q ≤ 0) : roundDouble q ≤ 0 := by
  unfold roundDouble
  split
  · exact le_refl _
  · split
    · exact neg_nonpos.2 (roundPos_nonneg _ _)
    · rename_i h0 hneg
      exact absurd (le_antisymm h (not_lt.1 hneg)) h0

theorem rounded_swapImprovement_zero (fl : ℚ → ℚ) (iter : Map → Map) (t : Map)
    (counts : List Nat) (loads speeds : Map) (i j : Nat)
    (h : t.lookup i = t.lookup j ∨ i ∉ t.map Prod.fst ∨ j ∉ t.map Prod.fst ∨
      counts.length ≤ i ∨ counts.length ≤ j) :
    Rounded.calculateSwapImprovement fl iter t counts loads speeds i j = 0 := by
  unfold Rounded.calculateSwapImprovement
  cases h1 : t.lookup i with
  | none => rfl
  | some p1 =>
    cases h2 : t.lookup j with
    | none => rfl
    | some p2 =>
      simp only []
      rcases h with h | h | h | h | h
      · rw [h1, h2] at h
        have hp : p1 = p2 := Option.some.inj h
        simp [hp]
      · rw [lookup_none_of_not_mem_keys h] at h1
        simp at h1
      · rw [lookup_none_of_not_mem_keys h] at h2
        simp at h2
      · simp [h]
      · simp [h]

theorem lookup_calculatePortLoads_perm {t t' : Map} (h : t'.Perm t) (counts : List Nat)
    (p : Nat) :
    (calculatePortLoads t' counts).lookup p = (calculatePortLoads t counts).lookup p := by
  rw [lookup_calculatePortLoads, lookup_calculatePortLoads]
  exact loadEntry_perm (slotContributions_perm counts p h)

/-- The invariants of the search loop that do not depend on the arithmetic: in
rounded arithmetic that keeps the sign, one pass of the loop keeps the keys of
the table and of the live load map distinct, the live loads equal to the loads
of the current table, and `bestResult` equal to the current table. -/
theorem rounded_iteration_loads (fl : ℚ → ℚ) (iter : Map → Map)
    (hfl0 : ∀ q : ℚ, 0 ≤ q → 0 ≤ fl q) (hfl1 : ∀ q : ℚ, q ≤ 0 → fl q ≤ 0)
    (self : LocalSearch) (counts : List Nat) (speeds : Map)
    (hashIndices : List Nat) (idx : Nat × Nat) (st : SearchState)
    (hcost : 0 ≤ self.m_exchangeCostFactor) (hcounts : ∀ c ∈ counts, c < W64)
    (hnodup : (st.result.map Prod.fst).Nodup)
    (hlnodup : (st.portLoads.map Prod.fst).Nodup)
    (hloads : ∀ p, st.portLoads.lookup p = (calculatePortLoads st.result counts).lookup p)
    (hbest : st.bestResult = st.result) :
    ((Rounded.iteration fl iter self counts speeds hashIndices idx st).result.map
      Prod.fst).Nodup ∧
    ((Rounded.iteration fl iter self counts speeds hashIndices idx st).portLoads.map
      Prod.fst).Nodup ∧
    (∀ p, (Rounded.iteration fl iter self counts speeds hashIndices idx st).portLoads.lookup p =
      (calculatePortLoads (Rounded.iteration fl iter self counts speeds hashIndices idx st).result
        counts).lookup p) ∧
    (Rounded.iteration fl iter self counts speeds hashIndices idx st).bestResult =
      (Rounded.iteration fl iter self counts speeds hashIndices idx st).result := by
  unfold Rounded.iteration
  simp only []
  split
  · rename_i hpos
    have hcond : ¬ (st.result.lookup (hashIndices.getD idx.1 0) =
          st.result.lookup (hashIndices.getD idx.2 0) ∨
        hashIndices.getD idx.1 0 ∉ st.result.map Prod.fst ∨
        hashIndices.getD idx.2 0 ∉ st.result.map Prod.fst ∨
        counts.length ≤ hashIndices.getD idx.1 0 ∨
        counts.length ≤ hashIndices.getD idx.2 0) := by
      intro h
      rw [rounded_swapImprovement_zero fl iter _ _ _ _ _ _ h] at hpos
      have h1 : (0 : ℚ) - fl self.m_exchangeCostFactor ≤ 0 := by
        have := hfl0 _ hcost
        linarith
      exact absurd hpos (not_lt.2 (hfl1 _ h1))
    simp only [not_or, not_not, not_le] at hcond
    obtain ⟨hne, hk1, hk2, hi, hj⟩ := hcond
    obtain ⟨p1, hl1⟩ := lookup_some_of_mem_keys hk1
    obtain ⟨p2, hl2⟩ := lookup_some_of_mem_keys hk2
    have hp : p1 ≠ p2 := by
      intro h
      apply hne
      rw [hl1, hl2, h]
    simp only [mapModify_id hl1, mapModify_id hl2, mapGet, hl1, hl2, Option.getD_some, hi, hj,
      if_true]
    exact ⟨mapModify_keys_nodup _ _ _ (mapModify_keys_nodup _ _ _ hnodup),
      swapped_loads_nodup p1 p2 _ _ _ _ hlnodup,
      swapped_loads_lookup hnodup hcounts hloads hl1 hl2 hp hi hj, trivial⟩
  · exact ⟨hnodup, hlnodup, hloads, hbest⟩

theorem rounded_searchLoop_loads (fl : ℚ → ℚ) (iter : Map → Map)
    (hfl0 : ∀ q : ℚ, 0 ≤ q → 0 ≤ fl q) (hfl1 : ∀ q : ℚ, q ≤ 0 → fl q ≤ 0)
    (self : LocalSearch) (counts : List Nat) (speeds : Map)
    (hashIndices : List Nat) (samples : Nat → Nat × Nat)
    (hcost : 0 ≤ self.m_exchangeCostFactor) (hcounts : ∀ c ∈ counts, c < W64)
    (remaining dwIterations : Nat) (st : SearchState)
    (hnodup : (st.result.map Prod.fst).Nodup)
    (hlnodup : (st.portLoads.map Prod.fst).Nodup)
    (hloads : ∀ p, st.portLoads.lookup p = (calculatePortLoads st.result counts).lookup p)
    (hbest : st.bestResult = st.result) :
    ((Rounded.searchLoop fl iter self counts speeds hashIndices samples remaining dwIterations
      st).result.map Prod.fst).Nodup ∧
    ((Rounded.searchLoop fl iter self counts speeds hashIndices samples remaining dwIterations
      st).portLoads.map Prod.fst).Nodup ∧
    (∀ p, (Rounded.searchLoop fl iter self counts speeds hashIndices samples remaining
        dwIterations st).portLoads.lookup p =
      (calculatePortLoads (Rounded.searchLoop fl iter self counts speeds hashIndices samples
        remaining dwIterations st).result counts).lookup p) ∧
    (Rounded.searchLoop fl iter self counts speeds hashIndices samples remaining dwIterations
        st).bestResult =
      (Rounded.searchLoop fl iter self counts speeds hashIndices samples remaining dwIterations
        st).result := by
  induction remaining generalizing dwIterations st with
  | zero =>
    unfold Rounded.searchLoop
    exact ⟨hnodup, hlnodup, hloads, hbest⟩
  | succ n ih =>
    unfold Rounded.searchLoop
    split
    · obtain ⟨a, b, c, d⟩ := rounded_iteration_loads fl iter hfl0 hfl1 self counts speeds
        hashIndices (samples dwIterations) st hcost hcounts hnodup hlnodup hloads hbest
      exact ih (dwIterations + 1) _ a b c d
    · exact ⟨hnodup, hlnodup, hloads, hbest⟩

/-- In `double`, whatever the order `iter` in which the maps are visited (any
rearrangement of the entries): after every number `k` of passes through the
loop of `LocalSearch::optimize` the live map `portLoads` has distinct keys and
the same entries as the load map recomputed from the current table, and
`bestResult` is the current table. -/
theorem rounded_live_loads (iter : Map → Map) (hiter : ∀ m : Map, (iter m).Perm m)
    (self : LocalSearch) (samples : Nat → Nat × Nat) (memberTable : Map)
    (memberCounts : List Nat) (portSpeeds : Map) (hcost : 0 ≤ self.m_exchangeCostFactor)
    (hnodup : (memberTable.map Prod.fst).Nodup) (hcounts : ∀ c ∈ memberCounts, c < W64)
    (k : Nat) :
    ((Rounded.searchLoop roundDouble iter self memberCounts portSpeeds
        ((iter memberTable).map Prod.fst) samples k 0
        ⟨memberTable, Rounded.calculatePortLoads iter memberTable memberCounts, memberTable,
          0⟩).portLoads.map Prod.fst).Nodup ∧
    (Rounded.searchLoop roundDouble iter self memberCounts portSpeeds
        ((iter memberTable).map Prod.fst) samples k 0
        ⟨memberTable, Rounded.calculatePortLoads iter memberTable memberCounts, memberTable,
          0⟩).portLoads.Perm
      (Rounded.calculatePortLoads iter
        (Rounded.searchLoop roundDouble iter self memberCounts portSpeeds
          ((iter memberTable).map Prod.fst) samples k 0
          ⟨memberTable, Rounded.calculatePortLoads iter memberTable memberCounts, memberTable,
            0⟩).result memberCounts) ∧
    (Rounded.searchLoop roundDouble iter self memberCounts portSpeeds
        ((iter memberTable).map Prod.fst) samples k 0
        ⟨memberTable, Rounded.calculatePortLoads iter memberTable memberCounts, memberTable,
          0⟩).bestResult =
      (Rounded.searchLoop roundDouble iter self memberCounts portSpeeds
        ((iter memberTable).map Prod.fst) samples k 0
        ⟨memberTable, Rounded.calculatePortLoads iter memberTable memberCounts, memberTable,
          0⟩).result := by
  obtain ⟨_, hl, hlookup, hb⟩ := rounded_searchLoop_loads roundDouble iter
    (fun q h => roundDouble_nonneg h) (fun q h => roundDouble_nonpos h) self memberCounts
    portSpeeds ((iter memberTable).map Prod.fst) samples hcost hcounts k 0
    ⟨memberTable, Rounded.calculatePortLoads iter memberTable memberCounts, memberTable, 0⟩
    hnodup (calculatePortLoads_keys_nodup _ _)
    (fun p => lookup_calculatePortLoads_perm (hiter memberTable) memberCounts p) rfl
  refine ⟨hl, ?_, hb⟩
  apply perm_of_lookup_eq hl (calculatePortLoads_keys_nodup _ _)
  intro p
  rw [hlookup p]
  exact (lookup_calculatePortLoads_perm (hiter _) memberCounts p).symm

/-- C12 (amended): for a table with distinct keys (as every `std::unordered_map`
has) and 64-bit counters, in exact arithmetic `calculateSwapImprovement` called
with the loads of the table on two slots `i`, `j` that are keys of the table and
below `len(member_counts)` returns the balance score of the table with the
ports of `i` and `j` exchanged, loads recomputed from scratch, minus the balance
score of the table; and for any loads it returns 0 when the two slots hold the
same port, or one of them is not a key or is not below `len(member_counts)`, in
exact arithmetic and in rounded arithmetic alike. -/
theorem swapImprovement_is_score_difference (table : Map) (member_counts : List Nat)
    (port_speeds : Map) (i j : Nat)
    (hnodup : (table.map Prod.fst).Nodup) (hcounts : ∀ c ∈ member_counts, c < W64) :
    (i ∈ table.map Prod.fst → j ∈ table.map Prod.fst →
      i < member_counts.length → j < member_counts.length →
      calculateSwapImprovement table member_counts (calculatePortLoads table member_counts)
          port_speeds i j =
        tableScore (swapPorts table i j) member_counts port_speeds -
          tableScore table member_counts port_speeds) ∧
    (∀ loads : Map,
      (table.lookup i = table.lookup j ∨ i ∉ table.map Prod.fst ∨ j ∉ table.map Prod.fst ∨
        member_counts.length ≤ i ∨ member_counts.length ≤ j) →
      calculateSwapImprovement table member_counts loads port_speeds i j = 0) ∧
    (∀ (fl : ℚ → ℚ) (iter : Map → Map) (loads : Map),
      (table.lookup i = table.lookup j ∨ i ∉ table.map Prod.fst ∨ j ∉ table.map Prod.fst ∨
        member_counts.length ≤ i ∨ member_counts.length ≤ j) →
      Rounded.calculateSwapImprovement fl iter table member_counts loads port_speeds i j =
        0) := by
  constructor
  · intro hik hjk hi hj
    obtain ⟨p1, h1⟩ := lookup_some_of_mem_keys hik
    obtain ⟨p2, h2⟩ := lookup_some_of_mem_keys hjk
    by_cases hp : p1 = p2
    · subst hp
      rw [swapImprovement_zero table member_counts _ port_speeds i j (Or.inl (h1.trans h2.symm)),
        swapPorts_eq h1 h2, mapModify_same h1, mapModify_same h2, sub_self]
    · exact swapImprovement_eq_scores port_speeds hnodup hcounts
        (calculatePortLoads_keys_nodup _ _) (fun _ => rfl) h1 h2 hp hi hj
  · exact ⟨fun loads h => swapImprovement_zero table member_counts loads port_speeds i j h,
      fun fl iter loads h =>
        rounded_swapImprovement_zero fl iter table member_counts loads port_speeds i j h⟩

/-- Witness of C12 (amended): on the striped table with counters
`[50, 5, 5, 5, 50, 5, 5, 5]` the exchange of the slots 0 and 1 is worth
`18 / 13`, the score rising from `-36 / 13` to `-18 / 13`. -/
theorem swapImprovement_is_score_difference_witness :
    (stripedInstance.m_ecmpMemberTable.map Prod.fst).Nodup ∧
    (∀ c ∈ [50, 5, 5, 5, 50, 5, 5, 5], c < W64) ∧
    tableScore stripedInstance.m_ecmpMemberTable [50, 5, 5, 5, 50, 5, 5, 5]
      stripedInstance.m_portSpeeds = -36 / 13 ∧
    tableScore (swapPorts stripedInstance.m_ecmpMemberTable 0 1) [50, 5, 5, 5, 50, 5, 5, 5]
      stripedInstance.m_portSpeeds = -18 / 13 ∧
    calculateSwapImprovement stripedInstance.m_ecmpMemberTable [50, 5, 5, 5, 50, 5, 5, 5]
        (calculatePortLoads stripedInstance.m_ecmpMemberTable [50, 5, 5, 5, 50, 5, 5, 5])
        stripedInstance.m_portSpeeds 0 1 =
      tableScore (swapPorts stripedInstance.m_ecmpMemberTable 0 1) [50, 5, 5, 5, 50, 5, 5, 5]
          stripedInstance.m_portSpeeds -
        tableScore stripedInstance.m_ecmpMemberTable [50, 5, 5, 5, 50, 5, 5, 5]
          stripedInstance.m_portSpeeds :=
  ⟨by decide, by decide, by decide!, by decide!,
    (swapImprovement_is_score_difference stripedInstance.m_ecmpMemberTable
      [50, 5, 5, 5, 50, 5, 5, 5] stripedInstance.m_portSpeeds 0 1 (by decide) (by decide)).1
      (by decide) (by decide) (by decide) (by decide)⟩

/-! ### The local search never returns a worse table -/

/-- What one pass of the search loop keeps true: the table has distinct keys,
the live loads are those of the table, the best table is the current one, and
the current table is the initial one or scores strictly higher. -/
theorem iteration_score (self : LocalSearch) (counts : List Nat) (speeds : Map)
    (hashIndices : List Nat) (idx : Nat × Nat) (st : SearchState) (table0 : Map)
    (hcost : 0 ≤ self.m_exchangeCostFactor) (hcounts : ∀ c ∈ counts, c < W64)
    (hnodup : (st.result.map Prod.fst).Nodup)
    (hlnodup : (st.portLoads.map Prod.fst).Nodup)
    (hloads : ∀ p, st.portLoads.lookup p = (calculatePortLoads st.result counts).lookup p)
    (hbest : st.bestResult = st.result)
    (hscore : st.result = table0 ∨
      tableScore table0 counts speeds < tableScore st.result counts speeds) :
    ((self.iteration counts speeds hashIndices idx st).result.map Prod.fst).Nodup ∧
    ((self.iteration counts speeds hashIndices idx st).portLoads.map Prod.fst).Nodup ∧
    (∀ p, (self.iteration counts speeds hashIndices idx st).portLoads.lookup p =
      (calculatePortLoads (self.iteration counts speeds hashIndices idx st).result
        counts).lookup p) ∧
    (self.iteration counts speeds hashIndices idx st).bestResult =
      (self.iteration counts speeds hashIndices idx st).result ∧
    ((self.iteration counts speeds hashIndices idx st).result = table0 ∨
      tableScore table0 counts speeds <
        tableScore (self.iteration counts speeds hashIndices idx st).result counts speeds) := by
  unfold LocalSearch.iteration
  simp only []
  split
  · rename_i hpos
    have himp : 0 < calculateSwapImprovement st.result counts st.portLoads speeds
        (hashIndices.getD idx.1 0) (hashIndices.getD idx.2 0) := by linarith
    have hcond : ¬ (st.result.lookup (hashIndices.getD idx.1 0) =
          st.result.lookup (hashIndices.getD idx.2 0) ∨
        hashIndices.getD idx.1 0 ∉ st.result.map Prod.fst ∨
        hashIndices.getD idx.2 0 ∉ st.result.map Prod.fst ∨
        counts.length ≤ hashIndices.getD idx.1 0 ∨
        counts.length ≤ hashIndices.getD idx.2 0) := by
      intro h
      rw [swapImprovement_zero _ _ _ _ _ _ h] at himp
      exact lt_irrefl _ himp
    simp only [not_or, not_not, not_le] at hcond
    obtain ⟨hne, hk1, hk2, hi, hj⟩ := hcond
    obtain ⟨p1, hl1⟩ := lookup_some_of_mem_keys hk1
    obtain ⟨p2, hl2⟩ := lookup_some_of_mem_keys hk2
    have hp : p1 ≠ p2 := by
      intro h
      apply hne
      rw [hl1, hl2, h]
    have hval := swapImprovement_eq_scores speeds hnodup hcounts hlnodup hloads hl1 hl2 hp hi hj
    rw [swapPorts_eq hl1 hl2] at hval
    simp only [mapModify_id hl1, mapModify_id hl2, mapGet, hl1, hl2, Option.getD_some, hi, hj,
      if_true]
    refine ⟨mapModify_keys_nodup _ _ _ (mapModify_keys_nodup _ _ _ hnodup),
      swapped_loads_nodup p1 p2 _ _ _ _ hlnodup,
      swapped_loads_lookup hnodup hcounts hloads hl1 hl2 hp hi hj, trivial, Or.inr ?_⟩
    rcases hscore with h | h
    · rw [← h]; linarith
    · linarith
  · exact ⟨hnodup, hlnodup, hloads, hbest, hscore⟩

theorem searchLoop_score (self : LocalSearch) (counts : List Nat) (speeds : Map)
    (hashIndices : List Nat) (samples : Nat → Nat × Nat) (table0 : Map)
    (hcost : 0 ≤ self.m_exchangeCostFactor) (hcounts : ∀ c ∈ counts, c < W64)
    (remaining dwIterations : Nat) (st : SearchState)
    (hnodup : (st.result.map Prod.fst).Nodup)
    (hlnodup : (st.portLoads.map Prod.fst).Nodup)
    (hloads : ∀ p, st.portLoads.lookup p = (calculatePortLoads st.result counts).lookup p)
    (hbest : st.bestResult = st.result)
    (hscore : st.result = table0 ∨
      tableScore table0 counts speeds < tableScore st.result counts speeds) :
    (self.searchLoop counts speeds hashIndices samples remaining dwIterations st).bestResult =
        table0 ∨
      tableScore table0 counts speeds <
        tableScore (self.searchLoop counts speeds hashIndices samples remaining dwIterations
          st).bestResult counts speeds := by
  induction remaining generalizing dwIterations st with
  | zero =>
    unfold LocalSearch.searchLoop
    rw [hbest]
    exact hscore
  | succ n ih =>
    unfold LocalSearch.searchLoop
    split
    · obtain ⟨a, b, c, d, e⟩ := iteration_score self counts speeds hashIndices
        (samples dwIterations) st table0 hcost hcounts hnodup hlnodup hloads hbest hscore
      exact ih (dwIterations + 1) _ a b c d e
    · rw [hbest]
      exact hscore

/-- C15 (amended): in exact arithmetic, for a table with distinct keys (as every
`std::unordered_map` has), 64-bit counters, any port speeds, any exchange cost
factor that is not negative
and any sequence of sampled index pairs, `LocalSearch::optimize` returns its
input table or a table whose balance score, computed from scratch on the same
counters, is strictly greater than the score of the input. -/
theorem optimize_returns_input_or_better (self : LocalSearch) (samples : Nat → Nat × Nat)
    (memberTable : Map) (memberCounts : List Nat) (portSpeeds : Map)
    (hcost : 0 ≤ self.m_exchangeCostFactor)
    (hnodup : (memberTable.map Prod.fst).Nodup) (hcounts : ∀ c ∈ memberCounts, c < W64) :
    self.optimize samples memberTable memberCounts portSpeeds = memberTable ∨
    calculateBalanceScore
        (calculateLoadBalanceMetrics (calculatePortLoads memberTable memberCounts) portSpeeds) <
      calculateBalanceScore
        (calculateLoadBalanceMetrics
          (calculatePortLoads (self.optimize samples memberTable memberCounts portSpeeds)
            memberCounts) portSpeeds) := by
  unfold LocalSearch.optimize
  simp only []
  split
  · exact Or.inl rfl
  · exact searchLoop_score self memberCounts portSpeeds (memberTable.map Prod.fst) samples
      memberTable hcost hcounts _ _ _ hnodup (calculatePortLoads_keys_nodup _ _) (fun _ => rfl)
      rfl (Or.inl rfl)

set_option maxRecDepth 100000 in
/-- Witness of C15 (amended): on the striped table with counters
`[50, 5, 5, 5, 50, 5, 5, 5]` and the cost factor `1 / 10` the search that
samples the positions 0 and 1 first and the positions 1 and 4 (then both on
port 1) afterwards returns a different table, with score `-18 / 13` against
`-36 / 13`. -/
theorem optimize_returns_input_or_better_witness :
    (0 : ℚ) ≤ (⟨10000, 1 / 10⟩ : LocalSearch).m_exchangeCostFactor ∧
    (stripedInstance.m_ecmpMemberTable.map Prod.fst).Nodup ∧
    (∀ c ∈ [50, 5, 5, 5, 50, 5, 5, 5], c < W64) ∧
    (⟨10000, 1 / 10⟩ : LocalSearch).optimize (fun k => if k = 0 then (0, 1) else (1, 4))
        stripedInstance.m_ecmpMemberTable
        [50, 5, 5, 5, 50, 5, 5, 5] stripedInstance.m_portSpeeds =
      [(0, 2), (1, 1), (2, 3), (3, 4), (4, 1), (5, 2), (6, 3), (7, 4)] ∧
    ((⟨10000, 1 / 10⟩ : LocalSearch).optimize (fun k => if k = 0 then (0, 1) else (1, 4))
          stripedInstance.m_ecmpMemberTable [50, 5, 5, 5, 50, 5, 5, 5]
          stripedInstance.m_portSpeeds = stripedInstance.m_ecmpMemberTable ∨
      calculateBalanceScore
          (calculateLoadBalanceMetrics
            (calculatePortLoads stripedInstance.m_ecmpMemberTable [50, 5, 5, 5, 50, 5, 5, 5])
            stripedInstance.m_portSpeeds) <
        calculateBalanceScore
          (calculateLoadBalanceMetrics
            (calculatePortLoads
              ((⟨10000, 1 / 10⟩ : LocalSearch).optimize
                (fun k => if k = 0 then (0, 1) else (1, 4))
                stripedInstance.m_ecmpMemberTable [50, 5, 5, 5, 50, 5, 5, 5]
                stripedInstance.m_portSpeeds)
              [50, 5, 5, 5, 50, 5, 5, 5])
            stripedInstance.m_portSpeeds)) :=
  ⟨by decide!, by decide, by decide, by decide!,
    optimize_returns_input_or_better ⟨10000, 1 / 10⟩ (fun k => if k = 0 then (0, 1) else (1, 4))
      stripedInstance.m_ecmpMemberTable [50, 5, 5, 5, 50, 5, 5, 5] stripedInstance.m_portSpeeds
      (by decide!) (by decide) (by decide)⟩

/-! ### The expansion predicate and the counter update -/

theorem needExpansion_some (s : EcmpInstance) (hp : s.m_sgConfig.dwPortNum < W16) :
    s.needExpansion =
      some ((List.range (min s.m_sgConfig.dwPortNum AI_ECMP_MAX_PORT_NUM)).any
          (fun i => decide ((s.m_sgConfig.port i).dwWeight < 2)) ||
        decide ((2 / 10 : ℚ) < s.m_lastEval.totalGap)) := by
  have hterm : word16LoopTerminates s.m_sgConfig.dwPortNum = true := by
    simp only [word16LoopTerminates, decide_eq_true_eq]; exact hp
  unfold EcmpInstance.needExpansion
  simp only [hterm, if_true]
  cases (List.range (min s.m_sgConfig.dwPortNum AI_ECMP_MAX_PORT_NUM)).any
      (fun i => decide ((s.m_sgConfig.port i).dwWeight < 2)) with
  | true => simp
  | false =>
    by_cases hgap : (2 / 10 : ℚ) < s.m_lastEval.totalGap
    · simp [hgap]
    · simp [hgap]

/-- C26: for every instance (its port count is below 65536, as for every
instance the constructor or `updateConfig` produced) `needExpansion` returns,
and it returns true exactly when one of the first `min(port_num, 128)` ports of
the configuration has a weight below 2 or `m_lastEval.totalGap` exceeds 0.2. -/
theorem needExpansion_iff (s : EcmpInstance) (hp : s.m_sgConfig.dwPortNum < W16) :
    ∃ b : Bool, s.needExpansion = some b ∧
      (b = true ↔
        ((∃ i, i < min s.m_sgConfig.dwPortNum 128 ∧ (s.m_sgConfig.port i).dwWeight < 2) ∨
          (2 / 10 : ℚ) < s.m_lastEval.totalGap)) := by
  refine ⟨_, needExpansion_some s hp, ?_⟩
  simp only [Bool.or_eq_true, List.any_eq_true, List.mem_range, decide_eq_true_eq,
    AI_ECMP_MAX_PORT_NUM]

/-- Witness of C26: the instance over ports of weights 70 and 1 needs
expansion (port 2 has weight 1), the striped instance with weights 2, 2, 2, 2
and a zero evaluation does not. -/
theorem needExpansion_iff_witness :
    crowdedInstance.m_sgConfig.dwPortNum < W16 ∧
    crowdedInstance.needExpansion = some true ∧
    stripedInstance.needExpansion = some false ∧
    ∃ b : Bool, crowdedInstance.needExpansion = some b ∧
      (b = true ↔
        ((∃ i, i < min crowdedInstance.m_sgConfig.dwPortNum 128 ∧
            (crowdedInstance.m_sgConfig.port i).dwWeight < 2) ∨
          (2 / 10 : ℚ) < crowdedInstance.m_lastEval.totalGap)) :=
  ⟨by decide, by decide!, by decide!, needExpansion_iff crowdedInstance (by decide)⟩

/-- C27: `updateCounters` returns true; it adds `rand() % 100` to every counter
(64-bit wrap), appends the updated counters as one snapshot and keeps the 10
most recent snapshots in arrival order, so a history of at most 10 entries (the
invariant this call preserves) gets the length `min(old + 1, 10)`; it
increments `m_wCycle` by one (16-bit wrap), increments `m_dwDisabledCycles` by
one (32-bit wrap) when optimisation is disabled and leaves it unchanged
otherwise, and leaves the enable flag as it was. -/
theorem updateCounters_effect (rnd : Nat → Nat) (s : EcmpInstance)
    (hhist : s.m_counterHistory.length ≤ 10) :
    (s.updateCounters rnd).1 = true ∧
    (s.updateCounters rnd).2.m_memberCounts =
      (List.range s.m_memberCounts.length).map
        (fun i => (s.m_memberCounts.getD i 0 + rnd i % 100) % W64) ∧
    (s.updateCounters rnd).2.m_counterHistory =
      mostRecent 10 (s.m_counterHistory ++ [(s.updateCounters rnd).2.m_memberCounts]) ∧
    (s.updateCounters rnd).2.m_counterHistory.getLast? =
      some (s.updateCounters rnd).2.m_memberCounts ∧
    (s.updateCounters rnd).2.m_counterHistory.length = min (s.m_counterHistory.length + 1) 10 ∧
    (s.updateCounters rnd).2.m_counterHistory.length ≤ 10 ∧
    (s.updateCounters rnd).2.m_wCycle = (s.m_wCycle + 1) % W16 ∧
    (s.m_wCycle + 1 < W16 → (s.updateCounters rnd).2.m_wCycle = s.m_wCycle + 1) ∧
    (s.m_bOptimizationEnabled = false →
      (s.updateCounters rnd).2.m_dwDisabledCycles = (s.m_dwDisabledCycles + 1) % W32) ∧
    (s.m_bOptimizationEnabled = true →
      (s.updateCounters rnd).2.m_dwDisabledCycles = s.m_dwDisabledCycles) ∧
    (s.updateCounters rnd).2.m_bOptimizationEnabled = s.m_bOptimizationEnabled := by
  have hfields : (s.updateCounters rnd).2.m_memberCounts =
        (List.range s.m_memberCounts.length).map
          (fun i => (s.m_memberCounts.getD i 0 + rnd i % 100) % W64) ∧
      (s.updateCounters rnd).2.m_counterHistory =
        (if 10 < (s.m_counterHistory ++ [(List.range s.m_memberCounts.length).map
            (fun i => (s.m_memberCounts.getD i 0 + rnd i % 100) % W64)]).length then
          (s.m_counterHistory ++ [(List.range s.m_memberCounts.length).map
            (fun i => (s.m_memberCounts.getD i 0 + rnd i % 100) % W64)]).tail
        else s.m_counterHistory ++ [(List.range s.m_memberCounts.length).map
            (fun i => (s.m_memberCounts.getD i 0 + rnd i % 100) % W64)]) ∧
      (s.updateCounters rnd).2.m_wCycle = (s.m_wCycle + 1) % W16 ∧
      (s.updateCounters rnd).2.m_bOptimizationEnabled = s.m_bOptimizationEnabled ∧
      (s.updateCounters rnd).2.m_dwDisabledCycles =
        (if s.m_bOptimizationEnabled = true then s.m_dwDisabledCycles
          else (s.m_dwDisabledCycles + 1) % W32) := by
    unfold EcmpInstance.updateCounters EcmpInstance.calculateLoadMetrics
    cases hen : s.m_bOptimizationEnabled <;> simp [hen]
  obtain ⟨hcounts, hhistory, hcycle, hflag, hdisabled⟩ := hfields
  generalize (List.range s.m_memberCounts.length).map
    (fun i => (s.m_memberCounts.getD i 0 + rnd i % 100) % W64) = snap at hcounts hhistory
  have hkeep : (s.updateCounters rnd).2.m_counterHistory =
      mostRecent 10 (s.m_counterHistory ++ [snap]) := by
    rw [hhistory]
    unfold mostRecent
    simp only [List.length_append, List.length_singleton]
    by_cases hfull : 10 < s.m_counterHistory.length + 1
    · have h10 : s.m_counterHistory.length = 10 := by omega
      rw [if_pos hfull, h10]
      show _ = List.drop 1 _
      rw [List.drop_one]
    · rw [if_neg hfull]
      have h0 : s.m_counterHistory.length + 1 - 10 = 0 := by omega
      rw [h0]
      rfl
  have hlength : (s.updateCounters rnd).2.m_counterHistory.length =
      min (s.m_counterHistory.length + 1) 10 := by
    rw [hkeep]
    unfold mostRecent
    simp only [List.length_drop, List.length_append, List.length_singleton]
    omega
  refine ⟨rfl, hcounts, ?_, ?_, hlength, by rw [hlength]; omega, hcycle, ?_, ?_, ?_, hflag⟩
  · rw [hcounts]; exact hkeep
  · rw [hcounts, hkeep]
    unfold mostRecent
    rw [List.getLast?_drop]
    simp only [List.length_append, List.length_singleton, List.getLast?_append,
      List.getLast?_singleton]
    rw [if_neg (by omega)]
    rfl
  · intro h
    rw [hcycle]
    exact Nat.mod_eq_of_lt h
  · intro h
    rw [hdisabled, h]
    simp
  · intro h
    rw [hdisabled, h]
    simp

/-- Witness of C27: the first tick on the striped instance stores one snapshot,
`[50, 5, 5, 5, 50, 5, 5, 5]`, and moves the cycle to 1. -/
theorem updateCounters_effect_witness :
    stripedInstance.m_counterHistory.length ≤ 10 ∧
    (stripedInstance.updateCounters (imbalancedRnd 0)).2.m_counterHistory =
      [[50, 5, 5, 5, 50, 5, 5, 5]] ∧
    (stripedInstance.updateCounters (imbalancedRnd 0)).2.m_counterHistory.length =
      min (stripedInstance.m_counterHistory.length + 1) 10 ∧
    (stripedInstance.updateCounters (imbalancedRnd 0)).2.m_wCycle =
      (stripedInstance.m_wCycle + 1) % W16 :=
  ⟨by decide, by decide,
    (updateCounters_effect (imbalancedRnd 0) stripedInstance (by decide)).2.2.2.2.1,
    (updateCounters_effect (imbalancedRnd 0) stripedInstance (by decide)).2.2.2.2.2.2.1⟩
/-! ### The balanced branch of `runOptimization` -/

theorem avgGap_of_equal_loads {loads speeds : Map} {k : ℚ}
    (h : ∀ x ∈ normalizedLoads loads speeds, x = k) :
    (calculateLoadBalanceMetrics loads speeds).avgGap = 0 := by
  by_cases hnil : normalizedLoads loads speeds = []
  · rw [metrics_of_nil hnil]; rfl
  · by_cases hpos : 0 < (normalizedLoads loads speeds).sum /
        ((normalizedLoads loads speeds).length : ℚ)
    · rw [metrics_of_mean_pos hpos]
      simp only []
      have hrep : normalizedLoads loads speeds =
          List.replicate (normalizedLoads loads speeds).length k :=
        List.eq_replicate_iff.2 ⟨rfl, h⟩
      have hn : (0 : ℚ) < ((normalizedLoads loads speeds).length : ℚ) := length_pos_cast hnil
      generalize normalizedLoads loads speeds = u at hrep hn hpos ⊢
      generalize hlen : u.length = n at hrep hn hpos ⊢
      subst hrep
      have hmu : (List.replicate n k).sum / (n : ℚ) = k := by
        rw [List.sum_replicate, nsmul_eq_mul]
        field_simp
      rw [hmu, List.map_replicate, List.sum_replicate]
      simp
    · rw [metrics_of_mean_nonpos hpos]; rfl

theorem afterStabilityGate_balanced (samples : Nat → Nat × Nat) (s : EcmpInstance)
    (hgap : (s.evaluateBalance).1.avgGap < 5 / 100) :
    s.afterStabilityGate samples =
      some (false,
        { (s.evaluateBalance).2 with
          m_status := T_AI_ECMP_STATUS.AI_ECMP_BALANCE
          m_inPostExpansionPeriod := false
          m_consecutiveAdjustFailures := 0 }) := by
  unfold EcmpInstance.afterStabilityGate
  simp only [hgap, if_true]

/-- C28: an enabled instance with at least 5 snapshots and a stable history
whose evaluated `avgGap` is below 0.05 (in particular one whose ports all have
the same normalised load) gets from `runOptimization` the answer false, the
status Balance, `m_inPostExpansionPeriod = false`,
`m_consecutiveAdjustFailures = 0` and an unchanged member table; the manager
sends no plan for it. -/
theorem balanced_instance_rests (sqrt : ℚ → ℚ) (samples : Nat → Nat × Nat) (dwResult : Nat)
    (s : EcmpInstance)
    (hon : s.m_bOptimizationEnabled = true) (hlen : 5 ≤ s.m_counterHistory.length)
    (hstable : s.isCounterVarianceStable sqrt = true)
    (hgap : (s.evaluateBalance).1.avgGap < 5 / 100 ∨
      ∃ k, ∀ x ∈ normalizedLoads (calculatePortLoads s.m_ecmpMemberTable s.m_memberCounts)
        s.m_portSpeeds, x = k) :
    ∃ s' : EcmpInstance,
      s.runOptimization sqrt samples = some (false, s') ∧
      s'.m_status = T_AI_ECMP_STATUS.AI_ECMP_BALANCE ∧
      s'.m_inPostExpansionPeriod = false ∧
      s'.m_consecutiveAdjustFailures = 0 ∧
      s'.m_ecmpMemberTable = s.m_ecmpMemberTable ∧
      s'.m_lastEval = (s.evaluateBalance).1 ∧
      (s.evaluateBalance).1.avgGap < 5 / 100 ∧
      optimizeAndSend sqrt samples dwResult s = some ⟨s', none, dwResult⟩ := by
  have hgap' : (s.evaluateBalance).1.avgGap < 5 / 100 := by
    rcases hgap with h | ⟨k, h⟩
    · exact h
    · have h0 : (s.evaluateBalance).1.avgGap = 0 := avgGap_of_equal_loads h
      rw [h0]
      norm_num
  have hrun := (runOptimization_of_stable sqrt samples s hon hlen hstable).trans
    (afterStabilityGate_balanced samples s hgap')
  refine ⟨_, hrun, rfl, rfl, rfl, rfl, rfl, hgap', ?_⟩
  unfold optimizeAndSend
  rw [hrun]

/-- Witness of C28, scenario S1: four ports of speed 10, eight slots striped
round-robin, every counter 1000 in five identical snapshots; the instance ends
in status Balance with the hysteresis fields cleared and no plan. -/
theorem balanced_instance_rests_witness :
    steadyInstance.m_bOptimizationEnabled = true ∧
    5 ≤ steadyInstance.m_counterHistory.length ∧
    steadyInstance.isCounterVarianceStable sqrtApprox = true ∧
    normalizedLoads (calculatePortLoads steadyInstance.m_ecmpMemberTable
      steadyInstance.m_memberCounts) steadyInstance.m_portSpeeds = [200, 200, 200, 200] ∧
    ∃ s' : EcmpInstance,
      steadyInstance.runOptimization sqrtApprox (fun _ => (0, 1)) = some (false, s') ∧
      s'.m_status = T_AI_ECMP_STATUS.AI_ECMP_BALANCE ∧
      s'.m_inPostExpansionPeriod = false ∧
      s'.m_consecutiveAdjustFailures = 0 ∧
      s'.m_ecmpMemberTable = steadyInstance.m_ecmpMemberTable ∧
      s'.m_lastEval = (steadyInstance.evaluateBalance).1 ∧
      (steadyInstance.evaluateBalance).1.avgGap < 5 / 100 ∧
      optimizeAndSend sqrtApprox (fun _ => (0, 1)) AI_SUCCESS steadyInstance =
        some ⟨s', none, AI_SUCCESS⟩ :=
  ⟨rfl, by decide, by decide!, by decide!,
    balanced_instance_rests sqrtApprox (fun _ => (0, 1)) AI_SUCCESS steadyInstance rfl
      (by decide) (by decide!) (Or.inr ⟨200, by decide!⟩)⟩

/-! ### The choice between expansion and search -/

theorem searchWith_not_expand (samples : Nat → Nat × Nat) (currentEval : T_AI_ECMP_EVAL)
    (algorithm : LocalSearch) (s : EcmpInstance) :
    (s.searchWith samples currentEval algorithm).2.m_status ≠
      T_AI_ECMP_STATUS.AI_ECMP_EXPAND := by
  unfold EcmpInstance.searchWith
  simp only []
  split
  · simp
  · split <;> simp

theorem searchPath_not_expand (samples : Nat → Nat × Nat) (currentEval : T_AI_ECMP_EVAL)
    (s : EcmpInstance) :
    (s.searchPath samples currentEval).2.m_status ≠ T_AI_ECMP_STATUS.AI_ECMP_EXPAND := by
  unfold EcmpInstance.searchPath
  simp only []
  split
  · simp
  · exact searchWith_not_expand _ _ _ _

/-- The decision block picks the expansion exactly when two searches in a row
have failed and `needExpansion` holds. -/
theorem expansionDecision_some (s : EcmpInstance) (hp : s.m_sgConfig.dwPortNum < W16) :
    ∃ s2 : EcmpInstance,
      s.expansionDecision =
        some (decide (2 ≤ s.m_consecutiveAdjustFailures ∧ s.needExpansion = some true), s2) ∧
      (s2 = s ∨ s2 = { s with m_inPostExpansionPeriod := false }) := by
  obtain ⟨b, hb⟩ : ∃ b, s.needExpansion = some b := ⟨_, needExpansion_some s hp⟩
  have hskip : (s.shouldSkipExpansionCheck).2.needExpansion = s.needExpansion := by
    unfold EcmpInstance.shouldSkipExpansionCheck
    split
    · rfl
    · split <;> rfl
  have hskip2 : (s.shouldSkipExpansionCheck).2 = s ∨
      (s.shouldSkipExpansionCheck).2 = { s with m_inPostExpansionPeriod := false } := by
    unfold EcmpInstance.shouldSkipExpansionCheck
    split
    · exact Or.inl rfl
    · split
      · exact Or.inl rfl
      · exact Or.inr rfl
  unfold EcmpInstance.expansionDecision
  by_cases hf : MAX_CONSECUTIVE_ADJUST_FAILURES ≤ s.m_consecutiveAdjustFailures
  · have hf2 : 2 ≤ s.m_consecutiveAdjustFailures := hf
    simp only [hf, if_true, hb]
    cases b with
    | true =>
      simp only [if_true, hf2, true_and, decide_True]
      by_cases hpost : s.m_inPostExpansionPeriod = true
      · exact ⟨_, rfl, Or.inr (by simp [hpost])⟩
      · exact ⟨_, rfl, Or.inl (by simp [hpost])⟩
    | false =>
      refine ⟨s, ?_, Or.inl rfl⟩
      simp
  · have hf2 : ¬ 2 ≤ s.m_consecutiveAdjustFailures := hf
    simp only [hf, if_false, hskip, hb, hf2, false_and, decide_False]
    split
    · exact ⟨_, rfl, hskip2⟩
    · exact ⟨_, rfl, hskip2⟩

theorem evaluateBalance_config (s : EcmpInstance) :
    (s.evaluateBalance).2.m_sgConfig = s.m_sgConfig ∧
    (s.evaluateBalance).2.m_consecutiveAdjustFailures = s.m_consecutiveAdjustFailures ∧
    (s.evaluateBalance).2.m_wCycle = s.m_wCycle ∧
    (s.evaluateBalance).2.m_ecmpMemberTable = s.m_ecmpMemberTable :=
  ⟨rfl, rfl, rfl, rfl⟩

/-- The expansion branch of `runOptimization`, written out. -/
theorem runOptimization_expand (sqrt : ℚ → ℚ) (samples : Nat → Nat × Nat) (s : EcmpInstance)
    (hon : s.m_bOptimizationEnabled = true) (hlen : 5 ≤ s.m_counterHistory.length)
    (hstable : s.isCounterVarianceStable sqrt = true)
    (hgap : ¬ (s.evaluateBalance).1.avgGap < 5 / 100)
    (hp : s.m_sgConfig.dwPortNum < W16)
    (hfail : 2 ≤ s.m_consecutiveAdjustFailures)
    (hneed : (s.evaluateBalance).2.needExpansion = some true) :
    s.runOptimization sqrt samples =
      some (true,
        { (s.evaluateBalance).2 with
          m_lastExpandCycle := s.m_wCycle
          m_adjustCyclesAfterExpansion := 0
          m_consecutiveAdjustFailures := 0
          m_inPostExpansionPeriod := true
          m_status := T_AI_ECMP_STATUS.AI_ECMP_EXPAND }) := by
  rw [runOptimization_of_stable sqrt samples s hon hlen hstable]
  obtain ⟨s2, hdec, hs2⟩ := expansionDecision_some (s.evaluateBalance).2 hp
  have htrue : decide (2 ≤ (s.evaluateBalance).2.m_consecutiveAdjustFailures ∧
      (s.evaluateBalance).2.needExpansion = some true) = true := by
    simp only [decide_eq_true_eq]
    exact ⟨hfail, hneed⟩
  rw [htrue] at hdec
  unfold EcmpInstance.afterStabilityGate
  simp only [hgap, if_false, hdec, if_true]
  rcases hs2 with h | h <;> rw [h] <;> rfl

/-- C29: an enabled instance (port count below 65536) that passes the history
and stability gates with `avgGap >= 0.05` gets an answer from
`runOptimization`; the answer is true with status Expand exactly when
`m_consecutiveAdjustFailures >= 2` and `needExpansion()` (called after the
evaluation) is true, and then `m_lastExpandCycle = m_wCycle`,
`m_adjustCyclesAfterExpansion = 0`, `m_consecutiveAdjustFailures = 0` and
`m_inPostExpansionPeriod = true`; in every other case the answer is that of the
local search path. -/
theorem expansion_path_iff (sqrt : ℚ → ℚ) (samples : Nat → Nat × Nat) (s : EcmpInstance)
    (hon : s.m_bOptimizationEnabled = true) (hlen : 5 ≤ s.m_counterHistory.length)
    (hstable : s.isCounterVarianceStable sqrt = true)
    (hgap : ¬ (s.evaluateBalance).1.avgGap < 5 / 100)
    (hp : s.m_sgConfig.dwPortNum < W16) :
    ∃ r : Bool × EcmpInstance,
      s.runOptimization sqrt samples = some r ∧
      ((r.1 = true ∧ r.2.m_status = T_AI_ECMP_STATUS.AI_ECMP_EXPAND) ↔
        (2 ≤ s.m_consecutiveAdjustFailures ∧
          (s.evaluateBalance).2.needExpansion = some true)) ∧
      ((2 ≤ s.m_consecutiveAdjustFailures ∧
          (s.evaluateBalance).2.needExpansion = some true) →
        r.2.m_lastExpandCycle = s.m_wCycle ∧ r.2.m_adjustCyclesAfterExpansion = 0 ∧
        r.2.m_consecutiveAdjustFailures = 0 ∧ r.2.m_inPostExpansionPeriod = true ∧
        r.2.m_ecmpMemberTable = s.m_ecmpMemberTable) ∧
      (¬ (2 ≤ s.m_consecutiveAdjustFailures ∧
          (s.evaluateBalance).2.needExpansion = some true) →
        ∃ s2 : EcmpInstance,
          (s2 = (s.evaluateBalance).2 ∨
            s2 = { (s.evaluateBalance).2 with m_inPostExpansionPeriod := false }) ∧
          r = s2.searchPath samples (s.evaluateBalance).1) := by
  by_cases hpath : 2 ≤ s.m_consecutiveAdjustFailures ∧
      (s.evaluateBalance).2.needExpansion = some true
  · refine ⟨_, runOptimization_expand sqrt samples s hon hlen hstable hgap hp hpath.1 hpath.2,
      ?_, ?_, ?_⟩
    · exact ⟨fun _ => hpath, fun _ => ⟨rfl, rfl⟩⟩
    · intro _
      exact ⟨rfl, rfl, rfl, rfl, rfl⟩
    · intro h
      exact absurd hpath h
  · obtain ⟨s2, hdec, hs2⟩ := expansionDecision_some (s.evaluateBalance).2 hp
    have hfalse : decide (2 ≤ (s.evaluateBalance).2.m_consecutiveAdjustFailures ∧
        (s.evaluateBalance).2.needExpansion = some true) = false := by
      simp only [decide_eq_false_iff_not]
      exact hpath
    rw [hfalse] at hdec
    have hrun : s.runOptimization sqrt samples =
        some (s2.searchPath samples (s.evaluateBalance).1) := by
      rw [runOptimization_of_stable sqrt samples s hon hlen hstable]
      unfold EcmpInstance.afterStabilityGate
      simp only [hgap, if_false, hdec, Bool.false_eq_true]
    refine ⟨_, hrun, ?_, ?_, ?_⟩
    · constructor
      · intro h
        exact absurd h.2 (searchPath_not_expand _ _ _)
      · intro h
        exact absurd h hpath
    · intro h
      exact absurd h hpath
    · intro _
      exact ⟨s2, hs2, rfl⟩

set_option maxRecDepth 1000000 in
set_option maxHeartbeats 4000000 in
/-- Witness of C29, scenario S3: weights 1, 1, 6 with the load on the two
one-slot ports; the fifth and sixth cycle search without success (the sampled
slots 2 and 3 are both on port 3), and the seventh starts with two failures,
finds `needExpansion` true and expands: the plan holds 16 slots with the
weights 2, 2 and 12. -/
theorem expansion_path_iff_witness :
    (runCycles starvedConfig starvedRnd (fun _ => (2, 3)) 6).map
      (fun step => (step.inst.updateCounters (starvedRnd 6)).2) = some starvedThirdAttempt ∧
    starvedThirdAttempt.m_bOptimizationEnabled = true ∧
    5 ≤ starvedThirdAttempt.m_counterHistory.length ∧
    starvedThirdAttempt.isCounterVarianceStable sqrtApprox = true ∧
    ¬ (starvedThirdAttempt.evaluateBalance).1.avgGap < 5 / 100 ∧
    starvedThirdAttempt.m_sgConfig.dwPortNum < W16 ∧
    2 ≤ starvedThirdAttempt.m_consecutiveAdjustFailures ∧
    (starvedThirdAttempt.evaluateBalance).2.needExpansion = some true ∧
    (runCycles starvedConfig starvedRnd (fun _ => (2, 3)) 7).map
      (fun step => (step.inst.m_status, step.sent)) =
      some (T_AI_ECMP_STATUS.AI_ECMP_EXPAND,
        some ⟨3, 1, 16, [1, 1, 2, 2] ++ List.replicate 12 3 ++ List.replicate 112 0⟩) ∧
    ∃ r : Bool × EcmpInstance,
      starvedThirdAttempt.runOptimization sqrtApprox (fun _ => (2, 3)) = some r ∧
      ((r.1 = true ∧ r.2.m_status = T_AI_ECMP_STATUS.AI_ECMP_EXPAND) ↔
        (2 ≤ starvedThirdAttempt.m_consecutiveAdjustFailures ∧
          (starvedThirdAttempt.evaluateBalance).2.needExpansion = some true)) := by
  have hstable : starvedThirdAttempt.isCounterVarianceStable sqrtApprox = true := by decide!
  have hgap : ¬ (starvedThirdAttempt.evaluateBalance).1.avgGap < 5 / 100 := by decide!
  refine ⟨by decide!, rfl, by decide, hstable, hgap, by decide, by decide, by decide!,
    by decide!, ?_⟩
  exact (expansion_path_iff sqrtApprox (fun _ => (2, 3)) starvedThirdAttempt rfl
    (by decide) hstable hgap (by decide)).imp (fun _ h => ⟨h.1, h.2.1⟩)

theorem plannedWeights_of_no_port {cfg : T_AI_ECMP_SG_CFG} (h : cfg.dwPortNum = 0) :
    plannedWeights cfg = some ([], 0) := by
  unfold plannedWeights collectPortInfos
  rw [h]
  rfl

/-- C30 (as amended): when the expansion path is chosen (enabled instance past
the history and stability gates, `avgGap >= 0.05`, two failures,
`needExpansion` true) and the planner cannot honour every desired increase,
`runOptimization` has returned true with status Expand and the expansion
recorded (`m_consecutiveAdjustFailures = 0`, `m_inPostExpansionPeriod = true`,
`m_lastExpandCycle = m_wCycle`); `getExpandedNextHops` returns false, the
manager sends no plan and sets `dwResult` to `AI_ECMP_ERR_EXPAND_FAILED`,
and the instance keeps the status Expand. -/
theorem refused_expansion_keeps_expand (sqrt : ℚ → ℚ) (samples : Nat → Nat × Nat)
    (dwResult : Nat) (s : EcmpInstance)
    (hon : s.m_bOptimizationEnabled = true) (hlen : 5 ≤ s.m_counterHistory.length)
    (hstable : s.isCounterVarianceStable sqrt = true)
    (hgap : ¬ (s.evaluateBalance).1.avgGap < 5 / 100)
    (hp : s.m_sgConfig.dwPortNum < W16)
    (hfail : 2 ≤ s.m_consecutiveAdjustFailures)
    (hneed : (s.evaluateBalance).2.needExpansion = some true)
    (hplan : plannedWeights s.m_sgConfig = none) :
    ∃ s' : EcmpInstance,
      s.runOptimization sqrt samples = some (true, s') ∧
      s'.getExpandedNextHops zeroNhopModify =
        some (false, { zeroNhopModify with
          dwSgId := s.m_sgConfig.dwSgId, dwSeqId := s.m_sgConfig.dwSeqId }) ∧
      optimizeAndSend sqrt samples dwResult s = some ⟨s', none, AI_ECMP_ERR_EXPAND_FAILED⟩ ∧
      s'.m_status = T_AI_ECMP_STATUS.AI_ECMP_EXPAND ∧
      s'.m_consecutiveAdjustFailures = 0 ∧
      s'.m_inPostExpansionPeriod = true ∧
      s'.m_lastExpandCycle = s.m_wCycle ∧
      s'.m_adjustCyclesAfterExpansion = 0 ∧
      s'.m_ecmpMemberTable = s.m_ecmpMemberTable := by
  have hrun := runOptimization_expand sqrt samples s hon hlen hstable hgap hp hfail hneed
  have hne : s.m_sgConfig.dwPortNum ≠ 0 := by
    intro h0
    rw [plannedWeights_of_no_port h0] at hplan
    simp at hplan
  have hterm : word16LoopTerminates s.m_sgConfig.dwPortNum = true := by
    simp only [word16LoopTerminates, decide_eq_true_eq]; exact hp
  have hget : ({ (s.evaluateBalance).2 with
        m_lastExpandCycle := s.m_wCycle
        m_adjustCyclesAfterExpansion := 0
        m_consecutiveAdjustFailures := 0
        m_inPostExpansionPeriod := true
        m_status := T_AI_ECMP_STATUS.AI_ECMP_EXPAND } : EcmpInstance).getExpandedNextHops
        zeroNhopModify =
      some (false, { zeroNhopModify with
        dwSgId := s.m_sgConfig.dwSgId, dwSeqId := s.m_sgConfig.dwSeqId }) := by
    unfold EcmpInstance.getExpandedNextHops
    have hcfg : (s.evaluateBalance).2.m_sgConfig = s.m_sgConfig := rfl
    simp only [ne_eq, not_true_eq_false, if_false, hcfg, hne, hterm, Bool.not_true,
      Bool.false_eq_true, hplan]
  refine ⟨_, hrun, hget, ?_, rfl, rfl, rfl, rfl, rfl, rfl⟩
  unfold optimizeAndSend
  rw [hrun]
  simp only [if_true, hget]

set_option maxRecDepth 1000000 in
set_option maxHeartbeats 4000000 in
/-- Witness of C30 as amended, scenario S6: at the seventh cycle of the run over
weights 0, 63 and 64 the expansion is chosen and refused; the instance is left
in status Expand with no failure counted and the cycle reports
`AI_ECMP_ERR_EXPAND_FAILED`. -/
theorem refused_expansion_keeps_expand_witness :
    infeasibleThirdAttempt.m_bOptimizationEnabled = true ∧
    5 ≤ infeasibleThirdAttempt.m_counterHistory.length ∧
    infeasibleThirdAttempt.isCounterVarianceStable sqrtApprox = true ∧
    ¬ (infeasibleThirdAttempt.evaluateBalance).1.avgGap < 5 / 100 ∧
    infeasibleThirdAttempt.m_sgConfig.dwPortNum < W16 ∧
    2 ≤ infeasibleThirdAttempt.m_consecutiveAdjustFailures ∧
    (infeasibleThirdAttempt.evaluateBalance).2.needExpansion = some true ∧
    plannedWeights infeasibleThirdAttempt.m_sgConfig = none ∧
    ∃ s' : EcmpInstance,
      optimizeAndSend sqrtApprox (fun _ => (0, 1)) AI_SUCCESS infeasibleThirdAttempt =
        some ⟨s', none, AI_ECMP_ERR_EXPAND_FAILED⟩ ∧
      s'.m_status = T_AI_ECMP_STATUS.AI_ECMP_EXPAND ∧
      s'.m_consecutiveAdjustFailures = 0 := by
  have hstable : infeasibleThirdAttempt.isCounterVarianceStable sqrtApprox = true := by decide!
  have hgap : ¬ (infeasibleThirdAttempt.evaluateBalance).1.avgGap < 5 / 100 := by decide!
  have hneed : (infeasibleThirdAttempt.evaluateBalance).2.needExpansion = some true := by
    decide!
  have hplan : plannedWeights infeasibleThirdAttempt.m_sgConfig = none := by decide!
  refine ⟨rfl, by decide, hstable, hgap, by decide, by decide, hneed, hplan, ?_⟩
  exact (refused_expansion_keeps_expand sqrtApprox (fun _ => (0, 1)) AI_SUCCESS
    infeasibleThirdAttempt rfl (by decide) hstable hgap (by decide) (by decide)
    hneed hplan).imp (fun _ h => ⟨h.2.2.1, h.2.2.2.1, h.2.2.2.2.1⟩)

set_option maxRecDepth 1000000 in
set_option maxHeartbeats 4000000 in
/-- Counterexample to C30 as stated, scenario S6 (weights 0, 63, 64, sum 127):
after four waiting cycles and two failed searches the seventh cycle chooses the
expansion, the planner refuses it (the port of weight 63 finds no slot left),
no plan is sent, and the instance ends the tick in status Expand, not Fail,
with `m_consecutiveAdjustFailures = 0`, which is no failure count plus one. -/
theorem refused_expansion_counterexample :
    plannedWeights infeasibleConfig = none ∧
    (runCycles infeasibleConfig infeasibleRnd (fun _ => (0, 1)) 7).map
      (fun step => (step.inst.m_status, step.inst.m_consecutiveAdjustFailures, step.sent,
        step.dwResult)) =
      some (T_AI_ECMP_STATUS.AI_ECMP_EXPAND, 0, none, AI_ECMP_ERR_EXPAND_FAILED) ∧
    T_AI_ECMP_STATUS.AI_ECMP_EXPAND ≠ T_AI_ECMP_STATUS.AI_ECMP_FAIL ∧
    (∀ before : Nat, (0 : Nat) ≠ before + 1) := by
  refine ⟨by decide!, by decide!, by decide, fun _ => by omega⟩

/-! ### The manager: configuration control -/

/-- C23: `handleSgConfigCtrl` returns `AI_ECMP_ERR_INVALID_PARAM` (1001) exactly
when the configuration pointer is null, whatever the switch flag; with a
configuration it returns `AI_ECMP_ERR_CONFIG_INVALID` (1005) exactly when the
switch flag is neither 0 nor 1; in both error cases the instance map is the one
the call started with. -/
theorem handleSgConfigCtrl_errors (m_instances : InstanceMap) (bSwitchFlag : Nat)
    (pSgCfg : Option T_AI_ECMP_SG_CFG) :
    ((∃ m, handleSgConfigCtrl m_instances bSwitchFlag pSgCfg = some (1001, m)) ↔
      pSgCfg = none) ∧
    (pSgCfg = none →
      handleSgConfigCtrl m_instances bSwitchFlag pSgCfg = some (1001, m_instances)) ∧
    (∀ sgCfg, pSgCfg = some sgCfg →
      ((∃ m, handleSgConfigCtrl m_instances bSwitchFlag pSgCfg = some (1005, m)) ↔
        (bSwitchFlag ≠ 0 ∧ bSwitchFlag ≠ 1)) ∧
      (bSwitchFlag ≠ 0 → bSwitchFlag ≠ 1 →
        handleSgConfigCtrl m_instances bSwitchFlag pSgCfg = some (1005, m_instances))) ∧
    (∀ code m, handleSgConfigCtrl m_instances bSwitchFlag pSgCfg = some (code, m) →
      code = 1001 ∨ code = 1005 → m = m_instances) := by
  have hcodes : ∀ sgCfg code m,
      handleSgConfigCtrl m_instances bSwitchFlag (some sgCfg) = some (code, m) →
      (code = AI_SUCCESS ∧ (bSwitchFlag = 0 ∨ bSwitchFlag = 1)) ∨
      (code = AI_ECMP_ERR_CONFIG_INVALID ∧ bSwitchFlag ≠ 0 ∧ bSwitchFlag ≠ 1 ∧
        m = m_instances) := by
    intro sgCfg code m h
    unfold handleSgConfigCtrl at h
    simp only [] at h
    by_cases h1 : bSwitchFlag = 1
    · simp only [h1, if_true] at h
      left
      refine ⟨?_, Or.inr h1⟩
      split at h
      · split at h
        · simp at h
        · simp only [Option.some.injEq, Prod.mk.injEq] at h
          exact h.1.symm
      · split at h
        · simp at h
        · simp only [Option.some.injEq, Prod.mk.injEq] at h
          exact h.1.symm
    · by_cases h0 : bSwitchFlag = 0
      · simp only [h0, if_true] at h
        left
        refine ⟨?_, Or.inl h0⟩
        simp only [show ¬ (0 : Nat) = 1 by decide, if_false] at h
        split at h
        · simp only [Option.some.injEq, Prod.mk.injEq] at h
          exact h.1.symm
        · simp only [Option.some.injEq, Prod.mk.injEq] at h
          exact h.1.symm
      · simp only [h1, h0, if_false, Option.some.injEq, Prod.mk.injEq] at h
        right
        exact ⟨h.1.symm, h0, h1, h.2.symm⟩
  have hinvalid : ∀ sgCfg, bSwitchFlag ≠ 0 → bSwitchFlag ≠ 1 →
      handleSgConfigCtrl m_instances bSwitchFlag (some sgCfg) = some (1005, m_instances) := by
    intro sgCfg h0 h1
    unfold handleSgConfigCtrl
    simp only [h0, h1, if_false]
    rfl
  refine ⟨⟨?_, ?_⟩, ?_, ?_, ?_⟩
  · rintro ⟨m, h⟩
    cases pSgCfg with
    | none => rfl
    | some sgCfg =>
      rcases hcodes sgCfg _ _ h with ⟨hc, _⟩ | ⟨hc, _⟩
      · simp [AI_SUCCESS] at hc
      · simp [AI_ECMP_ERR_CONFIG_INVALID] at hc
  · intro h
    subst h
    exact ⟨m_instances, rfl⟩
  · intro h
    subst h
    rfl
  · intro sgCfg h
    subst h
    refine ⟨⟨?_, ?_⟩, hinvalid sgCfg⟩
    · rintro ⟨m, h⟩
      rcases hcodes sgCfg _ _ h with ⟨hc, _⟩ | ⟨_, h0, h1, _⟩
      · simp [AI_SUCCESS] at hc
      · exact ⟨h0, h1⟩
    · rintro ⟨h0, h1⟩
      exact ⟨m_instances, hinvalid sgCfg h0 h1⟩
  · intro code m h hcode
    cases pSgCfg with
    | none =>
      simp only [handleSgConfigCtrl, Option.some.injEq, Prod.mk.injEq] at h
      exact h.2.symm
    | some sgCfg =>
      rcases hcodes sgCfg _ _ h with ⟨hc, _⟩ | ⟨_, _, _, hm⟩
      · rcases hcode with h1 | h1 <;> rw [h1] at hc <;> simp [AI_SUCCESS] at hc
      · exact hm

theorem instances_lookup_cons (k k' : Nat) (v : EcmpInstance) (t : InstanceMap) :
    List.lookup k ((k', v) :: t) = if k' = k then some v else List.lookup k t := by
  rw [List.lookup_cons]
  by_cases h : k' = k
  · subst h; simp
  · have : (k == k') = false := by
      rw [beq_eq_false_iff_ne]; exact fun h2 => h h2.symm
    simp [this, h]

theorem instances_lookup_none {t : InstanceMap} {k : Nat} (h : k ∉ t.map Prod.fst) :
    t.lookup k = none := by
  induction t with
  | nil => rfl
  | cons e rest ih =>
    obtain ⟨k', v⟩ := e
    simp only [List.map_cons, List.mem_cons, not_or] at h
    rw [instances_lookup_cons, if_neg (fun h2 => h.1 h2.symm)]
    exact ih h.2

theorem instances_lookup_append (t : InstanceMap) (k k' : Nat) (v : EcmpInstance)
    (h : t.lookup k = none) :
    (t ++ [(k, v)]).lookup k' = if k' = k then some v else t.lookup k' := by
  induction t with
  | nil =>
    simp only [List.nil_append, instances_lookup_cons, List.lookup_nil]
    by_cases hk : k = k'
    · simp [hk]
    · have hk' : ¬ k' = k := fun h2 => hk h2.symm
      simp [hk, hk']
  | cons e rest ih =>
    obtain ⟨k0, v0⟩ := e
    rw [instances_lookup_cons] at h
    by_cases h0 : k0 = k
    · simp [h0] at h
    · simp only [h0, if_false] at h
      rw [List.cons_append, instances_lookup_cons, instances_lookup_cons, ih h]
      by_cases h1 : k0 = k'
      · have h2 : ¬ k' = k := fun h3 => h0 (h1.trans h3)
        simp [h1, h2]
      · simp [h1]

theorem eraseFound_lookup (t : InstanceMap) (k k' : Nat) (h : (t.map Prod.fst).Nodup) :
    (eraseFound t k).lookup k' = if k' = k then none else t.lookup k' := by
  induction t with
  | nil => simp [eraseFound]
  | cons e rest ih =>
    obtain ⟨k0, v0⟩ := e
    simp only [List.map_cons, List.nodup_cons] at h
    unfold eraseFound
    by_cases h0 : k0 = k
    · subst h0
      simp only [if_true, instances_lookup_cons]
      by_cases h1 : k' = k0
      · subst h1
        simp only [if_true]
        exact instances_lookup_none h.1
      · have h2 : ¬ k0 = k' := fun h3 => h1 h3.symm
        simp [h1, h2]
    · simp only [h0, if_false, instances_lookup_cons, ih h.2]
      by_cases h1 : k0 = k'
      · have h2 : ¬ k' = k := fun h3 => h0 (h1.trans h3)
        simp [h1, h2]
      · simp [h1]

theorem eraseFound_length (t : InstanceMap) (k : Nat) (v : EcmpInstance)
    (h : t.lookup k = some v) : (eraseFound t k).length + 1 = t.length := by
  induction t with
  | nil => simp at h
  | cons e rest ih =>
    obtain ⟨k0, v0⟩ := e
    rw [instances_lookup_cons] at h
    unfold eraseFound
    by_cases h0 : k0 = k
    · simp [h0]
    · simp only [h0, if_false] at h ⊢
      simp only [List.length_cons, ih h]

theorem eraseFound_keys_nodup (t : InstanceMap) (k : Nat) (h : (t.map Prod.fst).Nodup) :
    ((eraseFound t k).map Prod.fst).Nodup := by
  have hsub : (eraseFound t k).Sublist t := by
    clear h
    induction t with
    | nil => exact List.Sublist.refl _
    | cons e rest ih =>
      obtain ⟨k0, v0⟩ := e
      unfold eraseFound
      split
      · exact List.sublist_cons_self _ _
      · exact List.Sublist.cons₂ _ ih
  exact List.Nodup.sublist (hsub.map _) h

/-- The constructor on a configuration whose counts fit 16 bits. -/
theorem create_some (sgCfg : T_AI_ECMP_SG_CFG) (hi : sgCfg.dwItemNum < W16)
    (hp : sgCfg.dwPortNum < W16) :
    ∃ pInstance : EcmpInstance,
      EcmpInstance.create sgCfg = some pInstance ∧
      pInstance.m_sgConfig = sgCfg ∧
      convertConfig sgCfg =
        some (pInstance.m_ecmpMemberTable, pInstance.m_memberCounts, pInstance.m_portSpeeds) ∧
      pInstance.m_status = T_AI_ECMP_STATUS.AI_ECMP_INIT ∧
      pInstance.m_wCycle = 0 ∧
      pInstance.m_counterHistory = [] ∧
      pInstance.m_bOptimizationEnabled = true ∧
      pInstance.m_lastExpandCycle = 0 ∧
      pInstance.m_adjustCyclesAfterExpansion = 0 ∧
      pInstance.m_consecutiveAdjustFailures = 0 ∧
      pInstance.m_inPostExpansionPeriod = false ∧
      pInstance.m_dwDisabledCycles = 0 ∧
      pInstance.m_lastEval = zeroEval := by
  have hconv : ∃ c, convertConfig sgCfg = some c := by
    unfold convertConfig
    have h1 : word16LoopTerminates sgCfg.dwItemNum = true := by
      simp only [word16LoopTerminates, decide_eq_true_eq]; exact hi
    have h2 : word16LoopTerminates sgCfg.dwPortNum = true := by
      simp only [word16LoopTerminates, decide_eq_true_eq]; exact hp
    simp only [h1, h2, Bool.and_self, if_true]
    exact ⟨_, rfl⟩
  obtain ⟨⟨table, counts, speeds⟩, hc⟩ := hconv
  unfold EcmpInstance.create
  rw [hc]
  exact ⟨_, rfl, rfl, rfl, rfl, rfl, rfl, rfl, rfl, rfl, rfl, rfl, rfl, rfl⟩

/-- C21: on an instance map with distinct keys (as every `std::unordered_map`
has) and a configuration whose `dwItemNum` and `dwPortNum` are below 65536
(the specification bounds both by 128), `handleSgConfigCtrl` with flag 1 and an
absent id returns `AI_SUCCESS` and adds exactly one instance for that id, the
one the constructor builds from the configuration (status Init, cycle 0, empty
history, optimisation enabled), every other instance unchanged; with flag 0 and
a present id it returns `AI_SUCCESS` and removes exactly that instance; with
flag 0 and an absent id it returns `AI_SUCCESS` and changes nothing. -/
theorem handleSgConfigCtrl_add_remove (m_instances : InstanceMap) (sgCfg : T_AI_ECMP_SG_CFG)
    (hnodup : (m_instances.map Prod.fst).Nodup) :
    (m_instances.lookup sgCfg.dwSgId = none →
      sgCfg.dwItemNum < W16 → sgCfg.dwPortNum < W16 →
      ∃ pInstance : EcmpInstance,
        handleSgConfigCtrl m_instances 1 (some sgCfg) =
          some (AI_SUCCESS, m_instances ++ [(sgCfg.dwSgId, pInstance)]) ∧
        EcmpInstance.create sgCfg = some pInstance ∧
        pInstance.m_sgConfig = sgCfg ∧
        convertConfig sgCfg =
          some (pInstance.m_ecmpMemberTable, pInstance.m_memberCounts,
            pInstance.m_portSpeeds) ∧
        pInstance.m_status = T_AI_ECMP_STATUS.AI_ECMP_INIT ∧
        pInstance.m_wCycle = 0 ∧
        pInstance.m_counterHistory = [] ∧
        pInstance.m_bOptimizationEnabled = true ∧
        (m_instances ++ [(sgCfg.dwSgId, pInstance)]).length = m_instances.length + 1 ∧
        (m_instances ++ [(sgCfg.dwSgId, pInstance)]).lookup sgCfg.dwSgId = some pInstance ∧
        (∀ k, k ≠ sgCfg.dwSgId →
          (m_instances ++ [(sgCfg.dwSgId, pInstance)]).lookup k = m_instances.lookup k)) ∧
    (∀ pInstance : EcmpInstance, m_instances.lookup sgCfg.dwSgId = some pInstance →
      ∃ m : InstanceMap,
        handleSgConfigCtrl m_instances 0 (some sgCfg) = some (AI_SUCCESS, m) ∧
        m.length + 1 = m_instances.length ∧
        m.lookup sgCfg.dwSgId = none ∧
        (∀ k, k ≠ sgCfg.dwSgId → m.lookup k = m_instances.lookup k) ∧
        (m.map Prod.fst).Nodup) ∧
    (m_instances.lookup sgCfg.dwSgId = none →
      handleSgConfigCtrl m_instances 0 (some sgCfg) = some (AI_SUCCESS, m_instances)) := by
  refine ⟨?_, ?_, ?_⟩
  · intro habsent hi hp
    obtain ⟨pInstance, hcreate, h1, h2, h3, h4, h5, h6, _⟩ := create_some sgCfg hi hp
    refine ⟨pInstance, ?_, hcreate, h1, h2, h3, h4, h5, h6, by simp, ?_, ?_⟩
    · unfold handleSgConfigCtrl
      simp only [if_true, habsent, hcreate]
    · rw [instances_lookup_append _ _ _ _ habsent, if_pos rfl]
    · intro k hk
      rw [instances_lookup_append _ _ _ _ habsent, if_neg hk]
  · intro pInstance hfound
    refine ⟨eraseFound m_instances sgCfg.dwSgId, ?_, eraseFound_length _ _ _ hfound, ?_, ?_,
      eraseFound_keys_nodup _ _ hnodup⟩
    · unfold handleSgConfigCtrl
      simp only [show ¬ (0 : Nat) = 1 by decide, if_false, if_true, hfound]
    · rw [eraseFound_lookup _ _ _ hnodup, if_pos rfl]
    · intro k hk
      rw [eraseFound_lookup _ _ _ hnodup, if_neg hk]
  · intro habsent
    unfold handleSgConfigCtrl
    simp only [show ¬ (0 : Nat) = 1 by decide, if_false, if_true, habsent]

/-- Witness of C21: enabling the group 3 on a manager that holds the group 7
adds the instance built from `starvedConfig` behind it; disabling the group 7
then leaves the group 3 alone. -/
theorem handleSgConfigCtrl_add_remove_witness :
    (([(7, stripedInstance)] : InstanceMap).map Prod.fst).Nodup ∧
    (handleSgConfigCtrl [(7, stripedInstance)] 1 (some starvedConfig)).map
      (fun r => (r.1, r.2.map Prod.fst)) = some (AI_SUCCESS, [7, 3]) ∧
    handleSgConfigCtrl [(7, stripedInstance)] 0 (some stripedConfig) = some (AI_SUCCESS, []) ∧
    starvedConfig.dwItemNum < W16 ∧ starvedConfig.dwPortNum < W16 ∧
    ∃ pInstance : EcmpInstance,
      handleSgConfigCtrl [(7, stripedInstance)] 1 (some starvedConfig) =
        some (AI_SUCCESS, [(7, stripedInstance)] ++ [(starvedConfig.dwSgId, pInstance)]) ∧
      EcmpInstance.create starvedConfig = some pInstance ∧
      pInstance.m_sgConfig = starvedConfig :=
  ⟨by decide, by decide, by decide, by decide, by decide,
    ((handleSgConfigCtrl_add_remove [(7, stripedInstance)] starvedConfig (by decide)).1
      (by decide) (by decide) (by decide)).imp (fun _ h => ⟨h.1, h.2.1, h.2.2.1⟩)⟩

/-- `updateConfig` on a configuration whose counts fit 16 bits. -/
theorem updateConfig_some (pInstance : EcmpInstance) (sgCfg : T_AI_ECMP_SG_CFG)
    (hi : sgCfg.dwItemNum < W16) (hp : sgCfg.dwPortNum < W16) :
    ∃ updated : EcmpInstance,
      pInstance.updateConfig sgCfg = some updated ∧
      updated.m_sgConfig = sgCfg ∧
      convertConfig sgCfg =
        some (updated.m_ecmpMemberTable, updated.m_memberCounts, updated.m_portSpeeds) ∧
      updated.m_counterHistory = [] ∧
      updated.m_wCycle = 0 ∧
      updated.m_lastExpandCycle = 0 ∧
      updated.m_adjustCyclesAfterExpansion = 0 ∧
      updated.m_consecutiveAdjustFailures = 0 ∧
      updated.m_inPostExpansionPeriod = false ∧
      updated.m_bOptimizationEnabled = pInstance.m_bOptimizationEnabled ∧
      updated.m_dwDisabledCycles = pInstance.m_dwDisabledCycles ∧
      updated.m_status = pInstance.m_status ∧
      updated.m_lastEval = pInstance.m_lastEval ∧
      updated.m_pAlgorithm = pInstance.m_pAlgorithm := by
  have hconv : ∃ c, convertConfig sgCfg = some c := by
    unfold convertConfig
    have h1 : word16LoopTerminates sgCfg.dwItemNum = true := by
      simp only [word16LoopTerminates, decide_eq_true_eq]; exact hi
    have h2 : word16LoopTerminates sgCfg.dwPortNum = true := by
      simp only [word16LoopTerminates, decide_eq_true_eq]; exact hp
    simp only [h1, h2, Bool.and_self, if_true]
    exact ⟨_, rfl⟩
  obtain ⟨⟨table, counts, speeds⟩, hc⟩ := hconv
  unfold EcmpInstance.updateConfig
  rw [hc]
  exact ⟨_, rfl, rfl, rfl, rfl, rfl, rfl, rfl, rfl, rfl, rfl, rfl, rfl, rfl, rfl⟩

theorem updateFound_some (t : InstanceMap) (sgCfg : T_AI_ECMP_SG_CFG) (k : Nat)
    (pInstance updated : EcmpInstance) (hfound : t.lookup k = some pInstance)
    (hupd : pInstance.updateConfig sgCfg = some updated) :
    ∃ m : InstanceMap,
      updateFound t k sgCfg = some m ∧
      m.map Prod.fst = t.map Prod.fst ∧
      m.lookup k = some updated ∧
      (∀ k', k' ≠ k → m.lookup k' = t.lookup k') := by
  induction t with
  | nil => simp at hfound
  | cons e rest ih =>
    obtain ⟨k0, v0⟩ := e
    rw [instances_lookup_cons] at hfound
    unfold updateFound
    by_cases h0 : k0 = k
    · simp only [h0, if_true, Option.some.injEq] at hfound ⊢
      subst hfound
      rw [hupd]
      refine ⟨_, rfl, rfl, ?_, ?_⟩
      · rw [instances_lookup_cons, if_pos rfl]
      · intro k' hk'
        have h1 : ¬ k = k' := fun h => hk' h.symm
        rw [instances_lookup_cons, instances_lookup_cons, if_neg h1, if_neg h1]
    · simp only [h0, if_false] at hfound ⊢
      obtain ⟨m, hm, hkeys, hlook, hother⟩ := ih hfound
      rw [hm]
      refine ⟨_, rfl, ?_, ?_, ?_⟩
      · simp only [List.map_cons, hkeys]
      · rw [instances_lookup_cons, if_neg h0]
        exact hlook
      · intro k' hk'
        rw [instances_lookup_cons, instances_lookup_cons]
        by_cases h1 : k0 = k'
        · simp [h1]
        · simp only [h1, if_false]
          exact hother k' hk'

/-- C22: `handleSgConfigCtrl` with flag 1, an id already in the map and a
configuration whose `dwItemNum` and `dwPortNum` are below 65536 (the
specification bounds both by 128) returns `AI_SUCCESS`; the map keeps its keys
and size, the instance of that id gets the configuration and the member table,
counters and speeds `convertConfig` derives from it, an empty history, cycle 0,
`m_lastExpandCycle = 0`, `m_adjustCyclesAfterExpansion = 0`,
`m_consecutiveAdjustFailures = 0`, `m_inPostExpansionPeriod = false` and keeps
its enable flag (and its status); every other instance is unchanged. -/
theorem handleSgConfigCtrl_update (m_instances : InstanceMap) (sgCfg : T_AI_ECMP_SG_CFG)
    (pInstance : EcmpInstance)
    (hfound : m_instances.lookup sgCfg.dwSgId = some pInstance)
    (hi : sgCfg.dwItemNum < W16) (hp : sgCfg.dwPortNum < W16) :
    ∃ (updated : EcmpInstance) (m : InstanceMap),
      handleSgConfigCtrl m_instances 1 (some sgCfg) = some (AI_SUCCESS, m) ∧
      pInstance.updateConfig sgCfg = some updated ∧
      m.length = m_instances.length ∧
      m.map Prod.fst = m_instances.map Prod.fst ∧
      m.lookup sgCfg.dwSgId = some updated ∧
      (∀ k, k ≠ sgCfg.dwSgId → m.lookup k = m_instances.lookup k) ∧
      updated.m_sgConfig = sgCfg ∧
      convertConfig sgCfg =
        some (updated.m_ecmpMemberTable, updated.m_memberCounts, updated.m_portSpeeds) ∧
      updated.m_counterHistory = [] ∧
      updated.m_wCycle = 0 ∧
      updated.m_lastExpandCycle = 0 ∧
      updated.m_adjustCyclesAfterExpansion = 0 ∧
      updated.m_consecutiveAdjustFailures = 0 ∧
      updated.m_inPostExpansionPeriod = false ∧
      updated.m_bOptimizationEnabled = pInstance.m_bOptimizationEnabled ∧
      updated.m_status = pInstance.m_status := by
  obtain ⟨updated, hupd, h1, h2, h3, h4, h5, h6, h7, h8, h9, _, h11, _⟩ :=
    updateConfig_some pInstance sgCfg hi hp
  obtain ⟨m, hm, hkeys, hlook, hother⟩ :=
    updateFound_some m_instances sgCfg sgCfg.dwSgId pInstance updated hfound hupd
  refine ⟨updated, m, ?_, hupd, ?_, hkeys, hlook, hother, h1, h2, h3, h4, h5, h6, h7, h8, h9,
    h11⟩
  · unfold handleSgConfigCtrl
    simp only [if_true, hfound, hm]
  · have := congrArg List.length hkeys
    simpa using this

/-- Witness of C22: the adjusted instance of group 7 (status Adjust, five
snapshots, cycle 5) is given the striped configuration again: history and
cycle are cleared, the member table is back to the stripes and the status
stays Adjust. -/
theorem handleSgConfigCtrl_update_witness :
    ([(7, imbalancedAdjusted)] : InstanceMap).lookup stripedConfig.dwSgId =
      some imbalancedAdjusted ∧
    stripedConfig.dwItemNum < W16 ∧ stripedConfig.dwPortNum < W16 ∧
    imbalancedAdjusted.m_counterHistory.length = 5 ∧
    ∃ (updated : EcmpInstance) (m : InstanceMap),
      handleSgConfigCtrl [(7, imbalancedAdjusted)] 1 (some stripedConfig) =
        some (AI_SUCCESS, m) ∧
      m.lookup stripedConfig.dwSgId = some updated ∧
      updated.m_ecmpMemberTable = stripedInstance.m_ecmpMemberTable ∧
      updated.m_counterHistory = [] ∧
      updated.m_wCycle = 0 ∧
      updated.m_status = T_AI_ECMP_STATUS.AI_ECMP_ADJUST := by
  refine ⟨by decide!, by decide, by decide, by decide!, ?_⟩
  obtain ⟨updated, m, h1, h2, _, _, h5, _, _, h8, h9, h10, _, _, _, _, _, h16⟩ :=
    handleSgConfigCtrl_update [(7, imbalancedAdjusted)] stripedConfig imbalancedAdjusted
      (by decide!) (by decide) (by decide)
  refine ⟨updated, m, h1, h5, ?_, h9, h10, ?_⟩
  · have hc : convertConfig stripedConfig =
        some (stripedInstance.m_ecmpMemberTable, stripedInstance.m_memberCounts,
          stripedInstance.m_portSpeeds) := by decide
    rw [hc] at h8
    simp only [Option.some.injEq, Prod.mk.injEq] at h8
    exact h8.1.symm
  · rw [h16]
    decide!

/-! ### The manager: one optimisation cycle -/

theorem recordAdjustmentResult_counters (s : EcmpInstance) (b : Bool) :
    (s.recordAdjustmentResult b).m_counterHistory = s.m_counterHistory ∧
    (s.recordAdjustmentResult b).m_wCycle = s.m_wCycle := by
  unfold EcmpInstance.recordAdjustmentResult
  simp only []
  split <;> split <;> exact ⟨rfl, rfl⟩

theorem searchWith_counters (samples : Nat → Nat × Nat) (currentEval : T_AI_ECMP_EVAL)
    (algorithm : LocalSearch) (s : EcmpInstance) :
    (s.searchWith samples currentEval algorithm).2.m_counterHistory = s.m_counterHistory ∧
    (s.searchWith samples currentEval algorithm).2.m_memberCounts = s.m_memberCounts ∧
    (s.searchWith samples currentEval algorithm).2.m_wCycle = s.m_wCycle := by
  unfold EcmpInstance.searchWith
  simp only []
  split
  · exact ⟨(recordAdjustmentResult_counters s false).1, (recordAdjustmentResult_frame s false).2.1,
      (recordAdjustmentResult_counters s false).2⟩
  · split
    · exact ⟨(recordAdjustmentResult_counters s false).1,
        (recordAdjustmentResult_frame s false).2.1, (recordAdjustmentResult_counters s false).2⟩
    · exact ⟨(recordAdjustmentResult_counters _ true).1,
        (recordAdjustmentResult_frame _ true).2.1, (recordAdjustmentResult_counters _ true).2⟩

theorem ensureAlgorithm_counters (s : EcmpInstance) :
    s.ensureAlgorithm.m_counterHistory = s.m_counterHistory ∧
    s.ensureAlgorithm.m_wCycle = s.m_wCycle := by
  unfold EcmpInstance.ensureAlgorithm EcmpInstance.setAlgorithm
  split <;> exact ⟨rfl, rfl⟩

theorem searchPath_counters (samples : Nat → Nat × Nat) (currentEval : T_AI_ECMP_EVAL)
    (s : EcmpInstance) :
    (s.searchPath samples currentEval).2.m_counterHistory = s.m_counterHistory ∧
    (s.searchPath samples currentEval).2.m_memberCounts = s.m_memberCounts ∧
    (s.searchPath samples currentEval).2.m_wCycle = s.m_wCycle := by
  unfold EcmpInstance.searchPath
  simp only []
  split
  · exact ⟨((recordAdjustmentResult_counters _ false).1).trans (ensureAlgorithm_counters s).1,
      ((recordAdjustmentResult_frame _ false).2.1).trans (ensureAlgorithm_frame s).2.1,
      ((recordAdjustmentResult_counters _ false).2).trans (ensureAlgorithm_counters s).2⟩
  · obtain ⟨a, b, c⟩ := searchWith_counters samples currentEval _ s.ensureAlgorithm
    exact ⟨a.trans (ensureAlgorithm_counters s).1, b.trans (ensureAlgorithm_frame s).2.1,
      c.trans (ensureAlgorithm_counters s).2⟩

/-- For an instance whose port count fits 16 bits `runOptimization` returns, and
it leaves the counters, the history, the cycle counter and the configuration
alone. -/
theorem runOptimization_total (sqrt : ℚ → ℚ) (samples : Nat → Nat × Nat) (s : EcmpInstance)
    (hp : s.m_sgConfig.dwPortNum < W16) :
    ∃ r : Bool × EcmpInstance,
      s.runOptimization sqrt samples = some r ∧
      r.2.m_counterHistory = s.m_counterHistory ∧
      r.2.m_memberCounts = s.m_memberCounts ∧
      r.2.m_wCycle = s.m_wCycle ∧
      r.2.m_sgConfig = s.m_sgConfig := by
  unfold EcmpInstance.runOptimization
  split
  · exact ⟨_, rfl, rfl, rfl, rfl, rfl⟩
  · split
    · exact ⟨_, rfl, rfl, rfl, rfl, rfl⟩
    · split
      · exact ⟨_, rfl, rfl, rfl, rfl, rfl⟩
      · unfold EcmpInstance.afterStabilityGate
        simp only []
        split
        · exact ⟨_, rfl, rfl, rfl, rfl, rfl⟩
        · obtain ⟨s2, hdec, hs2⟩ := expansionDecision_some (s.evaluateBalance).2 hp
          rw [hdec]
          simp only []
          have hs2f : s2.m_counterHistory = s.m_counterHistory ∧
              s2.m_memberCounts = s.m_memberCounts ∧ s2.m_wCycle = s.m_wCycle ∧
              s2.m_sgConfig = s.m_sgConfig := by
            rcases hs2 with h | h <;> rw [h] <;> exact ⟨rfl, rfl, rfl, rfl⟩
          split
          · exact ⟨_, rfl, hs2f.1, hs2f.2.1, hs2f.2.2.1, hs2f.2.2.2⟩
          · obtain ⟨a, b, c⟩ := searchPath_counters samples (s.evaluateBalance).1 s2
            exact ⟨_, rfl, a.trans hs2f.1, b.trans hs2f.2.1, c.trans hs2f.2.2.1,
              (searchPath_config _ _ _).trans hs2f.2.2.2⟩

theorem getExpandedNextHops_some (s : EcmpInstance) (nhopModifyData : T_AI_ECMP_NHOP_MODIFY)
    (hp : s.m_sgConfig.dwPortNum < W16) :
    ∃ r, s.getExpandedNextHops nhopModifyData = some r := by
  have hterm : word16LoopTerminates s.m_sgConfig.dwPortNum = true := by
    simp only [word16LoopTerminates, decide_eq_true_eq]; exact hp
  unfold EcmpInstance.getExpandedNextHops
  simp only [hterm, Bool.not_true, Bool.false_eq_true, if_false]
  split
  · exact ⟨_, rfl⟩
  · split
    · exact ⟨_, rfl⟩
    · split
      · exact ⟨_, rfl⟩
      · exact ⟨_, rfl⟩

/-- The dispatch after `runOptimization`, for an instance whose port count fits
16 bits: it returns, what it does to the instance and what it sends do not
depend on the incoming `dwResult`, and it either keeps `dwResult` or sets it to
`AI_ECMP_ERR_EXPAND_FAILED`. -/
theorem optimizeAndSend_total (sqrt : ℚ → ℚ) (samples : Nat → Nat × Nat) (s : EcmpInstance)
    (hp : s.m_sgConfig.dwPortNum < W16) :
    ∃ (inst : EcmpInstance) (sent : Option T_AI_ECMP_NHOP_MODIFY) (failed : Bool),
      (∀ dwResult, optimizeAndSend sqrt samples dwResult s =
        some ⟨inst, sent, if failed then AI_ECMP_ERR_EXPAND_FAILED else dwResult⟩) ∧
      inst.m_counterHistory = s.m_counterHistory ∧
      inst.m_memberCounts = s.m_memberCounts ∧
      inst.m_wCycle = s.m_wCycle ∧
      inst.m_sgConfig = s.m_sgConfig := by
  obtain ⟨⟨b, inst⟩, hrun, h1, h2, h3, h4⟩ := runOptimization_total sqrt samples s hp
  simp only [] at h1 h2 h3 h4
  unfold optimizeAndSend
  rw [hrun]
  cases b with
  | false => exact ⟨inst, none, false, fun _ => rfl, h1, h2, h3, h4⟩
  | true =>
    simp only []
    by_cases hexp : inst.m_status = T_AI_ECMP_STATUS.AI_ECMP_EXPAND
    · obtain ⟨⟨ok, data⟩, hget⟩ := getExpandedNextHops_some inst zeroNhopModify (by rw [h4]; exact hp)
      simp only [hexp, if_true, hget]
      cases ok with
      | true => exact ⟨inst, some data, false, fun _ => rfl, h1, h2, h3, h4⟩
      | false => exact ⟨inst, none, true, fun _ => rfl, h1, h2, h3, h4⟩
    · simp only [hexp, if_false]
      by_cases hadj : inst.m_status = T_AI_ECMP_STATUS.AI_ECMP_ADJUST
      · have hget : inst.getOptimizedNextHops zeroNhopModify =
            (true,
              { dwSgId := inst.m_sgConfig.dwSgId
                dwSeqId := inst.m_sgConfig.dwSeqId
                dwItemNum := inst.m_ecmpMemberTable.length % W32
                adwLinkItem := optimizedLinkItems inst.m_ecmpMemberTable }) := by
          unfold EcmpInstance.getOptimizedNextHops
          simp only [hadj, ne_eq, not_true_eq_false, if_false]
        simp only [hadj, if_true, hget]
        exact ⟨inst, _, false, fun _ => rfl, h1, h2, h3, h4⟩
      · simp only [hadj, if_false]
        exact ⟨inst, none, false, fun _ => rfl, h1, h2, h3, h4⟩

/-- The loop body of the cycle for one instance whose port count fits 16 bits. -/
theorem cycleBody_total (rnd : Nat → Nat) (sqrt : ℚ → ℚ) (samples : Nat → Nat × Nat)
    (s : EcmpInstance) (hp : s.m_sgConfig.dwPortNum < W16) :
    ∃ (inst : EcmpInstance) (sent : Option T_AI_ECMP_NHOP_MODIFY) (failed : Bool),
      (∀ dwResult, runOptimizationCycleBody rnd sqrt samples dwResult s =
        some ⟨inst, sent, if failed then AI_ECMP_ERR_EXPAND_FAILED else dwResult⟩) ∧
      inst.m_counterHistory = (s.updateCounters rnd).2.m_counterHistory ∧
      inst.m_memberCounts = (s.updateCounters rnd).2.m_memberCounts ∧
      inst.m_wCycle = (s.m_wCycle + 1) % W16 ∧
      inst.m_sgConfig = s.m_sgConfig := by
  have hcfg : (s.updateCounters rnd).2.m_sgConfig = s.m_sgConfig := by
    unfold EcmpInstance.updateCounters EcmpInstance.calculateLoadMetrics
    simp only []
    split <;> rfl
  have hcycle : (s.updateCounters rnd).2.m_wCycle = (s.m_wCycle + 1) % W16 := by
    unfold EcmpInstance.updateCounters EcmpInstance.calculateLoadMetrics
    simp only []
    split <;> rfl
  obtain ⟨inst, sent, failed, hsend, h1, h2, h3, h4⟩ :=
    optimizeAndSend_total sqrt samples (s.updateCounters rnd).2 (by rw [hcfg]; exact hp)
  refine ⟨inst, sent, failed, ?_, h1, h2, h3.trans hcycle, h4.trans hcfg⟩
  intro dwResult
  unfold runOptimizationCycleBody
  have hok : (s.updateCounters rnd).1 = true := rfl
  simp only [hok, Bool.not_true, Bool.false_eq_true, if_false]
  exact hsend dwResult

theorem errorKinds_cons_of_body (rnd : Nat → Nat → Nat) (sqrt : ℚ → ℚ)
    (samples : Nat → Nat → Nat × Nat) (dwSgId : Nat) (pInstance inst : EcmpInstance)
    (sent : Option T_AI_ECMP_NHOP_MODIFY) (failed : Bool) (rest : InstanceMap)
    (h : runOptimizationCycleBody (rnd dwSgId) sqrt (samples dwSgId) AI_SUCCESS pInstance =
      some ⟨inst, sent, if failed then AI_ECMP_ERR_EXPAND_FAILED else AI_SUCCESS⟩) :
    errorKinds rnd sqrt samples ((dwSgId, pInstance) :: rest) =
      if failed then AI_ECMP_ERR_EXPAND_FAILED :: errorKinds rnd sqrt samples rest
      else errorKinds rnd sqrt samples rest := by
  unfold errorKinds
  rw [List.filterMap_cons]
  simp only [h]
  cases failed with
  | true => simp [AI_ECMP_ERR_EXPAND_FAILED, AI_SUCCESS]
  | false => simp

/-- The loop of the cycle over instances whose port counts fit 16 bits. -/
theorem cycleLoop_total (rnd : Nat → Nat → Nat) (sqrt : ℚ → ℚ)
    (samples : Nat → Nat → Nat × Nat) (m : InstanceMap)
    (hports : ∀ e ∈ m, e.2.m_sgConfig.dwPortNum < W16) (dwResult : Nat) :
    ∃ r : CycleResult,
      cycleLoop rnd sqrt samples m dwResult = some r ∧
      List.Forall₂ (fun before after =>
          after.1 = before.1 ∧
          after.2.m_counterHistory = (before.2.updateCounters (rnd before.1)).2.m_counterHistory ∧
          after.2.m_memberCounts = (before.2.updateCounters (rnd before.1)).2.m_memberCounts ∧
          after.2.m_wCycle = (before.2.m_wCycle + 1) % W16 ∧
          after.2.m_sgConfig = before.2.m_sgConfig)
        m r.instances ∧
      r.dwResult = (errorKinds rnd sqrt samples m).head?.getD dwResult ∧
      (∀ x ∈ errorKinds rnd sqrt samples m, x = AI_ECMP_ERR_EXPAND_FAILED) := by
  induction m generalizing dwResult with
  | nil =>
    exact ⟨⟨dwResult, [], []⟩, rfl, List.Forall₂.nil, rfl, by simp [errorKinds]⟩
  | cons e rest ih =>
    obtain ⟨dwSgId, pInstance⟩ := e
    obtain ⟨inst, sent, failed, hbody, h1, h2, h3, h4⟩ :=
      cycleBody_total (rnd dwSgId) sqrt (samples dwSgId) pInstance
        (hports _ (List.mem_cons_self _ _))
    have hrest : ∀ e ∈ rest, e.2.m_sgConfig.dwPortNum < W16 :=
      fun e he => hports e (List.mem_cons_of_mem _ he)
    obtain ⟨r, hr, hall, hcode, herrs⟩ :=
      ih hrest (if failed then AI_ECMP_ERR_EXPAND_FAILED else dwResult)
    have hkinds := errorKinds_cons_of_body rnd sqrt samples dwSgId pInstance inst sent failed
      rest (hbody AI_SUCCESS)
    refine ⟨⟨r.dwResult, (dwSgId, inst) :: r.instances, sent.toList ++ r.sent⟩, ?_, ?_, ?_, ?_⟩
    · unfold cycleLoop
      rw [hbody dwResult]
      simp only [hr]
    · exact List.Forall₂.cons ⟨rfl, h1, h2, h3, h4⟩ hall
    · show r.dwResult = _
      rw [hcode, hkinds]
      cases failed with
      | true =>
        simp only [if_true, List.head?_cons, Option.getD_some]
        cases hk : errorKinds rnd sqrt samples rest with
        | nil => rfl
        | cons x xs =>
          have := herrs x (by rw [hk]; exact List.mem_cons_self _ _)
          simp [this]
      | false => simp
    · intro x hx
      rw [hkinds] at hx
      cases failed with
      | true =>
        simp only [if_true, List.mem_cons] at hx
        rcases hx with hx | hx
        · exact hx
        · exact herrs x hx
      | false =>
        simp only [Bool.false_eq_true, if_false] at hx
        exact herrs x hx

/-- C24: on a manager with at least one and fewer than 2^32 instances, all with
a port count below 65536 (as the constructor and `updateConfig` leave it),
`runOptimizationCycle` returns; every instance has had exactly one
`updateCounters` (its counters and history are those of one update, the newest
snapshot being the updated counters, and its cycle counter is one higher in
16-bit arithmetic), whatever happened to the plans; and the returned code is
the first non-success error kind encountered during the cycle, or
`AI_SUCCESS` when there was none. -/
theorem cycle_updates_all_and_reports_first_error (rnd : Nat → Nat → Nat) (sqrt : ℚ → ℚ)
    (samples : Nat → Nat → Nat × Nat) (m_instances : InstanceMap)
    (hne : m_instances ≠ []) (hlen : m_instances.length < W32)
    (hports : ∀ e ∈ m_instances, e.2.m_sgConfig.dwPortNum < W16) :
    ∃ r : CycleResult,
      runOptimizationCycle rnd sqrt samples m_instances = some r ∧
      List.Forall₂ (fun before after =>
          after.1 = before.1 ∧
          after.2.m_counterHistory = (before.2.updateCounters (rnd before.1)).2.m_counterHistory ∧
          after.2.m_memberCounts = (before.2.updateCounters (rnd before.1)).2.m_memberCounts ∧
          after.2.m_wCycle = (before.2.m_wCycle + 1) % W16 ∧
          after.2.m_sgConfig = before.2.m_sgConfig)
        m_instances r.instances ∧
      (∀ after ∈ r.instances,
        after.2.m_counterHistory.getLast? = some after.2.m_memberCounts) ∧
      r.dwResult = (errorKinds rnd sqrt samples m_instances).head?.getD AI_SUCCESS := by
  obtain ⟨r, hr, hall, hcode, _⟩ := cycleLoop_total rnd sqrt samples m_instances hports AI_SUCCESS
  have hcount : ¬ getInstanceCount m_instances = 0 := by
    unfold getInstanceCount
    rw [Nat.mod_eq_of_lt hlen]
    intro h0
    exact hne (List.length_eq_zero.1 h0)
  refine ⟨r, ?_, hall, ?_, hcode⟩
  · unfold runOptimizationCycle
    simp only [hcount, if_false]
    exact hr
  · have hlast : ∀ (s : EcmpInstance) (f : Nat → Nat),
        (s.updateCounters f).2.m_counterHistory.getLast? =
          some (s.updateCounters f).2.m_memberCounts := by
      intro s f
      unfold EcmpInstance.updateCounters EcmpInstance.calculateLoadMetrics
      simp only []
      generalize (List.range s.m_memberCounts.length).map
        (fun i => (s.m_memberCounts.getD i 0 + f i % 100) % W64) = snap
      have hgoal : (if 10 < (s.m_counterHistory ++ [snap]).length then
            (s.m_counterHistory ++ [snap]).tail
          else s.m_counterHistory ++ [snap]).getLast? = some snap := by
        split
        · rename_i hfull
          cases hh : s.m_counterHistory with
          | nil => rw [hh] at hfull; simp at hfull
          | cons a t => simp
        · simp
      split <;> exact hgoal
    have haux : ∀ a b : InstanceMap,
        List.Forall₂ (fun before after =>
          after.1 = before.1 ∧
          after.2.m_counterHistory =
            (before.2.updateCounters (rnd before.1)).2.m_counterHistory ∧
          after.2.m_memberCounts = (before.2.updateCounters (rnd before.1)).2.m_memberCounts ∧
          after.2.m_wCycle = (before.2.m_wCycle + 1) % W16 ∧
          after.2.m_sgConfig = before.2.m_sgConfig) a b →
        ∀ after ∈ b, after.2.m_counterHistory.getLast? = some after.2.m_memberCounts := by
      intro a b hab
      induction hab with
      | nil => intro after hafter; simp at hafter
      | cons hhead _ ih =>
        intro after hafter
        rcases List.mem_cons.1 hafter with h | h
        · subst h
          rw [hhead.2.1, hhead.2.2.1]
          exact hlast _ _
        · exact ih after h
    exact haux _ _ hall

set_option maxRecDepth 1000000 in
set_option maxHeartbeats 4000000 in
/-- Witness of C24: a manager with the S6 instance (two failed searches behind
it) and a fresh striped instance.  The cycle refuses the expansion of the
first, which sets the code to `AI_ECMP_ERR_EXPAND_FAILED`, and still updates
the second: both cycle counters advance and both histories gain a snapshot. -/
theorem cycle_updates_all_and_reports_first_error_witness :
    ([(6, infeasibleAfterSix), (7, stripedInstance)] : InstanceMap) ≠ [] ∧
    ([(6, infeasibleAfterSix), (7, stripedInstance)] : InstanceMap).length < W32 ∧
    (∀ e ∈ ([(6, infeasibleAfterSix), (7, stripedInstance)] : InstanceMap),
      e.2.m_sgConfig.dwPortNum < W16) ∧
    (runOptimizationCycle (fun _ _ => 0) sqrtApprox (fun _ _ => (0, 1))
        [(6, infeasibleAfterSix), (7, stripedInstance)]).map
      (fun r => (r.dwResult, r.sent.length,
        r.instances.map (fun e => (e.1, e.2.m_wCycle, e.2.m_counterHistory.length)))) =
      some (AI_ECMP_ERR_EXPAND_FAILED, 0, [(6, 7, 7), (7, 1, 1)]) ∧
    ∃ r : CycleResult,
      runOptimizationCycle (fun _ _ => 0) sqrtApprox (fun _ _ => (0, 1))
        [(6, infeasibleAfterSix), (7, stripedInstance)] = some r ∧
      r.dwResult =
        (errorKinds (fun _ _ => 0) sqrtApprox (fun _ _ => (0, 1))
          [(6, infeasibleAfterSix), (7, stripedInstance)]).head?.getD AI_SUCCESS := by
  refine ⟨by decide, by decide, by decide, by decide!, ?_⟩
  exact (cycle_updates_all_and_reports_first_error (fun _ _ => 0) sqrtApprox
    (fun _ _ => (0, 1)) [(6, infeasibleAfterSix), (7, stripedInstance)] (by decide) (by decide)
    (by decide)).imp (fun _ h => ⟨h.1, h.2.2.2⟩)

theorem cycleBody_codes {rnd : Nat → Nat} {sqrt : ℚ → ℚ} {samples : Nat → Nat × Nat}
    {dwResult : Nat} {s : EcmpInstance} {step : CycleStep}
    (h : runOptimizationCycleBody rnd sqrt samples dwResult s = some step) :
    step.dwResult = dwResult ∨ step.dwResult = AI_ECMP_ERR_EXPAND_FAILED := by
  unfold runOptimizationCycleBody at h
  have hok : (s.updateCounters rnd).1 = true := rfl
  simp only [hok, Bool.not_true, Bool.false_eq_true, if_false] at h
  unfold optimizeAndSend at h
  cases hrun : (s.updateCounters rnd).2.runOptimization sqrt samples with
  | none => simp [hrun] at h
  | some r =>
    obtain ⟨b, inst⟩ := r
    rw [hrun] at h
    cases b with
    | false =>
      simp only [Option.some.injEq] at h
      subst h
      exact Or.inl rfl
    | true =>
      simp only [] at h
      by_cases hexp : inst.m_status = T_AI_ECMP_STATUS.AI_ECMP_EXPAND
      · simp only [hexp, if_true] at h
        cases hget : inst.getExpandedNextHops zeroNhopModify with
        | none => simp [hget] at h
        | some g =>
          obtain ⟨ok, data⟩ := g
          rw [hget] at h
          cases ok with
          | true =>
            simp only [Option.some.injEq] at h
            subst h
            exact Or.inl rfl
          | false =>
            simp only [Option.some.injEq] at h
            subst h
            exact Or.inr rfl
      · simp only [hexp, if_false] at h
        by_cases hadj : inst.m_status = T_AI_ECMP_STATUS.AI_ECMP_ADJUST
        · have hget : inst.getOptimizedNextHops zeroNhopModify =
              (true,
                { dwSgId := inst.m_sgConfig.dwSgId
                  dwSeqId := inst.m_sgConfig.dwSeqId
                  dwItemNum := inst.m_ecmpMemberTable.length % W32
                  adwLinkItem := optimizedLinkItems inst.m_ecmpMemberTable }) := by
            unfold EcmpInstance.getOptimizedNextHops
            simp only [hadj, ne_eq, not_true_eq_false, if_false]
          simp only [hadj, if_true, hget, Option.some.injEq] at h
          subst h
          exact Or.inl rfl
        · simp only [hadj, if_false, Option.some.injEq] at h
          subst h
          exact Or.inl rfl

theorem cycleLoop_codes (rnd : Nat → Nat → Nat) (sqrt : ℚ → ℚ)
    (samples : Nat → Nat → Nat × Nat) (m : InstanceMap) (dwResult : Nat) (r : CycleResult)
    (h : cycleLoop rnd sqrt samples m dwResult = some r) :
    r.dwResult = dwResult ∨ r.dwResult = AI_ECMP_ERR_EXPAND_FAILED := by
  induction m generalizing dwResult r with
  | nil =>
    simp only [cycleLoop, Option.some.injEq] at h
    subst h
    exact Or.inl rfl
  | cons e rest ih =>
    obtain ⟨dwSgId, pInstance⟩ := e
    unfold cycleLoop at h
    cases hbody : runOptimizationCycleBody (rnd dwSgId) sqrt (samples dwSgId) dwResult
        pInstance with
    | none => simp [hbody] at h
    | some step =>
      rw [hbody] at h
      simp only [] at h
      cases hrest : cycleLoop rnd sqrt samples rest step.dwResult with
      | none => simp [hrest] at h
      | some r' =>
        rw [hrest] at h
        simp only [Option.some.injEq] at h
        subst h
        rcases ih _ _ hrest with h1 | h1
        · rcases cycleBody_codes hbody with h2 | h2
          · exact Or.inl (h1.trans h2)
          · exact Or.inr (h1.trans h2)
        · exact Or.inr h1

/-- C25: `runOptimizationCycle` on a manager with no instance returns
`AI_ECMP_ERR_NO_INSTANCE` (1012), leaves the map empty and sends nothing; on a
manager with at least one (and fewer than 2^32) instances a returned code is
never 1012: it is `AI_SUCCESS` or `AI_ECMP_ERR_EXPAND_FAILED`. -/
theorem cycle_no_instance (rnd : Nat → Nat → Nat) (sqrt : ℚ → ℚ)
    (samples : Nat → Nat → Nat × Nat) (m_instances : InstanceMap) :
    (m_instances = [] →
      runOptimizationCycle rnd sqrt samples m_instances = some ⟨1012, [], []⟩) ∧
    (m_instances ≠ [] → m_instances.length < W32 →
      ∀ r, runOptimizationCycle rnd sqrt samples m_instances = some r →
        r.dwResult ≠ 1012 ∧
        (r.dwResult = AI_SUCCESS ∨ r.dwResult = AI_ECMP_ERR_EXPAND_FAILED)) := by
  constructor
  · intro h
    subst h
    rfl
  · intro hne hlen r hr
    have hcount : ¬ getInstanceCount m_instances = 0 := by
      unfold getInstanceCount
      rw [Nat.mod_eq_of_lt hlen]
      intro h0
      exact hne (List.length_eq_zero.1 h0)
    unfold runOptimizationCycle at hr
    simp only [hcount, if_false] at hr
    have hcodes := cycleLoop_codes rnd sqrt samples m_instances AI_SUCCESS r hr
    refine ⟨?_, hcodes⟩
    rcases hcodes with h | h <;> rw [h] <;> decide

/-! ### The bookkeeping of `recordAdjustmentResult` -/

/-- C32 (counterexample).  The S3 instance two cycles after its expansion (the
state is reached by the run, first conjunct) is in the post-expansion period
with `m_adjustCyclesAfterExpansion = 2`; `recordAdjustmentResult` takes the
counter to 3 and leaves `m_inPostExpansionPeriod` true, for both values of
`success`.  The counters are `WORD16`: from 65535 the failure counter goes to
0, not to 65536. -/
theorem recordAdjustmentResult_counterexample :
    cycleTrace sqrtApprox [quietInput, quietInput] starvedExpanded =
      some [{ starvedExpanded with
              m_counterHistory := List.replicate 8 [90, 90, 1, 2, 1, 2, 1, 2]
              m_status := T_AI_ECMP_STATUS.AI_ECMP_BALANCE
              m_wCycle := 8
              m_adjustCyclesAfterExpansion := 1
              m_consecutiveAdjustFailures := 1 },
            starvedAfterNine] ∧
    starvedAfterNine.m_inPostExpansionPeriod = true ∧
    starvedAfterNine.m_adjustCyclesAfterExpansion = 2 ∧
    (∀ success : Bool,
      (starvedAfterNine.recordAdjustmentResult success).m_adjustCyclesAfterExpansion =
        CYCLES_AFTER_EXPANSION ∧
      (starvedAfterNine.recordAdjustmentResult success).m_inPostExpansionPeriod = true) ∧
    ({ starvedAfterNine with m_consecutiveAdjustFailures := 65535 }.recordAdjustmentResult
      false).m_consecutiveAdjustFailures = 0 := by
  refine ⟨by decide!, rfl, rfl, by decide, by decide⟩

/-- C32 (amended): for every instance state, `recordAdjustmentResult(success)`
increments `m_adjustCyclesAfterExpansion` by one (modulo 2^16) exactly when
`m_inPostExpansionPeriod` is true, leaves `m_inPostExpansionPeriod` and every
other field as it was, and sets `m_consecutiveAdjustFailures` to 0 on success
and to its previous value plus one (modulo 2^16) on failure.  The flag is
cleared by `shouldSkipExpansionCheck`: called in the post-expansion period it
answers true while the counter is below 3 and otherwise answers false and sets
the flag to false; outside the period it answers false and changes nothing. -/
theorem recordAdjustmentResult_effect (s : EcmpInstance) (success : Bool) :
    s.recordAdjustmentResult success =
      { s with
        m_adjustCyclesAfterExpansion :=
          if s.m_inPostExpansionPeriod then (s.m_adjustCyclesAfterExpansion + 1) % W16
          else s.m_adjustCyclesAfterExpansion
        m_consecutiveAdjustFailures :=
          if success then 0 else (s.m_consecutiveAdjustFailures + 1) % W16 } ∧
    (s.recordAdjustmentResult success).m_inPostExpansionPeriod = s.m_inPostExpansionPeriod ∧
    ((s.m_inPostExpansionPeriod = true ∧ s.m_adjustCyclesAfterExpansion + 1 < W16) →
      (s.recordAdjustmentResult success).m_adjustCyclesAfterExpansion =
        s.m_adjustCyclesAfterExpansion + 1) ∧
    (s.m_inPostExpansionPeriod = false →
      (s.recordAdjustmentResult success).m_adjustCyclesAfterExpansion =
        s.m_adjustCyclesAfterExpansion) ∧
    (success = true → (s.recordAdjustmentResult success).m_consecutiveAdjustFailures = 0) ∧
    ((success = false ∧ s.m_consecutiveAdjustFailures + 1 < W16) →
      (s.recordAdjustmentResult success).m_consecutiveAdjustFailures =
        s.m_consecutiveAdjustFailures + 1) ∧
    s.shouldSkipExpansionCheck =
      (if s.m_inPostExpansionPeriod = true ∧ s.m_adjustCyclesAfterExpansion < 3 then (true, s)
       else (false, { s with m_inPostExpansionPeriod := false })) := by
  have hmain : s.recordAdjustmentResult success =
      { s with
        m_adjustCyclesAfterExpansion :=
          if s.m_inPostExpansionPeriod then (s.m_adjustCyclesAfterExpansion + 1) % W16
          else s.m_adjustCyclesAfterExpansion
        m_consecutiveAdjustFailures :=
          if success then 0 else (s.m_consecutiveAdjustFailures + 1) % W16 } := by
    unfold EcmpInstance.recordAdjustmentResult
    cases success <;> cases h : s.m_inPostExpansionPeriod <;> simp [h]
  refine ⟨hmain, by rw [hmain], ?_, ?_, ?_, ?_, ?_⟩
  · rintro ⟨h1, h2⟩
    rw [hmain]
    simp only [h1, if_true]
    exact Nat.mod_eq_of_lt h2
  · intro h1
    rw [hmain]
    simp [h1]
  · intro h1
    rw [hmain]
    simp [h1]
  · rintro ⟨h1, h2⟩
    rw [hmain]
    simp only [h1]
    exact Nat.mod_eq_of_lt h2
  · unfold EcmpInstance.shouldSkipExpansionCheck CYCLES_AFTER_EXPANSION
    cases h : s.m_inPostExpansionPeriod
    · simp
      cases s
      simp_all
    · by_cases h2 : s.m_adjustCyclesAfterExpansion < 3 <;> simp [h2]

/-! ### The stability verdict -/

theorem driftInstance_unstable (sqrt : ℚ → ℚ) (hsqrt : sqrt 16 = 4) :
    driftInstance.isCounterVarianceStable sqrt = false := by
  obtain ⟨d1, d2, _⟩ := driftInstance_fields
  have hcoef : calculateCounterVarianceCoefficient sqrt driftInstance.m_counterHistory
      driftInstance.m_memberCounts = 8 / 19 := by
    apply counterCoefficient_of_uniform
    · rw [d1]; decide
    · rw [d2]; decide
    · intro i hi
      rw [d2] at hi
      simp only [List.length_replicate] at hi
      rw [d1]
      have hv : memberValues [List.replicate 8 1, List.replicate 8 7, List.replicate 8 8,
          List.replicate 8 12, List.replicate 8 12, List.replicate 8 12, List.replicate 8 12,
          List.replicate 8 12] i = [1, 7, 8, 12, 12, 12, 12, 12] := by
        interval_cases i <;> simp [memberValues]
      rw [hv]
      exact ⟨by decide, drift_variationCoefficient sqrt hsqrt⟩
  unfold EcmpInstance.isCounterVarianceStable
  rw [hcoef, d1]
  simp only [HISTORY_CYCLES_FOR_VARIANCE, VARIANCE_THRESHOLD]
  norm_num

theorem sqrtApprox_sixteen : sqrtApprox 16 = 4 := by
  unfold sqrtApprox
  have h : (16 : ℚ).num.toNat * (16 : ℚ).den * 10 ^ 12 = 4000000 * 4000000 := by
    have h1 : (16 : ℚ).num = 16 := rfl
    have h2 : (16 : ℚ).den = 1 := rfl
    rw [h1, h2]
    rfl
  rw [h, Nat.sqrt_eq]
  have h2 : (16 : ℚ).den = 1 := rfl
  rw [h2]
  norm_num

theorem driftRecent_fields :
    driftRecent.m_counterHistory = List.replicate 5 (List.replicate 8 12) ∧
    driftRecent.m_memberCounts = List.replicate 8 12 ∧
    driftRecent.m_bOptimizationEnabled = true ∧
    (driftRecent.evaluateBalance).1.avgGap < 5 / 100 := by decide!

/-- C34 (counterexample).  `driftInstance` holds eight snapshots, every slot with
the history 1, 7, 8, 12, 12, 12, 12, 12; `driftRecent` is the same state with
only the five most recent snapshots.  The two states agree on the five most
recent snapshots and on every other field, yet (for any square root with
`sqrt 0 = 0` and `sqrt 16 = 4`, as `sqrtApprox` has) `driftRecent` is stable and
its `runOptimization` goes on to the evaluation and ends in Balance, while
`driftInstance` has the coefficient 8/19 over its eight snapshots, is not
stable, and waits. -/
theorem recent_snapshots_counterexample :
    driftInstance.m_counterHistory.length = 8 ∧
    mostRecent 5 driftRecent.m_counterHistory = mostRecent 5 driftInstance.m_counterHistory ∧
    driftRecent =
      { driftInstance with m_counterHistory := mostRecent 5 driftInstance.m_counterHistory } ∧
    sqrtApprox 0 = 0 ∧ sqrtApprox 16 = 4 ∧
    ∀ (sqrt : ℚ → ℚ) (samples : Nat → Nat × Nat), sqrt 0 = 0 → sqrt 16 = 4 →
      driftRecent.isCounterVarianceStable sqrt = true ∧
      driftInstance.isCounterVarianceStable sqrt = false ∧
      (driftRecent.runOptimization sqrt samples).map (fun r => (r.1, r.2.m_status)) =
        some (false, T_AI_ECMP_STATUS.AI_ECMP_BALANCE) ∧
      driftInstance.runOptimization sqrt samples =
        some (false, { driftInstance with m_status := T_AI_ECMP_STATUS.AI_ECMP_WAIT }) := by
  obtain ⟨d1, d2, d3⟩ := driftInstance_fields
  obtain ⟨r1, r2, r3, r4⟩ := driftRecent_fields
  refine ⟨by rw [d1]; rfl, by decide!, rfl, by decide!, sqrtApprox_sixteen, ?_⟩
  intro sqrt samples h0 h16
  have hstable : driftRecent.isCounterVarianceStable sqrt = true := by
    apply isCounterVarianceStable_of_const_pos sqrt driftRecent (List.replicate 8 12) h0
    · rw [r1]; decide
    · rw [r1]; intro h hh; exact List.eq_of_mem_replicate hh
    · rw [r2]
    · rw [r2]; decide
    · intro x hx
      rw [List.eq_of_mem_replicate hx]
      decide
  have hun := driftInstance_unstable sqrt h16
  refine ⟨hstable, hun, ?_, ?_⟩
  · rw [runOptimization_of_stable sqrt samples driftRecent r3 (by rw [r1]; decide) hstable,
      afterStabilityGate_balanced samples driftRecent r4]
    rfl
  · exact runOptimization_unstable sqrt samples _ d3 (by rw [d1]; decide) hun

/-- C34 (amended): the stability verdict uses every snapshot of
`m_counterHistory` (which holds up to 10).  Two instance states with the same
counter history and the same number of slots get the same answer from
`isCounterVarianceStable`, namely whether the history has at least 5 snapshots
and `calculateCounterVarianceCoefficient` of the whole history is at most 0.05;
if both are enabled, `runOptimization` takes the same branch at the stability
gate in both (both wait, or both go on to the evaluation). -/
theorem stability_verdict_reads_whole_history (sqrt : ℚ → ℚ) (s t : EcmpInstance)
    (hhist : s.m_counterHistory = t.m_counterHistory)
    (hslots : s.m_memberCounts.length = t.m_memberCounts.length) :
    s.isCounterVarianceStable sqrt = t.isCounterVarianceStable sqrt ∧
    s.isCounterVarianceStable sqrt =
      decide (5 ≤ s.m_counterHistory.length ∧
        calculateCounterVarianceCoefficient sqrt s.m_counterHistory s.m_memberCounts ≤
          5 / 100) ∧
    (s.m_bOptimizationEnabled = true → t.m_bOptimizationEnabled = true →
      ∀ samples : Nat → Nat × Nat,
        (s.runOptimization sqrt samples =
            some (false, { s with m_status := T_AI_ECMP_STATUS.AI_ECMP_WAIT }) ∧
          t.runOptimization sqrt samples =
            some (false, { t with m_status := T_AI_ECMP_STATUS.AI_ECMP_WAIT })) ∨
        (s.runOptimization sqrt samples = s.afterStabilityGate samples ∧
          t.runOptimization sqrt samples = t.afterStabilityGate samples)) := by
  have hcoef : ∀ (a b : List Nat), a.length = b.length → ∀ H : List (List Nat),
      calculateCounterVarianceCoefficient sqrt H a =
        calculateCounterVarianceCoefficient sqrt H b := by
    intro a b hab H
    unfold calculateCounterVarianceCoefficient
    rw [hab]
  have hverdict : s.isCounterVarianceStable sqrt = t.isCounterVarianceStable sqrt := by
    unfold EcmpInstance.isCounterVarianceStable
    rw [hhist, hcoef _ _ hslots]
  refine ⟨hverdict, ?_, ?_⟩
  · unfold EcmpInstance.isCounterVarianceStable HISTORY_CYCLES_FOR_VARIANCE VARIANCE_THRESHOLD
    by_cases h : s.m_counterHistory.length < 5
    · have h2 : ¬ 5 ≤ s.m_counterHistory.length := by omega
      simp [h, h2]
    · have h2 : 5 ≤ s.m_counterHistory.length := by omega
      simp [h, h2]
  · intro hs ht samples
    by_cases hlen : s.m_counterHistory.length < HISTORY_CYCLES_FOR_VARIANCE
    · left
      have hlen2 : t.m_counterHistory.length < HISTORY_CYCLES_FOR_VARIANCE := by
        rw [← hhist]; exact hlen
      unfold EcmpInstance.runOptimization
      simp [hs, ht, hlen, hlen2]
    · have hlen2 : ¬ t.m_counterHistory.length < HISTORY_CYCLES_FOR_VARIANCE := by
        rw [← hhist]; exact hlen
      cases hst : s.isCounterVarianceStable sqrt
      · left
        have hst2 : t.isCounterVarianceStable sqrt = false := by rw [← hverdict]; exact hst
        unfold EcmpInstance.runOptimization
        simp [hs, ht, hlen, hlen2, hst, hst2]
      · right
        have hst2 : t.isCounterVarianceStable sqrt = true := by rw [← hverdict]; exact hst
        unfold EcmpInstance.runOptimization
        simp [hs, ht, hlen, hlen2, hst, hst2]

/-- Witness of C34 (amended): `driftInstance` and the same instance with another
status have the same history and slots, and both wait at the stability gate. -/
theorem stability_verdict_reads_whole_history_witness :
    driftInstance.m_counterHistory =
      ({ driftInstance with m_status := T_AI_ECMP_STATUS.AI_ECMP_FAIL } :
        EcmpInstance).m_counterHistory ∧
    driftInstance.isCounterVarianceStable sqrtApprox =
      ({ driftInstance with m_status := T_AI_ECMP_STATUS.AI_ECMP_FAIL } :
        EcmpInstance).isCounterVarianceStable sqrtApprox :=
  ⟨rfl, (stability_verdict_reads_whole_history sqrtApprox driftInstance
    { driftInstance with m_status := T_AI_ECMP_STATUS.AI_ECMP_FAIL } rfl rfl).1⟩

/-- Constant histories in exact arithmetic, where the size of the counters
plays no part: for a history of at least 2 snapshots that all equal one vector
`v` with `len(v) = len(member_counts) >= 1` and every entry of `v` positive,
`calculateCounterVarianceCoefficient` returns exactly 0 (`sqrt 0 = 0`, as
`std::sqrt` has); an instance holding at least 5 such snapshots is stable
(`0 <= 0.05`) and, when enabled, its `runOptimization` passes the history and
stability gates. -/
theorem constant_history_is_stable (sqrt : ℚ → ℚ) (hsqrt : sqrt 0 = 0)
    (H : List (List Nat)) (counts v : List Nat) (hlen : 2 ≤ H.length)
    (hconst : ∀ h ∈ H, h = v) (hv : v.length = counts.length) (hslots : 1 ≤ counts.length)
    (hpos : ∀ x ∈ v, 0 < x) :
    calculateCounterVarianceCoefficient sqrt H counts = 0 ∧
    ∀ s : EcmpInstance, s.m_counterHistory = H → s.m_memberCounts = counts → 5 ≤ H.length →
      s.isCounterVarianceStable sqrt = true ∧
      (s.m_bOptimizationEnabled = true →
        ∀ samples : Nat → Nat × Nat,
          s.runOptimization sqrt samples = s.afterStabilityGate samples) := by
  refine ⟨counterCoefficient_const_pos sqrt hsqrt H counts v hlen hconst (by omega) hslots hpos,
    ?_⟩
  intro s hH hc h5
  have hstable : s.isCounterVarianceStable sqrt = true := by
    apply isCounterVarianceStable_of_const_pos sqrt s v hsqrt
    · rw [hH]; exact h5
    · rw [hH]; exact hconst
    · rw [hc]; omega
    · rw [hc]; exact hslots
    · exact hpos
  exact ⟨hstable, fun hon samples =>
    runOptimization_of_stable sqrt samples s hon (by rw [hH]; exact h5) hstable⟩

/-- Scenario S1 in exact arithmetic: five snapshots with every one of the eight
counters at 1000. -/
theorem constant_history_is_stable_witness :
    sqrtApprox 0 = 0 ∧
    2 ≤ (List.replicate 5 (List.replicate 8 1000)).length ∧
    calculateCounterVarianceCoefficient sqrtApprox (List.replicate 5 (List.replicate 8 1000))
      (List.replicate 8 1000) = 0 ∧
    steadyInstance.isCounterVarianceStable sqrtApprox = true := by
  have h := constant_history_is_stable sqrtApprox (by decide!)
    (List.replicate 5 (List.replicate 8 1000)) (List.replicate 8 1000) (List.replicate 8 1000)
    (by decide) (fun h hh => List.eq_of_mem_replicate hh) rfl (by decide)
    (fun x hx => by rw [List.eq_of_mem_replicate hx]; decide)
  exact ⟨by decide!, by decide, h.1, (h.2 steadyInstance rfl rfl (by decide)).1⟩

/-! ### The closed form of the expansion planner -/

theorem desiredIncrease_sum (L : List PortWeightInfo) :
    (L.map (fun i => desiredIncrease i.dwCurrentWeight)).sum =
      (L.map (fun i => i.dwCurrentWeight)).sum +
        (L.filter (fun i => decide (i.dwCurrentWeight = 0))).length := by
  induction L with
  | nil => rfl
  | cons a rest ih =>
    simp only [List.map_cons, List.sum_cons, ih, List.filter_cons]
    unfold desiredIncrease
    by_cases h : a.dwCurrentWeight = 0
    · simp [h]; omega
    · have h1 : max a.dwCurrentWeight 1 = a.dwCurrentWeight := by omega
      simp [h, h1]; omega

theorem grantFull_doubles (info : PortWeightInfo) :
    (grantFull info).dwNewWeight = doubledWeight info.dwCurrentWeight ∧
    (grantFull info).dwPortId = info.dwPortId ∧
    (grantFull info).dwCurrentWeight = info.dwCurrentWeight := by
  unfold grantFull doubledWeight desiredIncrease
  refine ⟨?_, rfl, rfl⟩
  by_cases h : info.dwCurrentWeight = 0
  · simp [h]
  · have h1 : max info.dwCurrentWeight 1 = info.dwCurrentWeight := by omega
    simp [h, h1]; omega

theorem expandWeights_any_order (cfg : T_AI_ECMP_SG_CFG) (hsum : weightSum cfg ≤ 128)
    (order : List PortWeightInfo) (hperm : order.Perm (collectPortInfos cfg)) :
    expandWeights order (currentTotalWeight (collectPortInfos cfg)) =
      if 2 * weightSum cfg + zeroWeightPorts cfg ≤ 128 then
        some (order.map grantFull, 2 * weightSum cfg + zeroWeightPorts cfg)
      else none := by
  obtain ⟨hsorted, hnew, htotal, hle⟩ := expansion_setup cfg hsum
  have hnew2 : ∀ i ∈ order, i.dwNewWeight = i.dwCurrentWeight := by
    intro i hi
    exact hnew i (hsorted.symm.subset (hperm.subset hi))
  have hS : currentTotalWeight (collectPortInfos cfg) = weightSum cfg := by
    rw [htotal]
    exact (hsorted.map _).sum_eq
  have hD : (order.map (fun i => desiredIncrease i.dwCurrentWeight)).sum =
      weightSum cfg + zeroWeightPorts cfg := by
    rw [desiredIncrease_sum]
    unfold weightSum zeroWeightPorts
    rw [(hperm.map _).sum_eq, (hperm.filter _).length_eq]
  rw [expandWeights_closed_form order _ hle hnew2, hD, hS]
  have h2 : weightSum cfg + (weightSum cfg + zeroWeightPorts cfg) =
      2 * weightSum cfg + zeroWeightPorts cfg := by omega
  rw [h2]

/-- C36: for an instance in status Expand with `1 <= port_num < 65536` and sum
of current weights `S <= 128`, with `Z` the number of zero-weight ports,
`getExpandedNextHops` returns true if and only if `2*S + Z <= 128` and returns
false otherwise; the answer of the planner is the same for every processing
order of the ports (in particular for every order `std::sort` may leave
equal-weight ports in); on success the planned ports are the configured ports
(sorted), every port of weight `w > 0` with new weight `2*w` and every
zero-weight port with new weight 1, and `dwItemNum = 2*S + Z`. -/
theorem expansion_closed_form (s : EcmpInstance) (nhopModifyData : T_AI_ECMP_NHOP_MODIFY)
    (hstatus : s.m_status = T_AI_ECMP_STATUS.AI_ECMP_EXPAND)
    (hp1 : 1 ≤ s.m_sgConfig.dwPortNum) (hp2 : s.m_sgConfig.dwPortNum < W16)
    (hsum : weightSum s.m_sgConfig ≤ 128) :
    ((∃ out, s.getExpandedNextHops nhopModifyData = some (true, out)) ↔
      2 * weightSum s.m_sgConfig + zeroWeightPorts s.m_sgConfig ≤ 128) ∧
    (¬ 2 * weightSum s.m_sgConfig + zeroWeightPorts s.m_sgConfig ≤ 128 →
      s.getExpandedNextHops nhopModifyData =
        some (false, { nhopModifyData with
          dwSgId := s.m_sgConfig.dwSgId, dwSeqId := s.m_sgConfig.dwSeqId })) ∧
    (∀ order : List PortWeightInfo, order.Perm (collectPortInfos s.m_sgConfig) →
      expandWeights order (currentTotalWeight (collectPortInfos s.m_sgConfig)) =
        if 2 * weightSum s.m_sgConfig + zeroWeightPorts s.m_sgConfig ≤ 128 then
          some (order.map grantFull,
            2 * weightSum s.m_sgConfig + zeroWeightPorts s.m_sgConfig)
        else none) ∧
    (∀ out, s.getExpandedNextHops nhopModifyData = some (true, out) →
      out.dwItemNum = 2 * weightSum s.m_sgConfig + zeroWeightPorts s.m_sgConfig ∧
      ∃ portInfos : List PortWeightInfo,
        plannedWeights s.m_sgConfig = some (portInfos, out.dwItemNum) ∧
        (portInfos.map (fun i => (i.dwPortId, i.dwCurrentWeight))).Perm
          ((collectPortInfos s.m_sgConfig).map (fun i => (i.dwPortId, i.dwCurrentWeight))) ∧
        ∀ i ∈ portInfos, i.dwNewWeight = doubledWeight i.dwCurrentWeight) := by
  have hsortperm : (sortPortInfos (collectPortInfos s.m_sgConfig)).Perm
      (collectPortInfos s.m_sgConfig) := (expansion_setup s.m_sgConfig hsum).1
  have hplan := expandWeights_any_order s.m_sgConfig hsum _ hsortperm
  have hp0 : ¬ s.m_sgConfig.dwPortNum = 0 := by omega
  have hterm : word16LoopTerminates s.m_sgConfig.dwPortNum = true := by
    unfold word16LoopTerminates
    exact decide_eq_true hp2
  have hcallNone : plannedWeights s.m_sgConfig = none →
      s.getExpandedNextHops nhopModifyData =
        some (false, { nhopModifyData with
          dwSgId := s.m_sgConfig.dwSgId, dwSeqId := s.m_sgConfig.dwSeqId }) := by
    intro h
    unfold EcmpInstance.getExpandedNextHops
    simp only [hstatus, ne_eq, not_true_eq_false, if_false, hp0, hterm, Bool.not_true,
      Bool.false_eq_true, h]
  have hcallSome : ∀ portInfos T, plannedWeights s.m_sgConfig = some (portInfos, T) →
      s.getExpandedNextHops nhopModifyData =
        some (true,
          { nhopModifyData with
            dwSgId := s.m_sgConfig.dwSgId
            dwSeqId := s.m_sgConfig.dwSeqId
            dwItemNum := T
            adwLinkItem :=
              fillLinkItems portInfos 0 (List.replicate FTM_TRUNK_MAX_HASH_NUM_15K 0) }) := by
    intro portInfos T h
    unfold EcmpInstance.getExpandedNextHops
    simp only [hstatus, ne_eq, not_true_eq_false, if_false, hp0, hterm, Bool.not_true,
      Bool.false_eq_true, h]
  have hplanned : plannedWeights s.m_sgConfig =
      if 2 * weightSum s.m_sgConfig + zeroWeightPorts s.m_sgConfig ≤ 128 then
        some ((sortPortInfos (collectPortInfos s.m_sgConfig)).map grantFull,
          2 * weightSum s.m_sgConfig + zeroWeightPorts s.m_sgConfig)
      else none := hplan
  refine ⟨?_, ?_, fun order hperm => expandWeights_any_order s.m_sgConfig hsum order hperm, ?_⟩
  · constructor
    · rintro ⟨out, hout⟩
      by_contra hno
      rw [hcallNone (by rw [hplanned, if_neg hno])] at hout
      simp at hout
    · intro hyes
      rw [hcallSome _ _ (by rw [hplanned, if_pos hyes])]
      exact ⟨_, rfl⟩
  · intro hno
    exact hcallNone (by rw [hplanned, if_neg hno])
  · intro out hout
    by_cases hyes : 2 * weightSum s.m_sgConfig + zeroWeightPorts s.m_sgConfig ≤ 128
    · rw [hcallSome _ _ (by rw [hplanned, if_pos hyes])] at hout
      simp only [Option.some.injEq, Prod.mk.injEq, true_and] at hout
      subst hout
      refine ⟨rfl, _, by rw [hplanned, if_pos hyes], ?_, ?_⟩
      · have h1 : ((sortPortInfos (collectPortInfos s.m_sgConfig)).map grantFull).map
            (fun i => (i.dwPortId, i.dwCurrentWeight)) =
            (sortPortInfos (collectPortInfos s.m_sgConfig)).map
              (fun i => (i.dwPortId, i.dwCurrentWeight)) := by
          rw [List.map_map]
          rfl
        rw [h1]
        exact hsortperm.map _
      · intro i hi
        obtain ⟨j, _, rfl⟩ := List.mem_map.mp hi
        rw [(grantFull_doubles j).1, (grantFull_doubles j).2.2]
    · rw [hcallNone (by rw [hplanned, if_neg hyes])] at hout
      simp at hout

/-- Witness of C36, scenario S3: the weights 1, 1, 6 (`S = 8`, `Z = 0`) become
2, 2, 12 and the plan has 16 items. -/
theorem expansion_closed_form_witness :
    starvedExpanded.m_status = T_AI_ECMP_STATUS.AI_ECMP_EXPAND ∧
    1 ≤ starvedExpanded.m_sgConfig.dwPortNum ∧
    starvedExpanded.m_sgConfig.dwPortNum < W16 ∧
    weightSum starvedExpanded.m_sgConfig = 8 ∧
    zeroWeightPorts starvedExpanded.m_sgConfig = 0 ∧
    plannedWeights starvedExpanded.m_sgConfig =
      some ([⟨1, 1, 2⟩, ⟨2, 1, 2⟩, ⟨3, 6, 12⟩], 16) ∧
    (starvedExpanded.getExpandedNextHops zeroNhopModify).map (fun r => (r.1, r.2.dwItemNum)) =
      some (true, 16) ∧
    ((∃ out, starvedExpanded.getExpandedNextHops zeroNhopModify = some (true, out)) ↔
      2 * weightSum starvedExpanded.m_sgConfig + zeroWeightPorts starvedExpanded.m_sgConfig ≤
        128) :=
  ⟨rfl, by decide, by decide, by decide, by decide, by decide, by decide,
    (expansion_closed_form starvedExpanded zeroNhopModify rfl (by decide) (by decide)
      (by decide)).1⟩

/-! ### The live loads of the local search and the margin of an accepted swap -/

/-- What one pass of the search loop keeps true, with the margin: the current
table is the initial one or scores higher by more than the exchange cost. -/
theorem iteration_margin (self : LocalSearch) (counts : List Nat) (speeds : Map)
    (hashIndices : List Nat) (idx : Nat × Nat) (st : SearchState) (table0 : Map)
    (hcost : 0 ≤ self.m_exchangeCostFactor) (hcounts : ∀ c ∈ counts, c < W64)
    (hnodup : (st.result.map Prod.fst).Nodup)
    (hlnodup : (st.portLoads.map Prod.fst).Nodup)
    (hloads : ∀ p, st.portLoads.lookup p = (calculatePortLoads st.result counts).lookup p)
    (hbest : st.bestResult = st.result)
    (hscore : st.result = table0 ∨
      tableScore table0 counts speeds + self.m_exchangeCostFactor <
        tableScore st.result counts speeds) :
    ((self.iteration counts speeds hashIndices idx st).result.map Prod.fst).Nodup ∧
    ((self.iteration counts speeds hashIndices idx st).portLoads.map Prod.fst).Nodup ∧
    (∀ p, (self.iteration counts speeds hashIndices idx st).portLoads.lookup p =
      (calculatePortLoads (self.iteration counts speeds hashIndices idx st).result
        counts).lookup p) ∧
    (self.iteration counts speeds hashIndices idx st).bestResult =
      (self.iteration counts speeds hashIndices idx st).result ∧
    ((self.iteration counts speeds hashIndices idx st).result = table0 ∨
      tableScore table0 counts speeds + self.m_exchangeCostFactor <
        tableScore (self.iteration counts speeds hashIndices idx st).result counts speeds) := by
  unfold LocalSearch.iteration
  simp only []
  split
  · rename_i hpos
    have himp : 0 < calculateSwapImprovement st.result counts st.portLoads speeds
        (hashIndices.getD idx.1 0) (hashIndices.getD idx.2 0) := by linarith
    have hcond : ¬ (st.result.lookup (hashIndices.getD idx.1 0) =
          st.result.lookup (hashIndices.getD idx.2 0) ∨
        hashIndices.getD idx.1 0 ∉ st.result.map Prod.fst ∨
        hashIndices.getD idx.2 0 ∉ st.result.map Prod.fst ∨
        counts.length ≤ hashIndices.getD idx.1 0 ∨
        counts.length ≤ hashIndices.getD idx.2 0) := by
      intro h
      rw [swapImprovement_zero _ _ _ _ _ _ h] at himp
      exact lt_irrefl _ himp
    simp only [not_or, not_not, not_le] at hcond
    obtain ⟨hne, hk1, hk2, hi, hj⟩ := hcond
    obtain ⟨p1, hl1⟩ := lookup_some_of_mem_keys hk1
    obtain ⟨p2, hl2⟩ := lookup_some_of_mem_keys hk2
    have hp : p1 ≠ p2 := by
      intro h
      apply hne
      rw [hl1, hl2, h]
    have hval := swapImprovement_eq_scores speeds hnodup hcounts hlnodup hloads hl1 hl2 hp hi hj
    rw [swapPorts_eq hl1 hl2] at hval
    simp only [mapModify_id hl1, mapModify_id hl2, mapGet, hl1, hl2, Option.getD_some, hi, hj,
      if_true]
    refine ⟨mapModify_keys_nodup _ _ _ (mapModify_keys_nodup _ _ _ hnodup),
      swapped_loads_nodup p1 p2 _ _ _ _ hlnodup,
      swapped_loads_lookup hnodup hcounts hloads hl1 hl2 hp hi hj, trivial, Or.inr ?_⟩
    rcases hscore with h | h
    · rw [← h]; linarith
    · linarith
  · exact ⟨hnodup, hlnodup, hloads, hbest, hscore⟩

theorem searchLoop_margin (self : LocalSearch) (counts : List Nat) (speeds : Map)
    (hashIndices : List Nat) (samples : Nat → Nat × Nat) (table0 : Map)
    (hcost : 0 ≤ self.m_exchangeCostFactor) (hcounts : ∀ c ∈ counts, c < W64)
    (remaining dwIterations : Nat) (st : SearchState)
    (hnodup : (st.result.map Prod.fst).Nodup)
    (hlnodup : (st.portLoads.map Prod.fst).Nodup)
    (hloads : ∀ p, st.portLoads.lookup p = (calculatePortLoads st.result counts).lookup p)
    (hbest : st.bestResult = st.result)
    (hscore : st.result = table0 ∨
      tableScore table0 counts speeds + self.m_exchangeCostFactor <
        tableScore st.result counts speeds) :
    ((self.searchLoop counts speeds hashIndices samples remaining dwIterations
      st).result.map Prod.fst).Nodup ∧
    ((self.searchLoop counts speeds hashIndices samples remaining dwIterations
      st).portLoads.map Prod.fst).Nodup ∧
    (∀ p, (self.searchLoop counts speeds hashIndices samples remaining dwIterations
        st).portLoads.lookup p =
      (calculatePortLoads (self.searchLoop counts speeds hashIndices samples remaining
        dwIterations st).result counts).lookup p) ∧
    (self.searchLoop counts speeds hashIndices samples remaining dwIterations st).bestResult =
      (self.searchLoop counts speeds hashIndices samples remaining dwIterations st).result ∧
    ((self.searchLoop counts speeds hashIndices samples remaining dwIterations st).result =
        table0 ∨
      tableScore table0 counts speeds + self.m_exchangeCostFactor <
        tableScore (self.searchLoop counts speeds hashIndices samples remaining dwIterations
          st).result counts speeds) := by
  induction remaining generalizing dwIterations st with
  | zero =>
    unfold LocalSearch.searchLoop
    exact ⟨hnodup, hlnodup, hloads, hbest, hscore⟩
  | succ n ih =>
    unfold LocalSearch.searchLoop
    split
    · obtain ⟨a, b, c, d, e⟩ := iteration_margin self counts speeds hashIndices
        (samples dwIterations) st table0 hcost hcounts hnodup hlnodup hloads hbest hscore
      exact ih (dwIterations + 1) _ a b c d e
    · exact ⟨hnodup, hlnodup, hloads, hbest, hscore⟩

/-- The state in which `LocalSearch::optimize` enters its loop. -/
theorem optimize_eq_searchLoop (self : LocalSearch) (samples : Nat → Nat × Nat)
    (memberTable : Map) (memberCounts : List Nat) (portSpeeds : Map)
    (hlen : 2 ≤ memberTable.length) :
    self.optimize samples memberTable memberCounts portSpeeds =
      (self.searchLoop memberCounts portSpeeds (memberTable.map Prod.fst) samples
        self.m_dwMaxIterations 0
        ⟨memberTable, calculatePortLoads memberTable memberCounts, memberTable, 0⟩).bestResult := by
  unfold LocalSearch.optimize
  have h : ¬ (memberTable.map Prod.fst).length < 2 := by
    rw [List.length_map]; omega
  simp only [h, if_false]

/-- The candidate of the local search is the input table or scores higher than
it by more than the exchange cost. -/
theorem optimize_margin (self : LocalSearch) (samples : Nat → Nat × Nat)
    (memberTable : Map) (memberCounts : List Nat) (portSpeeds : Map)
    (hcost : 0 ≤ self.m_exchangeCostFactor)
    (hnodup : (memberTable.map Prod.fst).Nodup) (hcounts : ∀ c ∈ memberCounts, c < W64) :
    self.optimize samples memberTable memberCounts portSpeeds = memberTable ∨
    tableScore memberTable memberCounts portSpeeds + self.m_exchangeCostFactor <
      tableScore (self.optimize samples memberTable memberCounts portSpeeds) memberCounts
        portSpeeds := by
  unfold LocalSearch.optimize
  simp only []
  split
  · exact Or.inl rfl
  · obtain ⟨_, _, _, hb, hs⟩ := searchLoop_margin self memberCounts portSpeeds
      (memberTable.map Prod.fst) samples memberTable hcost hcounts self.m_dwMaxIterations 0
      ⟨memberTable, calculatePortLoads memberTable memberCounts, memberTable, 0⟩ hnodup
      (calculatePortLoads_keys_nodup _ _) (fun _ => rfl) rfl (Or.inl rfl)
    rw [hb]
    exact hs

/-- C39 (amended): for a table with distinct keys (as every `std::unordered_map`
has), 64-bit counters, an exchange cost factor that is not negative, any port
speeds and any sampling sequence: after every number `k` of passes through the
loop of `LocalSearch::optimize` the live map `portLoads` has the same entries as
`calculatePortLoads(result, memberCounts)` (same value for every port, hence a
permutation of it with distinct keys) and `bestResult` is the current table, in
exact arithmetic and, whatever the order `iter` in which the maps are visited,
in `double` as well; in exact arithmetic the evaluation of the live loads (the
one recorded for an accepted swap) is the evaluation of the table computed from
scratch, so the evaluation of the live loads at the end is that of the returned
table computed from scratch. -/
theorem live_loads_agree_with_recomputation (self : LocalSearch)
    (samples : Nat → Nat × Nat) (memberTable : Map) (memberCounts : List Nat)
    (portSpeeds : Map) (hcost : 0 ≤ self.m_exchangeCostFactor)
    (hnodup : (memberTable.map Prod.fst).Nodup) (hcounts : ∀ c ∈ memberCounts, c < W64)
    (k : Nat) :
    let st := self.searchLoop memberCounts portSpeeds (memberTable.map Prod.fst) samples k 0
      ⟨memberTable, calculatePortLoads memberTable memberCounts, memberTable, 0⟩
    (∀ p, st.portLoads.lookup p = (calculatePortLoads st.result memberCounts).lookup p) ∧
    (st.portLoads.map Prod.fst).Nodup ∧
    st.portLoads.Perm (calculatePortLoads st.result memberCounts) ∧
    calculateLoadBalanceMetrics st.portLoads portSpeeds =
      calculateLoadBalanceMetrics (calculatePortLoads st.result memberCounts) portSpeeds ∧
    st.bestResult = st.result ∧
    (2 ≤ memberTable.length → k = self.m_dwMaxIterations →
      self.optimize samples memberTable memberCounts portSpeeds = st.bestResult ∧
      calculateLoadBalanceMetrics st.portLoads portSpeeds =
        calculateLoadBalanceMetrics
          (calculatePortLoads (self.optimize samples memberTable memberCounts portSpeeds)
            memberCounts) portSpeeds) ∧
    (∀ iter : Map → Map, (∀ m : Map, (iter m).Perm m) →
      ((Rounded.searchLoop roundDouble iter self memberCounts portSpeeds
          ((iter memberTable).map Prod.fst) samples k 0
          ⟨memberTable, Rounded.calculatePortLoads iter memberTable memberCounts, memberTable,
            0⟩).portLoads.map Prod.fst).Nodup ∧
      (Rounded.searchLoop roundDouble iter self memberCounts portSpeeds
          ((iter memberTable).map Prod.fst) samples k 0
          ⟨memberTable, Rounded.calculatePortLoads iter memberTable memberCounts, memberTable,
            0⟩).portLoads.Perm
        (Rounded.calculatePortLoads iter
          (Rounded.searchLoop roundDouble iter self memberCounts portSpeeds
            ((iter memberTable).map Prod.fst) samples k 0
            ⟨memberTable, Rounded.calculatePortLoads iter memberTable memberCounts,
              memberTable, 0⟩).result memberCounts) ∧
      (Rounded.searchLoop roundDouble iter self memberCounts portSpeeds
          ((iter memberTable).map Prod.fst) samples k 0
          ⟨memberTable, Rounded.calculatePortLoads iter memberTable memberCounts, memberTable,
            0⟩).bestResult =
        (Rounded.searchLoop roundDouble iter self memberCounts portSpeeds
          ((iter memberTable).map Prod.fst) samples k 0
          ⟨memberTable, Rounded.calculatePortLoads iter memberTable memberCounts, memberTable,
            0⟩).result) := by
  intro st
  obtain ⟨_, hl, hlookup, hb, _⟩ := searchLoop_margin self memberCounts portSpeeds
    (memberTable.map Prod.fst) samples memberTable hcost hcounts k 0
    ⟨memberTable, calculatePortLoads memberTable memberCounts, memberTable, 0⟩ hnodup
    (calculatePortLoads_keys_nodup _ _) (fun _ => rfl) rfl (Or.inl rfl)
  have hm : calculateLoadBalanceMetrics st.portLoads portSpeeds =
      calculateLoadBalanceMetrics (calculatePortLoads st.result memberCounts) portSpeeds :=
    metrics_of_lookup_eq portSpeeds hl (calculatePortLoads_keys_nodup _ _) hlookup
  refine ⟨hlookup, hl, perm_of_lookup_eq hl (calculatePortLoads_keys_nodup _ _) hlookup, hm, hb,
    ?_, fun iter hiter => rounded_live_loads iter hiter self samples memberTable memberCounts
      portSpeeds hcost hnodup hcounts k⟩
  intro hlen hk
  have ho : self.optimize samples memberTable memberCounts portSpeeds = st.bestResult := by
    rw [optimize_eq_searchLoop self samples memberTable memberCounts portSpeeds hlen, ← hk]
  refine ⟨ho, ?_⟩
  rw [ho, hb]
  exact hm

set_option maxRecDepth 100000 in
/-- Witness of C39 (amended): the striped table with counters `[50, 5, 5, 5, 50, 5, 5, 5]`,
the search sampling the positions 0 and 1; after one pass the slots 0 and 1 are
exchanged and the live loads are `[(1, 55), (2, 55), (3, 10), (4, 10)]`, the
loads of the new table in another order. -/
theorem live_loads_agree_with_recomputation_witness :
    (0 : ℚ) ≤ (⟨10000, 1 / 10⟩ : LocalSearch).m_exchangeCostFactor ∧
    (stripedInstance.m_ecmpMemberTable.map Prod.fst).Nodup ∧
    (∀ c ∈ [50, 5, 5, 5, 50, 5, 5, 5], c < W64) ∧
    ((⟨10000, 1 / 10⟩ : LocalSearch).searchLoop [50, 5, 5, 5, 50, 5, 5, 5]
        stripedInstance.m_portSpeeds (stripedInstance.m_ecmpMemberTable.map Prod.fst)
        (fun _ => (0, 1)) 1 0
        ⟨stripedInstance.m_ecmpMemberTable,
          calculatePortLoads stripedInstance.m_ecmpMemberTable [50, 5, 5, 5, 50, 5, 5, 5],
          stripedInstance.m_ecmpMemberTable, 0⟩).portLoads =
      [(1, 55), (2, 55), (3, 10), (4, 10)] ∧
    calculatePortLoads [(0, 2), (1, 1), (2, 3), (3, 4), (4, 1), (5, 2), (6, 3), (7, 4)]
        [50, 5, 5, 5, 50, 5, 5, 5] = [(2, 55), (1, 55), (3, 10), (4, 10)] ∧
    ((⟨10000, 1 / 10⟩ : LocalSearch).searchLoop [50, 5, 5, 5, 50, 5, 5, 5]
        stripedInstance.m_portSpeeds (stripedInstance.m_ecmpMemberTable.map Prod.fst)
        (fun _ => (0, 1)) 1 0
        ⟨stripedInstance.m_ecmpMemberTable,
          calculatePortLoads stripedInstance.m_ecmpMemberTable [50, 5, 5, 5, 50, 5, 5, 5],
          stripedInstance.m_ecmpMemberTable, 0⟩).portLoads.Perm
      (calculatePortLoads
        ((⟨10000, 1 / 10⟩ : LocalSearch).searchLoop [50, 5, 5, 5, 50, 5, 5, 5]
          stripedInstance.m_portSpeeds (stripedInstance.m_ecmpMemberTable.map Prod.fst)
          (fun _ => (0, 1)) 1 0
          ⟨stripedInstance.m_ecmpMemberTable,
            calculatePortLoads stripedInstance.m_ecmpMemberTable [50, 5, 5, 5, 50, 5, 5, 5],
            stripedInstance.m_ecmpMemberTable, 0⟩).result
        [50, 5, 5, 5, 50, 5, 5, 5]) :=
  ⟨by decide!, by decide, by decide, by decide!, by decide!,
    (live_loads_agree_with_recomputation ⟨10000, 1 / 10⟩ (fun _ => (0, 1))
      stripedInstance.m_ecmpMemberTable [50, 5, 5, 5, 50, 5, 5, 5] stripedInstance.m_portSpeeds
      (by decide!) (by decide) (by decide) 1).2.2.1⟩

/-! ### The three outcomes of the search path -/

theorem recordAdjustmentResult_eq (s : EcmpInstance) (success : Bool) :
    s.recordAdjustmentResult success =
      { s with
        m_adjustCyclesAfterExpansion :=
          if s.m_inPostExpansionPeriod then (s.m_adjustCyclesAfterExpansion + 1) % W16
          else s.m_adjustCyclesAfterExpansion
        m_consecutiveAdjustFailures :=
          if success then 0 else (s.m_consecutiveAdjustFailures + 1) % W16 } := by
  unfold EcmpInstance.recordAdjustmentResult
  cases success <;> cases h : s.m_inPostExpansionPeriod <;> simp [h]

theorem searchWith_outcomes (samples : Nat → Nat × Nat) (currentEval : T_AI_ECMP_EVAL)
    (algorithm : LocalSearch) (u : EcmpInstance) :
    (mapEq (algorithm.optimize samples u.m_ecmpMemberTable u.m_memberCounts u.m_portSpeeds)
        u.m_ecmpMemberTable = true →
      u.searchWith samples currentEval algorithm =
        (false,
          { u.recordAdjustmentResult false with m_status := T_AI_ECMP_STATUS.AI_ECMP_BALANCE })) ∧
    (mapEq (algorithm.optimize samples u.m_ecmpMemberTable u.m_memberCounts u.m_portSpeeds)
        u.m_ecmpMemberTable = false →
      calculateImprovementPercentage currentEval
        (calculateLoadBalanceMetrics
          (calculatePortLoads
            (algorithm.optimize samples u.m_ecmpMemberTable u.m_memberCounts u.m_portSpeeds)
            u.m_memberCounts) u.m_portSpeeds) < 1 →
      u.searchWith samples currentEval algorithm =
        (false,
          { u.recordAdjustmentResult false with m_status := T_AI_ECMP_STATUS.AI_ECMP_FAIL })) ∧
    (mapEq (algorithm.optimize samples u.m_ecmpMemberTable u.m_memberCounts u.m_portSpeeds)
        u.m_ecmpMemberTable = false →
      1 ≤ calculateImprovementPercentage currentEval
        (calculateLoadBalanceMetrics
          (calculatePortLoads
            (algorithm.optimize samples u.m_ecmpMemberTable u.m_memberCounts u.m_portSpeeds)
            u.m_memberCounts) u.m_portSpeeds) →
      u.searchWith samples currentEval algorithm =
        (true,
          { u.recordAdjustmentResult true with
            m_ecmpMemberTable :=
              algorithm.optimize samples u.m_ecmpMemberTable u.m_memberCounts u.m_portSpeeds
            m_portLoads :=
              calculatePortLoads
                (algorithm.optimize samples u.m_ecmpMemberTable u.m_memberCounts u.m_portSpeeds)
                u.m_memberCounts
            m_status := T_AI_ECMP_STATUS.AI_ECMP_ADJUST })) := by
  refine ⟨?_, ?_, ?_⟩
  · intro heq
    unfold EcmpInstance.searchWith
    simp only []
    rw [if_pos heq]
  · intro hne hlow
    unfold EcmpInstance.searchWith
    simp only []
    have heff : isOptimizationEffective currentEval
        (calculateLoadBalanceMetrics
          (calculatePortLoads
            (algorithm.optimize samples u.m_ecmpMemberTable u.m_memberCounts u.m_portSpeeds)
            u.m_memberCounts) u.m_portSpeeds) 1 = false := by
      unfold isOptimizationEffective
      simp only [decide_eq_false_iff_not, not_le]
      exact hlow
    rw [if_neg (by rw [hne]; simp)]
    simp only [heff, Bool.not_false, if_true]
  · intro hne hhigh
    unfold EcmpInstance.searchWith
    simp only []
    have heff : isOptimizationEffective currentEval
        (calculateLoadBalanceMetrics
          (calculatePortLoads
            (algorithm.optimize samples u.m_ecmpMemberTable u.m_memberCounts u.m_portSpeeds)
            u.m_memberCounts) u.m_portSpeeds) 1 = true := by
      unfold isOptimizationEffective
      simp only [decide_eq_true_eq]
      exact hhigh
    rw [if_neg (by rw [hne]; simp)]
    simp only [heff, Bool.not_true, Bool.false_eq_true, if_false]
    unfold EcmpInstance.calculateLoadMetrics
    simp only [recordAdjustmentResult_eq]

/-- C33: on the search path of `runOptimization`, with `s1` the instance after
the default algorithm `LocalSearch(10000, 0.1)` has been installed where none
was set (nothing else differs from `s`) and `candidate` the table the algorithm
returns: if the candidate equals the current table, a failure is recorded, the
status becomes Balance and false is returned; if it differs and the improvement
percentage is below 1.0, a failure is recorded, the status becomes Fail, false
is returned and table and port loads are as before the call; otherwise the
table becomes the candidate, the port loads are recomputed from it,
`m_consecutiveAdjustFailures` is reset to 0, the status becomes Adjust and true
is returned.  The last part links the search path to `runOptimization`: when
the gates are passed and no expansion is decided, the call returns what the
search path returns. -/
theorem search_path_outcomes (samples : Nat → Nat × Nat) (currentEval : T_AI_ECMP_EVAL)
    (s : EcmpInstance) :
    let algorithm := s.m_pAlgorithm.getD ⟨10000, 1 / 10⟩
    let s1 := s.ensureAlgorithm
    let candidate :=
      algorithm.optimize samples s.m_ecmpMemberTable s.m_memberCounts s.m_portSpeeds
    let afterEval :=
      calculateLoadBalanceMetrics (calculatePortLoads candidate s.m_memberCounts) s.m_portSpeeds
    s1 = { s with m_pAlgorithm := some algorithm } ∧
    (mapEq candidate s.m_ecmpMemberTable = true →
      s.searchPath samples currentEval =
        (false,
          { s1.recordAdjustmentResult false with
            m_status := T_AI_ECMP_STATUS.AI_ECMP_BALANCE })) ∧
    (mapEq candidate s.m_ecmpMemberTable = false →
      calculateImprovementPercentage currentEval afterEval < 1 →
      s.searchPath samples currentEval =
        (false,
          { s1.recordAdjustmentResult false with
            m_status := T_AI_ECMP_STATUS.AI_ECMP_FAIL }) ∧
      (s.searchPath samples currentEval).2.m_ecmpMemberTable = s.m_ecmpMemberTable ∧
      (s.searchPath samples currentEval).2.m_portLoads = s.m_portLoads) ∧
    (mapEq candidate s.m_ecmpMemberTable = false →
      1 ≤ calculateImprovementPercentage currentEval afterEval →
      s.searchPath samples currentEval =
        (true,
          { s1.recordAdjustmentResult true with
            m_ecmpMemberTable := candidate
            m_portLoads := calculatePortLoads candidate s.m_memberCounts
            m_status := T_AI_ECMP_STATUS.AI_ECMP_ADJUST }) ∧
      (s.searchPath samples currentEval).2.m_consecutiveAdjustFailures = 0) ∧
    (∀ (sqrt : ℚ → ℚ) (t t2 : EcmpInstance),
      t.m_bOptimizationEnabled = true → 5 ≤ t.m_counterHistory.length →
      t.isCounterVarianceStable sqrt = true → ¬ (t.evaluateBalance).1.avgGap < 5 / 100 →
      (t.evaluateBalance).2.expansionDecision = some (false, t2) →
      t.runOptimization sqrt samples = some (t2.searchPath samples (t.evaluateBalance).1)) := by
  intro algorithm s1 candidate afterEval
  obtain ⟨f1, f2, f3, _, f5⟩ := ensureAlgorithm_frame s
  have hpath : s.searchPath samples currentEval = s1.searchWith samples currentEval algorithm := by
    unfold EcmpInstance.searchPath
    simp only [f5]
  have hcand : algorithm.optimize samples s1.m_ecmpMemberTable s1.m_memberCounts
      s1.m_portSpeeds = candidate := by
    show algorithm.optimize samples s.ensureAlgorithm.m_ecmpMemberTable
      s.ensureAlgorithm.m_memberCounts s.ensureAlgorithm.m_portSpeeds = _
    rw [f1, f2, f3]
  have hc : s1.m_memberCounts = s.m_memberCounts := f2
  have ht : s1.m_ecmpMemberTable = s.m_ecmpMemberTable := f1
  have hsp : s1.m_portSpeeds = s.m_portSpeeds := f3
  obtain ⟨o1, o2, o3⟩ := searchWith_outcomes samples currentEval algorithm s1
  rw [hcand, ht] at o1
  rw [hcand, hc, ht, hsp] at o2 o3
  have hs1 : s1 = { s with m_pAlgorithm := some algorithm } := by
    show s.ensureAlgorithm = _
    unfold EcmpInstance.ensureAlgorithm EcmpInstance.setAlgorithm
    cases h : s.m_pAlgorithm with
    | none => simp [algorithm, h]
    | some a =>
      simp only [Option.isNone_some, Bool.false_eq_true, if_false, algorithm, h,
        Option.getD_some]
      cases s
      simp_all
  have hloads : s1.m_portLoads = s.m_portLoads := by rw [hs1]
  refine ⟨hs1, ?_, ?_, ?_, ?_⟩
  · intro heq
    rw [hpath]
    exact o1 heq
  · intro hne hlow
    rw [hpath, o2 hne hlow]
    refine ⟨rfl, ?_, ?_⟩
    · show (s1.recordAdjustmentResult false).m_ecmpMemberTable = _
      rw [(recordAdjustmentResult_frame s1 false).1, ht]
    · show (s1.recordAdjustmentResult false).m_portLoads = _
      rw [recordAdjustmentResult_eq, ← hloads]
  · intro hne hhigh
    rw [hpath, o3 hne hhigh]
    refine ⟨rfl, ?_⟩
    show (s1.recordAdjustmentResult true).m_consecutiveAdjustFailures = 0
    rw [recordAdjustmentResult_eq]
    rfl
  · intro sqrt t t2 hon hlen hstable hgap hdec
    rw [runOptimization_of_stable sqrt samples t hon hlen hstable]
    unfold EcmpInstance.afterStabilityGate
    simp only [hgap, if_false, hdec]
    rfl

/-! ### Expansion needs two recorded failures -/

theorem updateCounters_keeps (rnd : Nat → Nat) (s : EcmpInstance) :
    (s.updateCounters rnd).2.m_consecutiveAdjustFailures = s.m_consecutiveAdjustFailures ∧
    (s.updateCounters rnd).2.m_bOptimizationEnabled = s.m_bOptimizationEnabled ∧
    (s.updateCounters rnd).2.m_sgConfig = s.m_sgConfig := by
  unfold EcmpInstance.updateCounters EcmpInstance.calculateLoadMetrics
  simp only []
  cases h : s.m_bOptimizationEnabled <;> simp [h]

theorem expansionDecision_cases {s s2 : EcmpInstance} {b : Bool}
    (h : s.expansionDecision = some (b, s2)) :
    (s2 = s ∨ s2 = { s with m_inPostExpansionPeriod := false }) ∧
    (b = true → 2 ≤ s.m_consecutiveAdjustFailures ∧ s.m_sgConfig.dwPortNum < W16) := by
  have hp : ∀ u : EcmpInstance, ∀ x, u.needExpansion = some x → u.m_sgConfig.dwPortNum < W16 := by
    intro u x hx
    unfold EcmpInstance.needExpansion word16LoopTerminates at hx
    by_contra hno
    simp [hno] at hx
  have hskip2 : (s.shouldSkipExpansionCheck).2 = s ∨
      (s.shouldSkipExpansionCheck).2 = { s with m_inPostExpansionPeriod := false } := by
    unfold EcmpInstance.shouldSkipExpansionCheck
    split
    · exact Or.inl rfl
    · split
      · exact Or.inl rfl
      · exact Or.inr rfl
  unfold EcmpInstance.expansionDecision MAX_CONSECUTIVE_ADJUST_FAILURES at h
  by_cases hf : 2 ≤ s.m_consecutiveAdjustFailures
  · simp only [hf, if_true] at h
    cases hn : s.needExpansion with
    | none => simp [hn] at h
    | some x =>
      simp only [hn] at h
      cases x
      · simp only [Bool.false_eq_true, if_false, Option.some.injEq, Prod.mk.injEq] at h
        exact ⟨Or.inl h.2.symm, fun _ => ⟨hf, hp s _ hn⟩⟩
      · simp only [if_true, Option.some.injEq, Prod.mk.injEq] at h
        refine ⟨?_, fun _ => ⟨hf, hp s _ hn⟩⟩
        cases hin : s.m_inPostExpansionPeriod
        · simp only [hin, Bool.false_eq_true, if_false] at h
          exact Or.inl h.2.symm
        · simp only [hin, if_true] at h
          exact Or.inr h.2.symm
  · simp only [hf, if_false] at h
    cases hs : (s.shouldSkipExpansionCheck).1
    · simp only [hs, Bool.false_eq_true, if_false] at h
      cases hn : (s.shouldSkipExpansionCheck).2.needExpansion with
      | none => simp [hn] at h
      | some x =>
        simp only [hn, Option.some.injEq, Prod.mk.injEq] at h
        refine ⟨?_, fun hb => ?_⟩
        · rw [← h.2]; exact hskip2
        · rw [← h.1] at hb; exact absurd hb (by simp)
    · simp only [hs, if_true, Option.some.injEq, Prod.mk.injEq] at h
      refine ⟨?_, fun hb => ?_⟩
      · rw [← h.2]; exact hskip2
      · rw [← h.1] at hb; exact absurd hb (by simp)

theorem searchPath_failures (samples : Nat → Nat × Nat) (currentEval : T_AI_ECMP_EVAL)
    (s : EcmpInstance) :
    (s.searchPath samples currentEval).2.m_bOptimizationEnabled = s.m_bOptimizationEnabled ∧
    ((s.searchPath samples currentEval).2.m_consecutiveAdjustFailures = 0 ∨
      (s.searchPath samples currentEval).2.m_consecutiveAdjustFailures =
        (s.m_consecutiveAdjustFailures + 1) % W16) := by
  have hs1 : s.ensureAlgorithm.m_bOptimizationEnabled = s.m_bOptimizationEnabled ∧
      s.ensureAlgorithm.m_consecutiveAdjustFailures = s.m_consecutiveAdjustFailures := by
    unfold EcmpInstance.ensureAlgorithm EcmpInstance.setAlgorithm
    split <;> exact ⟨rfl, rfl⟩
  have hpath : s.searchPath samples currentEval =
      s.ensureAlgorithm.searchWith samples currentEval
        (s.m_pAlgorithm.getD ⟨10000, 1 / 10⟩) := by
    unfold EcmpInstance.searchPath
    simp only [(ensureAlgorithm_frame s).2.2.2.2]
  rw [hpath, ← hs1.1, ← hs1.2]
  generalize s.ensureAlgorithm = u
  generalize s.m_pAlgorithm.getD ⟨10000, 1 / 10⟩ = algorithm
  obtain ⟨o1, o2, o3⟩ := searchWith_outcomes samples currentEval algorithm u
  cases heq : mapEq (algorithm.optimize samples u.m_ecmpMemberTable u.m_memberCounts
    u.m_portSpeeds) u.m_ecmpMemberTable
  · by_cases himp : calculateImprovementPercentage currentEval
        (calculateLoadBalanceMetrics
          (calculatePortLoads
            (algorithm.optimize samples u.m_ecmpMemberTable u.m_memberCounts u.m_portSpeeds)
            u.m_memberCounts) u.m_portSpeeds) < 1
    · rw [o2 heq himp, recordAdjustmentResult_eq]
      exact ⟨rfl, Or.inr rfl⟩
    · rw [o3 heq (not_lt.mp himp), recordAdjustmentResult_eq]
      exact ⟨rfl, Or.inl rfl⟩
  · rw [o1 heq, recordAdjustmentResult_eq]
    exact ⟨rfl, Or.inr rfl⟩

/-- What one call of `runOptimization` does to the hysteresis state: the switch
and the configuration stay, the failure counter stays, goes to 0 or goes up by
one (modulo 2^16); true is returned only by an enabled instance; and an enabled
instance ends in status Expand only from a failure counter of at least 2 (and a
port count below 65536), with true returned and the counter back at 0. -/
theorem runOptimization_step {sqrt : ℚ → ℚ} {samples : Nat → Nat × Nat} {s : EcmpInstance}
    {r : Bool × EcmpInstance} (h : s.runOptimization sqrt samples = some r) :
    r.2.m_bOptimizationEnabled = s.m_bOptimizationEnabled ∧
    r.2.m_sgConfig = s.m_sgConfig ∧
    (r.2.m_consecutiveAdjustFailures = s.m_consecutiveAdjustFailures ∨
      r.2.m_consecutiveAdjustFailures = 0 ∨
      r.2.m_consecutiveAdjustFailures = (s.m_consecutiveAdjustFailures + 1) % W16) ∧
    (r.1 = true → s.m_bOptimizationEnabled = true) ∧
    (s.m_bOptimizationEnabled = true → r.2.m_status = T_AI_ECMP_STATUS.AI_ECMP_EXPAND →
      2 ≤ s.m_consecutiveAdjustFailures ∧ s.m_sgConfig.dwPortNum < W16 ∧
      r.1 = true ∧ r.2.m_consecutiveAdjustFailures = 0) := by
  have hcfg := runOptimization_config h
  unfold EcmpInstance.runOptimization at h
  cases hon : s.m_bOptimizationEnabled
  · simp only [hon, Bool.not_false, if_true, Option.some.injEq] at h
    subst h
    exact ⟨hon, rfl, Or.inl rfl, fun hb => absurd hb (by simp), fun hb => absurd hb (by simp)⟩
  · simp only [hon, Bool.not_true, Bool.false_eq_true, if_false] at h
    by_cases hlen : s.m_counterHistory.length < HISTORY_CYCLES_FOR_VARIANCE
    · simp only [hlen, if_true, Option.some.injEq] at h
      subst h
      refine ⟨rfl, rfl, Or.inl rfl, fun _ => rfl, fun _ hst => ?_⟩
      simp at hst
    · simp only [hlen, if_false] at h
      cases hstab : s.isCounterVarianceStable sqrt
      · simp only [hstab, Bool.not_false, if_true, Option.some.injEq] at h
        subst h
        refine ⟨rfl, rfl, Or.inl rfl, fun _ => rfl, fun _ hst => ?_⟩
        simp at hst
      · simp only [hstab, Bool.not_true, Bool.false_eq_true, if_false] at h
        unfold EcmpInstance.afterStabilityGate at h
        simp only [] at h
        by_cases hgap : (s.evaluateBalance).1.avgGap < 5 / 100
        · simp only [hgap, if_true, Option.some.injEq] at h
          subst h
          refine ⟨hon, rfl, Or.inr (Or.inl rfl), fun _ => rfl, fun _ hst => ?_⟩
          simp at hst
        · simp only [hgap, if_false] at h
          cases hdec : (s.evaluateBalance).2.expansionDecision with
          | none => simp [hdec] at h
          | some d =>
            obtain ⟨b, s2⟩ := d
            obtain ⟨hs2, hb⟩ := expansionDecision_cases hdec
            have hs2f : s2.m_consecutiveAdjustFailures = s.m_consecutiveAdjustFailures ∧
                s2.m_bOptimizationEnabled = s.m_bOptimizationEnabled := by
              rcases hs2 with h2 | h2 <;> rw [h2] <;> exact ⟨rfl, rfl⟩
            simp only [hdec] at h
            cases b
            · simp only [Bool.false_eq_true, if_false, Option.some.injEq] at h
              subst h
              obtain ⟨e1, e2⟩ := searchPath_failures samples (s.evaluateBalance).1 s2
              refine ⟨by rw [e1, hs2f.2, hon], hcfg, ?_, fun _ => rfl, fun _ hst => ?_⟩
              · rcases e2 with e | e
                · exact Or.inr (Or.inl e)
                · rw [hs2f.1] at e
                  exact Or.inr (Or.inr e)
              · exact absurd hst (searchPath_not_expand _ _ _)
            · simp only [if_true, Option.some.injEq] at h
              subst h
              obtain ⟨hb1, hb2⟩ := hb rfl
              refine ⟨?_, hcfg, Or.inr (Or.inl rfl), fun _ => rfl, fun _ _ => ⟨hb1, hb2, rfl, rfl⟩⟩
              show s2.m_bOptimizationEnabled = true
              rw [hs2f.2, hon]

theorem failureRecords_le_length : ∀ (trace : List EcmpInstance) (s : EcmpInstance),
    failureRecords s trace ≤ trace.length
  | [], _ => Nat.le_refl 0
  | t :: rest, s => by
    have h := failureRecords_le_length rest t
    unfold failureRecords
    simp only [List.length_cons]
    split <;> omega

/-- The trace of an enabled instance with a port count below 65536 exists, and
along it the failure counter never exceeds its start value plus the number of
recorded failures; a call ends in Expand only from a counter of at least 2. -/
theorem cycleTrace_spec (sqrt : ℚ → ℚ) : ∀ (inputs : List CycleInput) (s : EcmpInstance),
    s.m_sgConfig.dwPortNum < W16 → s.m_bOptimizationEnabled = true →
    ∃ trace, cycleTrace sqrt inputs s = some trace ∧ trace.length = inputs.length ∧
      ∀ n t, trace.get? n = some t →
        t.m_consecutiveAdjustFailures ≤
          s.m_consecutiveAdjustFailures + failureRecords s (trace.take (n + 1)) ∧
        (t.m_status = T_AI_ECMP_STATUS.AI_ECMP_EXPAND →
          2 ≤ s.m_consecutiveAdjustFailures + failureRecords s (trace.take n))
  | [], s, _, _ => ⟨[], rfl, rfl, fun n t h => by simp at h⟩
  | input :: rest, s, hp, hon => by
    obtain ⟨k1, k2, k3⟩ := updateCounters_keeps input.1 s
    obtain ⟨r, hr, _⟩ := runOptimization_total sqrt input.2 (s.updateCounters input.1).2
      (by rw [k3]; exact hp)
    obtain ⟨q1, q2, q3, _, q5⟩ := runOptimization_step hr
    rw [k1] at q3
    rw [k2] at q1
    rw [k3] at q2
    obtain ⟨trace, htrace, hlen, hall⟩ := cycleTrace_spec sqrt rest r.2 (by rw [q2]; exact hp)
      (by rw [q1]; exact hon)
    refine ⟨r.2 :: trace, ?_, by simp [hlen], ?_⟩
    · unfold cycleTrace
      simp only [hr, htrace]
    · have hind : r.2.m_consecutiveAdjustFailures ≤ s.m_consecutiveAdjustFailures +
          (if r.2.m_consecutiveAdjustFailures = s.m_consecutiveAdjustFailures + 1 then 1
            else 0) := by
        unfold W16 at q3
        split <;> omega
      intro n t hget
      cases n with
      | zero =>
        simp only [List.get?_cons_zero, Option.some.injEq] at hget
        subst hget
        refine ⟨?_, fun hst => ?_⟩
        · simp only [List.take_succ_cons, List.take_zero, failureRecords]
          omega
        · have h5 := q5 (by rw [k2]; exact hon) hst
          rw [k1] at h5
          simp only [List.take_zero, failureRecords]
          omega
      | succ m =>
        simp only [List.get?_cons_succ] at hget
        obtain ⟨a1, a2⟩ := hall m t hget
        refine ⟨?_, fun hst => ?_⟩
        · simp only [List.take_succ_cons, failureRecords]
          omega
        · have a3 := a2 hst
          simp only [List.take_succ_cons, failureRecords]
          omega

/-- C37: after a `runOptimization` call that returns true with status Expand,
whatever the counters and the samples of the following optimisation cycles
are, every one of those cycles returns, the next call does not end in Expand,
and a later call ends in Expand only after at least two of the calls between
have raised `m_consecutiveAdjustFailures` by one, which only the recording of
an adjustment failure does. -/
theorem expand_needs_two_recorded_failures (sqrt : ℚ → ℚ) (samples : Nat → Nat × Nat)
    (s s1 : EcmpInstance) (hrun : s.runOptimization sqrt samples = some (true, s1))
    (hexpand : s1.m_status = T_AI_ECMP_STATUS.AI_ECMP_EXPAND) (inputs : List CycleInput) :
    s1.m_consecutiveAdjustFailures = 0 ∧
    ∃ trace, cycleTrace sqrt inputs s1 = some trace ∧ trace.length = inputs.length ∧
      (∀ t, trace.head? = some t → t.m_status ≠ T_AI_ECMP_STATUS.AI_ECMP_EXPAND) ∧
      (∀ n t, trace.get? n = some t → t.m_status = T_AI_ECMP_STATUS.AI_ECMP_EXPAND →
        2 ≤ failureRecords s1 (trace.take n)) := by
  obtain ⟨q1, q2, _, q4, q5⟩ := runOptimization_step hrun
  have hon : s.m_bOptimizationEnabled = true := q4 rfl
  obtain ⟨_, hp, _, hzero⟩ := q5 hon hexpand
  obtain ⟨trace, htrace, hlen, hall⟩ := cycleTrace_spec sqrt inputs s1
    (by rw [q2]; exact hp) (by rw [q1]; exact hon)
  have hzero' : s1.m_consecutiveAdjustFailures = 0 := hzero
  refine ⟨hzero', trace, htrace, hlen, ?_, ?_⟩
  · intro t ht hst
    have hget : trace.get? 0 = some t := by
      cases trace with
      | nil => simp at ht
      | cons a rest => simpa using ht
    have h := (hall 0 t hget).2 hst
    rw [hzero'] at h
    simp only [List.take_zero, failureRecords] at h
    omega
  · intro n t hget hst
    have h := (hall n t hget).2 hst
    rw [hzero'] at h
    omega

/-- C31 (amended): after a `runOptimization` call that returns true with status
Expand, whatever the counters and the samples are, each of the next 2
optimisation cycles returns and neither of them ends in Expand, even when
`needExpansion()` is true in them.  (The third may: two failed searches bring
`m_consecutiveAdjustFailures` to 2, and from there the expansion is considered
whether or not the waiting period is over.) -/
theorem quiet_period_after_expansion (sqrt : ℚ → ℚ) (samples : Nat → Nat × Nat)
    (s s1 : EcmpInstance) (hrun : s.runOptimization sqrt samples = some (true, s1))
    (hexpand : s1.m_status = T_AI_ECMP_STATUS.AI_ECMP_EXPAND) (inputs : List CycleInput)
    (hlen : inputs.length ≤ 2) :
    ∃ trace, cycleTrace sqrt inputs s1 = some trace ∧ trace.length = inputs.length ∧
      ∀ t ∈ trace, t.m_status ≠ T_AI_ECMP_STATUS.AI_ECMP_EXPAND := by
  obtain ⟨q1, q2, _, q4, q5⟩ := runOptimization_step hrun
  have hon : s.m_bOptimizationEnabled = true := q4 rfl
  obtain ⟨_, hp, _, hzero⟩ := q5 hon hexpand
  obtain ⟨trace, htrace, hlen2, hall⟩ := cycleTrace_spec sqrt inputs s1
    (by rw [q2]; exact hp) (by rw [q1]; exact hon)
  have hzero' : s1.m_consecutiveAdjustFailures = 0 := hzero
  refine ⟨trace, htrace, hlen2, ?_⟩
  intro t ht hst
  obtain ⟨n, hn⟩ := List.get?_of_mem ht
  have h := (hall n t hn).2 hst
  rw [hzero'] at h
  have h2 := failureRecords_le_length (trace.take n) s1
  have h3 : n < trace.length := by
    by_contra hge
    rw [List.get?_eq_none.mpr (by omega)] at hn
    simp at hn
  simp only [List.length_take] at h2
  omega

set_option maxRecDepth 1000000 in
set_option maxHeartbeats 4000000 in
/-- C31 (counterexample).  Scenario S3 (weights 1, 1, 6), the local search
drawing two slots of the same port: the seventh `runOptimization` ends in
Expand; the counters stay as they are; the next two calls end in Balance with a
recorded failure each, and the third call after the expansion ends in Expand
again, `needExpansion()` being true throughout. -/
theorem quiet_period_counterexample :
    starvedThirdAttempt.runOptimization sqrtApprox (fun _ => (2, 3)) =
      some (true, starvedExpanded) ∧
    starvedExpanded.m_status = T_AI_ECMP_STATUS.AI_ECMP_EXPAND ∧
    (cycleTrace sqrtApprox [quietInput, quietInput, quietInput] starvedExpanded).map
        (List.map (fun t => (t.m_status, t.m_consecutiveAdjustFailures, t.m_wCycle,
          t.needExpansion))) =
      some [(T_AI_ECMP_STATUS.AI_ECMP_BALANCE, 1, 8, some true),
        (T_AI_ECMP_STATUS.AI_ECMP_BALANCE, 2, 9, some true),
        (T_AI_ECMP_STATUS.AI_ECMP_EXPAND, 0, 10, some true)] := by
  refine ⟨by decide!, rfl, by decide!⟩

set_option maxRecDepth 1000000 in
set_option maxHeartbeats 4000000 in
/-- Witness of C31 (amended), scenario S3: the two cycles after the expansion
end in Balance. -/
theorem quiet_period_after_expansion_witness :
    starvedThirdAttempt.runOptimization sqrtApprox (fun _ => (2, 3)) =
      some (true, starvedExpanded) ∧
    starvedExpanded.m_status = T_AI_ECMP_STATUS.AI_ECMP_EXPAND ∧
    [quietInput, quietInput].length ≤ 2 ∧
    ∃ trace, cycleTrace sqrtApprox [quietInput, quietInput] starvedExpanded = some trace ∧
      trace.length = [quietInput, quietInput].length ∧
      ∀ t ∈ trace, t.m_status ≠ T_AI_ECMP_STATUS.AI_ECMP_EXPAND := by
  have hrun : starvedThirdAttempt.runOptimization sqrtApprox (fun _ => (2, 3)) =
      some (true, starvedExpanded) := by decide!
  exact ⟨hrun, rfl, by decide,
    quiet_period_after_expansion sqrtApprox (fun _ => (2, 3)) starvedThirdAttempt
      starvedExpanded hrun rfl [quietInput, quietInput] (by decide)⟩

set_option maxRecDepth 1000000 in
set_option maxHeartbeats 4000000 in
/-- Witness of C37, scenario S3: of the three cycles after the expansion the
first two record a failure each and the third ends in Expand. -/
theorem expand_needs_two_recorded_failures_witness :
    starvedThirdAttempt.runOptimization sqrtApprox (fun _ => (2, 3)) =
      some (true, starvedExpanded) ∧
    starvedExpanded.m_status = T_AI_ECMP_STATUS.AI_ECMP_EXPAND ∧
    (cycleTrace sqrtApprox [quietInput, quietInput, quietInput] starvedExpanded).map
        (fun trace => (trace.map (fun t => t.m_consecutiveAdjustFailures),
          failureRecords starvedExpanded (trace.take 2))) = some ([1, 2, 0], 2) ∧
    starvedExpanded.m_consecutiveAdjustFailures = 0 ∧
    ∃ trace, cycleTrace sqrtApprox [quietInput, quietInput, quietInput] starvedExpanded =
        some trace ∧
      trace.length = [quietInput, quietInput, quietInput].length ∧
      (∀ t, trace.head? = some t → t.m_status ≠ T_AI_ECMP_STATUS.AI_ECMP_EXPAND) ∧
      (∀ n t, trace.get? n = some t → t.m_status = T_AI_ECMP_STATUS.AI_ECMP_EXPAND →
        2 ≤ failureRecords starvedExpanded (trace.take n)) := by
  have hrun : starvedThirdAttempt.runOptimization sqrtApprox (fun _ => (2, 3)) =
      some (true, starvedExpanded) := by decide!
  exact ⟨hrun, rfl, by decide!,
    expand_needs_two_recorded_failures sqrtApprox (fun _ => (2, 3)) starvedThirdAttempt
      starvedExpanded hrun rfl [quietInput, quietInput, quietInput]⟩

/-! ### The improvement of a candidate that differs from the current table -/

theorem metrics_score (loads speeds : Map) :
    calculateBalanceScore (calculateLoadBalanceMetrics loads speeds) =
      -(calculateLoadBalanceMetrics loads speeds).totalGap := by
  rw [metrics_totalGap]
  unfold calculateBalanceScore
  simp

theorem normalizedLoads_length_le (loads speeds : Map) :
    (normalizedLoads loads speeds).length ≤ loads.length := by
  unfold normalizedLoads
  exact List.length_filterMap_le _ _

theorem totalGap_bounds (loads speeds : Map) :
    0 ≤ (calculateLoadBalanceMetrics loads speeds).totalGap ∧
    (calculateLoadBalanceMetrics loads speeds).totalGap ≤
      ((normalizedLoads loads speeds).length : ℚ) := by
  by_cases hpos : 0 < (normalizedLoads loads speeds).sum /
      ((normalizedLoads loads speeds).length : ℚ)
  · rw [metrics_of_mean_pos hpos]
    have hne : normalizedLoads loads speeds ≠ [] := by
      intro h0
      rw [h0] at hpos
      simp at hpos
    have hnn := normalizedLoads_nonneg loads speeds
    generalize normalizedLoads loads speeds = u at hpos hne hnn
    have hmax := mean_le_maxElement hne
    have hmin := minElement_le_mean hne
    have hlen := length_pos_cast hne
    have hmaxsum : maxElement u ≤ u.sum := List.single_le_sum hnn _ (maxElement_mem hne)
    have hmin0 : 0 ≤ minElement u := hnn _ (minElement_mem hne)
    have hsum : u.sum = (u.length : ℚ) * (u.sum / (u.length : ℚ)) := by
      field_simp
    show 0 ≤ (maxElement u - u.sum / (u.length : ℚ)) / (u.sum / (u.length : ℚ)) +
        (u.sum / (u.length : ℚ) - minElement u) / (u.sum / (u.length : ℚ)) ∧
      (maxElement u - u.sum / (u.length : ℚ)) / (u.sum / (u.length : ℚ)) +
        (u.sum / (u.length : ℚ) - minElement u) / (u.sum / (u.length : ℚ)) ≤ (u.length : ℚ)
    rw [← add_div]
    constructor
    · exact div_nonneg (by linarith) hpos.le
    · rw [div_le_iff₀ hpos]
      linarith
  · rw [metrics_of_mean_nonpos hpos]
    exact ⟨le_refl _, by simp [zeroEval]⟩

theorem portLoads_keys_subset (t : Map) (counts : List Nat) :
    ∀ p ∈ (calculatePortLoads t counts).map Prod.fst, p ∈ t.map Prod.snd := by
  intro p hp
  rw [mem_keys_iff_lookup_isSome, lookup_calculatePortLoads] at hp
  unfold loadEntry at hp
  by_cases h : slotContributions t counts p = []
  · simp [h] at hp
  · unfold slotContributions at h
    obtain ⟨c, hc⟩ := List.exists_mem_of_ne_nil _ h
    obtain ⟨slot, hslot, _⟩ := List.mem_map.mp hc
    rw [List.mem_filter] at hslot
    have h2 : slot.2 = p := by
      have := hslot.2
      simp only [decide_eq_true_eq] at this
      exact this.1
    rw [← h2]
    exact List.mem_map.mpr ⟨slot, hslot.1, rfl⟩

theorem portLoads_length_le (t : Map) (counts : List Nat) :
    (calculatePortLoads t counts).length ≤ (t.map Prod.snd).dedup.length := by
  have hsub : (calculatePortLoads t counts).map Prod.fst ⊆ (t.map Prod.snd).dedup := by
    intro p hp
    rw [List.mem_dedup]
    exact portLoads_keys_subset t counts p hp
  have h := (List.subperm_of_subset (calculatePortLoads_keys_nodup t counts) hsub).length_le
  rw [List.length_map] at h
  exact h

theorem mapEq_self (t : Map) (hnodup : (t.map Prod.fst).Nodup) : mapEq t t = true := by
  unfold mapEq
  simp only [beq_self_eq_true, Bool.true_and, List.all_eq_true, beq_iff_eq]
  intro e he
  exact (mem_iff_lookup_of_nodup hnodup e.1 e.2).mp he

/-- A candidate that scores higher than the current table by more than 0.1,
the current table loading at most 10 ports: the total gap falls by more than
0.1, it was at most the number of loaded ports, and the improvement percentage
is at least 1. -/
theorem margin_improvement (t cand : Map) (counts : List Nat) (speeds : Map)
    (hports : (t.map Prod.snd).dedup.length ≤ 10)
    (hmargin : tableScore t counts speeds + 1 / 10 < tableScore cand counts speeds) :
    1 / 10 < (calculateLoadBalanceMetrics (calculatePortLoads t counts) speeds).totalGap -
      (calculateLoadBalanceMetrics (calculatePortLoads cand counts) speeds).totalGap ∧
    (calculateLoadBalanceMetrics (calculatePortLoads t counts) speeds).totalGap ≤
      ((calculatePortLoads t counts).length : ℚ) ∧
    (calculatePortLoads t counts).length ≤ 10 ∧
    1 ≤ calculateImprovementPercentage
      (calculateLoadBalanceMetrics (calculatePortLoads t counts) speeds)
      (calculateLoadBalanceMetrics (calculatePortLoads cand counts) speeds) := by
  unfold tableScore at hmargin
  rw [metrics_score, metrics_score] at hmargin
  obtain ⟨_, hb2⟩ := totalGap_bounds (calculatePortLoads t counts) speeds
  obtain ⟨ha1, _⟩ := totalGap_bounds (calculatePortLoads cand counts) speeds
  have hlen1 := normalizedLoads_length_le (calculatePortLoads t counts) speeds
  have hlen2 := portLoads_length_le t counts
  have hlenq : ((normalizedLoads (calculatePortLoads t counts) speeds).length : ℚ) ≤
      ((calculatePortLoads t counts).length : ℚ) := by exact_mod_cast hlen1
  have hten : ((calculatePortLoads t counts).length : ℚ) ≤ 10 := by
    have : (calculatePortLoads t counts).length ≤ 10 := by omega
    exact_mod_cast this
  refine ⟨by linarith, by linarith, by omega, ?_⟩
  unfold calculateImprovementPercentage
  simp only []
  rw [← metrics_totalGap, ← metrics_totalGap]
  generalize (calculateLoadBalanceMetrics (calculatePortLoads t counts) speeds).totalGap = tb
    at *
  generalize (calculateLoadBalanceMetrics (calculatePortLoads cand counts) speeds).totalGap = ta
    at *
  have htb : 0 < tb := by linarith
  rw [if_neg (by linarith)]
  rw [div_mul_eq_mul_div, le_div_iff₀ htb]
  linarith
/-- Where a call of `runOptimization` on an enabled instance ends: in Wait, in
Balance, in Expand, or in the search path entered with the table, counters,
speeds and algorithm of the instance and the evaluation of its table. -/
theorem runOptimization_paths {sqrt : ℚ → ℚ} {samples : Nat → Nat × Nat} {s : EcmpInstance}
    {r : Bool × EcmpInstance} (h : s.runOptimization sqrt samples = some r)
    (hon : s.m_bOptimizationEnabled = true) :
    r.2.m_status = T_AI_ECMP_STATUS.AI_ECMP_WAIT ∨
    r.2.m_status = T_AI_ECMP_STATUS.AI_ECMP_BALANCE ∨
    r.2.m_status = T_AI_ECMP_STATUS.AI_ECMP_EXPAND ∨
    ∃ s2 : EcmpInstance,
      s2.m_ecmpMemberTable = s.m_ecmpMemberTable ∧ s2.m_memberCounts = s.m_memberCounts ∧
      s2.m_portSpeeds = s.m_portSpeeds ∧ s2.m_pAlgorithm = s.m_pAlgorithm ∧
      r = s2.searchPath samples
        (calculateLoadBalanceMetrics (calculatePortLoads s.m_ecmpMemberTable s.m_memberCounts)
          s.m_portSpeeds) := by
  unfold EcmpInstance.runOptimization at h
  simp only [hon, Bool.not_true, Bool.false_eq_true, if_false] at h
  by_cases hlen : s.m_counterHistory.length < HISTORY_CYCLES_FOR_VARIANCE
  · simp only [hlen, if_true, Option.some.injEq] at h
    subst h
    exact Or.inl rfl
  · simp only [hlen, if_false] at h
    cases hstab : s.isCounterVarianceStable sqrt
    · simp only [hstab, Bool.not_false, if_true, Option.some.injEq] at h
      subst h
      exact Or.inl rfl
    · simp only [hstab, Bool.not_true, Bool.false_eq_true, if_false] at h
      unfold EcmpInstance.afterStabilityGate at h
      simp only [] at h
      by_cases hgap : (s.evaluateBalance).1.avgGap < 5 / 100
      · simp only [hgap, if_true, Option.some.injEq] at h
        subst h
        exact Or.inr (Or.inl rfl)
      · simp only [hgap, if_false] at h
        cases hdec : (s.evaluateBalance).2.expansionDecision with
        | none => simp [hdec] at h
        | some d =>
          obtain ⟨b, s2⟩ := d
          obtain ⟨f1, f2, f3, _, f5⟩ := expansionDecision_frame hdec
          simp only [hdec] at h
          cases b
          · simp only [Bool.false_eq_true, if_false, Option.some.injEq] at h
            subst h
            exact Or.inr (Or.inr (Or.inr ⟨s2, f1, f2, f3, f5, rfl⟩))
          · simp only [if_true, Option.some.injEq] at h
            subst h
            exact Or.inr (Or.inr (Or.inl rfl))

theorem searchPath_default_never_fails (samples : Nat → Nat × Nat) (s : EcmpInstance)
    (halg : s.m_pAlgorithm = none ∨ s.m_pAlgorithm = some ⟨10000, 1 / 10⟩)
    (hnodup : (s.m_ecmpMemberTable.map Prod.fst).Nodup)
    (hcounts : ∀ c ∈ s.m_memberCounts, c < W64)
    (hports : (s.m_ecmpMemberTable.map Prod.snd).dedup.length ≤ 10) :
    (mapEq ((⟨10000, 1 / 10⟩ : LocalSearch).optimize samples s.m_ecmpMemberTable
        s.m_memberCounts s.m_portSpeeds) s.m_ecmpMemberTable = false →
      tableScore s.m_ecmpMemberTable s.m_memberCounts s.m_portSpeeds + 1 / 10 <
        tableScore ((⟨10000, 1 / 10⟩ : LocalSearch).optimize samples s.m_ecmpMemberTable
          s.m_memberCounts s.m_portSpeeds) s.m_memberCounts s.m_portSpeeds) ∧
    (s.searchPath samples
      (calculateLoadBalanceMetrics (calculatePortLoads s.m_ecmpMemberTable s.m_memberCounts)
        s.m_portSpeeds)).2.m_status ≠ T_AI_ECMP_STATUS.AI_ECMP_FAIL := by
  have hmargin : mapEq ((⟨10000, 1 / 10⟩ : LocalSearch).optimize samples s.m_ecmpMemberTable
        s.m_memberCounts s.m_portSpeeds) s.m_ecmpMemberTable = false →
      tableScore s.m_ecmpMemberTable s.m_memberCounts s.m_portSpeeds + 1 / 10 <
        tableScore ((⟨10000, 1 / 10⟩ : LocalSearch).optimize samples s.m_ecmpMemberTable
          s.m_memberCounts s.m_portSpeeds) s.m_memberCounts s.m_portSpeeds := by
    intro hne
    rcases optimize_margin ⟨10000, 1 / 10⟩ samples s.m_ecmpMemberTable s.m_memberCounts
      s.m_portSpeeds (by norm_num) hnodup hcounts with h | h
    · rw [h, mapEq_self _ hnodup] at hne
      exact absurd hne (by simp)
    · exact h
  refine ⟨hmargin, ?_⟩
  have hdef : s.m_pAlgorithm.getD ⟨10000, 1 / 10⟩ = ⟨10000, 1 / 10⟩ := by
    rcases halg with h | h <;> rw [h] <;> rfl
  obtain ⟨f1, f2, f3, _, f5⟩ := ensureAlgorithm_frame s
  have hpath : ∀ currentEval, s.searchPath samples currentEval =
      s.ensureAlgorithm.searchWith samples currentEval ⟨10000, 1 / 10⟩ := by
    intro currentEval
    unfold EcmpInstance.searchPath
    simp only [f5, hdef]
  rw [hpath]
  obtain ⟨o1, o2, o3⟩ := searchWith_outcomes samples
    (calculateLoadBalanceMetrics (calculatePortLoads s.m_ecmpMemberTable s.m_memberCounts)
      s.m_portSpeeds) ⟨10000, 1 / 10⟩ s.ensureAlgorithm
  rw [f1, f2, f3] at o1 o2 o3
  cases heq : mapEq ((⟨10000, 1 / 10⟩ : LocalSearch).optimize samples s.m_ecmpMemberTable
    s.m_memberCounts s.m_portSpeeds) s.m_ecmpMemberTable
  · rw [o3 heq (margin_improvement _ _ _ _ hports (hmargin heq)).2.2.2]
    simp
  · rw [o1 heq]
    simp

/-- C38 (amended): in exact arithmetic, with the default algorithm
`LocalSearch(10000, 0.1)` (none installed, or that one), a table with distinct keys that uses at most 10 distinct ports and
64-bit counters, for every port speeds and sampling sequence: a candidate that
differs from the current table lowers `totalGap` by more than 0.1, the prior
`totalGap` is at most the number of loaded ports (at most 10), so the
improvement percentage is at least 1.0; the search path entered with the
evaluation of the current table does not end in status Fail, and neither does a
`runOptimization` call of the enabled instance. -/
theorem default_search_never_fails (samples : Nat → Nat × Nat) (s : EcmpInstance)
    (halg : s.m_pAlgorithm = none ∨ s.m_pAlgorithm = some ⟨10000, 1 / 10⟩)
    (hnodup : (s.m_ecmpMemberTable.map Prod.fst).Nodup)
    (hcounts : ∀ c ∈ s.m_memberCounts, c < W64)
    (hports : (s.m_ecmpMemberTable.map Prod.snd).dedup.length ≤ 10) :
    let currentEval :=
      calculateLoadBalanceMetrics (calculatePortLoads s.m_ecmpMemberTable s.m_memberCounts)
        s.m_portSpeeds
    let candidate :=
      (⟨10000, 1 / 10⟩ : LocalSearch).optimize samples s.m_ecmpMemberTable s.m_memberCounts
        s.m_portSpeeds
    let afterEval :=
      calculateLoadBalanceMetrics (calculatePortLoads candidate s.m_memberCounts) s.m_portSpeeds
    (mapEq candidate s.m_ecmpMemberTable = false →
      1 / 10 < currentEval.totalGap - afterEval.totalGap ∧
      currentEval.totalGap ≤
        ((calculatePortLoads s.m_ecmpMemberTable s.m_memberCounts).length : ℚ) ∧
      (calculatePortLoads s.m_ecmpMemberTable s.m_memberCounts).length ≤ 10 ∧
      1 ≤ calculateImprovementPercentage currentEval afterEval) ∧
    (s.searchPath samples currentEval).2.m_status ≠ T_AI_ECMP_STATUS.AI_ECMP_FAIL ∧
    (∀ (sqrt : ℚ → ℚ) (r : Bool × EcmpInstance), s.m_bOptimizationEnabled = true →
      s.runOptimization sqrt samples = some r →
      r.2.m_status ≠ T_AI_ECMP_STATUS.AI_ECMP_FAIL) := by
  intro currentEval candidate afterEval
  obtain ⟨hmargin, hpath⟩ := searchPath_default_never_fails samples s halg hnodup hcounts hports
  refine ⟨fun hne => margin_improvement _ _ _ _ hports (hmargin hne), hpath, ?_⟩
  intro sqrt r hon hrun
  rcases runOptimization_paths hrun hon with h | h | h | ⟨s2, g1, g2, g3, g4, hr⟩
  · rw [h]; simp
  · rw [h]; simp
  · rw [h]; simp
  · rw [hr, ← g1, ← g2, ← g3]
    exact (searchPath_default_never_fails samples s2 (by rw [g4]; exact halg)
      (by rw [g1]; exact hnodup) (by rw [g2]; exact hcounts) (by rw [g1]; exact hports)).2

set_option maxRecDepth 1000000 in
set_option maxHeartbeats 4000000 in
/-- Witness of C38 (amended): the striped instance with the counters
`[50, 5, 5, 5, 50, 5, 5, 5]` (4 ports) and a search that samples the positions 0
and 1 first and the positions 1 and 4 (then both on port 1) afterwards; the
candidate differs from the table, `totalGap` falls from 36/13 to 18/13 and the
call ends in Adjust. -/
theorem default_search_never_fails_witness :
    imbalancedInstance.m_pAlgorithm = none ∧
    (imbalancedInstance.m_ecmpMemberTable.map Prod.fst).Nodup ∧
    (∀ c ∈ imbalancedInstance.m_memberCounts, c < W64) ∧
    (imbalancedInstance.m_ecmpMemberTable.map Prod.snd).dedup.length = 4 ∧
    (imbalancedInstance.runOptimization sqrtApprox
        (fun k => if k = 0 then (0, 1) else (1, 4))).map
      (fun r => (r.1, r.2.m_status, r.2.m_lastEval.totalGap)) =
        some (true, T_AI_ECMP_STATUS.AI_ECMP_ADJUST, 36 / 13) ∧
    (calculateLoadBalanceMetrics
      (calculatePortLoads
        ((⟨10000, 1 / 10⟩ : LocalSearch).optimize (fun k => if k = 0 then (0, 1) else (1, 4))
          imbalancedInstance.m_ecmpMemberTable imbalancedInstance.m_memberCounts
          imbalancedInstance.m_portSpeeds) imbalancedInstance.m_memberCounts)
      imbalancedInstance.m_portSpeeds).totalGap = 18 / 13 ∧
    (imbalancedInstance.searchPath (fun k => if k = 0 then (0, 1) else (1, 4))
      (calculateLoadBalanceMetrics
        (calculatePortLoads imbalancedInstance.m_ecmpMemberTable
          imbalancedInstance.m_memberCounts) imbalancedInstance.m_portSpeeds)).2.m_status ≠
      T_AI_ECMP_STATUS.AI_ECMP_FAIL := by
  have h1 : imbalancedInstance.m_pAlgorithm = none := by decide!
  have h2 : (imbalancedInstance.m_ecmpMemberTable.map Prod.fst).Nodup := by decide!
  have h3 : ∀ c ∈ imbalancedInstance.m_memberCounts, c < W64 := by decide!
  have h4 : (imbalancedInstance.m_ecmpMemberTable.map Prod.snd).dedup.length = 4 := by decide!
  exact ⟨h1, h2, h3, h4, by decide!, by decide!,
    (default_search_never_fails (fun k => if k = 0 then (0, 1) else (1, 4)) imbalancedInstance
      (Or.inl h1) h2 h3
      (by rw [h4]; decide)).2.1⟩

/-! ### Scenario S2: one cross-port sample is enough -/

/-- An accepted swap raises the score of the table by more than the exchange
cost. -/
theorem iteration_gain (self : LocalSearch) (counts : List Nat) (speeds : Map)
    (hashIndices : List Nat) (idx : Nat × Nat) (st : SearchState)
    (hcost : 0 ≤ self.m_exchangeCostFactor) (hcounts : ∀ c ∈ counts, c < W64)
    (hnodup : (st.result.map Prod.fst).Nodup)
    (hlnodup : (st.portLoads.map Prod.fst).Nodup)
    (hloads : ∀ p, st.portLoads.lookup p = (calculatePortLoads st.result counts).lookup p)
    (hacc : 0 < calculateSwapImprovement st.result counts st.portLoads speeds
      (hashIndices.getD idx.1 0) (hashIndices.getD idx.2 0) - self.m_exchangeCostFactor) :
    tableScore st.result counts speeds + self.m_exchangeCostFactor <
      tableScore (self.iteration counts speeds hashIndices idx st).result counts speeds := by
  unfold LocalSearch.iteration
  simp only []
  rw [if_pos hacc]
  have himp : 0 < calculateSwapImprovement st.result counts st.portLoads speeds
      (hashIndices.getD idx.1 0) (hashIndices.getD idx.2 0) := by linarith
  have hcond : ¬ (st.result.lookup (hashIndices.getD idx.1 0) =
        st.result.lookup (hashIndices.getD idx.2 0) ∨
      hashIndices.getD idx.1 0 ∉ st.result.map Prod.fst ∨
      hashIndices.getD idx.2 0 ∉ st.result.map Prod.fst ∨
      counts.length ≤ hashIndices.getD idx.1 0 ∨
      counts.length ≤ hashIndices.getD idx.2 0) := by
    intro h
    rw [swapImprovement_zero _ _ _ _ _ _ h] at himp
    exact lt_irrefl _ himp
  simp only [not_or, not_not, not_le] at hcond
  obtain ⟨hne, hk1, hk2, hi, hj⟩ := hcond
  obtain ⟨p1, hl1⟩ := lookup_some_of_mem_keys hk1
  obtain ⟨p2, hl2⟩ := lookup_some_of_mem_keys hk2
  have hp : p1 ≠ p2 := by
    intro h
    apply hne
    rw [hl1, hl2, h]
  have hval := swapImprovement_eq_scores speeds hnodup hcounts hlnodup hloads hl1 hl2 hp hi hj
  rw [swapPorts_eq hl1 hl2] at hval
  simp only [mapModify_id hl1, mapModify_id hl2, mapGet, hl1, hl2, Option.getD_some]
  linarith

/-- While no swap has been accepted the loop state is the initial one (the
failure count apart); if one of the samples the loop still reaches is accepted
on the initial table, the table returned scores higher than the initial one by
more than the exchange cost. -/
theorem searchLoop_progress (self : LocalSearch) (counts : List Nat) (speeds : Map)
    (hashIndices : List Nat) (samples : Nat → Nat × Nat) (table0 : Map)
    (hcost : 0 ≤ self.m_exchangeCostFactor) (hcounts : ∀ c ∈ counts, c < W64)
    (hnodup : (table0.map Prod.fst).Nodup) :
    ∀ (d remaining i f : Nat), f + d < 100 → d < remaining →
      0 < calculateSwapImprovement table0 counts (calculatePortLoads table0 counts) speeds
        (hashIndices.getD (samples (i + d)).1 0) (hashIndices.getD (samples (i + d)).2 0) -
          self.m_exchangeCostFactor →
      tableScore table0 counts speeds + self.m_exchangeCostFactor <
        tableScore (self.searchLoop counts speeds hashIndices samples remaining i
          ⟨table0, calculatePortLoads table0 counts, table0, f⟩).bestResult counts speeds := by
  intro d
  induction d with
  | zero =>
    intro remaining i f hf hrem hacc
    obtain ⟨r, rfl⟩ : ∃ r, remaining = r + 1 := ⟨remaining - 1, by omega⟩
    unfold LocalSearch.searchLoop
    have hf2 : f < 100 := by omega
    simp only [hf2, if_true]
    rw [Nat.add_zero] at hacc
    have hgain := iteration_gain self counts speeds hashIndices (samples i)
      ⟨table0, calculatePortLoads table0 counts, table0, f⟩ hcost hcounts hnodup
      (calculatePortLoads_keys_nodup _ _) (fun _ => rfl) hacc
    obtain ⟨a, b, c, e, _⟩ := iteration_margin self counts speeds hashIndices (samples i)
      ⟨table0, calculatePortLoads table0 counts, table0, f⟩ table0 hcost hcounts hnodup
      (calculatePortLoads_keys_nodup _ _) (fun _ => rfl) rfl (Or.inl rfl)
    obtain ⟨_, _, _, hb, hs⟩ := searchLoop_margin self counts speeds hashIndices samples
      (self.iteration counts speeds hashIndices (samples i)
        ⟨table0, calculatePortLoads table0 counts, table0, f⟩).result hcost hcounts r (i + 1)
      _ a b c e (Or.inl rfl)
    rw [hb]
    rcases hs with h | h
    · rw [h]; exact hgain
    · linarith
  | succ d ih =>
    intro remaining i f hf hrem hacc
    obtain ⟨r, rfl⟩ : ∃ r, remaining = r + 1 := ⟨remaining - 1, by omega⟩
    unfold LocalSearch.searchLoop
    have hf2 : f < 100 := by omega
    simp only [hf2, if_true]
    by_cases hnow : 0 < calculateSwapImprovement table0 counts (calculatePortLoads table0 counts)
        speeds (hashIndices.getD (samples i).1 0) (hashIndices.getD (samples i).2 0) -
          self.m_exchangeCostFactor
    · have hgain := iteration_gain self counts speeds hashIndices (samples i)
        ⟨table0, calculatePortLoads table0 counts, table0, f⟩ hcost hcounts hnodup
        (calculatePortLoads_keys_nodup _ _) (fun _ => rfl) hnow
      obtain ⟨a, b, c, e, _⟩ := iteration_margin self counts speeds hashIndices (samples i)
        ⟨table0, calculatePortLoads table0 counts, table0, f⟩ table0 hcost hcounts hnodup
        (calculatePortLoads_keys_nodup _ _) (fun _ => rfl) rfl (Or.inl rfl)
      obtain ⟨_, _, _, hb, hs⟩ := searchLoop_margin self counts speeds hashIndices samples
        (self.iteration counts speeds hashIndices (samples i)
          ⟨table0, calculatePortLoads table0 counts, table0, f⟩).result hcost hcounts r (i + 1)
        _ a b c e (Or.inl rfl)
      rw [hb]
      rcases hs with h | h
      · rw [h]; exact hgain
      · linarith
    · have hstay : self.iteration counts speeds hashIndices (samples i)
          ⟨table0, calculatePortLoads table0 counts, table0, f⟩ =
          ⟨table0, calculatePortLoads table0 counts, table0, f + 1⟩ := by
        unfold LocalSearch.iteration
        simp only []
        rw [if_neg hnow]
      rw [hstay]
      have hidx : i + 1 + d = i + (d + 1) := by omega
      exact ih r (i + 1) (f + 1) (by omega) (by omega) (by rw [hidx]; exact hacc)
theorem eq_of_mapEq_of_keys : ∀ (a b : Map), a.map Prod.fst = b.map Prod.fst →
    (b.map Prod.fst).Nodup → mapEq a b = true → a = b
  | [], [], _, _, _ => rfl
  | [], _ :: _, hk, _, _ => by simp at hk
  | _ :: _, [], hk, _, _ => by simp at hk
  | (k, v) :: a, (k2, w) :: b, hk, hnodup, heq => by
    simp only [List.map_cons, List.cons.injEq] at hk
    obtain ⟨hk1, hk2⟩ := hk
    subst hk1
    simp only [List.map_cons, List.nodup_cons] at hnodup
    unfold mapEq at heq
    simp only [List.length_cons, Bool.and_eq_true, beq_iff_eq, List.all_cons, lookup_cons_eq,
      if_true, Option.some.injEq, List.all_eq_true] at heq
    obtain ⟨hlen, hv, hall⟩ := heq
    have htail : mapEq a b = true := by
      unfold mapEq
      simp only [Bool.and_eq_true, beq_iff_eq, List.all_eq_true]
      refine ⟨by omega, fun e he => ?_⟩
      have h := hall e he
      have hne : ¬ k = e.1 := by
        intro hke
        apply hnodup.1
        rw [← hk2, hke]
        exact List.mem_map.mpr ⟨e, he, rfl⟩
      simpa [hne] using h
    rw [hv, eq_of_mapEq_of_keys a b hk2 hnodup.2 htail]

/-- An enabled instance that passes the gates with `avgGap >= 0.05` and fewer
than two recorded failures runs the search path, entered with the evaluation of
its table. -/
theorem runOptimization_search (sqrt : ℚ → ℚ) (samples : Nat → Nat × Nat) (s : EcmpInstance)
    (hon : s.m_bOptimizationEnabled = true) (hlen : 5 ≤ s.m_counterHistory.length)
    (hstable : s.isCounterVarianceStable sqrt = true)
    (hgap : ¬ (s.evaluateBalance).1.avgGap < 5 / 100)
    (hp : s.m_sgConfig.dwPortNum < W16) (hfail : s.m_consecutiveAdjustFailures < 2) :
    ∃ s2 : EcmpInstance,
      s2.m_ecmpMemberTable = s.m_ecmpMemberTable ∧ s2.m_memberCounts = s.m_memberCounts ∧
      s2.m_portSpeeds = s.m_portSpeeds ∧ s2.m_sgConfig = s.m_sgConfig ∧
      s2.m_pAlgorithm = s.m_pAlgorithm ∧
      s.runOptimization sqrt samples = some (s2.searchPath samples (s.evaluateBalance).1) := by
  obtain ⟨s2, hdec, _⟩ := expansionDecision_some (s.evaluateBalance).2 hp
  have hfalse : decide (2 ≤ (s.evaluateBalance).2.m_consecutiveAdjustFailures ∧
      (s.evaluateBalance).2.needExpansion = some true) = false := by
    simp only [decide_eq_false_iff_not]
    intro h
    have h2 : 2 ≤ s.m_consecutiveAdjustFailures := h.1
    omega
  rw [hfalse] at hdec
  obtain ⟨f1, f2, f3, f4, f5⟩ := expansionDecision_frame hdec
  refine ⟨s2, f1, f2, f3, f4, f5, ?_⟩
  rw [runOptimization_of_stable sqrt samples s hon hlen hstable]
  unfold EcmpInstance.afterStabilityGate
  simp only [hgap, if_false, hdec, Bool.false_eq_true]

set_option maxRecDepth 1000000 in
set_option maxHeartbeats 4000000 in
theorem skewed_cross_pair_accepted :
    ∀ a < 8, ∀ b < 8, ¬ (a % 4 = 0 ↔ b % 4 = 0) →
      0 < calculateSwapImprovement stripedInstance.m_ecmpMemberTable skewedCounts
        (calculatePortLoads stripedInstance.m_ecmpMemberTable skewedCounts)
        stripedInstance.m_portSpeeds
        ((stripedInstance.m_ecmpMemberTable.map Prod.fst).getD a 0)
        ((stripedInstance.m_ecmpMemberTable.map Prod.fst).getD b 0) - 1 / 10 := by
  decide!

set_option maxRecDepth 1000000 in
theorem skewed_avgGap :
    ¬ (calculateLoadBalanceMetrics
      (calculatePortLoads stripedInstance.m_ecmpMemberTable skewedCounts)
      stripedInstance.m_portSpeeds).avgGap < 5 / 100 := by decide!

/-- C35, scenario S2: an enabled instance with the striped configuration (4
ports of speed 10, 8 slots round-robin), the counters 5000 on the two slots of
port 1 and 500 on the six other slots, a stable history of at least 5
snapshots, no recorded failure and the default algorithm.  For every sampling
sequence of position pairs (positions below 8) whose first 100 pairs contain a
pair of one slot of port 1 (position 0 or 4) and one slot of another port,
`runOptimization` returns true with status Adjust; the plan
`getOptimizedNextHops` emits is a permutation of the link items of the original
table; the total gap of the new table is strictly below that of the original
one, and the improvement percentage is at least 1. -/
theorem skewed_scenario_adjusts (sqrt : ℚ → ℚ) (samples : Nat → Nat × Nat) (s : EcmpInstance)
    (hcfg : s.m_sgConfig = stripedConfig)
    (htable : s.m_ecmpMemberTable = stripedInstance.m_ecmpMemberTable)
    (hspeeds : s.m_portSpeeds = stripedInstance.m_portSpeeds)
    (hcounts : s.m_memberCounts = skewedCounts)
    (hlen : 5 ≤ s.m_counterHistory.length)
    (hstable : s.isCounterVarianceStable sqrt = true)
    (hfail : s.m_consecutiveAdjustFailures = 0)
    (hon : s.m_bOptimizationEnabled = true)
    (halg : s.m_pAlgorithm = none ∨ s.m_pAlgorithm = some ⟨10000, 1 / 10⟩)
    (hrange : ∀ k, (samples k).1 < 8 ∧ (samples k).2 < 8)
    (hpair : ∃ k < 100, ¬ ((samples k).1 % 4 = 0 ↔ (samples k).2 % 4 = 0)) :
    ∃ s' : EcmpInstance,
      s.runOptimization sqrt samples = some (true, s') ∧
      s'.m_status = T_AI_ECMP_STATUS.AI_ECMP_ADJUST ∧
      (s'.getOptimizedNextHops zeroNhopModify).1 = true ∧
      ((s'.getOptimizedNextHops zeroNhopModify).2.adwLinkItem).Perm
        (optimizedLinkItems s.m_ecmpMemberTable) ∧
      (calculateLoadBalanceMetrics
          (calculatePortLoads s'.m_ecmpMemberTable s.m_memberCounts) s.m_portSpeeds).totalGap <
        (calculateLoadBalanceMetrics
          (calculatePortLoads s.m_ecmpMemberTable s.m_memberCounts) s.m_portSpeeds).totalGap ∧
      1 ≤ calculateImprovementPercentage
        (calculateLoadBalanceMetrics
          (calculatePortLoads s.m_ecmpMemberTable s.m_memberCounts) s.m_portSpeeds)
        (calculateLoadBalanceMetrics
          (calculatePortLoads s'.m_ecmpMemberTable s.m_memberCounts) s.m_portSpeeds) := by
  have hnodup : (s.m_ecmpMemberTable.map Prod.fst).Nodup := by rw [htable]; decide
  have hc64 : ∀ c ∈ s.m_memberCounts, c < W64 := by rw [hcounts]; decide
  have hports : (s.m_ecmpMemberTable.map Prod.snd).dedup.length ≤ 10 := by rw [htable]; decide
  have hlt : ∀ h ∈ s.m_ecmpMemberTable.map Prod.fst, h < 128 := by rw [htable]; decide
  have hsize : s.m_ecmpMemberTable.length = 8 := by rw [htable]; rfl
  have hgap : ¬ (s.evaluateBalance).1.avgGap < 5 / 100 := by
    show ¬ (calculateLoadBalanceMetrics
      (calculatePortLoads s.m_ecmpMemberTable s.m_memberCounts) s.m_portSpeeds).avgGap < 5 / 100
    rw [htable, hcounts, hspeeds]
    exact skewed_avgGap
  obtain ⟨s2, g1, g2, g3, _, g5, hrun⟩ := runOptimization_search sqrt samples s hon hlen hstable
    hgap (by rw [hcfg]; decide) (by omega)
  -- the candidate of the default algorithm
  have hsamples : ∀ k, (samples k).1 < s.m_ecmpMemberTable.length ∧
      (samples k).2 < s.m_ecmpMemberTable.length := by
    intro k
    rw [hsize]
    exact hrange k
  obtain ⟨hkeys, hvalues⟩ := optimize_keys_values ⟨10000, 1 / 10⟩ samples s.m_ecmpMemberTable
    s.m_memberCounts s.m_portSpeeds hsamples
  have hmargin : tableScore s.m_ecmpMemberTable s.m_memberCounts s.m_portSpeeds + 1 / 10 <
      tableScore ((⟨10000, 1 / 10⟩ : LocalSearch).optimize samples s.m_ecmpMemberTable
        s.m_memberCounts s.m_portSpeeds) s.m_memberCounts s.m_portSpeeds := by
    obtain ⟨k, hk, hcross⟩ := hpair
    rw [optimize_eq_searchLoop _ _ _ _ _ (by omega)]
    have hacc := skewed_cross_pair_accepted _ (hrange k).1 _ (hrange k).2 hcross
    rw [← htable, ← hcounts, ← hspeeds] at hacc
    have h := searchLoop_progress ⟨10000, 1 / 10⟩ s.m_memberCounts s.m_portSpeeds
      (s.m_ecmpMemberTable.map Prod.fst) samples s.m_ecmpMemberTable (by norm_num) hc64 hnodup
      k 10000 0 0 (by omega) (by omega) (by rw [Nat.zero_add]; exact hacc)
    exact h
  have hne : mapEq ((⟨10000, 1 / 10⟩ : LocalSearch).optimize samples s.m_ecmpMemberTable
      s.m_memberCounts s.m_portSpeeds) s.m_ecmpMemberTable = false := by
    cases heq : mapEq ((⟨10000, 1 / 10⟩ : LocalSearch).optimize samples s.m_ecmpMemberTable
      s.m_memberCounts s.m_portSpeeds) s.m_ecmpMemberTable
    · rfl
    · exfalso
      have h := eq_of_mapEq_of_keys _ _ hkeys hnodup heq
      rw [h] at hmargin
      linarith
  obtain ⟨m1, _, _, m4⟩ := margin_improvement _ _ _ _ hports hmargin
  -- the search path of the instance
  have hdef : s2.m_pAlgorithm.getD ⟨10000, 1 / 10⟩ = ⟨10000, 1 / 10⟩ := by
    rw [g5]
    rcases halg with h | h <;> rw [h] <;> rfl
  obtain ⟨f1, f2, f3, f4, f5⟩ := ensureAlgorithm_frame s2
  have hpath : s2.searchPath samples (s.evaluateBalance).1 =
      s2.ensureAlgorithm.searchWith samples (s.evaluateBalance).1 ⟨10000, 1 / 10⟩ := by
    unfold EcmpInstance.searchPath
    simp only [f5, hdef]
  obtain ⟨_, _, o3⟩ := searchWith_outcomes samples (s.evaluateBalance).1 ⟨10000, 1 / 10⟩
    s2.ensureAlgorithm
  rw [f1, f2, f3, g1, g2, g3] at o3
  have hout := o3 hne m4
  rw [hpath, hout] at hrun
  refine ⟨_, hrun, rfl, ?_, ?_, ?_, m4⟩
  · unfold EcmpInstance.getOptimizedNextHops
    simp
  · unfold EcmpInstance.getOptimizedNextHops
    simp only [ne_eq, not_true_eq_false, if_false]
    exact optimizedLinkItems_perm_of_perm _ _ hkeys hvalues hnodup hlt
  · show (calculateLoadBalanceMetrics (calculatePortLoads
        ((⟨10000, 1 / 10⟩ : LocalSearch).optimize samples s.m_ecmpMemberTable s.m_memberCounts
          s.m_portSpeeds) s.m_memberCounts) s.m_portSpeeds).totalGap < _
    linarith

set_option maxRecDepth 1000000 in
set_option maxHeartbeats 4000000 in
/-- Witness of C35: the S2 instance with a sampling sequence that draws two
slots of port 2 forty times, then the slots 4 and 7; the call ends in Adjust
with slot 4 on port 4 and slot 7 on port 1, the total gap falling from 36/13 to
18/13. -/
theorem skewed_scenario_adjusts_witness :
    skewedInstance.isCounterVarianceStable sqrtApprox = true ∧
    (∀ k, (skewedSamples k).1 < 8 ∧ (skewedSamples k).2 < 8) ∧
    (∃ k < 100, ¬ ((skewedSamples k).1 % 4 = 0 ↔ (skewedSamples k).2 % 4 = 0)) ∧
    (skewedInstance.runOptimization sqrtApprox skewedSamples).map
        (fun r => (r.1, r.2.m_status, r.2.m_ecmpMemberTable, r.2.m_lastEval.totalGap)) =
      some (true, T_AI_ECMP_STATUS.AI_ECMP_ADJUST,
        [(0, 1), (1, 2), (2, 3), (3, 4), (4, 4), (5, 2), (6, 3), (7, 1)], 36 / 13) ∧
    ∃ s' : EcmpInstance,
      skewedInstance.runOptimization sqrtApprox skewedSamples = some (true, s') ∧
      s'.m_status = T_AI_ECMP_STATUS.AI_ECMP_ADJUST ∧
      (s'.getOptimizedNextHops zeroNhopModify).1 = true ∧
      ((s'.getOptimizedNextHops zeroNhopModify).2.adwLinkItem).Perm
        (optimizedLinkItems skewedInstance.m_ecmpMemberTable) ∧
      (calculateLoadBalanceMetrics
          (calculatePortLoads s'.m_ecmpMemberTable skewedInstance.m_memberCounts)
          skewedInstance.m_portSpeeds).totalGap <
        (calculateLoadBalanceMetrics
          (calculatePortLoads skewedInstance.m_ecmpMemberTable skewedInstance.m_memberCounts)
          skewedInstance.m_portSpeeds).totalGap ∧
      1 ≤ calculateImprovementPercentage
        (calculateLoadBalanceMetrics
          (calculatePortLoads skewedInstance.m_ecmpMemberTable skewedInstance.m_memberCounts)
          skewedInstance.m_portSpeeds)
        (calculateLoadBalanceMetrics
          (calculatePortLoads s'.m_ecmpMemberTable skewedInstance.m_memberCounts)
          skewedInstance.m_portSpeeds) := by
  have hstable : skewedInstance.isCounterVarianceStable sqrtApprox = true := by decide!
  have hrange : ∀ k, (skewedSamples k).1 < 8 ∧ (skewedSamples k).2 < 8 := by
    intro k
    unfold skewedSamples
    split
    · decide
    · split <;> decide
  have hpair : ∃ k < 100, ¬ ((skewedSamples k).1 % 4 = 0 ↔ (skewedSamples k).2 % 4 = 0) :=
    ⟨40, by decide, by decide⟩
  exact ⟨hstable, hrange, hpair, by decide!,
    skewed_scenario_adjusts sqrtApprox skewedSamples skewedInstance rfl rfl rfl rfl (by decide)
      hstable rfl rfl (Or.inl rfl) hrange hpair⟩

/-! ### Binary64 arithmetic: where rounding is exact -/

theorem leadingBit_bounds (n : Nat) : ∀ (k acc : Nat), 2 ^ acc ≤ n → n < 2 ^ (acc + 2 ^ k) →
    2 ^ leadingBit n k acc ≤ n ∧ n < 2 ^ (leadingBit n k acc + 1) := by
  intro k
  induction k with
  | zero =>
    intro acc hlo hhi
    simpa [leadingBit] using ⟨hlo, hhi⟩
  | succ k ih =>
    intro acc hlo hhi
    have e : acc + 2 ^ (k + 1) = acc + 2 ^ k + 2 ^ k := by
      rw [pow_succ]
      omega
    unfold leadingBit
    split
    · rename_i hge
      exact ih (acc + 2 ^ k) hge (by rw [← e]; exact hhi)
    · rename_i hlt
      exact ih acc hlo (not_le.1 hlt)

theorem bitLength_bounds (n m : Nat) (h0 : n ≠ 0) (hm : n < 2 ^ m) (hf : m ≤ 2 ^ 12) :
    2 ^ (bitLength n - 1) ≤ n ∧ n < 2 ^ bitLength n := by
  have h1 : 2 ^ 0 ≤ n := by simpa using Nat.pos_of_ne_zero h0
  unfold bitLength
  simp only [h0, if_false]
  split
  · rename_i h64
    simp only [Nat.add_sub_cancel]
    exact leadingBit_bounds n 6 0 h1 (by simpa using h64)
  · simp only [Nat.add_sub_cancel]
    apply leadingBit_bounds n 12 0 h1
    rw [Nat.zero_add]
    exact lt_of_lt_of_le hm (Nat.pow_le_pow_right (by decide) hf)

theorem nearestTiesEven_one (N : Nat) : nearestTiesEven N 1 = N := by
  simp [nearestTiesEven, Nat.mod_one]

theorem roundPos_natCast (n : Nat) (h0 : n ≠ 0) (h : n < 2 ^ 53) : roundPos n 1 = (n : ℚ) := by
  obtain ⟨hlo, hhi⟩ := bitLength_bounds n 53 h0 h (by decide)
  have hn : 1 ≤ n := Nat.pos_of_ne_zero h0
  unfold roundPos
  simp only [hn, if_true, Nat.div_one, nearestTiesEven_one]
  generalize bitLength n = b at hlo hhi ⊢
  have hb53 : b ≤ 53 := by
    by_contra hcon
    have h54 : 53 ≤ b - 1 := by omega
    have := Nat.pow_le_pow_right (by decide : 0 < 2) h54
    omega
  simp only [hb53, if_true]
  have hpow : ((2 ^ (53 - b) : Nat) : ℚ) ≠ 0 := by positivity
  rw [Nat.cast_mul]
  field_simp

theorem roundDouble_zero : roundDouble 0 = 0 := by
  simp [roundDouble]

theorem roundDouble_natCast (n : Nat) (h : n < 2 ^ 53) : roundDouble (n : ℚ) = (n : ℚ) := by
  by_cases h0 : n = 0
  · subst h0
    simp [roundDouble]
  · unfold roundDouble
    have hq : ((n : ℚ) = 0) = False := by simp [h0]
    have hneg : ¬ ((n : ℚ) < 0) := by simp
    simp only [hq, if_false, hneg, Rat.num_natCast, Int.natAbs_ofNat, Rat.den_natCast]
    exact roundPos_natCast n h0 h

theorem sqrtDouble_zero : sqrtDouble 0 = 0 := by
  simp [sqrtDouble]

theorem rounded_foldl_replicate_nat (fl : ℚ → ℚ) (hnat : ∀ n : Nat, n < 2 ^ 53 → fl (n : ℚ) = (n : ℚ))
    (a : Nat) : ∀ (k j : Nat), (j + k) * a < 2 ^ 53 →
      (List.replicate k (a : ℚ)).foldl (fun acc value => fl (acc + value)) ((j * a : Nat) : ℚ) =
        (((j + k) * a : Nat) : ℚ) := by
  intro k
  induction k with
  | zero => intro j _; rfl
  | succ k ih =>
    intro j hb
    rw [List.replicate_succ, List.foldl_cons]
    have e : ((j * a : Nat) : ℚ) + (a : ℚ) = (((j + 1) * a : Nat) : ℚ) := by
      push_cast
      ring
    have hle : (j + 1) * a ≤ (j + (k + 1)) * a := Nat.mul_le_mul_right a (by omega)
    rw [e, hnat _ (lt_of_le_of_lt hle hb), ih (j + 1) (by
      have : j + 1 + k = j + (k + 1) := by omega
      rw [this]; exact hb)]
    have : j + 1 + k = j + (k + 1) := by omega
    rw [this]

theorem rounded_mean_replicate_nat (fl : ℚ → ℚ)
    (hnat : ∀ n : Nat, n < 2 ^ 53 → fl (n : ℚ) = (n : ℚ)) (k a : Nat) (hk : 1 ≤ k) (ha : 1 ≤ a)
    (hb : k * a < 2 ^ 53) :
    Rounded.calculateMean fl (List.replicate k (a : ℚ)) = (a : ℚ) := by
  unfold Rounded.calculateMean Rounded.accumulate
  have hne : (List.replicate k (a : ℚ)).isEmpty = false := by
    cases k with
    | zero => omega
    | succ n => rfl
  have h0 : (0 : ℚ) = ((0 * a : Nat) : ℚ) := by simp
  have hsum := rounded_foldl_replicate_nat fl hnat a k 0 (by simpa using hb)
  have hk53 : k < 2 ^ 53 := lt_of_le_of_lt (Nat.le_mul_of_pos_right k (by omega)) hb
  have ha53 : a < 2 ^ 53 := lt_of_le_of_lt (Nat.le_mul_of_pos_left a (by omega)) hb
  simp only [hne, Bool.false_eq_true, if_false, List.length_replicate]
  rw [h0, hsum, hnat k hk53]
  have hkq : (k : ℚ) ≠ 0 := by
    have : 0 < k := hk
    exact_mod_cast this.ne'
  have e : (((0 + k) * a : Nat) : ℚ) / (k : ℚ) = (a : ℚ) := by
    push_cast
    field_simp
  rw [e, hnat a ha53]

theorem rounded_variation_replicate_nat (fl sqrt : ℚ → ℚ) (h0 : fl 0 = 0)
    (hnat : ∀ n : Nat, n < 2 ^ 53 → fl (n : ℚ) = (n : ℚ)) (hsqrt : sqrt 0 = 0) (k a : Nat)
    (hk : 2 ≤ k) (ha : 1 ≤ a) (hb : k * a < 2 ^ 53) :
    Rounded.calculateVariationCoefficient fl sqrt (List.replicate k (a : ℚ)) = 0 := by
  unfold Rounded.calculateVariationCoefficient
  have hne : (List.replicate k (a : ℚ)).isEmpty = false := by
    cases k with
    | zero => omega
    | succ n => rfl
  have hpos : ¬ ((a : ℚ) ≤ 0) := by
    have : (0 : ℚ) < (a : ℚ) := by exact_mod_cast ha
    exact not_le.2 this
  simp only [hne, Bool.false_eq_true, if_false,
    rounded_mean_replicate_nat fl hnat k a (by omega) ha hb, hpos]
  unfold Rounded.calculateStandardDeviation
  have h2 : ¬ (List.replicate k (a : ℚ)).length ≤ 1 := by simp; omega
  simp only [h2, if_false]
  have h3 : ∀ (l : List ℚ), (∀ x ∈ l, x = (a : ℚ)) →
      l.foldl (fun acc value =>
        fl (acc + fl (fl (value - (a : ℚ)) * fl (value - (a : ℚ))))) 0 = 0 := by
    intro l
    induction l with
    | nil => intro _; rfl
    | cons x xs ih =>
      intro hx
      rw [List.foldl_cons, hx x (List.mem_cons_self _ _)]
      simp only [sub_self, h0, mul_zero, add_zero]
      exact ih (fun y hy => hx y (List.mem_cons_of_mem _ hy))
  rw [h3 _ (fun x hx => List.eq_of_mem_replicate hx)]
  simp [h0, hsqrt]

theorem rounded_memberValues_const (fl : ℚ → ℚ) (H : List (List Nat)) (v : List Nat) (i : Nat)
    (hconst : ∀ h ∈ H, h = v) (hi : i < v.length) :
    Rounded.memberValues fl H i = List.replicate H.length (fl ((v.getD i 0 : Nat) : ℚ)) := by
  unfold Rounded.memberValues
  rw [filterMap_eq_map_of_forall _ (fun _ => fl ((v.getD i 0 : Nat) : ℚ))]
  · rw [List.eq_replicate_iff]
    simp
  · intro h hh
    rw [hconst h hh]
    simp [hi]

theorem rounded_mean_zeros (fl : ℚ → ℚ) (h0 : fl 0 = 0) (n : Nat) (hn : 1 ≤ n) :
    Rounded.calculateMean fl (List.replicate n 0) = 0 := by
  unfold Rounded.calculateMean Rounded.accumulate
  have hne : (List.replicate n (0 : ℚ)).isEmpty = false := by
    cases n with
    | zero => omega
    | succ m => rfl
  have h3 : ∀ (l : List ℚ), (∀ x ∈ l, x = 0) →
      l.foldl (fun acc value => fl (acc + value)) 0 = 0 := by
    intro l
    induction l with
    | nil => intro _; rfl
    | cons x xs ih =>
      intro hx
      rw [List.foldl_cons, hx x (List.mem_cons_self _ _)]
      simp only [add_zero, h0]
      exact ih (fun y hy => hx y (List.mem_cons_of_mem _ hy))
  simp only [hne, Bool.false_eq_true, if_false]
  rw [h3 _ (fun x hx => List.eq_of_mem_replicate hx)]
  simp [h0]

/-- In rounded arithmetic that is exact on zero and on the integers below
`2 ^ 53`, a history of at least two snapshots, all equal to one vector that
covers every slot, is positive on every slot and has `len(history) * v[i]` below
`2 ^ 53`, has variance coefficient 0. -/
theorem rounded_counterCoefficient_const (fl sqrt : ℚ → ℚ) (h0 : fl 0 = 0)
    (hnat : ∀ n : Nat, n < 2 ^ 53 → fl (n : ℚ) = (n : ℚ)) (hsqrt : sqrt 0 = 0)
    (H : List (List Nat)) (counts v : List Nat) (hlen : 2 ≤ H.length)
    (hconst : ∀ h ∈ H, h = v) (hcover : counts.length ≤ v.length) (hslots : 1 ≤ counts.length)
    (hpos : ∀ x ∈ v, 0 < x) (hbound : ∀ x ∈ v, H.length * x < 2 ^ 53) :
    Rounded.calculateCounterVarianceCoefficient fl sqrt H counts = 0 := by
  have hcoeffs : Rounded.allVarianceCoeffs fl sqrt H counts.length =
      List.replicate counts.length 0 := by
    unfold Rounded.allVarianceCoeffs
    rw [filterMap_eq_map_of_forall _ (fun _ => (0 : ℚ))]
    · rw [List.eq_replicate_iff]
      simp
    · intro i hi
      rw [List.mem_range] at hi
      have hiv : i < v.length := by omega
      have hmem : v.getD i 0 ∈ v := by
        rw [List.getD_eq_getElem _ _ hiv]
        exact List.getElem_mem _
      have hb := hbound _ hmem
      have hp := hpos _ hmem
      have ha53 : v.getD i 0 < 2 ^ 53 :=
        lt_of_le_of_lt (Nat.le_mul_of_pos_left _ (by omega)) hb
      simp only [rounded_memberValues_const fl H v i hconst hiv, hnat _ ha53,
        List.length_replicate, hlen, if_true,
        rounded_variation_replicate_nat fl sqrt h0 hnat hsqrt H.length (v.getD i 0) hlen hp hb]
  unfold Rounded.calculateCounterVarianceCoefficient
  have h1 : ¬ H.length < 2 := by omega
  simp only [h1, if_false, hcoeffs]
  have hne : (List.replicate counts.length (0 : ℚ)).isEmpty = false := by
    cases hc : counts.length with
    | zero => omega
    | succ n => rfl
  simp only [hne, Bool.false_eq_true, if_false]
  exact rounded_mean_zeros fl h0 _ hslots

/-! ### Constant histories in `double` -/

/-- C40 (amended): in `double` arithmetic, for a history of at least 2 snapshots
that all equal one vector `v` with `len(v) = len(member_counts) >= 1`, every
entry of `v` positive and `len(history) * v[i] < 2 ^ 53` for every entry,
`calculateCounterVarianceCoefficient` returns exactly 0 (every sum, mean and
deviation is then computed without rounding); an instance holding at least 5
such snapshots is stable (`0 <= 0.05`) and, when enabled, its `runOptimization`
passes the history and stability gates. -/
theorem constant_history_is_stable_in_double (H : List (List Nat)) (counts v : List Nat)
    (hlen : 2 ≤ H.length) (hconst : ∀ h ∈ H, h = v) (hv : v.length = counts.length)
    (hslots : 1 ≤ counts.length) (hpos : ∀ x ∈ v, 0 < x)
    (hbound : ∀ x ∈ v, H.length * x < 2 ^ 53) :
    Rounded.calculateCounterVarianceCoefficient roundDouble sqrtDouble H counts = 0 ∧
    ∀ s : EcmpInstance, s.m_counterHistory = H → s.m_memberCounts = counts → 5 ≤ H.length →
      Rounded.isCounterVarianceStable roundDouble sqrtDouble s = true ∧
      (s.m_bOptimizationEnabled = true →
        ∀ (iter : Map → Map) (samples : Nat → Nat × Nat),
          Rounded.runOptimization roundDouble sqrtDouble iter samples s =
            Rounded.afterStabilityGate roundDouble iter samples s) := by
  have hcoef := rounded_counterCoefficient_const roundDouble sqrtDouble roundDouble_zero
    roundDouble_natCast sqrtDouble_zero H counts v hlen hconst (by omega) hslots hpos hbound
  refine ⟨hcoef, ?_⟩
  intro s hH hc h5
  have hlen5 : ¬ s.m_counterHistory.length < HISTORY_CYCLES_FOR_VARIANCE := by
    rw [hH]
    unfold HISTORY_CYCLES_FOR_VARIANCE
    omega
  have hthr : (0 : ℚ) ≤ roundDouble VARIANCE_THRESHOLD := by decide!
  have hlenH := hlen5
  have hstable : Rounded.isCounterVarianceStable roundDouble sqrtDouble s = true := by
    unfold Rounded.isCounterVarianceStable
    rw [hH] at hlen5
    simp only [hH, hc, hlen5, if_false, hcoef]
    exact decide_eq_true hthr
  refine ⟨hstable, ?_⟩
  intro hon iter samples
  unfold Rounded.runOptimization
  simp only [hon, Bool.not_true, Bool.false_eq_true, if_false, hlenH, hstable]

/-- Witness of C40 (amended), scenario S1: five snapshots with every one of the
eight counters at 1000 (`5 * 1000 < 2 ^ 53`). -/
theorem constant_history_is_stable_in_double_witness :
    2 ≤ (List.replicate 5 (List.replicate 8 1000)).length ∧
    (∀ x ∈ List.replicate 8 1000,
      (List.replicate 5 (List.replicate 8 1000)).length * x < 2 ^ 53) ∧
    Rounded.calculateCounterVarianceCoefficient roundDouble sqrtDouble
      (List.replicate 5 (List.replicate 8 1000)) (List.replicate 8 1000) = 0 ∧
    Rounded.isCounterVarianceStable roundDouble sqrtDouble steadyInstance = true := by
  have hb : ∀ x ∈ List.replicate 8 1000,
      (List.replicate 5 (List.replicate 8 1000)).length * x < 2 ^ 53 := by
    intro x hx
    rw [List.eq_of_mem_replicate hx]
    decide
  have h := constant_history_is_stable_in_double
    (List.replicate 5 (List.replicate 8 1000)) (List.replicate 8 1000) (List.replicate 8 1000)
    (by decide) (fun h hh => List.eq_of_mem_replicate hh) rfl (by decide)
    (fun x hx => by rw [List.eq_of_mem_replicate hx]; decide) hb
  exact ⟨by decide, hb, h.1, (h.2 steadyInstance rfl rfl (by decide)).1⟩

set_option maxRecDepth 1000000 in
/-- Counterexample to C40 as stated: five snapshots of one slot holding
`2 ^ 53 - 1 = 9007199254740991` (a value a `WORD64` counter can hold and a
`double` represents exactly).  The sum of the five values is rounded, the mean
comes out as `2 ^ 53 - 2`, every deviation is 1 and
`calculateCounterVarianceCoefficient` returns
`5035177455121577 / 2 ^ 105` (about `1.24e-16`), not 0; the instance is still
reported stable. -/
theorem constant_history_counterexample :
    Rounded.calculateMean roundDouble
      (Rounded.memberValues roundDouble (List.replicate 5 [9007199254740991]) 0) =
        9007199254740990 ∧
    Rounded.calculateCounterVarianceCoefficient roundDouble sqrtDouble
      (List.replicate 5 [9007199254740991]) [9007199254740991] =
        5035177455121577 / 2 ^ 105 ∧
    Rounded.calculateCounterVarianceCoefficient roundDouble sqrtDouble
      (List.replicate 5 [9007199254740991]) [9007199254740991] ≠ 0 := by
  decide!

/-! ### Replays in `double` -/

set_option maxRecDepth 1000000 in
/-- Counterexample to C10 as stated: three ports of speed 10 carrying one packet
each, evaluated in `double`.  The three utilisations are the `double` nearest
to `0.1`; their sum is rounded to `0.30000000000000004` and the mean to
`0.10000000000000002`, so `upBoundGap` is `-5629499534213119 / 2 ^ 105` (about
`-1.39e-16`), `lowBoundGap` is the opposite number, `totalGap` is 0 and `avgGap`
is about `1.39e-16`: `upBoundGap < 0` and `avgGap > totalGap`.  The three loads
are equal, so the order of the loop over the ports plays no part. -/
theorem loadBalanceMetrics_counterexample :
    (Rounded.calculateLoadBalanceMetrics roundDouble List.reverse [(1, 1), (2, 1), (3, 1)]
        [(1, 10), (2, 10), (3, 10)]).upBoundGap = -5629499534213119 / 2 ^ 105 ∧
    (Rounded.calculateLoadBalanceMetrics roundDouble List.reverse [(1, 1), (2, 1), (3, 1)]
        [(1, 10), (2, 10), (3, 10)]).lowBoundGap = 5629499534213119 / 2 ^ 105 ∧
    (Rounded.calculateLoadBalanceMetrics roundDouble List.reverse [(1, 1), (2, 1), (3, 1)]
        [(1, 10), (2, 10), (3, 10)]).totalGap = 0 ∧
    (Rounded.calculateLoadBalanceMetrics roundDouble List.reverse [(1, 1), (2, 1), (3, 1)]
        [(1, 10), (2, 10), (3, 10)]).avgGap = 5629499534213119 / 2 ^ 105 ∧
    (Rounded.calculateLoadBalanceMetrics roundDouble List.reverse [(1, 1), (2, 1), (3, 1)]
        [(1, 10), (2, 10), (3, 10)]).upBoundGap < 0 ∧
    (Rounded.calculateLoadBalanceMetrics roundDouble List.reverse [(1, 1), (2, 1), (3, 1)]
        [(1, 10), (2, 10), (3, 10)]).totalGap <
      (Rounded.calculateLoadBalanceMetrics roundDouble List.reverse [(1, 1), (2, 1), (3, 1)]
        [(1, 10), (2, 10), (3, 10)]).avgGap ∧
    Rounded.calculateLoadBalanceMetrics roundDouble id [(1, 1), (2, 1), (3, 1)]
        [(1, 10), (2, 10), (3, 10)] =
      Rounded.calculateLoadBalanceMetrics roundDouble List.reverse [(1, 1), (2, 1), (3, 1)]
        [(1, 10), (2, 10), (3, 10)] := by
  decide!

set_option maxRecDepth 1000000 in
/-- Counterexample to C12 as stated: the striped table (slot `h` on port
`1 + h % 4`, four ports of speed 10) with the counters
`[50, 24, 4, 36, 14, 17, 15, 19]` and the slots 1 and 6, evaluated in `double`.
The loads are 64, 41, 19, 55 before and 64, 32, 28, 55 after the exchange.
`calculateSwapImprovement` updates its copy of the load map in place, so the
copy is visited in the order of the original map, while the map recomputed from
the exchanged table is visited in another order; the two sums of the same four
utilisations round differently.  The function returns
`905751880365017 / 2 ^ 52` (`0.20111731843575442`) while the recomputed scores
differ by `905751880365016 / 2 ^ 52` (`0.2011173184357542`), whether the maps
are visited in reverse insertion order or in insertion order. -/
theorem swapImprovement_counterexample :
    Rounded.calculateSwapImprovement roundDouble List.reverse
        [(0, 1), (1, 2), (2, 3), (3, 4), (4, 1), (5, 2), (6, 3), (7, 4)]
        [50, 24, 4, 36, 14, 17, 15, 19]
        (Rounded.calculatePortLoads List.reverse
          [(0, 1), (1, 2), (2, 3), (3, 4), (4, 1), (5, 2), (6, 3), (7, 4)]
          [50, 24, 4, 36, 14, 17, 15, 19])
        [(1, 10), (2, 10), (3, 10), (4, 10)] 1 6 = 905751880365017 / 2 ^ 52 ∧
    roundDouble
        (Rounded.tableScore roundDouble List.reverse
            (swapPorts [(0, 1), (1, 2), (2, 3), (3, 4), (4, 1), (5, 2), (6, 3), (7, 4)] 1 6)
            [50, 24, 4, 36, 14, 17, 15, 19] [(1, 10), (2, 10), (3, 10), (4, 10)] -
          Rounded.tableScore roundDouble List.reverse
            [(0, 1), (1, 2), (2, 3), (3, 4), (4, 1), (5, 2), (6, 3), (7, 4)]
            [50, 24, 4, 36, 14, 17, 15, 19] [(1, 10), (2, 10), (3, 10), (4, 10)]) =
      905751880365016 / 2 ^ 52 ∧
    Rounded.calculateSwapImprovement roundDouble id
        [(0, 1), (1, 2), (2, 3), (3, 4), (4, 1), (5, 2), (6, 3), (7, 4)]
        [50, 24, 4, 36, 14, 17, 15, 19]
        (Rounded.calculatePortLoads id
          [(0, 1), (1, 2), (2, 3), (3, 4), (4, 1), (5, 2), (6, 3), (7, 4)]
          [50, 24, 4, 36, 14, 17, 15, 19])
        [(1, 10), (2, 10), (3, 10), (4, 10)] 1 6 = 905751880365017 / 2 ^ 52 ∧
    roundDouble
        (Rounded.tableScore roundDouble id
            (swapPorts [(0, 1), (1, 2), (2, 3), (3, 4), (4, 1), (5, 2), (6, 3), (7, 4)] 1 6)
            [50, 24, 4, 36, 14, 17, 15, 19] [(1, 10), (2, 10), (3, 10), (4, 10)] -
          Rounded.tableScore roundDouble id
            [(0, 1), (1, 2), (2, 3), (3, 4), (4, 1), (5, 2), (6, 3), (7, 4)]
            [50, 24, 4, 36, 14, 17, 15, 19] [(1, 10), (2, 10), (3, 10), (4, 10)]) =
      905751880365016 / 2 ^ 52 := by
  decide!

set_option maxRecDepth 1000000 in
/-- Counterexample to C15 as stated, at the exchange cost factor 0 (the default
of the constructor `LocalSearch`): the striped table with the counters
`[89, 49, 14, 4, 9, 52, 3, 38]`; the search draws the slots 0 and 7 first and
the slots 1 and 5 (both on port 2) ever after.  The exchange of the slots 0 and
7 turns the loads 98, 101, 17, 42 into 47, 101, 17, 93: the largest and the
smallest load stay, and in exact arithmetic the score stays `-56 / 43`, so the
exchange is worth 0.  In `double` the evaluation of the updated loads and the
evaluation of the loads before the update round differently,
`calculateSwapImprovement` returns `2 ^ -52` (about `2.2e-16`) and the exchange
is accepted.  `optimize` returns a table that differs from its input, and the
score of that table, computed from scratch, equals the score of the input
(`-2932576501543579 / 2 ^ 51`, about `-1.3023`), whether the maps are visited in
reverse insertion order or in insertion order. -/
theorem optimize_counterexample :
    Rounded.calculateSwapImprovement roundDouble List.reverse
        [(0, 1), (1, 2), (2, 3), (3, 4), (4, 1), (5, 2), (6, 3), (7, 4)]
        [89, 49, 14, 4, 9, 52, 3, 38]
        (Rounded.calculatePortLoads List.reverse
          [(0, 1), (1, 2), (2, 3), (3, 4), (4, 1), (5, 2), (6, 3), (7, 4)]
          [89, 49, 14, 4, 9, 52, 3, 38])
        [(1, 10), (2, 10), (3, 10), (4, 10)] 0 7 = 1 / 2 ^ 52 ∧
    Rounded.optimize roundDouble List.reverse ⟨10000, 0⟩
        (fun k => if k = 0 then (7, 0) else (6, 2))
        [(0, 1), (1, 2), (2, 3), (3, 4), (4, 1), (5, 2), (6, 3), (7, 4)]
        [89, 49, 14, 4, 9, 52, 3, 38] [(1, 10), (2, 10), (3, 10), (4, 10)] =
      [(0, 4), (1, 2), (2, 3), (3, 4), (4, 1), (5, 2), (6, 3), (7, 1)] ∧
    Rounded.optimize roundDouble id ⟨10000, 0⟩
        (fun k => if k = 0 then (0, 7) else (1, 5))
        [(0, 1), (1, 2), (2, 3), (3, 4), (4, 1), (5, 2), (6, 3), (7, 4)]
        [89, 49, 14, 4, 9, 52, 3, 38] [(1, 10), (2, 10), (3, 10), (4, 10)] =
      [(0, 4), (1, 2), (2, 3), (3, 4), (4, 1), (5, 2), (6, 3), (7, 1)] ∧
    mapEq [(0, 4), (1, 2), (2, 3), (3, 4), (4, 1), (5, 2), (6, 3), (7, 1)]
      [(0, 1), (1, 2), (2, 3), (3, 4), (4, 1), (5, 2), (6, 3), (7, 4)] = false ∧
    Rounded.tableScore roundDouble List.reverse
        [(0, 4), (1, 2), (2, 3), (3, 4), (4, 1), (5, 2), (6, 3), (7, 1)]
        [89, 49, 14, 4, 9, 52, 3, 38] [(1, 10), (2, 10), (3, 10), (4, 10)] =
      -2932576501543579 / 2 ^ 51 ∧
    Rounded.tableScore roundDouble List.reverse
        [(0, 1), (1, 2), (2, 3), (3, 4), (4, 1), (5, 2), (6, 3), (7, 4)]
        [89, 49, 14, 4, 9, 52, 3, 38] [(1, 10), (2, 10), (3, 10), (4, 10)] =
      -2932576501543579 / 2 ^ 51 ∧
    Rounded.tableScore roundDouble id
        [(0, 4), (1, 2), (2, 3), (3, 4), (4, 1), (5, 2), (6, 3), (7, 1)]
        [89, 49, 14, 4, 9, 52, 3, 38] [(1, 10), (2, 10), (3, 10), (4, 10)] =
      -2932576501543579 / 2 ^ 51 ∧
    Rounded.tableScore roundDouble id
        [(0, 1), (1, 2), (2, 3), (3, 4), (4, 1), (5, 2), (6, 3), (7, 4)]
        [89, 49, 14, 4, 9, 52, 3, 38] [(1, 10), (2, 10), (3, 10), (4, 10)] =
      -2932576501543579 / 2 ^ 51 := by
  decide!

set_option maxRecDepth 1000000 in
/-- Counterexample to C38 as stated: `lopsidedInstance` (ten ports, counters
`lopsidedCounts`, five equal snapshots, no algorithm installed) runs
`runOptimization` in `double`; the search draws the slots 1 and 10 first and
the slots 0 and 10 (then both on port 1) ever after.  The history is stable and
`avgGap` is about 1.8, so the search path is entered, with `totalGap` about
`9.999999999999988`.  The exchange of the slots 1 and 10 moves a hundredth of
the traffic to port 10; evaluated on the live load map it improves the score by
`0.1` and a few units in the last place, more than the `double` nearest to `0.1`,
and is accepted.  The candidate differs from the table; its loads recomputed
from scratch are summed in another order and give `totalGap` about
`9.899999999999988`, lower by less than `0.1`; the improvement percentage is
`2251799813685243 / 2 ^ 51` (`0.9999999999999978`), below 1, and the call
returns false with status Fail and one failure recorded.  The call ends the
same way whether the maps are visited in reverse insertion order or in
insertion order. -/
theorem default_search_counterexample :
    (EcmpInstance.create lopsidedConfig).map
        (fun s => (s.m_ecmpMemberTable, s.m_memberCounts.length, s.m_portSpeeds)) =
      some (lopsidedInstance.m_ecmpMemberTable, lopsidedInstance.m_memberCounts.length,
        lopsidedInstance.m_portSpeeds) ∧
    (∀ c ∈ lopsidedCounts, c < W64) ∧
    (Rounded.runOptimization roundDouble sqrtDouble List.reverse
        (fun k => if k = 0 then (9, 0) else (10, 0)) lopsidedInstance).map
      (fun r => (r.1, r.2.m_status, r.2.m_consecutiveAdjustFailures)) =
        some (false, T_AI_ECMP_STATUS.AI_ECMP_FAIL, 1) ∧
    Rounded.optimize roundDouble List.reverse ⟨10000, 1 / 10⟩
        (fun k => if k = 0 then (9, 0) else (10, 0))
        lopsidedInstance.m_ecmpMemberTable lopsidedCounts lopsidedInstance.m_portSpeeds =
      [(0, 1), (1, 10), (2, 2), (3, 3), (4, 4), (5, 5), (6, 6), (7, 7), (8, 8), (9, 9),
        (10, 1)] ∧
    Rounded.calculateImprovementPercentage roundDouble
        (Rounded.evaluateBalance roundDouble List.reverse lopsidedInstance).1
        (Rounded.calculateLoadBalanceMetrics roundDouble List.reverse
          (Rounded.calculatePortLoads List.reverse
            [(0, 1), (1, 10), (2, 2), (3, 3), (4, 4), (5, 5), (6, 6), (7, 7), (8, 8), (9, 9),
              (10, 1)]
            lopsidedCounts)
          lopsidedInstance.m_portSpeeds) =
      2251799813685243 / 2 ^ 51 ∧
    (Rounded.runOptimization roundDouble sqrtDouble id
        (fun k => if k = 0 then (1, 10) else (0, 10)) lopsidedInstance).map
      (fun r => (r.1, r.2.m_status, r.2.m_consecutiveAdjustFailures)) =
        some (false, T_AI_ECMP_STATUS.AI_ECMP_FAIL, 1) := by
  decide!

set_option maxRecDepth 1000000 in
/-- Counterexample to C39 as stated: the striped table with the counters
`[50, 24, 4, 36, 14, 17, 15, 19]` and the exchange cost factor 0.1; the search
draws the slots 1 and 6 first and the slots 0 and 4 (both on port 1) ever after.
The exchange of the slots 1 and 6 is accepted (it is worth about 0.2).  When the
loop ends the live load map and `calculatePortLoads` of the returned table are
equal as maps (the loads 64, 32, 28, 55), but they are visited in different
orders, and in `double` the evaluation of the live map, which is the evaluation
recorded for the accepted swap, has `totalGap = 3623007521460064 / 2 ^ 52`
while the evaluation of the returned table from scratch has
`totalGap = 3623007521460065 / 2 ^ 52`, whether the maps are visited in reverse
insertion order or in insertion order. -/
theorem live_loads_counterexample :
    Rounded.optimizeState roundDouble List.reverse ⟨10000, 1 / 10⟩
        (fun k => if k = 0 then (6, 1) else (7, 3))
        [(0, 1), (1, 2), (2, 3), (3, 4), (4, 1), (5, 2), (6, 3), (7, 4)]
        [50, 24, 4, 36, 14, 17, 15, 19] [(1, 10), (2, 10), (3, 10), (4, 10)] =
      { result := [(0, 1), (1, 3), (2, 3), (3, 4), (4, 1), (5, 2), (6, 2), (7, 4)]
        portLoads := [(4, 55), (3, 28), (2, 32), (1, 64)]
        bestResult := [(0, 1), (1, 3), (2, 3), (3, 4), (4, 1), (5, 2), (6, 2), (7, 4)]
        dwConsecutiveFailures := 100 } ∧
    Rounded.calculatePortLoads List.reverse
        [(0, 1), (1, 3), (2, 3), (3, 4), (4, 1), (5, 2), (6, 2), (7, 4)]
        [50, 24, 4, 36, 14, 17, 15, 19] =
      [(4, 55), (2, 32), (1, 64), (3, 28)] ∧
    mapEq [(4, 55), (3, 28), (2, 32), (1, 64)] [(4, 55), (2, 32), (1, 64), (3, 28)] = true ∧
    (Rounded.calculateLoadBalanceMetrics roundDouble List.reverse
        [(4, 55), (3, 28), (2, 32), (1, 64)] [(1, 10), (2, 10), (3, 10), (4, 10)]).totalGap =
      3623007521460064 / 2 ^ 52 ∧
    (Rounded.calculateLoadBalanceMetrics roundDouble List.reverse
        [(4, 55), (2, 32), (1, 64), (3, 28)] [(1, 10), (2, 10), (3, 10), (4, 10)]).totalGap =
      3623007521460065 / 2 ^ 52 ∧
    Rounded.optimizeState roundDouble id ⟨10000, 1 / 10⟩
        (fun k => if k = 0 then (1, 6) else (0, 4))
        [(0, 1), (1, 2), (2, 3), (3, 4), (4, 1), (5, 2), (6, 3), (7, 4)]
        [50, 24, 4, 36, 14, 17, 15, 19] [(1, 10), (2, 10), (3, 10), (4, 10)] =
      { result := [(0, 1), (1, 3), (2, 3), (3, 4), (4, 1), (5, 2), (6, 2), (7, 4)]
        portLoads := [(1, 64), (2, 32), (3, 28), (4, 55)]
        bestResult := [(0, 1), (1, 3), (2, 3), (3, 4), (4, 1), (5, 2), (6, 2), (7, 4)]
        dwConsecutiveFailures := 100 } ∧
    Rounded.calculatePortLoads id
        [(0, 1), (1, 3), (2, 3), (3, 4), (4, 1), (5, 2), (6, 2), (7, 4)]
        [50, 24, 4, 36, 14, 17, 15, 19] =
      [(1, 64), (3, 28), (4, 55), (2, 32)] ∧
    (Rounded.calculateLoadBalanceMetrics roundDouble id
        [(1, 64), (2, 32), (3, 28), (4, 55)] [(1, 10), (2, 10), (3, 10), (4, 10)]).totalGap =
      3623007521460064 / 2 ^ 52 ∧
    (Rounded.calculateLoadBalanceMetrics roundDouble id
        [(1, 64), (3, 28), (4, 55), (2, 32)] [(1, 10), (2, 10), (3, 10), (4, 10)]).totalGap =
      3623007521460065 / 2 ^ 52 := by
  decide!

/-! ### The expansion layout for every order of equal weights -/

/-- The layout of a successful expansion, for every order in which `std::sort`
may leave the ports.  `order` is any arrangement of the ports of the
configuration in ascending order of current weight: `sortPortInfos` gives one,
`std::sort` promises no particular order among ports of equal weight.  If the
expansion loop run over `order` succeeds with the ports `portInfos` and the
total `total`, then `portInfos` lists the ports of `order` in the same order
(so in ascending order of current weight), `total` is the sum of their new
weights and at most 128, and the layout loop writes one run per port in that
order, `dwNewWeight` copies of the port id each, followed by zeros up to
index 128. -/
theorem expanded_layout_any_order (cfg : T_AI_ECMP_SG_CFG)
    (order portInfos : List PortWeightInfo) (total : Nat) (hsum : weightSum cfg ≤ 128)
    (hperm : order.Perm (collectPortInfos cfg))
    (hsorted : (order.map (fun i => i.dwCurrentWeight)).Pairwise (fun a b => a ≤ b))
    (hret : expandWeights order (currentTotalWeight (collectPortInfos cfg)) =
      some (portInfos, total)) :
    portInfos.map (fun i => (i.dwPortId, i.dwCurrentWeight)) =
      order.map (fun i => (i.dwPortId, i.dwCurrentWeight)) ∧
    (portInfos.map (fun i => i.dwCurrentWeight)).Pairwise (fun a b => a ≤ b) ∧
    total = (portInfos.map (fun i => i.dwNewWeight)).sum ∧
    total ≤ 128 ∧
    fillLinkItems portInfos 0 (List.replicate FTM_TRUNK_MAX_HASH_NUM_15K 0) =
      specExpandedLinkItems portInfos ∧
    (specExpandedLinkItems portInfos).length = 128 ∧
    (∀ k, total ≤ k → k < 128 → (specExpandedLinkItems portInfos).getD k 0 = 0) := by
  rw [expandWeights_any_order cfg hsum order hperm] at hret
  by_cases hle : 2 * weightSum cfg + zeroWeightPorts cfg ≤ 128
  · simp only [if_pos hle, Option.some.injEq, Prod.mk.injEq] at hret
    obtain ⟨hP, hT⟩ := hret
    subst hP
    have hnewsum : ((order.map grantFull).map (fun i => i.dwNewWeight)).sum = total := by
      rw [grantFull_newWeight_sum, desiredIncrease_sum, ← hT]
      unfold weightSum zeroWeightPorts
      rw [(hperm.map _).sum_eq, (hperm.filter _).length_eq]
      omega
    have hT128 : total ≤ 128 := by omega
    have hcurmap : (order.map grantFull).map (fun i => i.dwCurrentWeight) =
        order.map (fun i => i.dwCurrentWeight) := by
      simp [grantFull, Function.comp_def]
    have hpairmap : (order.map grantFull).map (fun i => (i.dwPortId, i.dwCurrentWeight)) =
        order.map (fun i => (i.dwPortId, i.dwCurrentWeight)) := by
      simp [grantFull, Function.comp_def]
    have hfill := fillLinkItems_replicate (order.map grantFull) [] 128 rfl
      (by rw [hnewsum]; exact hT128)
    simp only [List.length_nil, List.nil_append] at hfill
    have hlayout : fillLinkItems (order.map grantFull) 0
        (List.replicate FTM_TRUNK_MAX_HASH_NUM_15K 0) =
        specExpandedLinkItems (order.map grantFull) := hfill
    have hflat : ∀ L : List PortWeightInfo,
        (L.flatMap (fun i => List.replicate i.dwNewWeight i.dwPortId)).length =
          (L.map (fun i => i.dwNewWeight)).sum := by
      intro L
      induction L with
      | nil => rfl
      | cons i L ih => simp [List.flatMap_cons, ih]
    refine ⟨hpairmap, ?_, hnewsum.symm, hT128, hlayout, ?_, ?_⟩
    · rw [hcurmap]; exact hsorted
    · simp only [specExpandedLinkItems, List.length_append, hflat, List.length_replicate]
      rw [hnewsum]
      omega
    · intro k hk1 hk2
      simp only [specExpandedLinkItems]
      have hk1' : ((order.map grantFull).flatMap
          (fun i => List.replicate i.dwNewWeight i.dwPortId)).length ≤ k := by
        rw [hflat, hnewsum]; exact hk1
      rw [List.getD_eq_getElem?_getD, List.getElem?_append_right hk1']
      simp only [List.getElem?_replicate]
      split <;> rfl
  · simp only [if_neg hle] at hret
    simp at hret

end AiEcmp
